import Mathlib

/-!
# mccomp: lexer, recursive-descent parser and code generator of the mini-C compiler

A shallow embedding of `mccomp working parsing.cpp`.

* Bytes are natural numbers, `getc` yields the byte as an `Int` or `EOF = -1`.
* The lexer's mutable globals (`LastChar`, `lineNo`, `columnNo`, the unread part of
  `pFile`) are the fields of `LexState`; `gettok` passes the state explicitly.
* A `std::unique_ptr<ASTnode>` is a value of `ASTnode`; the null pointer is `ASTnode.null`.
* `throw LogError(...)` is `Except.error (ParseError.logError msg)`: nothing in the program
  catches it.
* The globals of the code generator (`NamedValuesArray`, `GlobalValues`, `TheModule`,
  `Builder`) are the fields of `CGState`; `codegen` passes the state explicitly and records
  every builder call as an instruction of the insertion block.
* `to_string` returns an `Option String`; `none` is a call through the null pointer.
-/

namespace MiniC

/-! ## Token kinds (`enum TOKEN_TYPE`) -/

@[simp] def IDENT : Int := -1
@[simp] def ASSIGN : Int := 61
@[simp] def LBRA : Int := 123
@[simp] def RBRA : Int := 125
@[simp] def LPAR : Int := 40
@[simp] def RPAR : Int := 41
@[simp] def SC : Int := 59
@[simp] def COMMA : Int := 44
@[simp] def INT_TOK : Int := -2
@[simp] def VOID_TOK : Int := -3
@[simp] def FLOAT_TOK : Int := -4
@[simp] def BOOL_TOK : Int := -5
@[simp] def EXTERN : Int := -6
@[simp] def IF : Int := -7
@[simp] def ELSE : Int := -8
@[simp] def WHILE : Int := -9
@[simp] def RETURN : Int := -10
@[simp] def INT_LIT : Int := -14
@[simp] def FLOAT_LIT : Int := -15
@[simp] def BOOL_LIT : Int := -16
@[simp] def AND : Int := -17
@[simp] def OR : Int := -18
@[simp] def PLUS : Int := 43
@[simp] def MINUS : Int := 45
@[simp] def ASTERIX : Int := 42
@[simp] def DIV : Int := 47
@[simp] def MOD : Int := 37
@[simp] def NOT : Int := 33
@[simp] def EQ : Int := -19
@[simp] def NE : Int := -20
@[simp] def LE : Int := -21
@[simp] def LT : Int := 60
@[simp] def GE : Int := -23
@[simp] def GT : Int := 62
@[simp] def EOF_TOK : Int := 0
@[simp] def INVALID : Int := -100

/-- The value `EOF` that `getc` returns at the end of the file. -/
@[simp] def EOF : Int := -1

/-- The record `struct TOKEN`. -/
structure TOKEN where
  type : Int := -100
  lexeme : String
  lineNo : Int
  columnNo : Int
  deriving DecidableEq, Repr, Inhabited

/-! ## Lexer -/

/-- The value of type `int` (and of LLVM's `i32`) that an integer stands for: the
representative in `[-2^31, 2^31)` of the integer modulo `2^32`. -/
def toI32 (x : Int) : Int := (x + 2147483648) % 4294967296 - 2147483648

/-- The lexer's mutable state: the unread bytes of `pFile`, the static `LastChar` of `gettok`,
and the globals `lineNo` and `columnNo`.  The two counters are of type `int`: every `lineNo++`,
`columnNo++` and `columnNo += 2` is taken modulo `2^32` (`toI32`), the wrap-around of the
32-bit addition (the C++ standard leaves the overflow of a signed increment undefined).
(`NextChar` is written before every read, so it is a local of the model; `IdentifierStr`,
`IntVal`, `BoolVal`, `FloatVal` are never read by the parser and are left out.) -/
structure LexState where
  input : List Nat
  LastChar : Int
  lineNo : Int
  columnNo : Int
  deriving DecidableEq, Repr

/-- The state `main` sets up before the first `gettok`: `LastChar = ' '`, `lineNo = 1`,
`columnNo = 1`. -/
def LexState.init (bytes : List Nat) : LexState := ⟨bytes, 32, 1, 1⟩

/-- `getc(pFile)`: the next byte and the rest of the file, or `EOF`. -/
def getc : List Nat → Int × List Nat
  | [] => (EOF, [])
  | b :: bs => ((b : Int), bs)

/-- `isspace` in the C locale: space, `\t`, `\n`, `\v`, `\f`, `\r`. -/
def isspace (c : Int) : Bool := c == 32 || (9 ≤ c && c ≤ 13)

/-- `isdigit`. -/
def isdigit (c : Int) : Bool := 48 ≤ c && c ≤ 57

/-- `isalpha` in the C locale. -/
def isalpha (c : Int) : Bool := (65 ≤ c && c ≤ 90) || (97 ≤ c && c ≤ 122)

/-- `isalnum` in the C locale. -/
def isalnum (c : Int) : Bool := isalpha c || isdigit c

/-- The `std::string` holding the given bytes. -/
def bytesToString (bs : List Int) : String := String.mk (bs.map (fun b => Char.ofNat b.toNat))

/-- `returnTok`: the token records the current `lineNo` and `columnNo - lexVal.length() - 1`,
converted to the `int` field `columnNo`. -/
def returnTok (lexVal : String) (tok_type : Int) (s : LexState) : TOKEN :=
  { type := tok_type, lexeme := lexVal, lineNo := s.lineNo,
    columnNo := toI32 (s.columnNo - (lexVal.length : Int) - 1) }

/-- The loop `while (isspace(LastChar))` at the head of `gettok`, from the unread bytes,
`LastChar`, `lineNo` and `columnNo`. -/
def skipWhitespace : List Nat → Int → Int → Int → LexState
  | [], c, ln, col =>
    if isspace c then
      if c = 10 ∨ c = 13 then ⟨[], EOF, toI32 (ln + 1), 1 + 1⟩
      else ⟨[], EOF, ln, toI32 (col + 1)⟩
    else ⟨[], c, ln, col⟩
  | b :: bs, c, ln, col =>
    if isspace c then
      if c = 10 ∨ c = 13 then skipWhitespace bs (b : Int) (toI32 (ln + 1)) (1 + 1)
      else skipWhitespace bs (b : Int) ln (toI32 (col + 1))
    else ⟨b :: bs, c, ln, col⟩

/-- The loop `while (isalnum((LastChar = getc(pFile))) || (LastChar == '_'))` of the identifier
branch: returns the identifier bytes, the new `LastChar`, the unread bytes and `columnNo`. -/
def identLoop : List Nat → List Int → Int → List Int × Int × List Nat × Int
  | [], acc, col => (acc, EOF, [], col)
  | b :: bs, acc, col =>
    if isalnum (b : Int) || (b : Int) == 95 then
      identLoop bs (acc ++ [(b : Int)]) (toI32 (col + 1))
    else (acc, (b : Int), bs, col)

/-- The loop `do { NumStr += LastChar; LastChar = getc(pFile); columnNo++; }
while (isdigit(LastChar))` of the number branch. -/
def digitLoop : List Nat → Int → List Int → Int → List Int × Int × List Nat × Int
  | [], c, acc, col => (acc ++ [c], EOF, [], toI32 (col + 1))
  | b :: bs, c, acc, col =>
    if isdigit (b : Int) then digitLoop bs (b : Int) (acc ++ [c]) (toI32 (col + 1))
    else (acc ++ [c], (b : Int), bs, toI32 (col + 1))

/-- The loop `do { LastChar = getc(pFile); columnNo++; }
while (LastChar != EOF && LastChar != '\n' && LastChar != '\r')` that skips a comment. -/
def commentLoop : List Nat → Int → Int × List Nat × Int
  | [], col => (EOF, [], toI32 (col + 1))
  | b :: bs, col =>
    if (b : Int) ≠ EOF ∧ (b : Int) ≠ 10 ∧ (b : Int) ≠ 13 then commentLoop bs (toI32 (col + 1))
    else ((b : Int), bs, toI32 (col + 1))

/-- The branches of `gettok` that read one byte and return a one-character token:
`LastChar = getc(pFile); columnNo++; return returnTok(lex, ty);`. -/
def singleTok (lex : String) (ty : Int) (s : LexState) : TOKEN × LexState :=
  let s1 : LexState := ⟨(getc s.input).2, (getc s.input).1, s.lineNo, toI32 (s.columnNo + 1)⟩
  (returnTok lex ty s1, s1)

/-- The branches of `gettok` for `=`, `&`, `|`, `!`, `<`, `>`: read `NextChar`; if it is
`second`, read one more byte, add 2 to `columnNo` and return the two-character token; otherwise
keep `NextChar` as `LastChar`, add 1 and return the one-character token. -/
def pairTok (second : Int) (lex2 : String) (ty2 : Int) (lex1 : String) (ty1 : Int)
    (s : LexState) : TOKEN × LexState :=
  let NextChar := (getc s.input).1
  let rest := (getc s.input).2
  if NextChar = second then
    let s1 : LexState := ⟨(getc rest).2, (getc rest).1, s.lineNo, toI32 (s.columnNo + 2)⟩
    (returnTok lex2 ty2 s1, s1)
  else
    let s1 : LexState := ⟨rest, NextChar, s.lineNo, toI32 (s.columnNo + 1)⟩
    (returnTok lex1 ty1 s1, s1)

/-- The reserved-word table of the identifier branch, in the order of the source. -/
def keywordTok (IdentifierStr : String) (s : LexState) : TOKEN :=
  if IdentifierStr = "int" then returnTok "int" INT_TOK s
  else if IdentifierStr = "bool" then returnTok "bool" BOOL_TOK s
  else if IdentifierStr = "float" then returnTok "float" FLOAT_TOK s
  else if IdentifierStr = "void" then returnTok "void" VOID_TOK s
  else if IdentifierStr = "bool" then returnTok "bool" BOOL_TOK s
  else if IdentifierStr = "extern" then returnTok "extern" EXTERN s
  else if IdentifierStr = "if" then returnTok "if" IF s
  else if IdentifierStr = "else" then returnTok "else" ELSE s
  else if IdentifierStr = "while" then returnTok "while" WHILE s
  else if IdentifierStr = "return" then returnTok "return" RETURN s
  else if IdentifierStr = "true" then returnTok "true" BOOL_LIT s
  else if IdentifierStr = "false" then returnTok "false" BOOL_LIT s
  else returnTok IdentifierStr IDENT s

/-- The identifier branch of `gettok`: `IdentifierStr = LastChar; columnNo++;`, the identifier
loop, and the reserved-word table. -/
def identTok (s : LexState) : TOKEN × LexState :=
  let r := identLoop s.input [s.LastChar] (toI32 (s.columnNo + 1))
  let s1 : LexState := ⟨r.2.2.1, r.2.1, s.lineNo, r.2.2.2⟩
  (keywordTok (bytesToString r.1) s1, s1)

/-- The number branch of `gettok`: a leading `.` starts a `FLOAT_LIT`; otherwise digits, then a
`.` with more digits (`FLOAT_LIT`) or nothing (`INT_LIT`). -/
def numberTok (s : LexState) : TOKEN × LexState :=
  if s.LastChar = 46 then
    let r := digitLoop s.input s.LastChar [] s.columnNo
    let s1 : LexState := ⟨r.2.2.1, r.2.1, s.lineNo, r.2.2.2⟩
    (returnTok (bytesToString r.1) FLOAT_LIT s1, s1)
  else
    let r := digitLoop s.input s.LastChar [] s.columnNo
    if r.2.1 = 46 then
      let r2 := digitLoop r.2.2.1 r.2.1 r.1 r.2.2.2
      let s1 : LexState := ⟨r2.2.2.1, r2.2.1, s.lineNo, r2.2.2.2⟩
      (returnTok (bytesToString r2.1) FLOAT_LIT s1, s1)
    else
      let s1 : LexState := ⟨r.2.2.1, r.2.1, s.lineNo, r.2.2.2⟩
      (returnTok (bytesToString r.1) INT_LIT s1, s1)

/-- The end-of-file branch of `gettok`: `columnNo++; return returnTok("0", EOF_TOK);`.  The `EOF`
is not eaten. -/
def eofTok (s : LexState) : TOKEN × LexState :=
  let s1 : LexState := { s with columnNo := toI32 (s.columnNo + 1) }
  (returnTok "0" EOF_TOK s1, s1)

/-- The last branch of `gettok`: any other character is returned with its code as its kind. -/
def otherTok (s : LexState) : TOKEN × LexState :=
  let s1 : LexState := ⟨(getc s.input).2, (getc s.input).1, s.lineNo, toI32 (s.columnNo + 1)⟩
  (returnTok (bytesToString [s.LastChar]) s.LastChar s1, s1)

/-- One call of `gettok`.  The only recursion of the source is `return gettok();` after a
comment that ends in a line break; the fuel bounds the number of such restarts and `none`
means that it ran out. -/
def gettokFuel : Nat → LexState → Option (TOKEN × LexState)
  | 0, _ => none
  | fuel + 1, s0 =>
    let s := skipWhitespace s0.input s0.LastChar s0.lineNo s0.columnNo
    let c := s.LastChar
    if isalpha c || c == 95 then some (identTok s)
    else if c = 61 then some (pairTok 61 "==" EQ "=" ASSIGN s)
    else if c = 123 then some (singleTok "\x7b" LBRA s)
    else if c = 125 then some (singleTok "\x7d" RBRA s)
    else if c = 40 then some (singleTok "(" LPAR s)
    else if c = 41 then some (singleTok ")" RPAR s)
    else if c = 59 then some (singleTok ";" SC s)
    else if c = 44 then some (singleTok "," COMMA s)
    else if isdigit c || c == 46 then some (numberTok s)
    else if c = 38 then some (pairTok 38 "&&" AND "&" 38 s)
    else if c = 124 then some (pairTok 124 "||" OR "|" 124 s)
    else if c = 33 then some (pairTok 61 "!=" NE "!" NOT s)
    else if c = 60 then some (pairTok 61 "<=" LE "<" LT s)
    else if c = 62 then some (pairTok 61 ">=" GE ">" GT s)
    else if c = 47 then
      let s1 : LexState :=
        ⟨(getc s.input).2, (getc s.input).1, s.lineNo, toI32 (s.columnNo + 1)⟩
      if s1.LastChar = 47 then
        let r := commentLoop s1.input s1.columnNo
        let s2 : LexState := ⟨r.2.1, r.1, s1.lineNo, r.2.2⟩
        if s2.LastChar ≠ EOF then gettokFuel fuel s2
        else some (eofTok s2)
      else some (returnTok "/" DIV s1, s1)
    else if c = EOF then some (eofTok s)
    else some (otherTok s)

/-- The function `gettok`: every restart after a comment has consumed at least the two slashes,
so `input.length + 1` restarts are never used up (`gettok_total`). -/
def gettok (s : LexState) : Option (TOKEN × LexState) := gettokFuel (s.input.length + 1) s

/-- The tokens of the first `n` calls of `gettok` from state `s`. -/
def gettokN : Nat → LexState → Option (List TOKEN × LexState)
  | 0, s => some ([], s)
  | n + 1, s =>
    match gettok s with
    | none => none
    | some (t, s1) =>
      match gettokN n s1 with
      | none => none
      | some (ts, s2) => some (t :: ts, s2)

/-- The number of bytes the lexer has not yet turned into a token or skipped: the unread bytes
of the file, plus one for the lookahead `LastChar` unless it is `EOF`. -/
def LexState.unread (s : LexState) : Nat := s.input.length + (if s.LastChar = EOF then 0 else 1)

/-! ## Token buffer -/

/-- Parser state: the current token `CurTok`, the deque `tok_buffer`, and `pending`, the
tokens that the coming calls of `gettok` return, in order.  Past the end of `pending` every
call of `gettok` returns `EOF_TOK`. -/
structure PState where
  CurTok : TOKEN
  tok_buffer : List TOKEN
  pending : List TOKEN
  deriving DecidableEq, Repr

/-- The token `returnTok("0", EOF_TOK)` that `gettok` returns once the file is exhausted.  The
parser reads only `type` and `lexeme`; the position fields are not tracked here. -/
def eofTOK : TOKEN := { type := EOF_TOK, lexeme := "0", lineNo := 0, columnNo := 0 }

/-- `getNextToken`: refill `tok_buffer` from the lexer when it is empty, pop its front into
`CurTok`. -/
def getNextToken (st : PState) : PState :=
  match st.tok_buffer with
  | t :: buf => ⟨t, buf, st.pending⟩
  | [] =>
    match st.pending with
    | t :: ts => ⟨t, [], ts⟩
    | [] => ⟨eofTOK, [], []⟩

/-- `putBackToken`: `tok_buffer.push_front(tok)`. -/
def putBackToken (tok : TOKEN) (st : PState) : PState :=
  { st with tok_buffer := tok :: st.tok_buffer }

/-- `CheckMembership`: is `value` among the first `size` entries of `arr`. -/
def CheckMembership (arr : List Int) (size : Nat) (value : Int) : Bool :=
  (arr.take size).any (fun x => x == value)

/-- The state in which `parser` starts on the token stream `ts`: `CurTok` is still the
default-initialised token (type `-100`), nothing has been read. -/
def PState.start (ts : List TOKEN) : PState :=
  ⟨{ type := INVALID, lexeme := "", lineNo := 0, columnNo := 0 }, [], ts⟩

/-! ## AST nodes -/

/-- A `std::unique_ptr<ASTnode>`: `null` is the null pointer, every other constructor is one of
the node classes with its fields.  `FloatASTnode` keeps the lexeme that `stof` converts; floating
point values are not modelled. -/
inductive ASTnode where
  | null : ASTnode
  | IntASTnode (Val : Int) : ASTnode
  | FloatASTnode (lexeme : String) : ASTnode
  | BoolASTnode (Val : Bool) : ASTnode
  | VariableASTnode (Name : String) : ASTnode
  | VariableAssignmentASTnode (Variable : ASTnode) (Val : ASTnode) : ASTnode
  | VariableDeclarationASTnode (Name : String) (Type_ : String) : ASTnode
  | BlockASTnode (Declarations : List ASTnode) (Statements : List ASTnode) : ASTnode
  | BinaryASTnode (Op : String) (LHS : ASTnode) (RHS : ASTnode) : ASTnode
  | UnaryASTnode (Op : String) (Val : ASTnode) : ASTnode
  | CallASTnode (CallFunc : String) (Args : List ASTnode) : ASTnode
  | FunctionParamASTnode (Name : String) (Type_ : String) : ASTnode
  | FunctionPrototypeASTnode (Name : String) (Type_ : String) (Args : List ASTnode) : ASTnode
  | FunctionDefASTnode (Prototype : ASTnode) (Body : ASTnode) : ASTnode
  | ExternASTnode (Name : String) (Type_ : String) (Params : List ASTnode) : ASTnode
  | IfExprASTnode (Cond : ASTnode) (Then : ASTnode) (Else : ASTnode) : ASTnode
  | WhileExprASTnode (Cond : ASTnode) (Then : ASTnode) : ASTnode
  | ReturnExprASTnode (ReturnValue : ASTnode) : ASTnode
  | RootASTnode (Ext_List : List ASTnode) (Decl_List : List ASTnode) : ASTnode
  deriving Repr, Inhabited

/-! ## Parser -/

/-- How a parser call can end without a result: `logError` is `throw LogError(msg)`,
`conversion` is the exception of `stoi` or `stof`, `fuel` is the recursion bound of the model
(never an outcome of the program). -/
inductive ParseError where
  | logError (Str : String) : ParseError
  | conversion (what : String) : ParseError
  | fuel : ParseError
  deriving DecidableEq, Repr

/-- Result of a production: the value and the parser state after it, or the exception. -/
abbrev Res (α : Type) := Except ParseError (α × PState)

/-- The decimal value of a list of digit characters, most significant first. -/
def digitsValue (ds : List Char) : Nat := ds.foldl (fun v d => 10 * v + (d.toNat - 48)) 0

/-- `std::stoi(lexeme)`: skip leading whitespace, read an optional sign and the longest run of
decimal digits; `invalid_argument` when there is no digit, `out_of_range` when the value does not
fit an `int`. -/
def stoi (lexeme : String) : Except ParseError Int :=
  let cs := lexeme.toList.dropWhile (fun c => isspace (c.toNat : Int))
  let neg := cs.head? = some '-'
  let body := if cs.head? = some '-' ∨ cs.head? = some '+' then cs.tail else cs
  let ds := body.takeWhile (fun c => isdigit (c.toNat : Int))
  if ds = [] then .error (.conversion "stoi: invalid_argument")
  else
    let v : Int := if neg then -(digitsValue ds : Int) else (digitsValue ds : Int)
    if v < -2147483648 ∨ 2147483647 < v then .error (.conversion "stoi: out_of_range")
    else .ok v

/-- `std::stof(lexeme)` on a lexeme of digits and dots: `invalid_argument` when it holds no
digit before or right after its first dot; otherwise the float is represented by the lexeme.
The `out_of_range` failure of `stof` depends on floating point and is not modelled. -/
def stof (lexeme : String) : Except ParseError String :=
  let cs := lexeme.toList.dropWhile (fun c => isspace (c.toNat : Int))
  let body := if cs.head? = some '-' ∨ cs.head? = some '+' then cs.tail else cs
  let ip := body.takeWhile (fun c => isdigit (c.toNat : Int))
  let after := body.dropWhile (fun c => isdigit (c.toNat : Int))
  let fp := if after.head? = some '.' then after.tail.takeWhile (fun c => isdigit (c.toNat : Int))
            else []
  if ip = [] ∧ fp = [] then .error (.conversion "stof: invalid_argument")
  else .ok lexeme

/-- `std::istringstream(token_value) >> std::boolalpha >> op`: `true` when the text (after
leading whitespace) starts with `true`, otherwise `false`. -/
def readBoolalpha (token_value : String) : Bool :=
  let cs := token_value.toList.dropWhile (fun c => isspace (c.toNat : Int))
  cs.take 4 = ['t', 'r', 'u', 'e']

/-- `ParseVarType`. -/
def ParseVarType (st : PState) : Res String :=
  if st.CurTok.type = INT_TOK then .ok ("int", getNextToken st)
  else if st.CurTok.type = FLOAT_TOK then .ok ("float", getNextToken st)
  else if st.CurTok.type = BOOL_TOK then .ok ("bool", getNextToken st)
  else .error (.logError "Syntax Error: Expected \x27int\x27, \x27float\x27, or \x27bool\x27")

/-- `ParseTypeSpec`. -/
def ParseTypeSpec (st : PState) : Res String :=
  if st.CurTok.type = INT_TOK ∨ st.CurTok.type = FLOAT_TOK ∨ st.CurTok.type = BOOL_TOK then
    ParseVarType st
  else if st.CurTok.type = VOID_TOK then .ok (st.CurTok.lexeme, getNextToken st)
  else .error (.logError
    "Syntax Error: Expected \x27void\x27 or variable type \x27int\x27, \x27float\x27, or \x27bool")

/-- `ParseParam`. -/
def ParseParam (st : PState) : Res ASTnode :=
  match ParseVarType st with
  | .error e => .error e
  | .ok (type, st1) =>
    if st1.CurTok.type = IDENT then
      .ok (.FunctionParamASTnode st1.CurTok.lexeme type, getNextToken st1)
    else .error (.logError "Syntax Error: Expected identifier after var_type")

/-- `ParseParamListPrime`. -/
def ParseParamListPrime : Nat → List ASTnode → PState → Res (List ASTnode)
  | 0, _, _ => .error .fuel
  | n + 1, params, st =>
    if st.CurTok.type = COMMA then
      match ParseParam (getNextToken st) with
      | .error e => .error e
      | .ok (param, st1) => ParseParamListPrime n (params ++ [param]) st1
    else if st.CurTok.type = RPAR then .ok (params, st)
    else .error (.logError "Syntax Error: Expected ) or ,")

/-- `ParseParamList`. -/
def ParseParamList (n : Nat) (st : PState) : Res (List ASTnode) :=
  match ParseParam st with
  | .error e => .error e
  | .ok (param, st1) => ParseParamListPrime n [param] st1

/-- `ParseParams`. -/
def ParseParams (n : Nat) (st : PState) : Res (List ASTnode) :=
  if st.CurTok.type = INT_TOK ∨ st.CurTok.type = FLOAT_TOK ∨ st.CurTok.type = BOOL_TOK then
    ParseParamList n st
  else if st.CurTok.type = VOID_TOK then
    .ok ([.FunctionParamASTnode st.CurTok.lexeme "VOID"], getNextToken st)
  else if st.CurTok.type = RPAR then .ok ([], st)
  else .error (.logError
    "Syntax Error: Expected \x27void\x27, variable type \x27int\x27, \x27float\x27, or \x27bool\x27, or )")

/-- `ParseExtern`. -/
def ParseExtern (n : Nat) (st : PState) : Res ASTnode :=
  match ParseTypeSpec (getNextToken st) with
  | .error e => .error e
  | .ok (type, st1) =>
    if st1.CurTok.type = IDENT then
      let identifier := st1.CurTok.lexeme
      let st2 := getNextToken st1
      if st2.CurTok.type = LPAR then
        match ParseParams n (getNextToken st2) with
        | .error e => .error e
        | .ok (params, st3) =>
          if st3.CurTok.type = RPAR then
            let st4 := getNextToken st3
            if st4.CurTok.type = SC then
              .ok (.ExternASTnode identifier type params, getNextToken st4)
            else .error (.logError "Syntax Error: Expected ; after )")
          else .error (.logError "Syntax Error: Expected ) after parameters")
      else .error (.logError "Syntax Error: Expected ( after identifier")
    else .error (.logError "Syntax Error: Expected identifier after type")

/-- `ParseExternListPrime`. -/
def ParseExternListPrime : Nat → List ASTnode → PState → Res (List ASTnode)
  | 0, _, _ => .error .fuel
  | n + 1, ext_list, st =>
    if st.CurTok.type = EXTERN then
      match ParseExtern n st with
      | .error e => .error e
      | .ok (ext, st1) => ParseExternListPrime n (ext_list ++ [ext]) st1
    else if st.CurTok.type = VOID_TOK ∨ st.CurTok.type = INT_TOK ∨ st.CurTok.type = FLOAT_TOK
        ∨ st.CurTok.type = BOOL_TOK then .ok (ext_list, st)
    else .error (.logError "Syntax Error: Expected an extern or declaration after extern")

/-- `ParseExternList`. -/
def ParseExternList (n : Nat) (st : PState) : Res (List ASTnode) :=
  match ParseExtern n st with
  | .error e => .error e
  | .ok (ext, st1) => ParseExternListPrime n [ext] st1

/-- `ParseRvalNine`. -/
def ParseRvalNine (st : PState) : Res ASTnode :=
  if st.CurTok.type = INT_LIT then
    match stoi st.CurTok.lexeme with
    | .error e => .error e
    | .ok token_value => .ok (.IntASTnode token_value, getNextToken st)
  else if st.CurTok.type = FLOAT_LIT then
    match stof st.CurTok.lexeme with
    | .error e => .error e
    | .ok token_value => .ok (.FloatASTnode token_value, getNextToken st)
  else if st.CurTok.type = BOOL_LIT then
    .ok (.BoolASTnode (readBoolalpha st.CurTok.lexeme), getNextToken st)
  else .error (.logError
    "Syntax Error: Expected paranthesis, binary operation, unary operation, identifier, integer literal, float literal, or bool literal for expression")

/-- The test `CurTok.type == SC || CurTok.type == RPAR || CurTok.type == COMMA` of the prime
productions. -/
def isFollowTok (t : Int) : Bool := t == SC || t == RPAR || t == COMMA

/-- The test `CurTok.type == EQ || CurTok.type == NE`. -/
def isEqTok (t : Int) : Bool := t == EQ || t == NE

/-- The test `CurTok.type == LE || CurTok.type == LT || CurTok.type == GE || CurTok.type == GT`. -/
def isRelTok (t : Int) : Bool := t == LE || t == LT || t == GE || t == GT

/-- The test `CurTok.type == PLUS || CurTok.type == MINUS`. -/
def isAddTok (t : Int) : Bool := t == PLUS || t == MINUS

/-- The test `CurTok.type == ASTERIX || CurTok.type == DIV || CurTok.type == MOD`. -/
def isMulTok (t : Int) : Bool := t == ASTERIX || t == DIV || t == MOD

/-- The test `CurTok.type == MINUS || CurTok.type == NOT`. -/
def isUnaryTok (t : Int) : Bool := t == MINUS || t == NOT

/-- The array `{LPAR, MINUS, NOT, IDENT, INT_LIT, FLOAT_LIT, BOOL_LIT}` (`expr_array`,
`arg_array`). -/
def expr_array : List Int := [LPAR, MINUS, NOT, IDENT, INT_LIT, FLOAT_LIT, BOOL_LIT]

/-- The array `rval_array` of `ParseExpr`. -/
def rval_array : List Int := [LPAR, MINUS, NOT, INT_LIT, FLOAT_LIT, BOOL_LIT]

/-- The array `stmt_token_array` of `ParseLocalDeclsPrime` and `ParseStmtListPrime`. -/
def stmt_token_array : List Int :=
  [LPAR, MINUS, NOT, IDENT, INT_LIT, FLOAT_LIT, BOOL_LIT, SC, WHILE, IF, RETURN, LBRA]

/-- The array `expr_stmt_array` of `ParseStmt`. -/
def expr_stmt_array : List Int := [LPAR, MINUS, NOT, IDENT, INT_LIT, FLOAT_LIT, BOOL_LIT, SC]

/-- The array `stmt_token_array` of `ParseElse`. -/
def else_follow_array : List Int :=
  [RBRA, LPAR, MINUS, NOT, IDENT, INT_LIT, FLOAT_LIT, BOOL_LIT, SC, WHILE, IF, RETURN, LBRA]

/-- The two statements `putBackToken(CurTok); CurTok = last_token;` of `ParseExpr`, from the
state `st` in which `last_token` was taken: the token read after it goes back to the front of
`tok_buffer` and `last_token` is the current token again. -/
def restorePeeked (st : PState) : PState :=
  { putBackToken (getNextToken st).CurTok (getNextToken st) with CurTok := st.CurTok }

/-! The expression productions `ParseExpr`, `ParseRval` .. `ParseRvalEight`, `ParseArgs`,
`ParseArgList`, `ParseArgListPrime` call each other; every call passes one unit of fuel less. -/
mutual
def ParseExpr : Nat → PState → Res ASTnode
  | 0, _ => .error .fuel
  | n + 1, st =>
    if st.CurTok.type = IDENT then
      if (getNextToken st).CurTok.type = ASSIGN then
        match ParseExpr n (getNextToken (getNextToken st)) with
        | .error e => .error e
        | .ok (ptr, st1) =>
          .ok (.VariableAssignmentASTnode (.VariableASTnode st.CurTok.lexeme) ptr, st1)
      else ParseRval n (restorePeeked st)
    else if CheckMembership rval_array 6 st.CurTok.type then ParseRval n st
    else .error (.logError
      "Syntax Error: Expected assignment of form \x27identifier =\x27 or expression")
def ParseRval : Nat → PState → Res ASTnode
  | 0, _ => .error .fuel
  | n + 1, st =>
    match ParseRvalOne n st with
    | .error e => .error e
    | .ok (ptr, st1) =>
      if st1.CurTok.type = OR then ParseRvalPrime n ptr st1
      else .ok (ptr, st1)
def ParseRvalPrime : Nat → ASTnode → PState → Res ASTnode
  | 0, _, _ => .error .fuel
  | n + 1, lhs, st =>
    if st.CurTok.type = OR then
      match ParseRvalOne n (getNextToken st) with
      | .error e => .error e
      | .ok (rhs, st1) =>
        if isFollowTok st1.CurTok.type then .ok (.BinaryASTnode st.CurTok.lexeme lhs rhs, st1)
        else if st1.CurTok.type = OR then
          ParseRvalPrime n (.BinaryASTnode st.CurTok.lexeme lhs rhs) st1
        else .error (.logError "Syntax Error: Expected expression or ;, ), or , after expression")
    else if isFollowTok st.CurTok.type then .ok (.null, st)
    else .error (.logError "Syntax Error: Expected ;, ), or , after || expression")
def ParseRvalOne : Nat → PState → Res ASTnode
  | 0, _ => .error .fuel
  | n + 1, st =>
    match ParseRvalTwo n st with
    | .error e => .error e
    | .ok (ptr, st1) =>
      if st1.CurTok.type = AND then ParseRvalOnePrime n ptr st1
      else .ok (ptr, st1)
def ParseRvalOnePrime : Nat → ASTnode → PState → Res ASTnode
  | 0, _, _ => .error .fuel
  | n + 1, lhs, st =>
    if st.CurTok.type = AND then
      match ParseRvalTwo n (getNextToken st) with
      | .error e => .error e
      | .ok (rhs, st1) =>
        if isFollowTok st1.CurTok.type then .ok (.BinaryASTnode st.CurTok.lexeme lhs rhs, st1)
        else if st1.CurTok.type = AND then
          ParseRvalOnePrime n (.BinaryASTnode st.CurTok.lexeme lhs rhs) st1
        else if st1.CurTok.type = OR then
          ParseRvalPrime n (.BinaryASTnode st.CurTok.lexeme lhs rhs) st1
        else .error (.logError "Syntax Error: Expected expression or ;, ), or , after expression")
    else if isFollowTok st.CurTok.type then .ok (.null, st)
    else .error (.logError "Syntax Error: Expected ;, ), or , after && expression")
def ParseRvalTwo : Nat → PState → Res ASTnode
  | 0, _ => .error .fuel
  | n + 1, st =>
    match ParseRvalThree n st with
    | .error e => .error e
    | .ok (ptr, st1) =>
      if isEqTok st1.CurTok.type then ParseRvalTwoPrime n ptr st1
      else .ok (ptr, st1)
def ParseRvalTwoPrime : Nat → ASTnode → PState → Res ASTnode
  | 0, _, _ => .error .fuel
  | n + 1, lhs, st =>
    if isEqTok st.CurTok.type then
      match ParseRvalThree n (getNextToken st) with
      | .error e => .error e
      | .ok (rhs, st1) =>
        if isFollowTok st1.CurTok.type then .ok (.BinaryASTnode st.CurTok.lexeme lhs rhs, st1)
        else if isEqTok st1.CurTok.type then
          ParseRvalTwoPrime n (.BinaryASTnode st.CurTok.lexeme lhs rhs) st1
        else if st1.CurTok.type = AND then
          ParseRvalOnePrime n (.BinaryASTnode st.CurTok.lexeme lhs rhs) st1
        else if st1.CurTok.type = OR then
          ParseRvalPrime n (.BinaryASTnode st.CurTok.lexeme lhs rhs) st1
        else .error (.logError "Syntax Error: Expected expression or ;, ), or , after expression")
    else if isFollowTok st.CurTok.type then .ok (.null, st)
    else .error (.logError "Syntax Error: Expected ;, ), or , after == or != expression")
def ParseRvalThree : Nat → PState → Res ASTnode
  | 0, _ => .error .fuel
  | n + 1, st =>
    match ParseRvalFour n st with
    | .error e => .error e
    | .ok (ptr, st1) =>
      if isRelTok st1.CurTok.type then ParseRvalThreePrime n ptr st1
      else .ok (ptr, st1)
def ParseRvalThreePrime : Nat → ASTnode → PState → Res ASTnode
  | 0, _, _ => .error .fuel
  | n + 1, lhs, st =>
    if isRelTok st.CurTok.type then
      match ParseRvalFour n (getNextToken st) with
      | .error e => .error e
      | .ok (rhs, st1) =>
        if isFollowTok st1.CurTok.type then .ok (.BinaryASTnode st.CurTok.lexeme lhs rhs, st1)
        else if isRelTok st1.CurTok.type then
          ParseRvalThreePrime n (.BinaryASTnode st.CurTok.lexeme lhs rhs) st1
        else if isEqTok st1.CurTok.type then
          ParseRvalTwoPrime n (.BinaryASTnode st.CurTok.lexeme lhs rhs) st1
        else if st1.CurTok.type = AND then
          ParseRvalOnePrime n (.BinaryASTnode st.CurTok.lexeme lhs rhs) st1
        else if st1.CurTok.type = OR then
          ParseRvalPrime n (.BinaryASTnode st.CurTok.lexeme lhs rhs) st1
        else .error (.logError "Syntax Error: Expected expression or ;, ), or , after expression")
    else if isFollowTok st.CurTok.type then .ok (.null, st)
    else .error (.logError "Syntax Error: Expected ;, ), or , after <=, <, >, or >= expression")
def ParseRvalFour : Nat → PState → Res ASTnode
  | 0, _ => .error .fuel
  | n + 1, st =>
    match ParseRvalFive n st with
    | .error e => .error e
    | .ok (ptr, st1) =>
      if isAddTok st1.CurTok.type then ParseRvalFourPrime n ptr st1
      else .ok (ptr, st1)
def ParseRvalFourPrime : Nat → ASTnode → PState → Res ASTnode
  | 0, _, _ => .error .fuel
  | n + 1, lhs, st =>
    if isAddTok st.CurTok.type then
      match ParseRvalFive n (getNextToken st) with
      | .error e => .error e
      | .ok (rhs, st1) =>
        if isFollowTok st1.CurTok.type then .ok (.BinaryASTnode st.CurTok.lexeme lhs rhs, st1)
        else if isAddTok st1.CurTok.type then
          ParseRvalFourPrime n (.BinaryASTnode st.CurTok.lexeme lhs rhs) st1
        else if isRelTok st1.CurTok.type then
          ParseRvalThreePrime n (.BinaryASTnode st.CurTok.lexeme lhs rhs) st1
        else if isEqTok st1.CurTok.type then
          ParseRvalTwoPrime n (.BinaryASTnode st.CurTok.lexeme lhs rhs) st1
        else if st1.CurTok.type = AND then
          ParseRvalOnePrime n (.BinaryASTnode st.CurTok.lexeme lhs rhs) st1
        else if st1.CurTok.type = OR then
          ParseRvalPrime n (.BinaryASTnode st.CurTok.lexeme lhs rhs) st1
        else .error (.logError "Syntax Error: Expected expression or ;, ), or , after expression")
    else if isFollowTok st.CurTok.type then .ok (.null, st)
    else .error (.logError "Syntax Error: Expected ;, ), or , after + or - expression")
def ParseRvalFive : Nat → PState → Res ASTnode
  | 0, _ => .error .fuel
  | n + 1, st =>
    match ParseRvalSix n st with
    | .error e => .error e
    | .ok (ptr, st1) =>
      if isMulTok st1.CurTok.type then ParseRvalFivePrime n ptr st1
      else .ok (ptr, st1)
def ParseRvalFivePrime : Nat → ASTnode → PState → Res ASTnode
  | 0, _, _ => .error .fuel
  | n + 1, lhs, st =>
    if isMulTok st.CurTok.type then
      match ParseRvalSix n (getNextToken st) with
      | .error e => .error e
      | .ok (rhs, st1) =>
        if isFollowTok st1.CurTok.type then .ok (.BinaryASTnode st.CurTok.lexeme lhs rhs, st1)
        else if isMulTok st1.CurTok.type then
          ParseRvalFivePrime n (.BinaryASTnode st.CurTok.lexeme lhs rhs) st1
        else if isAddTok st1.CurTok.type then
          ParseRvalFourPrime n (.BinaryASTnode st.CurTok.lexeme lhs rhs) st1
        else if isRelTok st1.CurTok.type then
          ParseRvalThreePrime n (.BinaryASTnode st.CurTok.lexeme lhs rhs) st1
        else if isEqTok st1.CurTok.type then
          ParseRvalTwoPrime n (.BinaryASTnode st.CurTok.lexeme lhs rhs) st1
        else if st1.CurTok.type = AND then
          ParseRvalOnePrime n (.BinaryASTnode st.CurTok.lexeme lhs rhs) st1
        else if st1.CurTok.type = OR then
          ParseRvalPrime n (.BinaryASTnode st.CurTok.lexeme lhs rhs) st1
        else .error (.logError "Syntax Error: Expected expression or ;, ), or , after expression")
    else if isFollowTok st.CurTok.type then .ok (.null, st)
    else .error (.logError "Syntax Error: Expected ;, ), or , after *, /, or % expression")
def ParseRvalSix : Nat → PState → Res ASTnode
  | 0, _ => .error .fuel
  | n + 1, st =>
    if isUnaryTok st.CurTok.type then
      if isUnaryTok (getNextToken st).CurTok.type then
        match ParseRvalSix n (getNextToken st) with
        | .error e => .error e
        | .ok (ptr, st1) => .ok (.UnaryASTnode st.CurTok.lexeme ptr, st1)
      else
        match ParseRvalSeven n (getNextToken st) with
        | .error e => .error e
        | .ok (ptr, st1) => .ok (.UnaryASTnode st.CurTok.lexeme ptr, st1)
    else ParseRvalSeven n st
def ParseRvalSeven : Nat → PState → Res ASTnode
  | 0, _ => .error .fuel
  | n + 1, st =>
    if st.CurTok.type = LPAR then
      match ParseExpr n (getNextToken st) with
      | .error e => .error e
      | .ok (ptr, st1) =>
        if st1.CurTok.type = RPAR then .ok (ptr, getNextToken st1)
        else .error (.logError "Syntax Error: Expected ) after expression")
    else ParseRvalEight n st
def ParseRvalEight : Nat → PState → Res ASTnode
  | 0, _ => .error .fuel
  | n + 1, st =>
    if st.CurTok.type = IDENT then
      if (getNextToken st).CurTok.type = LPAR then
        match ParseArgs n (getNextToken (getNextToken st)) with
        | .error e => .error e
        | .ok (args, st1) =>
          if st1.CurTok.type = RPAR then
            .ok (.CallASTnode st.CurTok.lexeme args, getNextToken st1)
          else .error (.logError "Syntax Error: Expected ) after arguments")
      else .ok (.VariableASTnode st.CurTok.lexeme, getNextToken st)
    else ParseRvalNine st
def ParseArgs : Nat → PState → Res (List ASTnode)
  | 0, _ => .error .fuel
  | n + 1, st =>
    if CheckMembership expr_array 7 st.CurTok.type then ParseArgList n st
    else if st.CurTok.type = RPAR then .ok ([], st)
    else .error (.logError
      "Syntax Error: Expected (, -, !, identifier, integer literal, float literal, or bool literal for argument or ) for end of arguments")
def ParseArgList : Nat → PState → Res (List ASTnode)
  | 0, _ => .error .fuel
  | n + 1, st =>
    match ParseExpr n st with
    | .error e => .error e
    | .ok (arg, st1) => ParseArgListPrime n [arg] st1
def ParseArgListPrime : Nat → List ASTnode → PState → Res (List ASTnode)
  | 0, _, _ => .error .fuel
  | n + 1, args, st =>
    if st.CurTok.type = COMMA then
      match ParseExpr n (getNextToken st) with
      | .error e => .error e
      | .ok (arg, st1) => ParseArgListPrime n (args ++ [arg]) st1
    else if st.CurTok.type = RPAR then .ok (args, st)
    else .error (.logError
      "Syntax Error: Expected , for next argument or ) for end of arguments")
end

/-- `ParseLocalDecl`. -/
def ParseLocalDecl (st : PState) : Res ASTnode :=
  match ParseVarType st with
  | .error e => .error e
  | .ok (var_type, st1) =>
    if st1.CurTok.type = IDENT then
      let st2 := getNextToken st1
      if st2.CurTok.type = SC then
        .ok (.VariableDeclarationASTnode st1.CurTok.lexeme var_type, getNextToken st2)
      else .error (.logError "Syntax Error: Expected ; after identifier")
    else .error (.logError "Syntax Error: Expected identifier after variable type")

/-- `ParseLocalDeclsPrime`. -/
def ParseLocalDeclsPrime : Nat → List ASTnode → PState → Res (List ASTnode)
  | 0, _, _ => .error .fuel
  | n + 1, declarations, st =>
    if st.CurTok.type = INT_TOK ∨ st.CurTok.type = FLOAT_TOK ∨ st.CurTok.type = BOOL_TOK then
      match ParseLocalDecl st with
      | .error e => .error e
      | .ok (local_decl, st1) => ParseLocalDeclsPrime n (declarations ++ [local_decl]) st1
    else if CheckMembership stmt_token_array 12 st.CurTok.type then .ok (declarations, st)
    else .error (.logError
      "Syntax Error: Expected variable type int, float, or bool for declaration or (, -, !, identifier, int literal, float literal, bool literal, ;, while, if, return, \x7b for statement")

/-- `ParseLocalDecls`. -/
def ParseLocalDecls (n : Nat) (st : PState) : Res (List ASTnode) :=
  if st.CurTok.type = INT_TOK ∨ st.CurTok.type = FLOAT_TOK ∨ st.CurTok.type = BOOL_TOK then
    match ParseLocalDecl st with
    | .error e => .error e
    | .ok (local_decl, st1) => ParseLocalDeclsPrime n [local_decl] st1
  else .error (.logError "Syntax Error: Expected variable type int, float, or bool")

/-- `ParseExprStmt`: the empty statement `;` returns the null pointer. -/
def ParseExprStmt (n : Nat) (st : PState) : Res ASTnode :=
  if CheckMembership expr_array 7 st.CurTok.type then
    match ParseExpr n st with
    | .error e => .error e
    | .ok (ptr, st1) =>
      if st1.CurTok.type = SC then .ok (ptr, getNextToken st1)
      else .error (.logError "Syntax Error: Expected ; after expression")
  else if st.CurTok.type = SC then .ok (.null, getNextToken st)
  else .error (.logError "Syntax Error: Expected ;")

/-- `ParseReturn`. -/
def ParseReturn (n : Nat) (st : PState) : Res ASTnode :=
  if (getNextToken st).CurTok.type = SC then
    .ok (.ReturnExprASTnode .null, getNextToken (getNextToken st))
  else
    match ParseExpr n (getNextToken st) with
    | .error e => .error e
    | .ok (return_expr, st1) =>
      if st1.CurTok.type = SC then .ok (.ReturnExprASTnode return_expr, getNextToken st1)
      else .error (.logError "Syntax Error: Expected ; after expression or after return")

/-! The statement productions `ParseBlock`, `ParseStmtList`, `ParseStmtListPrime`, `ParseStmt`,
`ParseIf`, `ParseElse`, `ParseWhile` call each other; every call passes one unit of fuel less. -/
mutual
def ParseBlock : Nat → PState → Res ASTnode
  | 0, _ => .error .fuel
  | n + 1, st =>
    if st.CurTok.type = LBRA then
      let st1 := getNextToken st
      if st1.CurTok.type = INT_TOK ∨ st1.CurTok.type = FLOAT_TOK ∨ st1.CurTok.type = BOOL_TOK then
        match ParseLocalDecls n st1 with
        | .error e => .error e
        | .ok (declarations, st2) =>
          match ParseStmtList n st2 with
          | .error e => .error e
          | .ok (statements, st3) =>
            if st3.CurTok.type = RBRA then
              .ok (.BlockASTnode declarations statements, getNextToken st3)
            else .error (.logError "Syntax Error: Expected \x7d at end of block")
      else
        match ParseStmtList n st1 with
        | .error e => .error e
        | .ok (statements, st3) =>
          if st3.CurTok.type = RBRA then .ok (.BlockASTnode [] statements, getNextToken st3)
          else .error (.logError "Syntax Error: Expected \x7d at end of block")
    else .error (.logError "Syntax Error: Expected \x7b at start of block")
def ParseStmtList : Nat → PState → Res (List ASTnode)
  | 0, _ => .error .fuel
  | n + 1, st =>
    match ParseStmt n st with
    | .error e => .error e
    | .ok (stmt, st1) => ParseStmtListPrime n [stmt] st1
def ParseStmtListPrime : Nat → List ASTnode → PState → Res (List ASTnode)
  | 0, _, _ => .error .fuel
  | n + 1, stmt_list, st =>
    if CheckMembership stmt_token_array 12 st.CurTok.type then
      match ParseStmt n st with
      | .error e => .error e
      | .ok (stmt, st1) => ParseStmtListPrime n (stmt_list ++ [stmt]) st1
    else if st.CurTok.type = RBRA then .ok (stmt_list, st)
    else .error (.logError
      "Syntax Error: Expected (, -, !, identifier, int literal, float literal, bool literal, ;, while, if, return, \x7b for statement or \x7d for end of statements")
def ParseStmt : Nat → PState → Res ASTnode
  | 0, _ => .error .fuel
  | n + 1, st =>
    if CheckMembership expr_stmt_array 8 st.CurTok.type then ParseExprStmt n st
    else if st.CurTok.type = LBRA then ParseBlock n st
    else if st.CurTok.type = IF then ParseIf n st
    else if st.CurTok.type = WHILE then ParseWhile n st
    else if st.CurTok.type = RETURN then ParseReturn n st
    else .error (.logError
      "Syntax Error: Expected (, -, !, identifier, int literal, float literal, bool literal, ; for expression statement, \x7b for block statement, if for if statement, while for while statement, or return for return statement")
def ParseIf : Nat → PState → Res ASTnode
  | 0, _ => .error .fuel
  | n + 1, st =>
    let st1 := getNextToken st
    if st1.CurTok.type = LPAR then
      let st2 := getNextToken st1
      if CheckMembership expr_array 7 st2.CurTok.type then
        match ParseExpr n st2 with
        | .error e => .error e
        | .ok (condition, st3) =>
          if st3.CurTok.type = RPAR then
            match ParseBlock n (getNextToken st3) with
            | .error e => .error e
            | .ok (block, st4) =>
              match ParseElse n st4 with
              | .error e => .error e
              | .ok (else_expression, st5) =>
                .ok (.IfExprASTnode condition block else_expression, st5)
          else .error (.logError "Syntax Error: Expected ) after expression")
      else .error (.logError "Syntax Error: Expected expression after (")
    else .error (.logError "Syntax Error: Expected ( after if")
def ParseElse : Nat → PState → Res ASTnode
  | 0, _ => .error .fuel
  | n + 1, st =>
    if st.CurTok.type = ELSE then ParseBlock n (getNextToken st)
    else if CheckMembership else_follow_array 13 st.CurTok.type then .ok (.null, st)
    else .error (.logError
      "Syntax Error: Expected else for else statement or \x7d, (, !, identifier, int literal, float literal, bool literal, ;, while, if, return, \x7b for statement")
def ParseWhile : Nat → PState → Res ASTnode
  | 0, _ => .error .fuel
  | n + 1, st =>
    let st1 := getNextToken st
    if st1.CurTok.type = LPAR then
      let st2 := getNextToken st1
      if CheckMembership expr_array 7 st2.CurTok.type then
        match ParseExpr n st2 with
        | .error e => .error e
        | .ok (condition, st3) =>
          if st3.CurTok.type = RPAR then
            match ParseStmt n (getNextToken st3) with
            | .error e => .error e
            | .ok (statement, st4) => .ok (.WhileExprASTnode condition statement, st4)
          else .error (.logError "Syntax Error: Expected ) after expression")
      else .error (.logError "Syntax Error: Expected expression after (")
    else .error (.logError "Syntax Error: Expected ( after while")
end

/-- `ParseVarFunDecl`: the null pointer stands for a variable declaration. -/
def ParseVarFunDecl (n : Nat) (type identifier : String) (st : PState) : Res ASTnode :=
  if st.CurTok.type = LPAR then
    match ParseParams n (getNextToken st) with
    | .error e => .error e
    | .ok (parameters, st1) =>
      if st1.CurTok.type = RPAR then
        match ParseBlock n (getNextToken st1) with
        | .error e => .error e
        | .ok (block, st2) =>
          .ok (.FunctionDefASTnode (.FunctionPrototypeASTnode identifier type parameters) block,
            st2)
      else .error (.logError "Syntax Error: Expected ) after parameters")
  else if st.CurTok.type = SC then .ok (.null, getNextToken st)
  else .error (.logError
    "Expected ( after function identifier or ; after variable identifier")

/-- `ParseTypeNameDecl`. -/
def ParseTypeNameDecl (n : Nat) (st : PState) : Res ASTnode :=
  match ParseVarType st with
  | .error e => .error e
  | .ok (type, st1) =>
    if st1.CurTok.type = IDENT then
      match ParseVarFunDecl n type st1.CurTok.lexeme (getNextToken st1) with
      | .error e => .error e
      | .ok (.null, st2) => .ok (.VariableDeclarationASTnode st1.CurTok.lexeme type, st2)
      | .ok (func, st2) => .ok (func, st2)
    else .error (.logError "Syntax Error: Expected identifier after variable/function type")

/-- `ParseVoidFunDecl`. -/
def ParseVoidFunDecl (n : Nat) (st : PState) : Res ASTnode :=
  let st1 := getNextToken st
  if st1.CurTok.type = IDENT then
    let st2 := getNextToken st1
    if st2.CurTok.type = LPAR then
      match ParseParams n (getNextToken st2) with
      | .error e => .error e
      | .ok (func_params, st3) =>
        if st3.CurTok.type = RPAR then
          match ParseBlock n (getNextToken st3) with
          | .error e => .error e
          | .ok (func_block, st4) =>
            .ok (.FunctionDefASTnode
              (.FunctionPrototypeASTnode st1.CurTok.lexeme st.CurTok.lexeme func_params)
              func_block, st4)
        else .error (.logError "Syntax Error: Expected ) after parameters")
    else .error (.logError "Syntax Error: Expected ( after identifier")
  else .error (.logError "Syntax Error: Expected identifier after type \x27void\x27")

/-- `ParseDecl`. -/
def ParseDecl (n : Nat) (st : PState) : Res ASTnode :=
  if st.CurTok.type = VOID_TOK then ParseVoidFunDecl n st
  else if st.CurTok.type = INT_TOK ∨ st.CurTok.type = FLOAT_TOK ∨ st.CurTok.type = BOOL_TOK then
    ParseTypeNameDecl n st
  else .error (.logError
    "Syntax Error: Expected type \x27void\x27 or variable type \x27int\x27, \x27float\x27, or \x27bool\x27")

/-- `ParseDeclListPrime`. -/
def ParseDeclListPrime : Nat → List ASTnode → PState → Res (List ASTnode)
  | 0, _, _ => .error .fuel
  | n + 1, decl_list, st =>
    if st.CurTok.type = EOF_TOK then .ok (decl_list, st)
    else if st.CurTok.type = INT_TOK ∨ st.CurTok.type = FLOAT_TOK ∨ st.CurTok.type = BOOL_TOK
        ∨ st.CurTok.type = VOID_TOK then
      match ParseDecl n st with
      | .error e => .error e
      | .ok (decl, st1) => ParseDeclListPrime n (decl_list ++ [decl]) st1
    else .error (.logError
      "Syntax Error: Expected eof or type \x27int\x27, \x27float\x27, \x27bool\x27, or \x27void\x27")

/-- `ParseDeclList`. -/
def ParseDeclList (n : Nat) (st : PState) : Res (List ASTnode) :=
  match ParseDecl n st with
  | .error e => .error e
  | .ok (decl, st1) => ParseDeclListPrime n [decl] st1

/-- `ParseProgram`. -/
def ParseProgram (n : Nat) (st : PState) : Res ASTnode :=
  if st.CurTok.type = EXTERN then
    match ParseExternList n st with
    | .error e => .error e
    | .ok (ext_list, st1) =>
      match ParseDeclList n st1 with
      | .error e => .error e
      | .ok (decl_list, st2) => .ok (.RootASTnode ext_list decl_list, st2)
  else if st.CurTok.type = INT_TOK ∨ st.CurTok.type = FLOAT_TOK ∨ st.CurTok.type = BOOL_TOK
      ∨ st.CurTok.type = VOID_TOK then
    match ParseDeclList n st with
    | .error e => .error e
    | .ok (decl_list, st2) => .ok (.RootASTnode [] decl_list, st2)
  else .error (.logError
    "Syntax Error: Expected extern for extern or type int, float, bool, or void")

/-- `parser`: read the first token; the null pointer is returned when it is `EOF_TOK`. -/
def parser (n : Nat) (st : PState) : Res ASTnode :=
  if (getNextToken st).CurTok.type ≠ EOF_TOK then ParseProgram n (getNextToken st)
  else .ok (.null, getNextToken st)

/-! ## Vocabulary of the properties -/

/-- The parser state once `CurTok = getNextToken()` has read the first token of the stream `ts`:
`CurTok` is the first token, `tok_buffer` is empty, the other tokens are still to be lexed. -/
def PState.ofTokens (ts : List TOKEN) : PState := getNextToken (PState.start ts)

/-- `Evals f st r`: run on the state `st`, the production `f` returns `r`, for every fuel from
some bound on. -/
def Evals {α : Type} (f : Nat → PState → Res α) (st : PState) (r : α × PState) : Prop :=
  ∃ k, ∀ n, k ≤ n → f n st = .ok r

/-- The operator table of the specification: the precedence level of a binary operator token,
`||` 1, `&&` 2, `== !=` 3, `< <= > >=` 4, `+ -` 5, `* / %` 6, and 0 for every other token. -/
def binPrec (t : Int) : Nat :=
  if t = OR then 1
  else if t = AND then 2
  else if t = EQ ∨ t = NE then 3
  else if t = LE ∨ t = LT ∨ t = GE ∨ t = GT then 4
  else if t = PLUS ∨ t = MINUS then 5
  else if t = ASTERIX ∨ t = DIV ∨ t = MOD then 6
  else 0

/-- The production of the source for the operands of level `k`: `ParseRval` for 1 (`||`) up to
`ParseRvalFive` for 6 (`* / %`), and `ParseRvalSix` above. -/
def levelParser : Nat → Nat → PState → Res ASTnode
  | 1 => ParseRval
  | 2 => ParseRvalOne
  | 3 => ParseRvalTwo
  | 4 => ParseRvalThree
  | 5 => ParseRvalFour
  | 6 => ParseRvalFive
  | _ => ParseRvalSix

/-- The prime production of the source for level `k`, applied to the left operand `lhs`. -/
def primeParser : Nat → ASTnode → Nat → PState → Res ASTnode
  | 1, lhs => fun n => ParseRvalPrime n lhs
  | 2, lhs => fun n => ParseRvalOnePrime n lhs
  | 3, lhs => fun n => ParseRvalTwoPrime n lhs
  | 4, lhs => fun n => ParseRvalThreePrime n lhs
  | 5, lhs => fun n => ParseRvalFourPrime n lhs
  | _, lhs => fun n => ParseRvalFivePrime n lhs

/-- `st.sees ts`: the tokens in front of the parser in state `st` are `ts`: `CurTok` is the
first of them and the others are the content of `tok_buffer` followed by the tokens that
`gettok` has yet to return. -/
def PState.sees (st : PState) (ts : List TOKEN) : Prop :=
  ∃ hd tl, ts = hd :: tl ∧ st.CurTok = hd ∧ st.tok_buffer ++ st.pending = tl

/-- `Parses f input v remaining`: from every state in which the tokens in front of the parser
are `input`, the production `f` returns `v` (for every fuel from some bound on) and leaves a
state in which the tokens in front of the parser are `remaining`. -/
def Parses {α : Type} (f : Nat → PState → Res α) (input : List TOKEN) (v : α)
    (remaining : List TOKEN) : Prop :=
  ∀ st : PState, st.sees input → ∃ st1, Evals f st (v, st1) ∧ st1.sees remaining

/-- A primary operand: a token sequence `ts` that starts with an identifier or a literal and that
`ParseRvalEight` (identifier, call or literal) parses to `P`, consuming exactly `ts`, whatever
token other than `(` comes next. -/
def IsPrimary (ts : List TOKEN) (P : ASTnode) : Prop :=
  (∃ hd tl, ts = hd :: tl ∧
    (hd.type = IDENT ∨ hd.type = INT_LIT ∨ hd.type = FLOAT_LIT ∨ hd.type = BOOL_LIT)) ∧
  ∀ (t : TOKEN) (rest : List TOKEN), t.type ≠ LPAR →
    Parses ParseRvalEight (ts ++ t :: rest) P (t :: rest)

/-- The tokens `o1 x2 o2 x3 ...` of a chain of operators, each followed by its right operand. -/
def chainTokens : List (TOKEN × List TOKEN × ASTnode) → List TOKEN
  | [] => []
  | (o, x, _) :: more => o :: (x ++ chainTokens more)

/-- The left-nested tree `Binary(o(n-1), ... Binary(o1, x1, x2) ..., xn)` of a chain. -/
def leftNested (first : ASTnode) (chain : List (TOKEN × List TOKEN × ASTnode)) : ASTnode :=
  chain.foldl (fun acc p => .BinaryASTnode p.1.lexeme acc p.2.2) first

/-- The tokens `u1 u2 ... uk` wrapped around an operand: `Unary(u1, Unary(u2, ... Unary(uk, P)))`. -/
def unaryNested (us : List TOKEN) (P : ASTnode) : ASTnode :=
  us.foldr (fun u acc => .UnaryASTnode u.lexeme acc) P

/-- A local declaration `var_type IDENT ;` with its AST `VarDecl(name, type)`. -/
def IsLocalDecl (ts : List TOKEN) (D : ASTnode) : Prop :=
  ∃ ty id sc : TOKEN, ts = [ty, id, sc] ∧ id.type = IDENT ∧ sc.type = SC ∧
    ((ty.type = INT_TOK ∧ D = .VariableDeclarationASTnode id.lexeme "int") ∨
     (ty.type = FLOAT_TOK ∧ D = .VariableDeclarationASTnode id.lexeme "float") ∨
     (ty.type = BOOL_TOK ∧ D = .VariableDeclarationASTnode id.lexeme "bool"))

/-- A statement inside a block: a token sequence `ts` that starts with a token of the FIRST set
of `stmt` and that `ParseStmt` parses to `S`, consuming exactly `ts`, whenever the token after
it is `\x7d` or starts another statement. -/
def IsStmt (ts : List TOKEN) (S : ASTnode) : Prop :=
  (∃ hd tl, ts = hd :: tl ∧ CheckMembership stmt_token_array 12 hd.type = true) ∧
  ∀ (t : TOKEN) (rest : List TOKEN), CheckMembership else_follow_array 13 t.type = true →
    Parses ParseStmt (ts ++ t :: rest) S (t :: rest)

/-- The tokens of a sequence of declarations or statements, in source order. -/
def concatTokens : List (List TOKEN × ASTnode) → List TOKEN
  | [] => []
  | (ts, _) :: more => ts ++ concatTokens more

/-- Is the node a variable reference (`VariableASTnode`). -/
def ASTnode.isVarRef : ASTnode → Bool
  | .VariableASTnode _ => true
  | _ => false

mutual
/-- The well-formedness invariant of assignments: every `VariableAssignmentASTnode` of the tree
has a variable reference as its target. -/
def ASTnode.targetsOk : ASTnode → Bool
  | .VariableAssignmentASTnode t v => t.isVarRef && v.targetsOk
  | .BlockASTnode ds ss => targetsOkList ds && targetsOkList ss
  | .BinaryASTnode _ l r => l.targetsOk && r.targetsOk
  | .UnaryASTnode _ v => v.targetsOk
  | .CallASTnode _ args => targetsOkList args
  | .FunctionPrototypeASTnode _ _ args => targetsOkList args
  | .FunctionDefASTnode p b => p.targetsOk && b.targetsOk
  | .ExternASTnode _ _ ps => targetsOkList ps
  | .IfExprASTnode c t e => c.targetsOk && t.targetsOk && e.targetsOk
  | .WhileExprASTnode c b => c.targetsOk && b.targetsOk
  | .ReturnExprASTnode v => v.targetsOk
  | .RootASTnode es ds => targetsOkList es && targetsOkList ds
  | _ => true
/-- The invariant `targetsOk` for every node of a list. -/
def targetsOkList : List ASTnode → Bool
  | [] => true
  | a :: as => a.targetsOk && targetsOkList as
end

/-- Is the node a block (`BlockASTnode`). -/
def ASTnode.isBlock : ASTnode → Bool
  | .BlockASTnode _ _ => true
  | _ => false

mutual
/-- The well-formedness invariant of `if` statements: every `IfExprASTnode` of the tree has a
block (not the null pointer) as its `Then`. -/
def ASTnode.ifThenOk : ASTnode → Bool
  | .VariableAssignmentASTnode t v => t.ifThenOk && v.ifThenOk
  | .BlockASTnode ds ss => ifThenOkList ds && ifThenOkList ss
  | .BinaryASTnode _ l r => l.ifThenOk && r.ifThenOk
  | .UnaryASTnode _ v => v.ifThenOk
  | .CallASTnode _ args => ifThenOkList args
  | .FunctionPrototypeASTnode _ _ args => ifThenOkList args
  | .FunctionDefASTnode p b => p.ifThenOk && b.ifThenOk
  | .ExternASTnode _ _ ps => ifThenOkList ps
  | .IfExprASTnode c t e => t.isBlock && c.ifThenOk && t.ifThenOk && e.ifThenOk
  | .WhileExprASTnode c b => c.ifThenOk && b.ifThenOk
  | .ReturnExprASTnode v => v.ifThenOk
  | .RootASTnode es ds => ifThenOkList es && ifThenOkList ds
  | _ => true
/-- The invariant `ifThenOk` for every node of a list. -/
def ifThenOkList : List ASTnode → Bool
  | [] => true
  | a :: as => a.ifThenOk && ifThenOkList as
end

/-- A property of AST nodes that every node constructed by the parser preserves: it holds for
the null pointer and the leaves, and for each node the parser builds from parts that have it.
An assignment is only built with a variable reference as target, an `if` and a function
definition only with a block. -/
structure ParserClosed (Q : ASTnode → Prop) : Prop where
  nullNode : Q .null
  intNode : ∀ v, Q (.IntASTnode v)
  floatNode : ∀ s, Q (.FloatASTnode s)
  boolNode : ∀ b, Q (.BoolASTnode b)
  varNode : ∀ s, Q (.VariableASTnode s)
  assignNode : ∀ s v, Q v → Q (.VariableAssignmentASTnode (.VariableASTnode s) v)
  binaryNode : ∀ op l r, Q l → Q r → Q (.BinaryASTnode op l r)
  unaryNode : ∀ op v, Q v → Q (.UnaryASTnode op v)
  callNode : ∀ f args, (∀ a ∈ args, Q a) → Q (.CallASTnode f args)
  declNode : ∀ n t, Q (.VariableDeclarationASTnode n t)
  blockNode : ∀ ds ss, (∀ a ∈ ds, Q a) → (∀ a ∈ ss, Q a) → Q (.BlockASTnode ds ss)
  ifNode : ∀ c ds ss e, Q c → Q (.BlockASTnode ds ss) → Q e →
    Q (.IfExprASTnode c (.BlockASTnode ds ss) e)
  whileNode : ∀ c b, Q c → Q b → Q (.WhileExprASTnode c b)
  returnNode : ∀ v, Q v → Q (.ReturnExprASTnode v)
  paramNode : ∀ n t, Q (.FunctionParamASTnode n t)
  funcNode : ∀ n t ps ds ss, (∀ a ∈ ps, Q a) → Q (.BlockASTnode ds ss) →
    Q (.FunctionDefASTnode (.FunctionPrototypeASTnode n t ps) (.BlockASTnode ds ss))
  externNode : ∀ n t ps, (∀ a ∈ ps, Q a) → Q (.ExternASTnode n t ps)
  rootNode : ∀ es ds, (∀ a ∈ es, Q a) → (∀ a ∈ ds, Q a) → Q (.RootASTnode es ds)

/-! ### Reference parser of the specification

Precedence climbing over the operator table `binPrec`, every level left-associative.  Operands
(prefix `-` and `!`, parentheses, identifiers, calls, literals) are read by the source's
`ParseRvalSix`. -/
mutual
def refExpr : Nat → Nat → PState → Res ASTnode
  | 0, _, _ => .error .fuel
  | n + 1, minPrec, st =>
    match ParseRvalSix n st with
    | .error e => .error e
    | .ok (lhs, st1) => refClimb n minPrec lhs st1
def refClimb : Nat → Nat → ASTnode → PState → Res ASTnode
  | 0, _, _, _ => .error .fuel
  | n + 1, minPrec, lhs, st =>
    if 0 < binPrec st.CurTok.type ∧ minPrec ≤ binPrec st.CurTok.type then
      match refExpr n (binPrec st.CurTok.type + 1) (getNextToken st) with
      | .error e => .error e
      | .ok (rhs, st1) => refClimb n minPrec (.BinaryASTnode st.CurTok.lexeme lhs rhs) st1
    else .ok (lhs, st)
end

/-- A token with the given kind and lexeme (positions are not read by the parser). -/
def tok (type : Int) (lexeme : String) : TOKEN :=
  { type := type, lexeme := lexeme, lineNo := 0, columnNo := 0 }

/-! ## Vocabulary of the lexer properties -/

/-- The first byte of a byte stream as `getc` delivers it, `EOF` for the empty stream. -/
def frontChar : List Nat → Int
  | [] => EOF
  | b :: _ => (b : Int)

/-- `s.reads bs`: the bytes that the lexer has still to turn into tokens are `bs`.  The first of
them is held in the lookahead `LastChar`, the others are unread in the file; when nothing is
left, `LastChar` is `EOF`. -/
def LexState.reads (s : LexState) (bs : List Nat) : Prop :=
  s.LastChar = frontChar bs ∧ s.input = bs.tail

/-- Is the byte one of `[A-Za-z0-9_]`. -/
def isWordByte (b : Nat) : Bool := isalnum (b : Int) || (b : Int) == 95

/-- Is the byte a decimal digit. -/
def isDigitByte (b : Nat) : Bool := isdigit (b : Int)

/-- Is the byte white space for `isspace`. -/
def isSpaceByte (b : Nat) : Bool := isspace (b : Int)

/-- Is the byte `\n` or `\r`. -/
def isNewline (b : Nat) : Bool := b == 10 || b == 13

/-- The string of a list of bytes. -/
def lexemeOf (bs : List Nat) : String := bytesToString (bs.map (fun b : Nat => (b : Int)))

/-- The reserved-word table of the specification: the nine keywords with their kinds, and
`true` and `false` with `BOOL_LIT`. -/
def reservedWords : List (String × Int) :=
  [("int", INT_TOK), ("float", FLOAT_TOK), ("bool", BOOL_TOK), ("void", VOID_TOK),
   ("extern", EXTERN), ("if", IF), ("else", ELSE), ("while", WHILE), ("return", RETURN),
   ("true", BOOL_LIT), ("false", BOOL_LIT)]

/-- The kind of a word by the specification: its entry in `reservedWords`, `IDENT` when it has
none. -/
def wordKind (w : String) : Int :=
  match reservedWords.lookup w with
  | some k => k
  | none => IDENT

/-- An entry of the operator table: the first byte, the second byte, the lexeme and kind of
the two-character token, the lexeme and kind of the one-character token. -/
structure OpEntry where
  first : Nat
  second : Nat
  lexeme2 : String
  kind2 : Int
  lexeme1 : String
  kind1 : Int

/-- The two-character operators of the specification: `==`/`=`, `!=`/`!`, `<=`/`<`, `>=`/`>`
with their named kinds, and `&&`/`&`, `||`/`|` where the one-character token has the code of
the byte as its kind. -/
def operatorTable : List OpEntry :=
  [⟨61, 61, "==", EQ, "=", ASSIGN⟩, ⟨33, 61, "!=", NE, "!", NOT⟩, ⟨60, 61, "<=", LE, "<", LT⟩,
   ⟨62, 61, ">=", GE, ">", GT⟩, ⟨38, 38, "&&", AND, "&", 38⟩, ⟨124, 124, "||", OR, "|", 124⟩]

/-- The line of the byte that follows the bytes `pre` of the input: 1 plus the number of `\n`
and `\r` among `pre`. -/
def lineOf (pre : List Nat) : Int := 1 + ((pre.filter isNewline).length : Int)

/-- The column of the byte that follows the bytes `pre` of the input: 1 plus the number of
bytes of `pre` after its last `\n` or `\r` (all of `pre` when it has none). -/
def colOf (pre : List Nat) : Int :=
  1 + ((pre.reverse.takeWhile (fun b => !isNewline b)).length : Int)

/-- The position counters are in step with the input: `pre` are the bytes in front of the
lookahead, `lineNo` counts the line breaks among them and `columnNo` is one more than the column
of the lookahead, both as values of type `int`. -/
def LexState.inStep (s : LexState) (pre : List Nat) : Prop :=
  s.lineNo = toI32 (lineOf pre) ∧ s.columnNo = toI32 (colOf pre + 1)

/-- The kinds and lexemes of a list of tokens. -/
def tokenViews (ts : List TOKEN) : List (Int × String) := ts.map (fun t => (t.type, t.lexeme))

/-- `s.emits res ty lex rest`: the result `res` of the branch of `gettok` taken in state `s`,
with no white space in front of the lookahead, is a token of kind `ty` whose lexeme are the
bytes `lex`; the lexer is left reading `rest`.  When the position counters of `s` are in step
with the input, the token carries the line and the column of its first byte as values of type
`int`, and the counters are in step again behind the token. -/
def LexState.emits (s : LexState) (res : TOKEN × LexState) (ty : Int) (lex rest : List Nat) :
    Prop :=
  res.1.type = ty ∧ res.1.lexeme = lexemeOf lex ∧ res.2.reads rest ∧
    ∀ pre, s.inStep pre →
      res.1.lineNo = toI32 (lineOf pre) ∧ res.1.columnNo = toI32 (colOf pre) ∧
        res.2.inStep (pre ++ lex)

/-- `s.lexes gap lex rest ty`: from state `s`, `gettok` skips the bytes `gap`, returns a token
of kind `ty` whose lexeme are the bytes `lex`, and is left reading `rest`.  When the position
counters of `s` are in step with the input, the token carries the line and the column of its
first byte as values of type `int`, and the counters are in step again behind the token. -/
def LexState.lexes (s : LexState) (gap lex rest : List Nat) (ty : Int) : Prop :=
  ∃ t s1, gettok s = some (t, s1) ∧ t.type = ty ∧ t.lexeme = lexemeOf lex ∧ s1.reads rest ∧
    ∀ pre, s.inStep pre →
      t.lineNo = toI32 (lineOf (pre ++ gap)) ∧ t.columnNo = toI32 (colOf (pre ++ gap)) ∧
        s1.inStep (pre ++ (gap ++ lex))

/-! ## Code generation

The LLVM objects that the code generator builds are modelled by what the generator can observe
and by what ends up in the module:

* a `Value *` is a `Value`; instructions are numbered in the order of their creation and the
  value of an instruction is `Value.inst id ty`;
* every `Builder.CreateX(...)` call appends the instruction `X` with the given operands to the
  block of the insertion point and returns its value.  The constant folding that `IRBuilder` may
  do on constant operands and the assertions of the LLVM API on operand types are not modelled;
  the name of an instruction is the name given to the call;
* the module keeps its functions and global variables by name; a name that is already taken
  gets a numeric suffix, as in LLVM's symbol tables;
* `throw LogErrorV(...)` is `Except.error (CGError.logError msg)`; dereferencing a null pointer,
  indexing a vector past its end and reading an uninitialised local are the errors `nullDeref`,
  `outOfRange` and `uninitialised`.  The warnings printed on `stderr` are left out. -/

/-- The LLVM types that occur: `i1`, `i32`, `float`, `void`, and pointers. -/
inductive LType where
  | i1 : LType
  | i32 : LType
  | float : LType
  | void : LType
  | ptr : LType
  deriving DecidableEq, Repr, Inhabited

/-- An `AllocaInst`: the number of the instruction, the allocated type and the name. -/
structure AllocaInst where
  id : Nat
  AllocatedType : LType
  Name : String
  deriving DecidableEq, Repr, Inhabited

/-- A `GlobalVariable` of the module: its name in the module and the type of its zero
initializer. -/
structure GlobalVariable where
  Name : String
  ValueType : LType
  deriving DecidableEq, Repr, Inhabited

/-- A `Value *` that is not null. -/
inductive Value where
  | constInt (bits : Nat) (val : Int) : Value
  | constFP (lexeme : String) : Value
  | inst (id : Nat) (ty : LType) : Value
  | argument (fn : String) (idx : Nat) (ty : LType) : Value
  | global (g : GlobalVariable) : Value
  | function (name : String) : Value
  deriving DecidableEq, Repr, Inhabited

/-- `Value::getType`. -/
def Value.getType : Value → LType
  | .constInt bits _ => if bits = 1 then .i1 else .i32
  | .constFP _ => .float
  | .inst _ ty => ty
  | .argument _ _ ty => ty
  | .global _ => .ptr
  | .function _ => .ptr

/-- The opcodes of the `Builder.CreateX` calls for operators, comparisons and conversions. -/
inductive Opcode where
  | Add | Sub | Mul | SDiv | URem | And | Or
  | FAdd | FSub | FMul | FDiv | FRem
  | ICmpSLT | ICmpSLE | ICmpSGE | ICmpSGT | ICmpEQ | ICmpNE
  | FCmpULT | FCmpULE | FCmpUGE | FCmpUGT | FCmpUEQ | FCmpUNE
  | FNeg | Neg | Not
  | SIToFP | FPToSI
  deriving DecidableEq, Repr, Inhabited

/-- What an instruction does. -/
inductive InstrKind where
  | alloca (ty : LType) : InstrKind
  | load (ty : LType) (ptr : Value) : InstrKind
  | store (val : Value) (ptr : Value) : InstrKind
  | op (opcode : Opcode) (operands : List Value) (ty : LType) : InstrKind
  | call (callee : String) (args : List Value) (ty : LType) : InstrKind
  | br (dest : Nat) : InstrKind
  | condBr (cond : Value) (ifTrue : Nat) (ifFalse : Nat) : InstrKind
  | ret (val : Option Value) : InstrKind
  deriving DecidableEq, Repr, Inhabited

/-- An instruction: its number, the name given to it, and what it does. -/
structure Instr where
  id : Nat
  name : String
  kind : InstrKind
  deriving DecidableEq, Repr, Inhabited

/-- A `BasicBlock`: its name, the function that holds it (`none` while it is detached) and its
instructions. -/
structure BasicBlock where
  name : String
  parent : Option String
  instrs : List Instr
  deriving DecidableEq, Repr, Inhabited

/-- A `Function` of the module: name, return type, arguments with their names, and the
numbers of its basic blocks in order. -/
structure Function where
  name : String
  returnType : LType
  args : List (String × LType)
  blocks : List Nat
  deriving DecidableEq, Repr, Inhabited

/-- The globals of the code generator: `NamedValuesArray`, `GlobalValues`, the functions and
global variables of `TheModule` with the counter of its symbol table, every basic block created
so far (a block is referred to by its position in `blocks`), the insertion block of `Builder`,
and the number of instructions created. -/
structure CGState where
  NamedValuesArray : List (List (String × AllocaInst))
  GlobalValues : List (String × GlobalVariable)
  functions : List Function
  globals : List GlobalVariable
  lastUnique : Nat
  blocks : List BasicBlock
  insertBlock : Option Nat
  nextId : Nat
  deriving DecidableEq, Repr, Inhabited

/-- The state in which `main` starts code generation: an empty module, no scope, no insertion
point. -/
def CGState.init : CGState := ⟨[], [], [], [], 0, [], none, 0⟩

/-- What ends a code generation step other than a return. -/
inductive CGError where
  | logError (Str : String) : CGError
  | nullDeref : CGError
  | outOfRange : CGError
  | uninitialised : CGError
  | illTyped : CGError
  deriving DecidableEq, Repr, Inhabited

/-- The result of a code generation step: the returned value and the new state, or an error. -/
abbrev CGRes (α : Type) := Except CGError (α × CGState)

/-- Apply `f` to the element at position `i` of a list. -/
def updateAt {α : Type} (f : α → α) : Nat → List α → List α
  | _, [] => []
  | 0, a :: as => f a :: as
  | i + 1, a :: as => a :: updateAt f i as

/-- The instruction is inserted at the insertion point of `Builder` (at the end of the
insertion block; nowhere when there is none) and numbered. -/
def CGState.emit (σ : CGState) (name : String) (kind : InstrKind) : Nat × CGState :=
  match σ.insertBlock with
  | none => (σ.nextId, { σ with nextId := σ.nextId + 1 })
  | some b =>
    (σ.nextId, { σ with
      nextId := σ.nextId + 1,
      blocks := updateAt (fun bb => { bb with instrs := bb.instrs ++ [⟨σ.nextId, name, kind⟩] })
        b σ.blocks })

/-- A `Builder.CreateX` call whose instruction has a value of type `ty`. -/
def CGState.create (σ : CGState) (name : String) (kind : InstrKind) (ty : LType) :
    Value × CGState :=
  (.inst (σ.emit name kind).1 ty, (σ.emit name kind).2)

/-- `TheModule->getFunction(name)`. -/
def CGState.getFunction (σ : CGState) (name : String) : Option Function :=
  σ.functions.find? (fun f => f.name == name)

/-- `TheModule->getNamedGlobal(name)`. -/
def CGState.getNamedGlobal (σ : CGState) (name : String) : Option GlobalVariable :=
  σ.globals.find? (fun g => g.Name == name)

/-- The names in the symbol table of the module. -/
def CGState.symbols (σ : CGState) : List String :=
  σ.functions.map (fun f => f.name) ++ σ.globals.map (fun g => g.Name)

/-- The search of LLVM's symbol table for a free name: `base.N` with the next value of the
counter, again while that name is taken too. -/
def makeUniqueName : Nat → List String → String → Nat → String × Nat
  | 0, _, base, last => (base ++ "." ++ toString (last + 1), last + 1)
  | fuel + 1, taken, base, last =>
    if taken.contains (base ++ "." ++ toString (last + 1)) then
      makeUniqueName fuel taken base (last + 1)
    else (base ++ "." ++ toString (last + 1), last + 1)

/-- The name that a new function or global variable gets in the module: the requested one when
it is free. -/
def CGState.uniqueName (σ : CGState) (name : String) : String × CGState :=
  if σ.symbols.contains name then
    ((makeUniqueName σ.symbols.length σ.symbols name σ.lastUnique).1,
      { σ with lastUnique := (makeUniqueName σ.symbols.length σ.symbols name σ.lastUnique).2 })
  else (name, σ)

/-- The search of a function's symbol table for a free argument name: `baseN`. -/
def makeUniqueLocal : Nat → List String → String → Nat → String × Nat
  | 0, _, base, last => (base ++ toString (last + 1), last + 1)
  | fuel + 1, taken, base, last =>
    if taken.contains (base ++ toString (last + 1)) then
      makeUniqueLocal fuel taken base (last + 1)
    else (base ++ toString (last + 1), last + 1)

/-- The loop `Arg.setName(Args[Idx]->getName())` over the arguments of a new function: a name
that an earlier argument has taken gets a numeric suffix; the empty name stays empty. -/
def setArgNames : List String → List String → Nat → List String
  | [], _, _ => []
  | n :: ns, taken, last =>
    if n = "" then "" :: setArgNames ns taken last
    else if taken.contains n then
      (makeUniqueLocal taken.length taken n last).1 ::
        setArgNames ns ((makeUniqueLocal taken.length taken n last).1 :: taken)
          (makeUniqueLocal taken.length taken n last).2
    else n :: setArgNames ns (n :: taken) last

/-- `BasicBlock::Create(TheContext, name, parent)`: a new block, appended to the block list of
`parent` when there is one. -/
def CGState.createBlock (σ : CGState) (name : String) (parent : Option String) :
    Nat × CGState :=
  match parent with
  | none => (σ.blocks.length, { σ with blocks := σ.blocks ++ [⟨name, none, []⟩] })
  | some f =>
    (σ.blocks.length, { σ with
      blocks := σ.blocks ++ [⟨name, some f, []⟩],
      functions := σ.functions.map
        (fun fn => if fn.name = f then { fn with blocks := fn.blocks ++ [σ.blocks.length] }
          else fn) })

/-- `TheFunction->getBasicBlockList().push_back(b)`. -/
def CGState.pushBlock (σ : CGState) (TheFunction : Option String) (b : Nat) : CGRes Unit :=
  match TheFunction with
  | none => .error .nullDeref
  | some f =>
    .ok ((), { σ with
      blocks := updateAt (fun bb => { bb with parent := some f }) b σ.blocks,
      functions := σ.functions.map
        (fun fn => if fn.name = f then { fn with blocks := fn.blocks ++ [b] } else fn) })

/-- `Builder.GetInsertBlock()->getParent()`. -/
def CGState.insertParent (σ : CGState) : Except CGError (Option String) :=
  match σ.insertBlock with
  | none => .error .nullDeref
  | some b =>
    match σ.blocks.get? b with
    | none => .error .nullDeref
    | some bb => .ok bb.parent

/-- The type of a variable or parameter of the declared type: `int`, `float` or `bool`. -/
def varTypeOf (ty : String) : Option LType :=
  if ty = "int" then some .i32
  else if ty = "float" then some .float
  else if ty = "bool" then some .i1
  else none

/-- The return type of a function of the declared type: `float`, `bool`, `int` or `void`. -/
def returnTypeOf (ty : String) : Option LType :=
  if ty = "float" then some .float
  else if ty = "bool" then some .i1
  else if ty = "int" then some .i32
  else if ty = "void" then some .void
  else none

/-- `CreateEntryBlockAlloca`: an `alloca` of the declared type at the head of the entry block
of `TheFunction`.  For another type string the C++ function ends without a `return`. -/
def CreateEntryBlockAlloca (TheFunction : Option String) (VarName VarType : String)
    (σ : CGState) : CGRes AllocaInst :=
  match varTypeOf VarType with
  | none => .error .uninitialised
  | some ty =>
    match TheFunction with
    | none => .error .nullDeref
    | some f =>
      match σ.getFunction f with
      | none => .error .nullDeref
      | some fn =>
        match fn.blocks.head? with
        | none => .error .nullDeref
        | some entry =>
          .ok (⟨σ.nextId, ty, VarName⟩, { σ with
            nextId := σ.nextId + 1,
            blocks := updateAt
              (fun bb => { bb with instrs := ⟨σ.nextId, VarName, .alloca ty⟩ :: bb.instrs })
              entry σ.blocks })

/-- The scope walk of `VariableASTnode::codegen` and `VariableAssignmentASTnode::codegen`:
`NamedValuesArray[try_index][Name]`, then the frames below while the entry is null, down to
frame 0.  The null entries that `operator[]` inserts are not kept: they are not observable. -/
def findAlloca (frames : List (List (String × AllocaInst))) :
    Nat → String → Except CGError (Option AllocaInst)
  | 0, Name =>
    match frames.get? 0 with
    | none => .error .outOfRange
    | some frame => .ok (frame.lookup Name)
  | try_index + 1, Name =>
    match frames.get? (try_index + 1) with
    | none => .error .outOfRange
    | some frame =>
      match frame.lookup Name with
      | some A => .ok (some A)
      | none => findAlloca frames try_index Name

/-- `NamedValuesArray[block_index][Name] = Variable`. -/
def setNamedValue (Name : String) (Variable : AllocaInst) (block_index : Nat) (σ : CGState) :
    CGRes Unit :=
  if block_index < σ.NamedValuesArray.length then
    .ok ((), { σ with
      NamedValuesArray := updateAt (fun frame => (Name, Variable) :: frame) block_index
        σ.NamedValuesArray })
  else .error .outOfRange

/-- `VariableASTnode::codegen`. -/
def VariableASTnode_codegen (Name : String) (block_index : Nat) (σ : CGState) :
    CGRes (Option Value) :=
  match findAlloca σ.NamedValuesArray block_index Name with
  | .error e => .error e
  | .ok (some A) =>
    .ok (some (σ.create Name (.load A.AllocatedType (.inst A.id .ptr)) A.AllocatedType).1,
      (σ.create Name (.load A.AllocatedType (.inst A.id .ptr)) A.AllocatedType).2)
  | .ok none =>
    match σ.getNamedGlobal Name with
    | some g =>
      if g.ValueType = .float ∨ g.ValueType = .i32 ∨ g.ValueType = .i1 then
        .ok (some (σ.create Name (.load g.ValueType (.global g)) g.ValueType).1,
          (σ.create Name (.load g.ValueType (.global g)) g.ValueType).2)
      else .error .uninitialised
    | none => .error (.logError ("Semantic Error: Undefined variable name " ++ Name))

/-- `VariableDeclarationASTnode::codegen`: a global variable when `Builder` has no insertion
block, otherwise an `alloca` in the entry block of the function of the insertion block,
registered in frame `block_index`. -/
def VariableDeclarationASTnode_codegen (Name Type_ : String) (block_index : Nat)
    (σ : CGState) : CGRes (Option Value) :=
  match σ.insertBlock with
  | none =>
    match varTypeOf Type_ with
    | none => .error .uninitialised
    | some var_type =>
      .ok (none, { (σ.uniqueName Name).2 with
        globals := (σ.uniqueName Name).2.globals ++ [⟨(σ.uniqueName Name).1, var_type⟩],
        GlobalValues := (Name, ⟨(σ.uniqueName Name).1, var_type⟩) ::
          (σ.uniqueName Name).2.GlobalValues })
  | some _ =>
    match σ.insertParent with
    | .error e => .error e
    | .ok TheFunction =>
      match CreateEntryBlockAlloca TheFunction Name Type_ σ with
      | .error e => .error e
      | .ok (Variable, σ1) =>
        match setNamedValue Name Variable block_index σ1 with
        | .error e => .error e
        | .ok (_, σ2) => .ok (none, σ2)

/-- The part of `VariableAssignmentASTnode::codegen` after the assigned value is generated:
find the target, convert the value to the type of a local target, store. -/
def assignTo (Name : String) (assigned_val : Value) (block_index : Nat) (σ : CGState) :
    CGRes (Option Value) :=
  match findAlloca σ.NamedValuesArray block_index Name with
  | .error e => .error e
  | .ok none =>
    match σ.getNamedGlobal Name with
    | some g => .ok (some assigned_val, (σ.emit "" (.store assigned_val (.global g))).2)
    | none => .error (.logError ("Semantic Error: Undefined variable name " ++ Name))
  | .ok (some Variable) =>
    if assigned_val.getType ≠ Variable.AllocatedType then
      if Variable.AllocatedType = .i32 ∨ Variable.AllocatedType = .i1 then
        .ok (some (σ.create "" (.op .FPToSI [assigned_val] Variable.AllocatedType)
            Variable.AllocatedType).1,
          ((σ.create "" (.op .FPToSI [assigned_val] Variable.AllocatedType)
            Variable.AllocatedType).2.emit ""
            (.store (σ.create "" (.op .FPToSI [assigned_val] Variable.AllocatedType)
              Variable.AllocatedType).1 (.inst Variable.id .ptr))).2)
      else if Variable.AllocatedType = .float then
        .ok (some (σ.create "" (.op .SIToFP [assigned_val] Variable.AllocatedType)
            Variable.AllocatedType).1,
          ((σ.create "" (.op .SIToFP [assigned_val] Variable.AllocatedType)
            Variable.AllocatedType).2.emit ""
            (.store (σ.create "" (.op .SIToFP [assigned_val] Variable.AllocatedType)
              Variable.AllocatedType).1 (.inst Variable.id .ptr))).2)
      else .ok (some assigned_val, (σ.emit "" (.store assigned_val (.inst Variable.id .ptr))).2)
    else .ok (some assigned_val, (σ.emit "" (.store assigned_val (.inst Variable.id .ptr))).2)

/-- The operator table of the float branch of `BinaryASTnode::codegen`: opcode, name and result
type (`none`: the type of the operands). -/
def floatOpcode (Op : String) : Option (Opcode × String × Option LType) :=
  if Op = "+" then some (.FAdd, "addftmp", none)
  else if Op = "-" then some (.FSub, "subftmp", none)
  else if Op = "*" then some (.FMul, "mulftmp", none)
  else if Op = "/" then some (.FDiv, "divftmp", none)
  else if Op = "%" then some (.FRem, "remftmp", none)
  else if Op = "<" then some (.FCmpULT, "sltftmp", some .i1)
  else if Op = "<=" then some (.FCmpULE, "sleftmp", some .i1)
  else if Op = ">=" then some (.FCmpUGE, "sgeftmp", some .i1)
  else if Op = ">" then some (.FCmpUGT, "sgtftmp", some .i1)
  else if Op = "==" then some (.FCmpUEQ, "eqftmp", some .i1)
  else if Op = "!=" then some (.FCmpUNE, "neftmp", some .i1)
  else if Op = "&&" then some (.And, "andftmp", none)
  else if Op = "||" then some (.Or, "orftmp", none)
  else none

/-- The operator table of the integer branch of `BinaryASTnode::codegen`. -/
def intOpcode (Op : String) : Option (Opcode × String × Option LType) :=
  if Op = "+" then some (.Add, "addtmp", none)
  else if Op = "-" then some (.Sub, "subtmp", none)
  else if Op = "*" then some (.Mul, "multmp", none)
  else if Op = "/" then some (.SDiv, "divtmp", none)
  else if Op = "%" then some (.URem, "remtmp", none)
  else if Op = "<" then some (.ICmpSLT, "slttmp", some .i1)
  else if Op = "<=" then some (.ICmpSLE, "sletmp", some .i1)
  else if Op = ">=" then some (.ICmpSGE, "sgetmp", some .i1)
  else if Op = ">" then some (.ICmpSGT, "sgttmp", some .i1)
  else if Op = "==" then some (.ICmpEQ, "eqtmp", some .i1)
  else if Op = "!=" then some (.ICmpNE, "netmp", some .i1)
  else if Op = "&&" then some (.And, "andtmp", none)
  else if Op = "||" then some (.Or, "ortmp", none)
  else none

/-- The instruction of a binary operator on the operands `L` and `R`. -/
def emitOperator (entry : Option (Opcode × String × Option LType)) (L R : Value)
    (σ : CGState) : CGRes (Option Value) :=
  match entry with
  | none => .error (.logError "Syntax Error: Invalid binary operator")
  | some (opcode, name, ty) =>
    .ok (some (σ.create name (.op opcode [L, R] (ty.getD L.getType)) (ty.getD L.getType)).1,
      (σ.create name (.op opcode [L, R] (ty.getD L.getType)) (ty.getD L.getType)).2)

/-- The part of `BinaryASTnode::codegen` after both operands are generated and are not null:
when one of them is of type `float`, the other one is converted with `SIToFP` unless it is
`float` too, and the operator of the float table is emitted; otherwise the operator of the
integer table. -/
def combineOperands (Op : String) (L R : Value) (σ : CGState) : CGRes (Option Value) :=
  if L.getType = .float ∨ R.getType = .float then
    if L.getType ≠ .float then
      emitOperator (floatOpcode Op) (σ.create "convtmp" (.op .SIToFP [L] .float) .float).1 R
        (σ.create "convtmp" (.op .SIToFP [L] .float) .float).2
    else if R.getType ≠ .float then
      emitOperator (floatOpcode Op) L (σ.create "convtmp" (.op .SIToFP [R] .float) .float).1
        (σ.create "convtmp" (.op .SIToFP [R] .float) .float).2
    else emitOperator (floatOpcode Op) L R σ
  else emitOperator (intOpcode Op) L R σ

/-- The part of `UnaryASTnode::codegen` after the operand is generated. -/
def applyUnary (Op : String) (Operand : Value) (σ : CGState) : CGRes (Option Value) :=
  if Operand.getType = .float then
    if Op = "-" then
      .ok (some (σ.create "negftmp" (.op .FNeg [Operand] .float) .float).1,
        (σ.create "negftmp" (.op .FNeg [Operand] .float) .float).2)
    else if Op = "!" then
      .ok (some (σ.create "nottmp" (.op .Not [Operand] .float) .float).1,
        (σ.create "nottmp" (.op .Not [Operand] .float) .float).2)
    else .error (.logError "Syntax Error: Invalid unary operator")
  else if Operand.getType = .i32 then
    if Op = "-" then
      .ok (some (σ.create "negtmp" (.op .Neg [Operand] .i32) .i32).1,
        (σ.create "negtmp" (.op .Neg [Operand] .i32) .i32).2)
    else if Op = "!" then
      .ok (some (σ.create "nottmp" (.op .Not [Operand] .i32) .i32).1,
        (σ.create "nottmp" (.op .Not [Operand] .i32) .i32).2)
    else .error (.logError "Syntax Error: Invalid unary operator")
  else if Operand.getType = .i1 then
    if Op = "-" then
      .ok (some (σ.create "negftmp" (.op .Neg [Operand] .i1) .i1).1,
        (σ.create "negftmp" (.op .Neg [Operand] .i1) .i1).2)
    else if Op = "!" then
      .ok (some (σ.create "nottmp" (.op .Not [Operand] .i1) .i1).1,
        (σ.create "nottmp" (.op .Not [Operand] .i1) .i1).2)
    else .ok (none, σ)
  else .error (.logError "Syntax Error: Invalid unary operand type")

/-- The names and type strings of a vector of `FunctionParamASTnode`; `none` when an element is
of another class. -/
def paramsOf : List ASTnode → Option (List (String × String))
  | [] => some []
  | .FunctionParamASTnode Name Type_ :: rest =>
    match paramsOf rest with
    | none => none
    | some ps => some ((Name, Type_) :: ps)
  | _ :: _ => none

/-- `FunctionPrototypeASTnode::codegen` and `ExternASTnode::codegen`: the parameters of type
`int`, `float` or `bool` give the parameter types, the function is created in the module under
`Name` (or a fresh name) and its arguments are named after the first entries of `Args`. -/
def createFunction (Name Type_ : String) (Args : List (String × String)) (σ : CGState) :
    CGRes String :=
  match returnTypeOf Type_ with
  | none => .error .uninitialised
  | some rt =>
    .ok ((σ.uniqueName Name).1, { (σ.uniqueName Name).2 with
      functions := (σ.uniqueName Name).2.functions ++
        [⟨(σ.uniqueName Name).1, rt,
          (setArgNames ((Args.map (fun a => a.1)).take
              (Args.filterMap (fun a => varTypeOf a.2)).length) [] 0).zip
            (Args.filterMap (fun a => varTypeOf a.2)), []⟩] })

/-- The loop of `FunctionDefASTnode::codegen` over `TheFunction->args()`: for the argument
number `count`, the type string `Prototype->getArgType(count)`, an `alloca` in the entry block,
a store of the argument, and the entry of frame 0. -/
def allocaArgs (f : String) (Args : List (String × String)) :
    List (String × LType) → Nat → CGState → CGRes Unit
  | [], _, σ => .ok ((), σ)
  | (argName, argTy) :: rest, count, σ =>
    match Args.get? count with
    | none => .error .outOfRange
    | some (_, arg_type) =>
      match CreateEntryBlockAlloca (some f) argName arg_type σ with
      | .error e => .error e
      | .ok (Alloca, σ1) =>
        match setNamedValue argName Alloca 0
            (σ1.emit "" (.store (.argument f count argTy) (.inst Alloca.id .ptr))).2 with
        | .error e => .error e
        | .ok (_, σ2) => allocaArgs f Args rest (count + 1) σ2

/-- The loop of `BlockASTnode::codegen` over `Declarations`; `RetVal` is `none` while it is
uninitialised. -/
def codegenDecls : List ASTnode → Nat → Option (Option Value) → CGState →
    CGRes (Option (Option Value))
  | [], _, RetVal, σ => .ok (RetVal, σ)
  | .VariableDeclarationASTnode Name Type_ :: rest, block_index, _, σ =>
    match VariableDeclarationASTnode_codegen Name Type_ block_index σ with
    | .error e => .error e
    | .ok (v, σ1) => codegenDecls rest block_index (some v) σ1
  | .null :: _, _, _, _ => .error .nullDeref
  | _ :: _, _, _, _ => .error .illTyped

/-- The loop of `RootASTnode::codegen` over `Ext_List`. -/
def codegenExterns : List ASTnode → CGState → CGRes Unit
  | [], σ => .ok ((), σ)
  | .ExternASTnode Name Type_ Params :: rest, σ =>
    match paramsOf Params with
    | none => .error .illTyped
    | some ps =>
      match createFunction Name Type_ ps σ with
      | .error e => .error e
      | .ok (_, σ1) => codegenExterns rest σ1
  | .null :: _, _ => .error .nullDeref
  | _ :: _, _ => .error .illTyped

/-- The pointer is null. -/
def ASTnode.isNull : ASTnode → Bool
  | .null => true
  | _ => false

/-- The pointer is null or points to a `BlockASTnode`: the values of a
`std::unique_ptr<BlockASTnode>`. -/
def ASTnode.isBlockPtr : ASTnode → Bool
  | .null => true
  | .BlockASTnode _ _ => true
  | _ => false

/-- The name of a `VariableASTnode`. -/
def ASTnode.variableName : ASTnode → Option String
  | .VariableASTnode Name => some Name
  | _ => none

/-- The fields of a `FunctionPrototypeASTnode`. -/
def ASTnode.prototypeFields : ASTnode → Option (String × String × List ASTnode)
  | .FunctionPrototypeASTnode Name Type_ Args => some (Name, Type_, Args)
  | _ => none

mutual
/-- The virtual function `codegen(block_index)` of the node classes.  On the null pointer the
call dereferences it. -/
def codegen : ASTnode → Nat → CGState → CGRes (Option Value)
  | .null, _, _ => .error .nullDeref
  | .IntASTnode Val, _, σ => .ok (some (.constInt 32 Val), σ)
  | .FloatASTnode lexeme, _, σ => .ok (some (.constFP lexeme), σ)
  | .BoolASTnode Val, _, σ => .ok (some (.constInt 1 (if Val then 1 else 0)), σ)
  | .VariableASTnode Name, block_index, σ => VariableASTnode_codegen Name block_index σ
  | .VariableAssignmentASTnode Variable Val, block_index, σ =>
    if Variable.isNull then
      .error (.logError "Semantic Error: LHS of assignment \x27=\x27 must be a variable")
    else
      match Variable.variableName with
      | none => .error .illTyped
      | some Name =>
        match codegen Val block_index σ with
        | .error e => .error e
        | .ok (none, σ1) => .ok (none, σ1)
        | .ok (some assigned_val, σ1) => assignTo Name assigned_val block_index σ1
  | .VariableDeclarationASTnode Name Type_, block_index, σ =>
    VariableDeclarationASTnode_codegen Name Type_ block_index σ
  | .BlockASTnode Declarations Statements, block_index, σ =>
    match codegenDecls Declarations block_index none σ with
    | .error e => .error e
    | .ok (RetVal, σ1) =>
      match codegenSeq Statements block_index RetVal σ1 with
      | .error e => .error e
      | .ok (none, _) => .error .uninitialised
      | .ok (some v, σ2) => .ok (v, σ2)
  | .BinaryASTnode Op LHS RHS, block_index, σ =>
    match codegen LHS block_index σ with
    | .error e => .error e
    | .ok (L, σ1) =>
      match codegen RHS block_index σ1 with
      | .error e => .error e
      | .ok (R, σ2) =>
        match L, R with
        | some L, some R => combineOperands Op L R σ2
        | _, _ => .ok (none, σ2)
  | .UnaryASTnode Op Val, block_index, σ =>
    match codegen Val block_index σ with
    | .error e => .error e
    | .ok (none, _) => .error .nullDeref
    | .ok (some Operand, σ1) => applyUnary Op Operand σ1
  | .CallASTnode CallFunc Args, block_index, σ =>
    match σ.getFunction CallFunc with
    | none => .error (.logError ("Semantic Error: Undefined function referenced " ++ CallFunc))
    | some CalleeF =>
      if CalleeF.args.length ≠ Args.length then
        .error (.logError
          ("Semantic Error: Incorrect number of arguments passed into function, expected " ++
            toString CalleeF.args.length ++ " but got " ++ toString Args.length))
      else
        match codegenArgs Args block_index [] σ with
        | .error e => .error e
        | .ok (none, σ1) => .ok (none, σ1)
        | .ok (some func_args, σ1) =>
          .ok (some (σ1.create "calltmp" (.call CalleeF.name func_args CalleeF.returnType)
              CalleeF.returnType).1,
            (σ1.create "calltmp" (.call CalleeF.name func_args CalleeF.returnType)
              CalleeF.returnType).2)
  | .FunctionParamASTnode _ _, _, σ => .ok (none, σ)
  | .FunctionPrototypeASTnode Name Type_ Args, _, σ =>
    match paramsOf Args with
    | none => .error .illTyped
    | some ps =>
      match createFunction Name Type_ ps σ with
      | .error e => .error e
      | .ok (F, σ1) => .ok (some (.function F), σ1)
  | .FunctionDefASTnode Prototype Body, _, σ =>
    if Prototype.isNull then .error .nullDeref
    else
      match Prototype.prototypeFields with
      | none => .error .illTyped
      | some (Name, Type_, Args) =>
        match paramsOf Args with
        | none => .error .illTyped
        | some ps =>
          match (match ({ σ with NamedValuesArray := [[]] } : CGState).getFunction Name with
              | some fn => (.ok (fn.name, { σ with NamedValuesArray := [[]] }) : CGRes String)
              | none => createFunction Name Type_ ps { σ with NamedValuesArray := [[]] }) with
          | .error e => .error e
          | .ok (TheFunction, σ1) =>
            match allocaArgs TheFunction ps
                ((σ1.createBlock "entry" (some TheFunction)).2.getFunction TheFunction
                  |>.map (fun fn => fn.args) |>.getD []) 0
                { (σ1.createBlock "entry" (some TheFunction)).2 with
                  insertBlock := some (σ1.createBlock "entry" (some TheFunction)).1 } with
            | .error e => .error e
            | .ok (_, σ2) =>
              if Body.isBlockPtr then
                match codegen Body 0 σ2 with
                | .error e => .error e
                | .ok (none, σ3) => .ok (some (.function TheFunction), σ3)
                | .ok (some RetVal, σ3) =>
                  if Type_ = "void" then
                    .ok (some (.function TheFunction), (σ3.emit "" (.ret none)).2)
                  else .ok (some (.function TheFunction), (σ3.emit "" (.ret (some RetVal))).2)
              else .error .illTyped
  | .ExternASTnode Name Type_ Params, _, σ =>
    match paramsOf Params with
    | none => .error .illTyped
    | some ps =>
      match createFunction Name Type_ ps σ with
      | .error e => .error e
      | .ok (F, σ1) => .ok (some (.function F), σ1)
  | .IfExprASTnode Cond Then Else, block_index, σ =>
    match ({ σ with NamedValuesArray := σ.NamedValuesArray ++ [[]] } : CGState).insertParent with
    | .error e => .error e
    | .ok TheFunction =>
      match codegen Cond (block_index + 1)
          ((((({ σ with NamedValuesArray := σ.NamedValuesArray ++ [[]] } : CGState).createBlock
            "if then" TheFunction).2.createBlock "else then" none).2.createBlock "end" none).2)
          with
      | .error e => .error e
      | .ok (none, _) => .error .nullDeref
      | .ok (some cond, σ1) =>
        if Then.isBlockPtr && Else.isBlockPtr then
          if Else.isNull then
            match codegen Then (block_index + 1)
                { ((σ1.create "ifcond" (.op .ICmpNE [cond, .constInt 1 0] .i1) .i1).2.emit ""
                    (.condBr (σ1.create "ifcond" (.op .ICmpNE [cond, .constInt 1 0] .i1) .i1).1
                      σ.blocks.length (σ.blocks.length + 2))).2 with
                  insertBlock := some σ.blocks.length } with
            | .error e => .error e
            | .ok (_, σ2) =>
              match σ2.pushBlock TheFunction (σ.blocks.length + 2) with
              | .error e => .error e
              | .ok (_, σ3) =>
                if block_index + 1 ≤ σ3.NamedValuesArray.length then
                  .ok (none, { (σ3.emit "" (.br (σ.blocks.length + 2))).2 with
                    insertBlock := some (σ.blocks.length + 2),
                    NamedValuesArray := σ3.NamedValuesArray.take (block_index + 1) })
                else .error .outOfRange
          else
            match codegen Then (block_index + 1)
                { ((σ1.create "ifcond" (.op .ICmpNE [cond, .constInt 1 0] .i1) .i1).2.emit ""
                    (.condBr (σ1.create "ifcond" (.op .ICmpNE [cond, .constInt 1 0] .i1) .i1).1
                      σ.blocks.length (σ.blocks.length + 1))).2 with
                  insertBlock := some σ.blocks.length } with
            | .error e => .error e
            | .ok (_, σ2) =>
              match (σ2.emit "" (.br (σ.blocks.length + 2))).2.pushBlock TheFunction
                  (σ.blocks.length + 1) with
              | .error e => .error e
              | .ok (_, σ3) =>
                match codegen Else (block_index + 1)
                    { σ3 with insertBlock := some (σ.blocks.length + 1) } with
                | .error e => .error e
                | .ok (_, σ4) =>
                  match σ4.pushBlock TheFunction (σ.blocks.length + 2) with
                  | .error e => .error e
                  | .ok (_, σ5) =>
                    if block_index + 1 ≤ σ5.NamedValuesArray.length then
                      .ok (none, { (σ5.emit "" (.br (σ.blocks.length + 2))).2 with
                        insertBlock := some (σ.blocks.length + 2),
                        NamedValuesArray := σ5.NamedValuesArray.take (block_index + 1) })
                    else .error .outOfRange
        else .error .illTyped
  | .WhileExprASTnode Cond Then, block_index, σ =>
    match ({ σ with NamedValuesArray := σ.NamedValuesArray ++ [[]] } : CGState).insertParent with
    | .error e => .error e
    | .ok TheFunction =>
      match codegen Cond (block_index + 1)
          { ((((({ σ with NamedValuesArray := σ.NamedValuesArray ++ [[]] } : CGState).createBlock
              "header" TheFunction).2.createBlock "body" none).2.createBlock "end" none).2.emit ""
              (.br σ.blocks.length)).2 with
            insertBlock := some σ.blocks.length } with
      | .error e => .error e
      | .ok (none, _) => .error .nullDeref
      | .ok (some cond, σ1) =>
        match ((σ1.create "whilecond" (.op .ICmpNE [cond, .constInt 1 0] .i1) .i1).2.emit ""
            (.condBr (σ1.create "whilecond" (.op .ICmpNE [cond, .constInt 1 0] .i1) .i1).1
              (σ.blocks.length + 1) (σ.blocks.length + 2))).2.pushBlock TheFunction
            (σ.blocks.length + 1) with
        | .error e => .error e
        | .ok (_, σ2) =>
          match codegen Then (block_index + 1)
              { σ2 with insertBlock := some (σ.blocks.length + 1) } with
          | .error e => .error e
          | .ok (_, σ3) =>
            match (σ3.emit "" (.br σ.blocks.length)).2.pushBlock TheFunction
                (σ.blocks.length + 2) with
            | .error e => .error e
            | .ok (_, σ4) =>
              .ok (none, { (σ4.emit "" (.br (σ.blocks.length + 2))).2 with
                insertBlock := some (σ.blocks.length + 2) })
  | .ReturnExprASTnode ReturnValue, block_index, σ =>
    if ReturnValue.isNull then
      .ok (some (σ.create "" (.ret none) .void).1, (σ.create "" (.ret none) .void).2)
    else
      match codegen ReturnValue block_index σ with
      | .error e => .error e
      | .ok (none, _) => .error .nullDeref
      | .ok (some return_val, σ1) => .ok (none, (σ1.emit "" (.ret (some return_val))).2)
  | .RootASTnode Ext_List Decl_List, block_index, σ =>
    match codegenExterns Ext_List σ with
    | .error e => .error e
    | .ok (_, σ1) =>
      match codegenSeq Decl_List block_index none σ1 with
      | .error e => .error e
      | .ok (_, σ2) => .ok (none, σ2)
/-- The loop over the statements of a block, or over the declarations of the root; `RetVal` is
`none` while it is uninitialised. -/
def codegenSeq : List ASTnode → Nat → Option (Option Value) → CGState →
    CGRes (Option (Option Value))
  | [], _, RetVal, σ => .ok (RetVal, σ)
  | Stmt :: rest, block_index, _, σ =>
    match codegen Stmt block_index σ with
    | .error e => .error e
    | .ok (v, σ1) => codegenSeq rest block_index (some v) σ1
/-- The loop of `CallASTnode::codegen` over the arguments: a null value ends the call. -/
def codegenArgs : List ASTnode → Nat → List Value → CGState → CGRes (Option (List Value))
  | [], _, func_args, σ => .ok (some func_args, σ)
  | Arg :: rest, block_index, func_args, σ =>
    match codegen Arg block_index σ with
    | .error e => .error e
    | .ok (none, σ1) => .ok (none, σ1)
    | .ok (some v, σ1) => codegenArgs rest block_index (func_args ++ [v]) σ1
end

mutual
/-- No function definition occurs in the tree (the parser builds function definitions at the
top level only). -/
def ASTnode.defFree : ASTnode → Bool
  | .FunctionDefASTnode _ _ => false
  | .VariableAssignmentASTnode Variable Val => Variable.defFree && Val.defFree
  | .BlockASTnode Declarations Statements => defFreeList Declarations && defFreeList Statements
  | .BinaryASTnode _ LHS RHS => LHS.defFree && RHS.defFree
  | .UnaryASTnode _ Val => Val.defFree
  | .CallASTnode _ Args => defFreeList Args
  | .IfExprASTnode Cond Then Else => Cond.defFree && Then.defFree && Else.defFree
  | .WhileExprASTnode Cond Then => Cond.defFree && Then.defFree
  | .ReturnExprASTnode ReturnValue => ReturnValue.defFree
  | .RootASTnode _ Decl_List => defFreeList Decl_List
  | _ => true
/-- No function definition occurs in the trees of the list. -/
def defFreeList : List ASTnode → Bool
  | [] => true
  | n :: rest => n.defFree && defFreeList rest
end

mutual
/-- The tree is an expression: literals, variable references, assignments, operators and calls
only. -/
def ASTnode.isExpr : ASTnode → Bool
  | .IntASTnode _ => true
  | .FloatASTnode _ => true
  | .BoolASTnode _ => true
  | .VariableASTnode _ => true
  | .VariableAssignmentASTnode _ Val => Val.isExpr
  | .BinaryASTnode _ LHS RHS => LHS.isExpr && RHS.isExpr
  | .UnaryASTnode _ Val => Val.isExpr
  | .CallASTnode _ Args => isExprList Args
  | _ => false
/-- The trees of the list are expressions. -/
def isExprList : List ASTnode → Bool
  | [] => true
  | n :: rest => n.isExpr && isExprList rest
end

/-- What a code generation step at scope index `b` keeps: an insertion block stays set and then
no global variable is added, and the frames below index `b` stay as they are. -/
def CGState.Keeps (b : Nat) (σ σ' : CGState) : Prop :=
  (σ.insertBlock.isSome = true →
    σ'.insertBlock.isSome = true ∧ σ'.globals = σ.globals) ∧
  (b < σ.NamedValuesArray.length →
    b < σ'.NamedValuesArray.length ∧ σ'.NamedValuesArray.take b = σ.NamedValuesArray.take b)

/-- An expression leaves the scope stack, the global variables and the insertion block's being
set as they are. -/
def CGState.SameScopes (σ σ' : CGState) : Prop :=
  σ'.NamedValuesArray = σ.NamedValuesArray ∧ σ'.globals = σ.globals ∧
    σ'.insertBlock = σ.insertBlock

/-- The opcode is a floating-point operation or comparison of LLVM. -/
def Opcode.isFloatOp : Opcode → Bool
  | .FAdd => true
  | .FSub => true
  | .FMul => true
  | .FDiv => true
  | .FRem => true
  | .FCmpULT => true
  | .FCmpULE => true
  | .FCmpUGE => true
  | .FCmpUGT => true
  | .FCmpUEQ => true
  | .FCmpUNE => true
  | .FNeg => true
  | _ => false

/-! ### Sample inputs of the code generator -/

/-- The parameters `(bool c, int a, float b)`. -/
def sampleParams : List ASTnode :=
  [.FunctionParamASTnode "c" "bool", .FunctionParamASTnode "a" "int",
    .FunctionParamASTnode "b" "float"]

/-- The state in which the body of `void f(bool c, int a, float b)`, the first function of a
module, is lowered: the `entry` block holds the slots of the parameters and the stores of the
arguments, and frame 0 binds the parameters. -/
def bodyStart : CGState :=
  { NamedValuesArray := [[("b", ⟨4, .float, "b"⟩), ("a", ⟨2, .i32, "a"⟩), ("c", ⟨0, .i1, "c"⟩)]],
    GlobalValues := [],
    functions := [⟨"f", .void, [("c", .i1), ("a", .i32), ("b", .float)], [0]⟩],
    globals := [],
    lastUnique := 0,
    blocks := [⟨"entry", some "f",
      [⟨4, "b", .alloca .float⟩, ⟨2, "a", .alloca .i32⟩, ⟨0, "c", .alloca .i1⟩,
        ⟨1, "", .store (.argument "f" 0 .i1) (.inst 0 .ptr)⟩,
        ⟨3, "", .store (.argument "f" 1 .i32) (.inst 2 .ptr)⟩,
        ⟨5, "", .store (.argument "f" 2 .float) (.inst 4 .ptr)⟩]⟩],
    insertBlock := some 0,
    nextId := 6 }

/-- The tree of `if (c) \x7b int x; x = a; \x7d`. -/
def ifDeclares : ASTnode :=
  .IfExprASTnode (.VariableASTnode "c")
    (.BlockASTnode [.VariableDeclarationASTnode "x" "int"]
      [.VariableAssignmentASTnode (.VariableASTnode "x") (.VariableASTnode "a")])
    .null

/-- The tree of `while (c) \x7b int x; x = a; \x7d`. -/
def whileDeclares : ASTnode :=
  .WhileExprASTnode (.VariableASTnode "c")
    (.BlockASTnode [.VariableDeclarationASTnode "x" "int"]
      [.VariableAssignmentASTnode (.VariableASTnode "x") (.VariableASTnode "a")])

/-- The tree of `if (c) \x7b x = a; \x7d`. -/
def ifUses : ASTnode :=
  .IfExprASTnode (.VariableASTnode "c")
    (.BlockASTnode [] [.VariableAssignmentASTnode (.VariableASTnode "x") (.VariableASTnode "a")])
    .null

/-- The tree of
`void f(bool c, int a, float b) \x7b while (c) \x7b int x; x = a; \x7d if (c) \x7b x = a; \x7d \x7d`. -/
def whileThenIf : ASTnode :=
  .FunctionDefASTnode (.FunctionPrototypeASTnode "f" "void" sampleParams)
    (.BlockASTnode [] [whileDeclares, ifUses])

/-- The tree of `if (c) \x7b int x; x = a; \x7d else \x7b x = a; \x7d`. -/
def ifThenElse : ASTnode :=
  .IfExprASTnode (.VariableASTnode "c")
    (.BlockASTnode [.VariableDeclarationASTnode "x" "int"]
      [.VariableAssignmentASTnode (.VariableASTnode "x") (.VariableASTnode "a")])
    (.BlockASTnode []
      [.VariableAssignmentASTnode (.VariableASTnode "x") (.VariableASTnode "a")])

/-- The tree of
`void f(bool c, int a, float b) \x7b if (c) \x7b int x; x = a; \x7d else \x7b x = a; \x7d \x7d`. -/
def thenElse : ASTnode :=
  .FunctionDefASTnode (.FunctionPrototypeASTnode "f" "void" sampleParams)
    (.BlockASTnode [] [ifThenElse])

/-- The tree of
`void f(bool c, int a, float b) \x7b if (c) \x7b int x; x = a; \x7d x = a; \x7d`. -/
def ifThenUse : ASTnode :=
  .FunctionDefASTnode (.FunctionPrototypeASTnode "f" "void" sampleParams)
    (.BlockASTnode []
      [ifDeclares, .VariableAssignmentASTnode (.VariableASTnode "x") (.VariableASTnode "a")])

/-- The tree of `int f(int a) \x7b return a; \x7d int g;`. -/
def functionThenGlobal : ASTnode :=
  .RootASTnode []
    [.FunctionDefASTnode
      (.FunctionPrototypeASTnode "f" "int" [.FunctionParamASTnode "a" "int"])
      (.BlockASTnode [] [.ReturnExprASTnode (.VariableASTnode "a")]),
     .VariableDeclarationASTnode "g" "int"]

/-- The tree of `int f(int a) \x7b return a; \x7d int g; int h() \x7b return g; \x7d`. -/
def functionGlobalFunction : ASTnode :=
  .RootASTnode []
    [.FunctionDefASTnode
      (.FunctionPrototypeASTnode "f" "int" [.FunctionParamASTnode "a" "int"])
      (.BlockASTnode [] [.ReturnExprASTnode (.VariableASTnode "a")]),
     .VariableDeclarationASTnode "g" "int",
     .FunctionDefASTnode (.FunctionPrototypeASTnode "h" "int" [])
      (.BlockASTnode [] [.ReturnExprASTnode (.VariableASTnode "g")])]

/-- The tree of `int g; int h() \x7b return g; \x7d`. -/
def globalThenFunction : ASTnode :=
  .RootASTnode []
    [.VariableDeclarationASTnode "g" "int",
     .FunctionDefASTnode (.FunctionPrototypeASTnode "h" "int" [])
      (.BlockASTnode [] [.ReturnExprASTnode (.VariableASTnode "g")])]

/-- A state with three frames: `x` is bound in frames 0 and 2, `y` in frame 1. -/
def scopeSample : CGState :=
  { bodyStart with
    NamedValuesArray := [[("x", ⟨0, .i32, "x"⟩)], [("y", ⟨1, .float, "y"⟩)],
      [("x", ⟨2, .i1, "x"⟩)]],
    nextId := 3 }

/-! ### Sample inputs for assignments, calls and returns -/

/-- The tree of `float g; void f(bool c, int a, float b) \x7b g = a; \x7d`. -/
def assignGlobal : ASTnode :=
  .RootASTnode []
    [.VariableDeclarationASTnode "g" "float",
     .FunctionDefASTnode (.FunctionPrototypeASTnode "f" "void" sampleParams)
      (.BlockASTnode []
        [.VariableAssignmentASTnode (.VariableASTnode "g") (.VariableASTnode "a")])]

/-- The error of `CallASTnode::codegen` for a callee that the module does not have. -/
def undefinedFunctionError (CallFunc : String) : CGError :=
  .logError ("Semantic Error: Undefined function referenced " ++ CallFunc)

/-- The error of `CallASTnode::codegen` for a wrong number of arguments. -/
def argumentCountError (expected got : Nat) : CGError :=
  .logError ("Semantic Error: Incorrect number of arguments passed into function, expected " ++
    toString expected ++ " but got " ++ toString got)

/-- The arguments `args` are lowered one after the other, from left to right, at scope index
`b`: each one from the state that the one before it leaves, the first from `σ`, the last leaving
`σ'`; their values, none of them null, are `vs` in the same order. -/
def argsLower (b : Nat) : List ASTnode → CGState → List Value → CGState → Prop
  | [], σ, vs, σ' => vs = [] ∧ σ' = σ
  | Arg :: rest, σ, vs, σ' =>
    ∃ v σ1 vs', codegen Arg b σ = .ok (some v, σ1) ∧ vs = v :: vs' ∧ argsLower b rest σ1 vs' σ'

/-- The tree of `int main() \x7b foo(); return 0; \x7d`. -/
def callUndefined : ASTnode :=
  .RootASTnode []
    [.FunctionDefASTnode (.FunctionPrototypeASTnode "main" "int" [])
      (.BlockASTnode [] [.CallASTnode "foo" [], .ReturnExprASTnode (.IntASTnode 0)])]

/-- The tree of `extern int foo(); int main() \x7b foo(); return 0; \x7d`. -/
def callExtern : ASTnode :=
  .RootASTnode [.ExternASTnode "foo" "int" []]
    [.FunctionDefASTnode (.FunctionPrototypeASTnode "main" "int" [])
      (.BlockASTnode [] [.CallASTnode "foo" [], .ReturnExprASTnode (.IntASTnode 0)])]

/-- The state `bodyStart` with a second function `g(int x, float y)` of return type `int` in
the module, as after `extern int g(int x, float y);`. -/
def bodyStartWithG : CGState :=
  { bodyStart with
    functions := ⟨"g", .i32, [("x", .i32), ("y", .float)], []⟩ :: bodyStart.functions }

/-- The tree of `void f(bool c, int a, float b) \x7b return; \x7d`. -/
def voidReturn : ASTnode :=
  .FunctionDefASTnode (.FunctionPrototypeASTnode "f" "void" sampleParams)
    (.BlockASTnode [] [.ReturnExprASTnode .null])

/-- The tree of `void f(bool c, int a, float b) \x7b if (c) \x7b a = a; \x7d \x7d`. -/
def voidEndsWithIf : ASTnode :=
  .FunctionDefASTnode (.FunctionPrototypeASTnode "f" "void" sampleParams)
    (.BlockASTnode []
      [.IfExprASTnode (.VariableASTnode "c")
        (.BlockASTnode []
          [.VariableAssignmentASTnode (.VariableASTnode "a") (.VariableASTnode "a")])
        .null])

/-- The tree of `void f(bool c, int a, float b) \x7b while (c) \x7b a = a; \x7d \x7d`. -/
def voidEndsWithWhile : ASTnode :=
  .FunctionDefASTnode (.FunctionPrototypeASTnode "f" "void" sampleParams)
    (.BlockASTnode []
      [.WhileExprASTnode (.VariableASTnode "c")
        (.BlockASTnode []
          [.VariableAssignmentASTnode (.VariableASTnode "a") (.VariableASTnode "a")])])

/-- The instruction is a return. -/
def Instr.isRet (i : Instr) : Bool :=
  match i.kind with
  | .ret _ => true
  | _ => false

/-- The return instructions of the module, block after block. -/
def CGState.returns (σ : CGState) : List Instr :=
  (σ.blocks.map (fun bb => bb.instrs.filter Instr.isRet)).flatten


/-- The tree of `if (a) \x7b a = a; \x7d`, with the `int` parameter `a` as the condition. -/
def ifOnInt : ASTnode :=
  .IfExprASTnode (.VariableASTnode "a")
    (.BlockASTnode [] [.VariableAssignmentASTnode (.VariableASTnode "a") (.VariableASTnode "a")])
    .null

/-- The tree of `while (b) \x7b a = a; \x7d`, with the `float` parameter `b` as the
condition. -/
def whileOnFloat : ASTnode :=
  .WhileExprASTnode (.VariableASTnode "b")
    (.BlockASTnode [] [.VariableAssignmentASTnode (.VariableASTnode "a") (.VariableASTnode "a")])

/-- The tree of `while (c) \x7b a = a; \x7d`. -/
def whileOnBool : ASTnode :=
  .WhileExprASTnode (.VariableASTnode "c")
    (.BlockASTnode [] [.VariableAssignmentASTnode (.VariableASTnode "a") (.VariableASTnode "a")])

/-- The instructions of block `i`. -/
def CGState.instrsOf (σ : CGState) (i : Nat) : List Instr :=
  ((σ.blocks.get? i).map (fun bb => bb.instrs)).getD []

/-! ### Printing the tree -/

mutual
/-- The virtual function `to_string(ident_level)` of the node classes; `none` when the call
dereferences the null pointer.  `showFloat` gives the text that `oss << Val` prints for the
`float` value of a literal. -/
def to_string (showFloat : String → String) : ASTnode → String → Option String
  | .null, _ => none
  | .IntASTnode Val, ident_level => some (ident_level ++ toString Val)
  | .FloatASTnode lexeme, ident_level => some (ident_level ++ showFloat lexeme)
  | .BoolASTnode Val, ident_level => some (ident_level ++ (if Val then "1" else "0"))
  | .VariableASTnode Name, ident_level => some (ident_level ++ Name)
  | .VariableAssignmentASTnode Variable Val, ident_level =>
    match to_string showFloat Variable (ident_level ++ " |-") with
    | none => none
    | some var =>
      match to_string showFloat Val (ident_level ++ " |-") with
      | none => none
      | some val => some (ident_level ++ "Assigned identifier \n" ++ var ++ "\n" ++ val)
  | .VariableDeclarationASTnode Name Type_, ident_level =>
    some (ident_level ++ "Declared " ++ Type_ ++ " " ++ Name)
  | .BlockASTnode Declarations Statements, ident_level =>
    match to_stringEach showFloat "\n" Declarations (ident_level ++ " |-") with
    | none => none
    | some decls =>
      match to_stringEach showFloat "\n" Statements (ident_level ++ " |-") with
      | none => none
      | some stmts => some (ident_level ++ "Block" ++ decls ++ stmts)
  | .BinaryASTnode Op LHS RHS, ident_level =>
    match to_string showFloat LHS (ident_level ++ " |-") with
    | none => none
    | some lhs =>
      match to_string showFloat RHS (ident_level ++ " |-") with
      | none => none
      | some rhs =>
        some (ident_level ++ "Binary operation" ++ "\n" ++ lhs ++ ("\n" ++ (ident_level ++ " |-")) ++
          Op ++ "\n" ++ rhs)
  | .UnaryASTnode Op Val, ident_level =>
    match to_string showFloat Val (ident_level ++ " |-") with
    | none => none
    | some val => some (ident_level ++ "Unary operation of " ++ Op ++ val)
  | .CallASTnode CallFunc Args, ident_level =>
    match to_stringEach showFloat "\n" Args (ident_level ++ " |-") with
    | none => none
    | some args => some (ident_level ++ "Calling function " ++ CallFunc ++ " with arguments " ++ args)
  | .FunctionParamASTnode Name Type_, ident_level =>
    some ("\n" ++ ident_level ++ "Function parameter " ++ Type_ ++ " " ++ Name)
  | .FunctionPrototypeASTnode Name Type_ Args, ident_level =>
    match to_stringEach showFloat "" Args (ident_level ++ " |-") with
    | none => none
    | some args =>
      some (ident_level ++ "Function Prototype " ++ Type_ ++ " " ++ Name ++ " with parameters " ++ args)
  | .FunctionDefASTnode Prototype Body, ident_level =>
    match to_string showFloat Prototype (ident_level ++ " |-") with
    | none => none
    | some prototype =>
      match to_string showFloat Body (ident_level ++ " |-") with
      | none => none
      | some body => some (ident_level ++ "Function Definition \n" ++ prototype ++ "\n" ++ body)
  | .ExternASTnode Name Type_ Params, ident_level =>
    match to_stringEach showFloat "" Params (ident_level ++ " |-") with
    | none => none
    | some params =>
      some (ident_level ++ "Extern " ++ Type_ ++ " " ++ Name ++ " with parameters" ++ params ++ "\n")
  | .IfExprASTnode Cond Then Else, ident_level =>
    match to_string showFloat Cond (ident_level ++ " |-") with
    | none => none
    | some cond =>
      match to_string showFloat Then (ident_level ++ " |-") with
      | none => none
      | some then_ =>
        if Else.isNull then some (ident_level ++ "If \n" ++ cond ++ "\n" ++ then_)
        else
          match to_string showFloat Else (ident_level ++ " |-") with
          | none => none
          | some else_ => some (ident_level ++ "If \n" ++ cond ++ "\n" ++ then_ ++ "\n" ++ else_)
  | .WhileExprASTnode Cond Then, ident_level =>
    match to_string showFloat Cond (ident_level ++ " |-") with
    | none => none
    | some cond =>
      match to_string showFloat Then (ident_level ++ " |-") with
      | none => none
      | some then_ => some (ident_level ++ "While \n" ++ cond ++ "\n" ++ then_)
  | .ReturnExprASTnode ReturnValue, ident_level =>
    if ReturnValue.isNull then some (ident_level ++ "Return expression")
    else
      match to_string showFloat ReturnValue (ident_level ++ " |-") with
      | none => none
      | some value => some (ident_level ++ "Return expression" ++ "\n" ++ value)
  | .RootASTnode Ext_List Decl_List, ident_level =>
    match to_stringEach showFloat "" Ext_List (ident_level ++ " |-") with
    | none => none
    | some exts =>
      match to_stringEach showFloat "" Decl_List (ident_level ++ " |-") with
      | none => none
      | some decls => some (ident_level ++ "Program root \n" ++ exts ++ decls)
/-- The loops `oss << sep << node->to_string(child_ident_level)` over a vector of nodes. -/
def to_stringEach (showFloat : String → String) (sep : String) :
    List ASTnode → String → Option String
  | [], _ => some ""
  | node :: rest, child_ident_level =>
    match to_string showFloat node child_ident_level with
    | none => none
    | some s =>
      match to_stringEach showFloat sep rest child_ident_level with
      | none => none
      | some more => some (sep ++ s ++ more)
end

/-- The tokens of `int main ( ) \x7b ; return 0 ; \x7d`. -/
def emptyStmtTokens : List TOKEN :=
  [tok INT_TOK "int", tok IDENT "main", tok LPAR "(", tok RPAR ")", tok LBRA "\x7b",
    tok SC ";", tok RETURN "return", tok INT_LIT "0", tok SC ";", tok RBRA "\x7d", eofTOK]

/-- The tree of `int main() \x7b ; return 0; \x7d`: the empty statement is a null pointer in the
statement list. -/
def emptyStmtProgram : ASTnode :=
  .RootASTnode []
    [.FunctionDefASTnode (.FunctionPrototypeASTnode "main" "int" [])
      (.BlockASTnode [] [.null, .ReturnExprASTnode (.IntASTnode 0)])]

/-- The tree of `int main() \x7b return 0; \x7d`. -/
def returnZeroProgram : ASTnode :=
  .RootASTnode []
    [.FunctionDefASTnode (.FunctionPrototypeASTnode "main" "int" [])
      (.BlockASTnode [] [.ReturnExprASTnode (.IntASTnode 0)])]


/-! ### Sample inputs for conversions, redefinitions and recursion -/

/-- The tree of `extern int f(int a); int f() \x7b return 0; \x7d`. -/
def redefineFewer : ASTnode :=
  .RootASTnode [.ExternASTnode "f" "int" [.FunctionParamASTnode "a" "int"]]
    [.FunctionDefASTnode (.FunctionPrototypeASTnode "f" "int" [])
      (.BlockASTnode [] [.ReturnExprASTnode (.IntASTnode 0)])]

/-- The tree of `extern int f(); int f(int a) \x7b return f(a); \x7d`. -/
def redefineMore : ASTnode :=
  .RootASTnode [.ExternASTnode "f" "int" []]
    [.FunctionDefASTnode (.FunctionPrototypeASTnode "f" "int" [.FunctionParamASTnode "a" "int"])
      (.BlockASTnode [] [.ReturnExprASTnode (.CallASTnode "f" [.VariableASTnode "a"])])]

/-- The tree of `int f(int a) \x7b return f(a); \x7d`. -/
def selfCall : ASTnode :=
  .RootASTnode []
    [.FunctionDefASTnode (.FunctionPrototypeASTnode "f" "int" [.FunctionParamASTnode "a" "int"])
      (.BlockASTnode [] [.ReturnExprASTnode (.CallASTnode "f" [.VariableASTnode "a"])])]

/-- The tree of `int main() \x7b return g(); \x7d int g() \x7b return 0; \x7d`. -/
def callsLater : ASTnode :=
  .RootASTnode []
    [.FunctionDefASTnode (.FunctionPrototypeASTnode "main" "int" [])
      (.BlockASTnode [] [.ReturnExprASTnode (.CallASTnode "g" [])]),
     .FunctionDefASTnode (.FunctionPrototypeASTnode "g" "int" [])
      (.BlockASTnode [] [.ReturnExprASTnode (.IntASTnode 0)])]

/-! ### The 32-bit arithmetic of the integer opcodes -/

/-- The result of LLVM's `add`, `sub`, `mul`, `sdiv` and `urem` on two `i32` operands, given and
returned in the signed reading: `sdiv` rounds toward zero, `urem` is the remainder of the
unsigned readings.  `none` where LLVM leaves the result undefined (a zero divisor, the overflow
of `sdiv`) and for the opcodes that are not modelled. -/
def Opcode.evalI32 : Opcode → Int → Int → Option Int
  | .Add, a, b => some (toI32 (a + b))
  | .Sub, a, b => some (toI32 (a - b))
  | .Mul, a, b => some (toI32 (a * b))
  | .SDiv, a, b =>
    if b = 0 ∨ (a = -2147483648 ∧ b = -1) then none else some (toI32 (Int.tdiv a b))
  | .URem, a, b =>
    if b = 0 then none else some (toI32 ((a % 4294967296) % (b % 4294967296)))
  | _, _, _ => none

/-- The signed remainder of the specification for `%`: the remainder of the division that
rounds toward zero (LLVM's `srem`). -/
def sremI32 (a b : Int) : Option Int :=
  if b = 0 ∨ (a = -2147483648 ∧ b = -1) then none else some (toI32 (Int.tmod a b))

/-! ### Invariants of the code generator -/

/-- The instruction is an `alloca`. -/
def InstrKind.isAlloca : InstrKind → Bool
  | .alloca _ => true
  | _ => false

/-- A relation between the states before and after a step that holds for every state change
that the code generator makes: an instruction other than `alloca` at the insertion point, an
`alloca` by `CreateEntryBlockAlloca`, a change of the scope stack, a new insertion point, a new
basic block, a block appended to a function, a new function, a new global variable.  It then
holds for every successful `codegen` call (`codegen_closed`). -/
structure CodegenClosed (R : CGState → CGState → Prop) : Prop where
  stay : ∀ σ, R σ σ
  chain : ∀ σ1 σ2 σ3, R σ1 σ2 → R σ2 σ3 → R σ1 σ3
  emitStep : ∀ σ n k, k.isAlloca = false → R σ (σ.emit n k).2
  allocaStep : ∀ σ σ' f n t a, CreateEntryBlockAlloca f n t σ = .ok (a, σ') → R σ σ'
  framesStep : ∀ (σ : CGState) F, R σ { σ with NamedValuesArray := F }
  insertStep : ∀ (σ : CGState) blk, R σ { σ with insertBlock := some blk }
  blockStep : ∀ σ n p, R σ (σ.createBlock n p).2
  pushStep : ∀ σ σ' f blk u, σ.pushBlock f blk = .ok (u, σ') → R σ σ'
  functionStep : ∀ σ σ' n t args F, createFunction n t args σ = .ok (F, σ') → R σ σ'
  globalStep : ∀ (σ : CGState) n G GV,
    R σ { (σ.uniqueName n).2 with globals := G, GlobalValues := GV }

/-- In the list every `alloca` comes before every other instruction. -/
def allocasFirst (l : List Instr) : Bool :=
  (l.dropWhile (fun i => i.kind.isAlloca)).all (fun i => !i.kind.isAlloca)

/-- The block holds an `alloca`. -/
def BasicBlock.hasAlloca (bb : BasicBlock) : Bool := bb.instrs.any (fun i => i.kind.isAlloca)

/-- Block `i` is the entry block of a function of the module: the first of its blocks. -/
def CGState.isEntry (σ : CGState) (i : Nat) : Bool :=
  σ.functions.any (fun fn => fn.blocks.head? == some i)

/-- The allocations are hoisted: in every basic block every `alloca` comes before every other
instruction, and a block that holds an `alloca` is the entry block of a function. -/
def CGState.Hoisted (σ : CGState) : Prop :=
  ∀ i bb, σ.blocks.get? i = some bb →
    allocasFirst bb.instrs = true ∧ (bb.hasAlloca = true → σ.isEntry i = true)

/-- The tree of `void f(bool c, int a, float b)
\x7b while (c) \x7b int x; x = a; \x7d if (c) \x7b float y; y = b; \x7d \x7d`. -/
def nestedDecls : ASTnode :=
  .FunctionDefASTnode (.FunctionPrototypeASTnode "f" "void" sampleParams)
    (.BlockASTnode []
      [.WhileExprASTnode (.VariableASTnode "c")
        (.BlockASTnode [.VariableDeclarationASTnode "x" "int"]
          [.VariableAssignmentASTnode (.VariableASTnode "x") (.VariableASTnode "a")]),
       .IfExprASTnode (.VariableASTnode "c")
        (.BlockASTnode [.VariableDeclarationASTnode "y" "float"]
          [.VariableAssignmentASTnode (.VariableASTnode "y") (.VariableASTnode "b")])
        .null])

/-- The functions that the module has in `σ` are still found under their names in `σ'`, with
the same arguments. -/
def CGState.Registers (σ σ' : CGState) : Prop :=
  ∀ g fn, σ.getFunction g = some fn →
    ∃ fn', σ'.getFunction g = some fn' ∧ fn'.args = fn.args

/-- The error is a message thrown with `LogErrorV` (and not a fault of the program itself). -/
def CGError.isLog : CGError → Bool
  | .logError _ => true
  | _ => false

/-- The tree of `int f; int f() \x7b return f(); \x7d`. -/
def globalThenSameName : ASTnode :=
  .RootASTnode []
    [.VariableDeclarationASTnode "f" "int",
     .FunctionDefASTnode (.FunctionPrototypeASTnode "f" "int" [])
      (.BlockASTnode [] [.ReturnExprASTnode (.CallASTnode "f" [])])]

/-- The tree is a declaration of the top level as the parser builds it: a variable declaration,
or a function definition whose body has no function definition inside. -/
def ASTnode.isDecl : ASTnode → Bool
  | .VariableDeclarationASTnode _ _ => true
  | .FunctionDefASTnode _ Body => Body.defFree
  | _ => false

/-- The tree of `void f(bool c, int a, float b) \x7b while (c) \x7b if (c) \x7b a = a; \x7d \x7d \x7d
int g;`. -/
def scopesProgram : ASTnode :=
  .RootASTnode []
    [.FunctionDefASTnode (.FunctionPrototypeASTnode "f" "void" sampleParams)
      (.BlockASTnode []
        [.WhileExprASTnode (.VariableASTnode "c")
          (.BlockASTnode []
            [.IfExprASTnode (.VariableASTnode "c")
              (.BlockASTnode []
                [.VariableAssignmentASTnode (.VariableASTnode "a") (.VariableASTnode "a")])
              .null])]),
     .VariableDeclarationASTnode "g" "int"]

/-- The shape of a token by its kind: an `INT_LIT` is a non-empty run of digits, a `FLOAT_LIT` is
two runs of digits, either of which may be empty, around one `.`, and an `EOF_TOK` is either the
token of the end of the input or the token of a NUL byte among the bytes `bs`, the lexer being
left in the state `s1`. -/
def TOKEN.shaped (t : TOKEN) (bs : List Nat) (s1 : LexState) : Prop :=
  (t.type = INT_LIT →
    ∃ ds, ds ≠ [] ∧ (∀ d ∈ ds, isDigitByte d = true) ∧ t.lexeme = lexemeOf ds) ∧
  (t.type = FLOAT_LIT →
    ∃ ds1 ds2, (∀ d ∈ ds1, isDigitByte d = true) ∧ (∀ d ∈ ds2, isDigitByte d = true) ∧
      t.lexeme = lexemeOf (ds1 ++ 46 :: ds2)) ∧
  (t.type = EOF_TOK →
    (t.lexeme = "0" ∧ s1.reads []) ∨ (t.lexeme = lexemeOf [0] ∧ 0 ∈ bs))

/-- The bytes of `void f()\x7breturn .;\x7d`. -/
def loneDotBytes : List Nat :=
  [118, 111, 105, 100, 32, 102, 40, 41, 123, 114, 101, 116, 117, 114, 110, 32, 46, 59, 125]

/-- The tokens of `void f()\x7breturn .;\x7d`. -/
def loneDotTokens : List TOKEN :=
  [tok VOID_TOK "void", tok IDENT "f", tok LPAR "(", tok RPAR ")", tok LBRA "\x7b",
    tok RETURN "return", tok FLOAT_LIT ".", tok SC ";", tok RBRA "\x7d", eofTOK]

/-- The bytes of `int x;`, a NUL byte, `int y;`. -/
def nulBytes : List Nat := [105, 110, 116, 32, 120, 59, 0, 105, 110, 116, 32, 121, 59]

/-- The tokens of `int x;`, a NUL byte, `int y;`: the token of the NUL byte has the kind 0. -/
def nulTokens : List TOKEN :=
  [tok INT_TOK "int", tok IDENT "x", tok SC ";", tok 0 (lexemeOf [0]), tok INT_TOK "int",
    tok IDENT "y", tok SC ";", eofTOK]

/-- The state after `k` calls of `getNextToken`. -/
def advance : Nat → PState → PState
  | 0, st => st
  | k + 1, st => advance k (getNextToken st)

/-- `st.Reaches st1`: the state `st1` is the state `st` after some calls of `getNextToken`, each
of which replaced a current token whose kind is not `EOF_TOK`: between `st` and `st1` the
tokens were taken in the order of the stream, none was skipped and none is left in
`tok_buffer` that was not there. -/
def PState.Reaches (st st1 : PState) : Prop :=
  ∃ k, st1 = advance k st ∧ ∀ i, i < k → (advance i st).CurTok.type ≠ EOF_TOK

/-- The tokens of `int x ;`. -/
def oneDeclTokens : List TOKEN := [tok INT_TOK "int", tok IDENT "x", tok SC ";", eofTOK]

/-! ## Properties -/

theorem ofTokens_cons (t : TOKEN) (ts : List TOKEN) : PState.ofTokens (t :: ts) = ⟨t, [], ts⟩ := rfl

theorem getNextToken_mk_cons (c t : TOKEN) (ts : List TOKEN) :
    getNextToken ⟨c, [], t :: ts⟩ = ⟨t, [], ts⟩ := rfl

theorem isMulTok_iff (t : Int) : isMulTok t = true ↔ binPrec t = 6 := by
  unfold isMulTok binPrec
  simp only [ASTERIX, DIV, MOD, OR, AND, EQ, NE, LE, LT, GE, GT, PLUS, MINUS, Bool.or_eq_true,
    beq_iff_eq]
  split_ifs <;> first | omega | tauto

theorem isAddTok_iff (t : Int) : isAddTok t = true ↔ binPrec t = 5 := by
  unfold isAddTok binPrec
  simp only [ASTERIX, DIV, MOD, OR, AND, EQ, NE, LE, LT, GE, GT, PLUS, MINUS, Bool.or_eq_true,
    beq_iff_eq]
  split_ifs <;> first | omega | tauto

theorem isRelTok_iff (t : Int) : isRelTok t = true ↔ binPrec t = 4 := by
  unfold isRelTok binPrec
  simp only [ASTERIX, DIV, MOD, OR, AND, EQ, NE, LE, LT, GE, GT, PLUS, MINUS, Bool.or_eq_true,
    beq_iff_eq]
  split_ifs <;> first | omega | tauto

theorem isEqTok_iff (t : Int) : isEqTok t = true ↔ binPrec t = 3 := by
  unfold isEqTok binPrec
  simp only [ASTERIX, DIV, MOD, OR, AND, EQ, NE, LE, LT, GE, GT, PLUS, MINUS, Bool.or_eq_true,
    beq_iff_eq]
  split_ifs <;> first | omega | tauto

theorem isAnd_iff (t : Int) : t = -17 ↔ binPrec t = 2 := by
  unfold binPrec
  simp only [ASTERIX, DIV, MOD, OR, AND, EQ, NE, LE, LT, GE, GT, PLUS, MINUS]
  split_ifs <;> first | omega | tauto

theorem isOr_iff (t : Int) : t = -18 ↔ binPrec t = 1 := by
  unfold binPrec
  simp only [ASTERIX, DIV, MOD, OR, AND, EQ, NE, LE, LT, GE, GT, PLUS, MINUS]
  split_ifs <;> first | omega | tauto

theorem binPrec_of_follow (t : Int) (h : isFollowTok t = true) : binPrec t = 0 := by
  unfold isFollowTok at h
  unfold binPrec
  simp only [ASTERIX, DIV, MOD, OR, AND, EQ, NE, LE, LT, GE, GT, PLUS, MINUS, SC, RPAR, COMMA,
    Bool.or_eq_true, beq_iff_eq] at *
  split_ifs <;> omega

theorem binPrec_le_six (t : Int) : binPrec t ≤ 6 := by
  unfold binPrec
  split_ifs <;> omega

/-- Level `k` returns the operand of level `k + 1` when no operator of level `k` follows. -/
theorem level_pass (k : Nat) (hk1 : 1 ≤ k) (hk6 : k ≤ 6) (st st1 : PState) (P : ASTnode)
    (h : Evals (levelParser (k + 1)) st (P, st1)) (hne : binPrec st1.CurTok.type ≠ k) :
    Evals (levelParser k) st (P, st1) := by
  obtain ⟨m, hm⟩ := h
  refine ⟨m + 1, fun n hn => ?_⟩
  obtain ⟨n, rfl⟩ : ∃ i, n = i + 1 := ⟨n - 1, by omega⟩
  have h1 := hm n (by omega)
  interval_cases k <;> simp only [levelParser] at h1 ⊢
  · rw [ParseRval, h1]; simp [isOr_iff, hne]
  · rw [ParseRvalOne, h1]; simp [isAnd_iff, hne]
  · rw [ParseRvalTwo, h1]; simp [isEqTok_iff, hne]
  · rw [ParseRvalThree, h1]; simp [isRelTok_iff, hne]
  · rw [ParseRvalFour, h1]; simp [isAddTok_iff, hne]
  · rw [ParseRvalFive, h1]; simp [isMulTok_iff, hne]

/-- Level `k` hands its operand to the prime production when an operator of level `k` follows. -/
theorem level_enter (k : Nat) (hk1 : 1 ≤ k) (hk6 : k ≤ 6) (st st1 : PState) (P : ASTnode)
    (r : ASTnode × PState)
    (h : Evals (levelParser (k + 1)) st (P, st1)) (hop : binPrec st1.CurTok.type = k)
    (hp : Evals (primeParser k P) st1 r) :
    Evals (levelParser k) st r := by
  obtain ⟨m, hm⟩ := h
  obtain ⟨m2, hm2⟩ := hp
  refine ⟨max m m2 + 1, fun n hn => ?_⟩
  obtain ⟨n, rfl⟩ : ∃ i, n = i + 1 := ⟨n - 1, by omega⟩
  have h1 := hm n (by omega)
  have h2 := hm2 n (by omega)
  interval_cases k <;> simp only [levelParser, primeParser] at h1 h2 ⊢
  · rw [ParseRval, h1]; simp [isOr_iff, hop, h2]
  · rw [ParseRvalOne, h1]; simp [isAnd_iff, hop, h2]
  · rw [ParseRvalTwo, h1]; simp [isEqTok_iff, hop, h2]
  · rw [ParseRvalThree, h1]; simp [isRelTok_iff, hop, h2]
  · rw [ParseRvalFour, h1]; simp [isAddTok_iff, hop, h2]
  · rw [ParseRvalFive, h1]; simp [isMulTok_iff, hop, h2]


/-- The prime production of level `k` builds its node and stops at `;`, `)` or `,`. -/
theorem prime_stop (k : Nat) (hk1 : 1 ≤ k) (hk6 : k ≤ 6) (lhs R : ASTnode) (st st1 : PState)
    (hop : binPrec st.CurTok.type = k)
    (h : Evals (levelParser (k + 1)) (getNextToken st) (R, st1))
    (hf : isFollowTok st1.CurTok.type = true) :
    Evals (primeParser k lhs) st (.BinaryASTnode st.CurTok.lexeme lhs R, st1) := by
  obtain ⟨m, hm⟩ := h
  refine ⟨m + 1, fun n hn => ?_⟩
  obtain ⟨n, rfl⟩ : ∃ i, n = i + 1 := ⟨n - 1, by omega⟩
  have h1 := hm n (by omega)
  interval_cases k <;> simp only [levelParser, primeParser] at h1 ⊢
  · rw [ParseRvalPrime]; simp [isOr_iff, hop, h1, hf]
  · rw [ParseRvalOnePrime]; simp [isAnd_iff, hop, h1, hf]
  · rw [ParseRvalTwoPrime]; simp [isEqTok_iff, hop, h1, hf]
  · rw [ParseRvalThreePrime]; simp [isRelTok_iff, hop, h1, hf]
  · rw [ParseRvalFourPrime]; simp [isAddTok_iff, hop, h1, hf]
  · rw [ParseRvalFivePrime]; simp [isMulTok_iff, hop, h1, hf]

/-- After its own node, the prime production of level `k` hands the node as left operand to the
prime production of the level `j ≤ k` of the operator that follows. -/
theorem prime_delegate (k j : Nat) (hj1 : 1 ≤ j) (hjk : j ≤ k) (hk6 : k ≤ 6)
    (lhs R : ASTnode) (st st1 : PState) (r : ASTnode × PState)
    (hop : binPrec st.CurTok.type = k)
    (h : Evals (levelParser (k + 1)) (getNextToken st) (R, st1))
    (hj : binPrec st1.CurTok.type = j)
    (hp : Evals (primeParser j (.BinaryASTnode st.CurTok.lexeme lhs R)) st1 r) :
    Evals (primeParser k lhs) st r := by
  obtain ⟨m, hm⟩ := h
  obtain ⟨m2, hm2⟩ := hp
  refine ⟨max m m2 + 1, fun n hn => ?_⟩
  obtain ⟨n, rfl⟩ : ∃ i, n = i + 1 := ⟨n - 1, by omega⟩
  have h1 := hm n (by omega)
  have h2 := hm2 n (by omega)
  have hnf : isFollowTok st1.CurTok.type = false := by
    cases hc : isFollowTok st1.CurTok.type
    · rfl
    · have := binPrec_of_follow _ hc
      omega
  interval_cases k <;> interval_cases j <;> simp only [levelParser, primeParser] at h1 h2 ⊢ <;>
    (first
      | rw [ParseRvalPrime]
      | rw [ParseRvalOnePrime]
      | rw [ParseRvalTwoPrime]
      | rw [ParseRvalThreePrime]
      | rw [ParseRvalFourPrime]
      | rw [ParseRvalFivePrime]) <;>
    simp [isOr_iff, isAnd_iff, isEqTok_iff, isRelTok_iff, isAddTok_iff, isMulTok_iff, hop, hj,
      h1, h2, hnf]


theorem getNextToken_ofTokens_cons (o : TOKEN) (ts : List TOKEN) :
    getNextToken (PState.ofTokens (o :: ts)) = PState.ofTokens ts := by
  cases ts <;> rfl

theorem CurTok_ofTokens_cons (o : TOKEN) (ts : List TOKEN) :
    (PState.ofTokens (o :: ts)).CurTok = o := rfl

theorem sees_ofTokens (t : TOKEN) (ts : List TOKEN) : (PState.ofTokens (t :: ts)).sees (t :: ts) :=
  ⟨t, ts, rfl, rfl, rfl⟩

theorem sees_CurTok (st : PState) (t : TOKEN) (ts : List TOKEN) (h : st.sees (t :: ts)) :
    st.CurTok = t := by
  obtain ⟨hd, tl, he, hc, -⟩ := h
  rw [hc]
  exact (List.cons.inj he).1.symm

/-- `getNextToken` moves to the next token in front of the parser, whether it waits in
`tok_buffer` or is still to be lexed. -/
theorem sees_next (st : PState) (o t : TOKEN) (ts : List TOKEN) (h : st.sees (o :: t :: ts)) :
    (getNextToken st).sees (t :: ts) := by
  obtain ⟨hd, tl, he, -, hb⟩ := h
  obtain ⟨-, rfl⟩ := List.cons.inj he
  obtain ⟨c, buf, pend⟩ := st
  cases buf with
  | nil =>
    simp only [List.nil_append] at hb
    subst hb
    exact ⟨t, ts, rfl, rfl, rfl⟩
  | cons b bs =>
    simp only [List.cons_append, List.cons.injEq] at hb
    obtain ⟨rfl, rfl⟩ := hb
    exact ⟨b, bs ++ pend, rfl, rfl, rfl⟩

theorem ne_LPAR_of_binPrec_pos (t : Int) (h : 0 < binPrec t) : t ≠ LPAR := by
  intro hc
  subst hc
  simp [binPrec] at h

theorem ne_LPAR_of_follow (t : Int) (h : isFollowTok t = true) : t ≠ LPAR := by
  intro hc
  subst hc
  simp [isFollowTok] at h

/-- A primary operand is what `ParseRvalSix` returns on it. -/
theorem primary_six (ts : List TOKEN) (P : ASTnode) (hp : IsPrimary ts P) (st : PState)
    (t : TOKEN) (rest : List TOKEN) (hs : st.sees (ts ++ t :: rest)) (ht : t.type ≠ LPAR) :
    ∃ st1, Evals ParseRvalSix st (P, st1) ∧ st1.sees (t :: rest) := by
  obtain ⟨⟨hd, tl, rfl, hty⟩, hev⟩ := hp
  obtain ⟨st1, ⟨m, hm⟩, hs1⟩ := hev t rest ht st hs
  refine ⟨st1, ⟨m + 2, fun n hn => ?_⟩, hs1⟩
  obtain ⟨n, rfl⟩ : ∃ i, n = i + 2 := ⟨n - 2, by omega⟩
  have h1 := hm n (by omega)
  have hcur : st.CurTok = hd := sees_CurTok st hd _ hs
  have hu : isUnaryTok hd.type = false := by
    rcases hty with h | h | h | h <;> simp [isUnaryTok, h]
  have hl : hd.type ≠ LPAR := by
    rcases hty with h | h | h | h <;> simp [h]
  rw [ParseRvalSix]
  simp only [hcur, hu, Bool.false_eq_true, ↓reduceIte]
  rw [ParseRvalSeven]
  simp only [hcur, hl, ↓reduceIte]
  exact h1

/-- An operand passes unchanged through the levels `lo .. lo + d - 1` when the token after it is
no operator of these levels. -/
theorem levels_down (d lo : Nat) (hlo : 1 ≤ lo) (hd : lo + d ≤ 7) (st st1 : PState) (P : ASTnode)
    (h : Evals (levelParser (lo + d)) st (P, st1))
    (hne : ∀ k, lo ≤ k → k < lo + d → binPrec st1.CurTok.type ≠ k) :
    Evals (levelParser lo) st (P, st1) := by
  induction d with
  | zero => simpa using h
  | succ d ih =>
    apply ih (by omega)
    · exact level_pass (lo + d) (by omega) (by omega) st st1 P h (hne _ (by omega) (by omega))
    · intro k h1 h2
      exact hne k h1 (by omega)

/-- Level `k` returns a primary operand when the token after it is an operator below level `k`
or one of `;`, `)`, `,`. -/
theorem operand_level (k : Nat) (hk1 : 1 ≤ k) (hk7 : k ≤ 7) (ts : List TOKEN) (P : ASTnode)
    (hp : IsPrimary ts P) (st : PState) (t : TOKEN) (rest : List TOKEN)
    (hs : st.sees (ts ++ t :: rest)) (ht : t.type ≠ LPAR) (hlt : binPrec t.type < k) :
    ∃ st1, Evals (levelParser k) st (P, st1) ∧ st1.sees (t :: rest) := by
  obtain ⟨st1, h6, hs1⟩ := primary_six ts P hp st t rest hs ht
  refine ⟨st1, ?_, hs1⟩
  obtain ⟨d, hd⟩ : ∃ d, 7 = k + d := ⟨7 - k, by omega⟩
  apply levels_down d k hk1 (by omega)
  · rw [← hd]; exact h6
  · intro j h1 _
    rw [sees_CurTok _ _ _ hs1]
    omega

/-- The prime production of level `k` folds a chain of level-`k` operators with primary operands
into the left-nested tree. -/
theorem chain_prime (k : Nat) (hk1 : 1 ≤ k) (hk6 : k ≤ 6) (T : TOKEN) (rest : List TOKEN)
    (hT : isFollowTok T.type = true) (more : List (TOKEN × List TOKEN × ASTnode)) :
    ∀ (o : TOKEN) (x : List TOKEN) (X lhs : ASTnode) (st : PState),
      (∀ p ∈ (o, x, X) :: more, binPrec p.1.type = k ∧ IsPrimary p.2.1 p.2.2) →
      st.sees (chainTokens ((o, x, X) :: more) ++ T :: rest) →
      ∃ st1, Evals (primeParser k lhs) st (leftNested lhs ((o, x, X) :: more), st1) ∧
        st1.sees (T :: rest) := by
  induction more with
  | nil =>
    intro o x X lhs st hall hs
    obtain ⟨ho, hx⟩ := hall (o, x, X) (by simp)
    obtain ⟨⟨xh, xt, rfl, -⟩, -⟩ := id hx
    simp only [chainTokens, List.append_nil, List.cons_append] at hs
    have hcur := sees_CurTok _ _ _ hs
    obtain ⟨st1, h1, hs1⟩ := operand_level (k + 1) (by omega) (by omega) (xh :: xt) X hx
      (getNextToken st) T rest (sees_next _ _ _ _ hs)
      (ne_LPAR_of_follow _ hT) (by rw [binPrec_of_follow _ hT]; omega)
    refine ⟨st1, ?_, hs1⟩
    have := prime_stop k hk1 hk6 lhs X st st1 (by rw [hcur]; exact ho) h1
      (by rw [sees_CurTok _ _ _ hs1]; exact hT)
    simpa [leftNested, hcur] using this
  | cons q more ih =>
    intro o x X lhs st hall hs
    obtain ⟨o2, x2, X2⟩ := q
    obtain ⟨ho, hx⟩ := hall (o, x, X) (by simp)
    obtain ⟨ho2, -⟩ := hall (o2, x2, X2) (by simp)
    have ho2' : binPrec o2.type = k := ho2
    obtain ⟨⟨xh, xt, rfl, -⟩, -⟩ := id hx
    simp only [chainTokens, List.cons_append, List.append_assoc] at hs
    have hcur := sees_CurTok _ _ _ hs
    obtain ⟨st1, h1, hs1⟩ := operand_level (k + 1) (by omega) (by omega) (xh :: xt) X hx
      (getNextToken st) o2 (x2 ++ (chainTokens more ++ T :: rest))
      (by simpa using sees_next _ _ _ _ hs)
      (ne_LPAR_of_binPrec_pos _ (by omega)) (by omega)
    obtain ⟨st2, h2, hs2⟩ := ih o2 x2 X2 (.BinaryASTnode o.lexeme lhs X) st1
      (fun p hp => hall p (List.mem_cons_of_mem _ hp))
      (by simpa [chainTokens] using hs1)
    refine ⟨st2, ?_, hs2⟩
    have := prime_delegate k k hk1 (le_refl k) hk6 lhs X st st1
      (leftNested lhs ((o, xh :: xt, X) :: (o2, x2, X2) :: more), st2)
      (by rw [hcur]; exact ho) h1 (by rw [sees_CurTok _ _ _ hs1]; exact ho2')
      (by simpa [leftNested, hcur] using h2)
    exact this

/-- An identifier that is not followed by `(` is a primary operand, a variable reference. -/
theorem isPrimary_ident (x : TOKEN) (h : x.type = IDENT) :
    IsPrimary [x] (.VariableASTnode x.lexeme) := by
  refine ⟨⟨x, [], rfl, Or.inl h⟩, fun t rest ht st hs => ?_⟩
  have hcur := sees_CurTok _ _ _ hs
  have hn := sees_next _ _ _ _ hs
  refine ⟨getNextToken st, ⟨1, fun n hn' => ?_⟩, hn⟩
  obtain ⟨n, rfl⟩ : ∃ i, n = i + 1 := ⟨n - 1, by omega⟩
  rw [ParseRvalEight]
  simp only [hcur, h, sees_CurTok _ _ _ hn, ht, ↓reduceIte]

/-- An integer literal whose lexeme `stoi` converts is a primary operand. -/
theorem isPrimary_int (x : TOKEN) (h : x.type = INT_LIT) (v : Int) (hv : stoi x.lexeme = .ok v) :
    IsPrimary [x] (.IntASTnode v) := by
  refine ⟨⟨x, [], rfl, Or.inr (Or.inl h)⟩, fun t rest _ st hs => ?_⟩
  have hcur := sees_CurTok _ _ _ hs
  refine ⟨getNextToken st, ⟨1, fun n hn' => ?_⟩, sees_next _ _ _ _ hs⟩
  obtain ⟨n, rfl⟩ : ∃ i, n = i + 1 := ⟨n - 1, by omega⟩
  rw [ParseRvalEight]
  simp [hcur, h, ParseRvalNine, hv]

/-- A call without arguments `f ( )` is a primary operand. -/
theorem isPrimary_call0 (f l r : TOKEN) (hf : f.type = IDENT) (hl : l.type = LPAR)
    (hr : r.type = RPAR) : IsPrimary [f, l, r] (.CallASTnode f.lexeme []) := by
  refine ⟨⟨f, [l, r], rfl, Or.inl hf⟩, fun t rest _ st hs => ?_⟩
  have hcur := sees_CurTok _ _ _ hs
  have h1 := sees_next _ _ _ _ hs
  have h2 := sees_next _ _ _ _ h1
  have h3 := sees_next _ _ _ _ h2
  refine ⟨_, ⟨2, fun n hn' => ?_⟩, h3⟩
  obtain ⟨n, rfl⟩ : ∃ i, n = i + 2 := ⟨n - 2, by omega⟩
  rw [ParseRvalEight]
  simp only [hcur, hf, sees_CurTok _ _ _ h1, hl, ↓reduceIte]
  rw [ParseArgs]
  simp [sees_CurTok _ _ _ h2, hr, CheckMembership, expr_array]

/-- One operator with a primary right operand, at the end of the expression. -/
theorem binop_stop (k : Nat) (hk1 : 1 ≤ k) (hk6 : k ≤ 6) (lhs : ASTnode) (o : TOKEN)
    (x : List TOKEN) (X : ASTnode) (T : TOKEN) (rest : List TOKEN) (st : PState)
    (ho : binPrec o.type = k) (hx : IsPrimary x X) (hT : isFollowTok T.type = true)
    (hs : st.sees (o :: (x ++ T :: rest))) :
    ∃ st1, Evals (primeParser k lhs) st (.BinaryASTnode o.lexeme lhs X, st1) ∧
      st1.sees (T :: rest) := by
  have := chain_prime k hk1 hk6 T rest hT [] o x X lhs st (by simp [ho, hx])
    (by simpa [chainTokens] using hs)
  simpa [leftNested] using this

/-- The result of a level reaches `ParseRval` when `;`, `)` or `,` follows. -/
theorem level_to_rval (k : Nat) (hk1 : 1 ≤ k) (hk7 : k ≤ 7) (st st1 : PState) (P : ASTnode)
    (h : Evals (levelParser k) st (P, st1)) (hT : isFollowTok st1.CurTok.type = true) :
    Evals ParseRval st (P, st1) := by
  obtain ⟨d, hd⟩ : ∃ d, k = 1 + d := ⟨k - 1, by omega⟩
  have := levels_down d 1 (le_refl 1) (by omega) st st1 P (by rw [← hd]; exact h)
    (fun j h1 _ => by rw [binPrec_of_follow _ hT]; omega)
  simpa [levelParser] using this

/-- Every AST that an expression production returns has every property that the parser's node
constructions preserve. -/
theorem exprs_closed (Q : ASTnode → Prop) (hQ : ParserClosed Q) (n : Nat) :
    (∀ st v st1, ParseExpr n st = .ok (v, st1) → Q v) ∧
    (∀ st v st1, ParseRval n st = .ok (v, st1) → Q v) ∧
    (∀ lhs st v st1, Q lhs → ParseRvalPrime n lhs st = .ok (v, st1) → Q v) ∧
    (∀ st v st1, ParseRvalOne n st = .ok (v, st1) → Q v) ∧
    (∀ lhs st v st1, Q lhs → ParseRvalOnePrime n lhs st = .ok (v, st1) → Q v) ∧
    (∀ st v st1, ParseRvalTwo n st = .ok (v, st1) → Q v) ∧
    (∀ lhs st v st1, Q lhs → ParseRvalTwoPrime n lhs st = .ok (v, st1) → Q v) ∧
    (∀ st v st1, ParseRvalThree n st = .ok (v, st1) → Q v) ∧
    (∀ lhs st v st1, Q lhs → ParseRvalThreePrime n lhs st = .ok (v, st1) → Q v) ∧
    (∀ st v st1, ParseRvalFour n st = .ok (v, st1) → Q v) ∧
    (∀ lhs st v st1, Q lhs → ParseRvalFourPrime n lhs st = .ok (v, st1) → Q v) ∧
    (∀ st v st1, ParseRvalFive n st = .ok (v, st1) → Q v) ∧
    (∀ lhs st v st1, Q lhs → ParseRvalFivePrime n lhs st = .ok (v, st1) → Q v) ∧
    (∀ st v st1, ParseRvalSix n st = .ok (v, st1) → Q v) ∧
    (∀ st v st1, ParseRvalSeven n st = .ok (v, st1) → Q v) ∧
    (∀ st v st1, ParseRvalEight n st = .ok (v, st1) → Q v) ∧
    (∀ st vs st1, ParseArgs n st = .ok (vs, st1) → ∀ a ∈ vs, Q a) ∧
    (∀ st vs st1, ParseArgList n st = .ok (vs, st1) → ∀ a ∈ vs, Q a) ∧
    (∀ args st vs st1, (∀ a ∈ args, Q a) → ParseArgListPrime n args st = .ok (vs, st1) →
      ∀ a ∈ vs, Q a) := by
  induction n with
  | zero =>
    refine ⟨?_, ?_, ?_, ?_, ?_, ?_, ?_, ?_, ?_, ?_, ?_, ?_, ?_, ?_, ?_, ?_, ?_, ?_, ?_⟩
    · intro st v st1 h
      rw [ParseExpr] at h
      cases h
    · intro st v st1 h
      rw [ParseRval] at h
      cases h
    · intro lhs st v st1 _ h
      rw [ParseRvalPrime] at h
      cases h
    · intro st v st1 h
      rw [ParseRvalOne] at h
      cases h
    · intro lhs st v st1 _ h
      rw [ParseRvalOnePrime] at h
      cases h
    · intro st v st1 h
      rw [ParseRvalTwo] at h
      cases h
    · intro lhs st v st1 _ h
      rw [ParseRvalTwoPrime] at h
      cases h
    · intro st v st1 h
      rw [ParseRvalThree] at h
      cases h
    · intro lhs st v st1 _ h
      rw [ParseRvalThreePrime] at h
      cases h
    · intro st v st1 h
      rw [ParseRvalFour] at h
      cases h
    · intro lhs st v st1 _ h
      rw [ParseRvalFourPrime] at h
      cases h
    · intro st v st1 h
      rw [ParseRvalFive] at h
      cases h
    · intro lhs st v st1 _ h
      rw [ParseRvalFivePrime] at h
      cases h
    · intro st v st1 h
      rw [ParseRvalSix] at h
      cases h
    · intro st v st1 h
      rw [ParseRvalSeven] at h
      cases h
    · intro st v st1 h
      rw [ParseRvalEight] at h
      cases h
    · intro st v st1 h
      rw [ParseArgs] at h
      cases h
    · intro st v st1 h
      rw [ParseArgList] at h
      cases h
    · intro args st vs st1 _ h
      rw [ParseArgListPrime] at h
      cases h
  | succ n ih =>
    obtain ⟨iE, iR, iRP, i1, i1P, i2, i2P, i3, i3P, i4, i4P, i5, i5P, i6, i7, i8, iA, iAL, iALP⟩ := ih
    refine ⟨?_, ?_, ?_, ?_, ?_, ?_, ?_, ?_, ?_, ?_, ?_, ?_, ?_, ?_, ?_, ?_, ?_, ?_, ?_⟩
    · intro st v st1 h
      rw [ParseExpr] at h
      split_ifs at h
      · split at h
        · cases h
        · rename_i ptr s heq
          simp only [Except.ok.injEq, Prod.mk.injEq] at h
          rw [← h.1]
          exact hQ.assignNode _ _ (iE _ _ _ heq)
      · exact iR _ _ _ h
      · exact iR _ _ _ h
    · intro st v st1 h
      rw [ParseRval] at h
      split at h
      · cases h
      · rename_i ptr s heq
        have hp := i1 _ _ _ heq
        split_ifs at h
        · exact iRP _ _ _ _ hp h
        · simp only [Except.ok.injEq, Prod.mk.injEq] at h
          rw [← h.1]
          exact hp
    · intro lhs st v st1 hl h
      rw [ParseRvalPrime] at h
      split_ifs at h
      · split at h
        · cases h
        · rename_i rhs s heq
          have hb := hQ.binaryNode st.CurTok.lexeme lhs rhs hl (i1 _ _ _ heq)
          split_ifs at h
          all_goals first
            | exact iRP _ _ _ _ hb h
            | exact i1P _ _ _ _ hb h
            | exact i2P _ _ _ _ hb h
            | exact i3P _ _ _ _ hb h
            | exact i4P _ _ _ _ hb h
            | exact i5P _ _ _ _ hb h
            | (simp only [Except.ok.injEq, Prod.mk.injEq] at h
               rw [← h.1]
               exact hb)
      · simp only [Except.ok.injEq, Prod.mk.injEq] at h
        rw [← h.1]
        exact hQ.nullNode
    · intro st v st1 h
      rw [ParseRvalOne] at h
      split at h
      · cases h
      · rename_i ptr s heq
        have hp := i2 _ _ _ heq
        split_ifs at h
        · exact i1P _ _ _ _ hp h
        · simp only [Except.ok.injEq, Prod.mk.injEq] at h
          rw [← h.1]
          exact hp
    · intro lhs st v st1 hl h
      rw [ParseRvalOnePrime] at h
      split_ifs at h
      · split at h
        · cases h
        · rename_i rhs s heq
          have hb := hQ.binaryNode st.CurTok.lexeme lhs rhs hl (i2 _ _ _ heq)
          split_ifs at h
          all_goals first
            | exact iRP _ _ _ _ hb h
            | exact i1P _ _ _ _ hb h
            | exact i2P _ _ _ _ hb h
            | exact i3P _ _ _ _ hb h
            | exact i4P _ _ _ _ hb h
            | exact i5P _ _ _ _ hb h
            | (simp only [Except.ok.injEq, Prod.mk.injEq] at h
               rw [← h.1]
               exact hb)
      · simp only [Except.ok.injEq, Prod.mk.injEq] at h
        rw [← h.1]
        exact hQ.nullNode
    · intro st v st1 h
      rw [ParseRvalTwo] at h
      split at h
      · cases h
      · rename_i ptr s heq
        have hp := i3 _ _ _ heq
        split_ifs at h
        · exact i2P _ _ _ _ hp h
        · simp only [Except.ok.injEq, Prod.mk.injEq] at h
          rw [← h.1]
          exact hp
    · intro lhs st v st1 hl h
      rw [ParseRvalTwoPrime] at h
      split_ifs at h
      · split at h
        · cases h
        · rename_i rhs s heq
          have hb := hQ.binaryNode st.CurTok.lexeme lhs rhs hl (i3 _ _ _ heq)
          split_ifs at h
          all_goals first
            | exact iRP _ _ _ _ hb h
            | exact i1P _ _ _ _ hb h
            | exact i2P _ _ _ _ hb h
            | exact i3P _ _ _ _ hb h
            | exact i4P _ _ _ _ hb h
            | exact i5P _ _ _ _ hb h
            | (simp only [Except.ok.injEq, Prod.mk.injEq] at h
               rw [← h.1]
               exact hb)
      · simp only [Except.ok.injEq, Prod.mk.injEq] at h
        rw [← h.1]
        exact hQ.nullNode
    · intro st v st1 h
      rw [ParseRvalThree] at h
      split at h
      · cases h
      · rename_i ptr s heq
        have hp := i4 _ _ _ heq
        split_ifs at h
        · exact i3P _ _ _ _ hp h
        · simp only [Except.ok.injEq, Prod.mk.injEq] at h
          rw [← h.1]
          exact hp
    · intro lhs st v st1 hl h
      rw [ParseRvalThreePrime] at h
      split_ifs at h
      · split at h
        · cases h
        · rename_i rhs s heq
          have hb := hQ.binaryNode st.CurTok.lexeme lhs rhs hl (i4 _ _ _ heq)
          split_ifs at h
          all_goals first
            | exact iRP _ _ _ _ hb h
            | exact i1P _ _ _ _ hb h
            | exact i2P _ _ _ _ hb h
            | exact i3P _ _ _ _ hb h
            | exact i4P _ _ _ _ hb h
            | exact i5P _ _ _ _ hb h
            | (simp only [Except.ok.injEq, Prod.mk.injEq] at h
               rw [← h.1]
               exact hb)
      · simp only [Except.ok.injEq, Prod.mk.injEq] at h
        rw [← h.1]
        exact hQ.nullNode
    · intro st v st1 h
      rw [ParseRvalFour] at h
      split at h
      · cases h
      · rename_i ptr s heq
        have hp := i5 _ _ _ heq
        split_ifs at h
        · exact i4P _ _ _ _ hp h
        · simp only [Except.ok.injEq, Prod.mk.injEq] at h
          rw [← h.1]
          exact hp
    · intro lhs st v st1 hl h
      rw [ParseRvalFourPrime] at h
      split_ifs at h
      · split at h
        · cases h
        · rename_i rhs s heq
          have hb := hQ.binaryNode st.CurTok.lexeme lhs rhs hl (i5 _ _ _ heq)
          split_ifs at h
          all_goals first
            | exact iRP _ _ _ _ hb h
            | exact i1P _ _ _ _ hb h
            | exact i2P _ _ _ _ hb h
            | exact i3P _ _ _ _ hb h
            | exact i4P _ _ _ _ hb h
            | exact i5P _ _ _ _ hb h
            | (simp only [Except.ok.injEq, Prod.mk.injEq] at h
               rw [← h.1]
               exact hb)
      · simp only [Except.ok.injEq, Prod.mk.injEq] at h
        rw [← h.1]
        exact hQ.nullNode
    · intro st v st1 h
      rw [ParseRvalFive] at h
      split at h
      · cases h
      · rename_i ptr s heq
        have hp := i6 _ _ _ heq
        split_ifs at h
        · exact i5P _ _ _ _ hp h
        · simp only [Except.ok.injEq, Prod.mk.injEq] at h
          rw [← h.1]
          exact hp
    · intro lhs st v st1 hl h
      rw [ParseRvalFivePrime] at h
      split_ifs at h
      · split at h
        · cases h
        · rename_i rhs s heq
          have hb := hQ.binaryNode st.CurTok.lexeme lhs rhs hl (i6 _ _ _ heq)
          split_ifs at h
          all_goals first
            | exact iRP _ _ _ _ hb h
            | exact i1P _ _ _ _ hb h
            | exact i2P _ _ _ _ hb h
            | exact i3P _ _ _ _ hb h
            | exact i4P _ _ _ _ hb h
            | exact i5P _ _ _ _ hb h
            | (simp only [Except.ok.injEq, Prod.mk.injEq] at h
               rw [← h.1]
               exact hb)
      · simp only [Except.ok.injEq, Prod.mk.injEq] at h
        rw [← h.1]
        exact hQ.nullNode
    · intro st v st1 h
      rw [ParseRvalSix] at h
      split_ifs at h
      · split at h
        · cases h
        · rename_i ptr s heq
          simp only [Except.ok.injEq, Prod.mk.injEq] at h
          rw [← h.1]
          exact hQ.unaryNode _ _ (i6 _ _ _ heq)
      · split at h
        · cases h
        · rename_i ptr s heq
          simp only [Except.ok.injEq, Prod.mk.injEq] at h
          rw [← h.1]
          exact hQ.unaryNode _ _ (i7 _ _ _ heq)
      · exact i7 _ _ _ h
    · intro st v st1 h
      rw [ParseRvalSeven] at h
      split_ifs at h
      · split at h
        · cases h
        · rename_i ptr s heq
          split_ifs at h
          simp only [Except.ok.injEq, Prod.mk.injEq] at h
          rw [← h.1]
          exact iE _ _ _ heq
      · exact i8 _ _ _ h
    · intro st v st1 h
      rw [ParseRvalEight] at h
      split_ifs at h
      · split at h
        · cases h
        · rename_i args s heq
          split_ifs at h
          simp only [Except.ok.injEq, Prod.mk.injEq] at h
          rw [← h.1]
          exact hQ.callNode _ _ (iA _ _ _ heq)
      · simp only [Except.ok.injEq, Prod.mk.injEq] at h
        rw [← h.1]
        exact hQ.varNode _
      · rw [ParseRvalNine] at h
        split_ifs at h
        · split at h
          · cases h
          · simp only [Except.ok.injEq, Prod.mk.injEq] at h
            rw [← h.1]
            exact hQ.intNode _
        · split at h
          · cases h
          · simp only [Except.ok.injEq, Prod.mk.injEq] at h
            rw [← h.1]
            exact hQ.floatNode _
        · simp only [Except.ok.injEq, Prod.mk.injEq] at h
          rw [← h.1]
          exact hQ.boolNode _
    · intro st vs st1 h
      rw [ParseArgs] at h
      split_ifs at h
      · exact iAL _ _ _ h
      · simp only [Except.ok.injEq, Prod.mk.injEq] at h
        rw [← h.1]
        simp
    · intro st vs st1 h
      rw [ParseArgList] at h
      split at h
      · cases h
      · rename_i arg s heq
        exact iALP _ _ _ _ (by simpa using iE _ _ _ heq) h
    · intro args st vs st1 ha h
      rw [ParseArgListPrime] at h
      split_ifs at h
      · split at h
        · cases h
        · rename_i arg s heq
          refine iALP _ _ _ _ ?_ h
          intro a hm
          rcases List.mem_append.mp hm with hm | hm
          · exact ha a hm
          · rw [List.mem_singleton.mp hm]
            exact iE _ _ _ heq
      · simp only [Except.ok.injEq, Prod.mk.injEq] at h
        rw [← h.1]
        exact ha

/-- A local declaration returned by `ParseLocalDecl` has every parser-closed property. -/
theorem localDecl_closed (Q : ASTnode → Prop) (hQ : ParserClosed Q) (st : PState) (v : ASTnode)
    (st1 : PState) (h : ParseLocalDecl st = .ok (v, st1)) : Q v := by
  rw [ParseLocalDecl] at h
  split at h
  · cases h
  · split_ifs at h
    simp only at h
    split_ifs at h
    simp only [Except.ok.injEq, Prod.mk.injEq] at h
    rw [← h.1]
    exact hQ.declNode _ _

/-- Appending a node with the property to a list of nodes with the property. -/
theorem all_append_one (Q : ASTnode → Prop) (l : List ASTnode) (a : ASTnode)
    (hl : ∀ x ∈ l, Q x) (ha : Q a) : ∀ x ∈ l ++ [a], Q x := by
  intro x hm
  rcases List.mem_append.mp hm with hm | hm
  · exact hl x hm
  · rw [List.mem_singleton.mp hm]
    exact ha

/-- The declarations returned by `ParseLocalDeclsPrime` have every parser-closed property. -/
theorem localDeclsPrime_closed (Q : ASTnode → Prop) (hQ : ParserClosed Q) (n : Nat) :
    ∀ acc st vs st1, (∀ a ∈ acc, Q a) → ParseLocalDeclsPrime n acc st = .ok (vs, st1) →
      ∀ a ∈ vs, Q a := by
  induction n with
  | zero =>
    intro acc st vs st1 _ h
    rw [ParseLocalDeclsPrime] at h
    cases h
  | succ n ih =>
    intro acc st vs st1 ha h
    rw [ParseLocalDeclsPrime] at h
    split_ifs at h
    · split at h
      · cases h
      · rename_i d s heq
        exact ih _ _ _ _ (all_append_one Q _ _ ha (localDecl_closed Q hQ _ _ _ heq)) h
    · simp only [Except.ok.injEq, Prod.mk.injEq] at h
      rw [← h.1]
      exact ha

/-- The declarations returned by `ParseLocalDecls` have every parser-closed property. -/
theorem localDecls_closed (Q : ASTnode → Prop) (hQ : ParserClosed Q) (n : Nat) (st : PState)
    (vs : List ASTnode) (st1 : PState) (h : ParseLocalDecls n st = .ok (vs, st1)) :
    ∀ a ∈ vs, Q a := by
  rw [ParseLocalDecls] at h
  split_ifs at h
  split at h
  · cases h
  · rename_i d s heq
    exact localDeclsPrime_closed Q hQ n _ _ _ _
      (by simpa using localDecl_closed Q hQ _ _ _ heq) h

/-- The node returned by `ParseExprStmt` (an expression or the null pointer) has every
parser-closed property. -/
theorem exprStmt_closed (Q : ASTnode → Prop) (hQ : ParserClosed Q) (n : Nat) (st : PState)
    (v : ASTnode) (st1 : PState) (h : ParseExprStmt n st = .ok (v, st1)) : Q v := by
  rw [ParseExprStmt] at h
  split_ifs at h
  · split at h
    · cases h
    · rename_i e s heq
      split_ifs at h
      simp only [Except.ok.injEq, Prod.mk.injEq] at h
      rw [← h.1]
      exact (exprs_closed Q hQ n).1 _ _ _ heq
  · simp only [Except.ok.injEq, Prod.mk.injEq] at h
    rw [← h.1]
    exact hQ.nullNode

/-- The node returned by `ParseReturn` has every parser-closed property. -/
theorem return_closed (Q : ASTnode → Prop) (hQ : ParserClosed Q) (n : Nat) (st : PState)
    (v : ASTnode) (st1 : PState) (h : ParseReturn n st = .ok (v, st1)) : Q v := by
  rw [ParseReturn] at h
  split_ifs at h
  · simp only [Except.ok.injEq, Prod.mk.injEq] at h
    rw [← h.1]
    exact hQ.returnNode _ hQ.nullNode
  · split at h
    · cases h
    · rename_i e s heq
      split_ifs at h
      simp only [Except.ok.injEq, Prod.mk.injEq] at h
      rw [← h.1]
      exact hQ.returnNode _ ((exprs_closed Q hQ n).1 _ _ _ heq)

/-- Every AST that a statement production returns has every parser-closed property, and
`ParseBlock` returns a block node. -/
theorem stmts_closed (Q : ASTnode → Prop) (hQ : ParserClosed Q) (n : Nat) :
    (∀ st v st1, ParseBlock n st = .ok (v, st1) → (∃ ds ss, v = .BlockASTnode ds ss) ∧ Q v) ∧
    (∀ st vs st1, ParseStmtList n st = .ok (vs, st1) → ∀ a ∈ vs, Q a) ∧
    (∀ acc st vs st1, (∀ a ∈ acc, Q a) → ParseStmtListPrime n acc st = .ok (vs, st1) →
      ∀ a ∈ vs, Q a) ∧
    (∀ st v st1, ParseStmt n st = .ok (v, st1) → Q v) ∧
    (∀ st v st1, ParseIf n st = .ok (v, st1) → Q v) ∧
    (∀ st v st1, ParseElse n st = .ok (v, st1) → Q v) ∧
    (∀ st v st1, ParseWhile n st = .ok (v, st1) → Q v) := by
  induction n with
  | zero =>
    refine ⟨?_, ?_, ?_, ?_, ?_, ?_, ?_⟩
    · intro st v st1 h
      rw [ParseBlock] at h
      cases h
    · intro st v st1 h
      rw [ParseStmtList] at h
      cases h
    · intro acc st v st1 _ h
      rw [ParseStmtListPrime] at h
      cases h
    · intro st v st1 h
      rw [ParseStmt] at h
      cases h
    · intro st v st1 h
      rw [ParseIf] at h
      cases h
    · intro st v st1 h
      rw [ParseElse] at h
      cases h
    · intro st v st1 h
      rw [ParseWhile] at h
      cases h
  | succ n ih =>
    obtain ⟨iB, iSL, iSLP, iS, iI, iE, iW⟩ := ih
    refine ⟨?_, ?_, ?_, ?_, ?_, ?_, ?_⟩
    · intro st v st1 h
      rw [ParseBlock] at h
      split_ifs at h
      simp only at h
      split_ifs at h
      · split at h
        · cases h
        · rename_i ds s heq
          split at h
          · cases h
          · rename_i ss s2 heq2
            split_ifs at h
            simp only [Except.ok.injEq, Prod.mk.injEq] at h
            rw [← h.1]
            exact ⟨⟨_, _, rfl⟩, hQ.blockNode _ _ (localDecls_closed Q hQ n _ _ _ heq)
              (iSL _ _ _ heq2)⟩
      · split at h
        · cases h
        · rename_i ss s2 heq2
          split_ifs at h
          simp only [Except.ok.injEq, Prod.mk.injEq] at h
          rw [← h.1]
          exact ⟨⟨_, _, rfl⟩, hQ.blockNode _ _ (by simp) (iSL _ _ _ heq2)⟩
    · intro st vs st1 h
      rw [ParseStmtList] at h
      split at h
      · cases h
      · rename_i s s1 heq
        exact iSLP _ _ _ _ (by simpa using iS _ _ _ heq) h
    · intro acc st vs st1 ha h
      rw [ParseStmtListPrime] at h
      split_ifs at h
      · split at h
        · cases h
        · rename_i s s1 heq
          exact iSLP _ _ _ _ (all_append_one Q _ _ ha (iS _ _ _ heq)) h
      · simp only [Except.ok.injEq, Prod.mk.injEq] at h
        rw [← h.1]
        exact ha
    · intro st v st1 h
      rw [ParseStmt] at h
      split_ifs at h
      · exact exprStmt_closed Q hQ n _ _ _ h
      · exact (iB _ _ _ h).2
      · exact iI _ _ _ h
      · exact iW _ _ _ h
      · exact return_closed Q hQ n _ _ _ h
    · intro st v st1 h
      rw [ParseIf] at h
      simp only at h
      split_ifs at h
      split at h
      · cases h
      · rename_i c s heq
        split_ifs at h
        split at h
        · cases h
        · rename_i b s2 heq2
          split at h
          · cases h
          · rename_i e s3 heq3
            simp only [Except.ok.injEq, Prod.mk.injEq] at h
            rw [← h.1]
            obtain ⟨⟨ds, ss, hb⟩, hqb⟩ := iB _ _ _ heq2
            subst hb
            exact hQ.ifNode _ _ _ _ ((exprs_closed Q hQ n).1 _ _ _ heq) hqb (iE _ _ _ heq3)
    · intro st v st1 h
      rw [ParseElse] at h
      split_ifs at h
      · exact (iB _ _ _ h).2
      · simp only [Except.ok.injEq, Prod.mk.injEq] at h
        rw [← h.1]
        exact hQ.nullNode
    · intro st v st1 h
      rw [ParseWhile] at h
      simp only at h
      split_ifs at h
      split at h
      · cases h
      · rename_i c s heq
        split_ifs at h
        split at h
        · cases h
        · rename_i b s2 heq2
          simp only [Except.ok.injEq, Prod.mk.injEq] at h
          rw [← h.1]
          exact hQ.whileNode _ _ ((exprs_closed Q hQ n).1 _ _ _ heq) (iS _ _ _ heq2)

/-- The node returned by `ParseParam` has every parser-closed property. -/
theorem param_closed (Q : ASTnode → Prop) (hQ : ParserClosed Q) (st : PState) (v : ASTnode)
    (st1 : PState) (h : ParseParam st = .ok (v, st1)) : Q v := by
  rw [ParseParam] at h
  split at h
  · cases h
  · split_ifs at h
    simp only [Except.ok.injEq, Prod.mk.injEq] at h
    rw [← h.1]
    exact hQ.paramNode _ _

/-- The parameters returned by `ParseParamListPrime` have every parser-closed property. -/
theorem paramListPrime_closed (Q : ASTnode → Prop) (hQ : ParserClosed Q) (n : Nat) :
    ∀ acc st vs st1, (∀ a ∈ acc, Q a) → ParseParamListPrime n acc st = .ok (vs, st1) →
      ∀ a ∈ vs, Q a := by
  induction n with
  | zero =>
    intro acc st vs st1 _ h
    rw [ParseParamListPrime] at h
    cases h
  | succ n ih =>
    intro acc st vs st1 ha h
    rw [ParseParamListPrime] at h
    split_ifs at h
    · split at h
      · cases h
      · rename_i d s heq
        exact ih _ _ _ _ (all_append_one Q _ _ ha (param_closed Q hQ _ _ _ heq)) h
    · simp only [Except.ok.injEq, Prod.mk.injEq] at h
      rw [← h.1]
      exact ha

/-- The parameters returned by `ParseParams` have every parser-closed property. -/
theorem params_closed (Q : ASTnode → Prop) (hQ : ParserClosed Q) (n : Nat) (st : PState)
    (vs : List ASTnode) (st1 : PState) (h : ParseParams n st = .ok (vs, st1)) :
    ∀ a ∈ vs, Q a := by
  rw [ParseParams] at h
  split_ifs at h
  · rw [ParseParamList] at h
    split at h
    · cases h
    · rename_i d s heq
      exact paramListPrime_closed Q hQ n _ _ _ _
        (by simpa using param_closed Q hQ _ _ _ heq) h
  · simp only [Except.ok.injEq, Prod.mk.injEq] at h
    rw [← h.1]
    simpa using hQ.paramNode _ _
  · simp only [Except.ok.injEq, Prod.mk.injEq] at h
    rw [← h.1]
    simp

/-- The node returned by `ParseExtern` has every parser-closed property. -/
theorem extern_closed (Q : ASTnode → Prop) (hQ : ParserClosed Q) (n : Nat) (st : PState)
    (v : ASTnode) (st1 : PState) (h : ParseExtern n st = .ok (v, st1)) : Q v := by
  rw [ParseExtern] at h
  split at h
  · cases h
  · split_ifs at h
    simp only at h
    split_ifs at h
    split at h
    · cases h
    · rename_i ps s heq
      split_ifs at h
      simp only [Except.ok.injEq, Prod.mk.injEq] at h
      rw [← h.1]
      exact hQ.externNode _ _ _ (params_closed Q hQ n _ _ _ heq)

/-- The nodes returned by `ParseExternListPrime` have every parser-closed property. -/
theorem externListPrime_closed (Q : ASTnode → Prop) (hQ : ParserClosed Q) (n : Nat) :
    ∀ acc st vs st1, (∀ a ∈ acc, Q a) → ParseExternListPrime n acc st = .ok (vs, st1) →
      ∀ a ∈ vs, Q a := by
  induction n with
  | zero =>
    intro acc st vs st1 _ h
    rw [ParseExternListPrime] at h
    cases h
  | succ n ih =>
    intro acc st vs st1 ha h
    rw [ParseExternListPrime] at h
    split_ifs at h
    · split at h
      · cases h
      · rename_i d s heq
        exact ih _ _ _ _ (all_append_one Q _ _ ha (extern_closed Q hQ n _ _ _ heq)) h
    · simp only [Except.ok.injEq, Prod.mk.injEq] at h
      rw [← h.1]
      exact ha

/-- The node returned by `ParseVarFunDecl` (a function definition or the null pointer) has
every parser-closed property. -/
theorem varFunDecl_closed (Q : ASTnode → Prop) (hQ : ParserClosed Q) (n : Nat)
    (type identifier : String) (st : PState) (v : ASTnode) (st1 : PState)
    (h : ParseVarFunDecl n type identifier st = .ok (v, st1)) : Q v := by
  rw [ParseVarFunDecl] at h
  split_ifs at h
  · split at h
    · cases h
    · rename_i ps s heq
      split_ifs at h
      split at h
      · cases h
      · rename_i b s2 heq2
        simp only [Except.ok.injEq, Prod.mk.injEq] at h
        rw [← h.1]
        obtain ⟨⟨ds, ss, hb⟩, hqb⟩ := (stmts_closed Q hQ n).1 _ _ _ heq2
        subst hb
        exact hQ.funcNode _ _ _ _ _ (params_closed Q hQ n _ _ _ heq) hqb
  · simp only [Except.ok.injEq, Prod.mk.injEq] at h
    rw [← h.1]
    exact hQ.nullNode

/-- The node returned by `ParseDecl` has every parser-closed property. -/
theorem decl_closed (Q : ASTnode → Prop) (hQ : ParserClosed Q) (n : Nat) (st : PState)
    (v : ASTnode) (st1 : PState) (h : ParseDecl n st = .ok (v, st1)) : Q v := by
  rw [ParseDecl] at h
  split_ifs at h
  · rw [ParseVoidFunDecl] at h
    simp only at h
    split_ifs at h
    split at h
    · cases h
    · rename_i ps s heq
      split_ifs at h
      split at h
      · cases h
      · rename_i b s2 heq2
        simp only [Except.ok.injEq, Prod.mk.injEq] at h
        rw [← h.1]
        obtain ⟨⟨ds, ss, hb⟩, hqb⟩ := (stmts_closed Q hQ n).1 _ _ _ heq2
        subst hb
        exact hQ.funcNode _ _ _ _ _ (params_closed Q hQ n _ _ _ heq) hqb
  · rw [ParseTypeNameDecl] at h
    split at h
    · cases h
    · split_ifs at h
      split at h
      · cases h
      · simp only [Except.ok.injEq, Prod.mk.injEq] at h
        rw [← h.1]
        exact hQ.declNode _ _
      · rename_i f s2 hnn heq2
        simp only [Except.ok.injEq, Prod.mk.injEq] at h
        rw [← h.1]
        exact varFunDecl_closed Q hQ n _ _ _ _ _ heq2

/-- The nodes returned by `ParseDeclListPrime` have every parser-closed property. -/
theorem declListPrime_closed (Q : ASTnode → Prop) (hQ : ParserClosed Q) (n : Nat) :
    ∀ acc st vs st1, (∀ a ∈ acc, Q a) → ParseDeclListPrime n acc st = .ok (vs, st1) →
      ∀ a ∈ vs, Q a := by
  induction n with
  | zero =>
    intro acc st vs st1 _ h
    rw [ParseDeclListPrime] at h
    cases h
  | succ n ih =>
    intro acc st vs st1 ha h
    rw [ParseDeclListPrime] at h
    split_ifs at h
    · simp only [Except.ok.injEq, Prod.mk.injEq] at h
      rw [← h.1]
      exact ha
    · split at h
      · cases h
      · rename_i d s heq
        exact ih _ _ _ _ (all_append_one Q _ _ ha (decl_closed Q hQ n _ _ _ heq)) h

/-- The nodes returned by `ParseDeclList` have every parser-closed property. -/
theorem declList_closed (Q : ASTnode → Prop) (hQ : ParserClosed Q) (n : Nat) (st : PState)
    (vs : List ASTnode) (st1 : PState) (h : ParseDeclList n st = .ok (vs, st1)) :
    ∀ a ∈ vs, Q a := by
  rw [ParseDeclList] at h
  split at h
  · cases h
  · rename_i d s heq
    exact declListPrime_closed Q hQ n _ _ _ _ (by simpa using decl_closed Q hQ n _ _ _ heq) h

/-- Every AST that `parser` returns has every property that the parser's node constructions
preserve. -/
theorem parser_closed (Q : ASTnode → Prop) (hQ : ParserClosed Q) (n : Nat) (st : PState)
    (v : ASTnode) (st1 : PState) (h : parser n st = .ok (v, st1)) : Q v := by
  rw [parser] at h
  split_ifs at h
  · rw [ParseProgram] at h
    split_ifs at h
    · split at h
      · cases h
      · rename_i es s heq
        split at h
        · cases h
        · rename_i ds s2 heq2
          simp only [Except.ok.injEq, Prod.mk.injEq] at h
          rw [← h.1]
          refine hQ.rootNode _ _ ?_ (declList_closed Q hQ n _ _ _ heq2)
          rw [ParseExternList] at heq
          split at heq
          · cases heq
          · rename_i e s3 heq3
            exact externListPrime_closed Q hQ n _ _ _ _
              (by simpa using extern_closed Q hQ n _ _ _ heq3) heq
    · split at h
      · cases h
      · rename_i ds s2 heq2
        simp only [Except.ok.injEq, Prod.mk.injEq] at h
        rw [← h.1]
        exact hQ.rootNode _ _ (by simp) (declList_closed Q hQ n _ _ _ heq2)
  · simp only [Except.ok.injEq, Prod.mk.injEq] at h
    rw [← h.1]
    exact hQ.nullNode

/-- A list of nodes has `targetsOkList` when each node has `targetsOk`. -/
theorem targetsOkList_of_all (l : List ASTnode) (h : ∀ a ∈ l, a.targetsOk = true) :
    targetsOkList l = true := by
  induction l with
  | nil => simp [targetsOkList]
  | cons a as ih =>
    simp only [targetsOkList, Bool.and_eq_true]
    exact ⟨h a (by simp), ih (fun x hx => h x (by simp [hx]))⟩

/-- A list of nodes has `ifThenOkList` when each node has `ifThenOk`. -/
theorem ifThenOkList_of_all (l : List ASTnode) (h : ∀ a ∈ l, a.ifThenOk = true) :
    ifThenOkList l = true := by
  induction l with
  | nil => simp [ifThenOkList]
  | cons a as ih =>
    simp only [ifThenOkList, Bool.and_eq_true]
    exact ⟨h a (by simp), ih (fun x hx => h x (by simp [hx]))⟩

/-- The parser's node constructions preserve `targetsOk`. -/
theorem targetsOk_closed : ParserClosed (fun v => v.targetsOk = true) where
  nullNode := by simp [ASTnode.targetsOk]
  intNode := by simp [ASTnode.targetsOk]
  floatNode := by simp [ASTnode.targetsOk]
  boolNode := by simp [ASTnode.targetsOk]
  varNode := by simp [ASTnode.targetsOk]
  assignNode := by
    intro s v h
    simp [ASTnode.targetsOk, ASTnode.isVarRef, h]
  binaryNode := by
    intro op l r hl hr
    simp [ASTnode.targetsOk, hl, hr]
  unaryNode := by
    intro op v h
    simp [ASTnode.targetsOk, h]
  callNode := by
    intro f args h
    simp [ASTnode.targetsOk, targetsOkList_of_all _ h]
  declNode := by simp [ASTnode.targetsOk]
  blockNode := by
    intro ds ss h1 h2
    simp [ASTnode.targetsOk, targetsOkList_of_all _ h1, targetsOkList_of_all _ h2]
  ifNode := by
    intro c ds ss e h1 h2 h3
    simp only [ASTnode.targetsOk, Bool.and_eq_true] at h2 ⊢
    exact ⟨⟨h1, h2⟩, h3⟩
  whileNode := by
    intro c b h1 h2
    simp [ASTnode.targetsOk, h1, h2]
  returnNode := by
    intro v h
    simp [ASTnode.targetsOk, h]
  paramNode := by simp [ASTnode.targetsOk]
  funcNode := by
    intro n t ps ds ss h1 h2
    simp only [ASTnode.targetsOk, Bool.and_eq_true] at h2 ⊢
    exact ⟨targetsOkList_of_all _ h1, h2⟩
  externNode := by
    intro n t ps h
    simp [ASTnode.targetsOk, targetsOkList_of_all _ h]
  rootNode := by
    intro es ds h1 h2
    simp [ASTnode.targetsOk, targetsOkList_of_all _ h1, targetsOkList_of_all _ h2]

/-- The parser's node constructions preserve `ifThenOk`. -/
theorem ifThenOk_closed : ParserClosed (fun v => v.ifThenOk = true) where
  nullNode := by simp [ASTnode.ifThenOk]
  intNode := by simp [ASTnode.ifThenOk]
  floatNode := by simp [ASTnode.ifThenOk]
  boolNode := by simp [ASTnode.ifThenOk]
  varNode := by simp [ASTnode.ifThenOk]
  assignNode := by
    intro s v h
    simp [ASTnode.ifThenOk, h]
  binaryNode := by
    intro op l r hl hr
    simp [ASTnode.ifThenOk, hl, hr]
  unaryNode := by
    intro op v h
    simp [ASTnode.ifThenOk, h]
  callNode := by
    intro f args h
    simp [ASTnode.ifThenOk, ifThenOkList_of_all _ h]
  declNode := by simp [ASTnode.ifThenOk]
  blockNode := by
    intro ds ss h1 h2
    simp [ASTnode.ifThenOk, ifThenOkList_of_all _ h1, ifThenOkList_of_all _ h2]
  ifNode := by
    intro c ds ss e h1 h2 h3
    simp only [ASTnode.ifThenOk, Bool.and_eq_true] at h2 ⊢
    exact ⟨⟨⟨rfl, h1⟩, h2⟩, h3⟩
  whileNode := by
    intro c b h1 h2
    simp [ASTnode.ifThenOk, h1, h2]
  returnNode := by
    intro v h
    simp [ASTnode.ifThenOk, h]
  paramNode := by simp [ASTnode.ifThenOk]
  funcNode := by
    intro n t ps ds ss h1 h2
    simp only [ASTnode.ifThenOk, Bool.and_eq_true] at h2 ⊢
    exact ⟨ifThenOkList_of_all _ h1, h2⟩
  externNode := by
    intro n t ps h
    simp [ASTnode.ifThenOk, ifThenOkList_of_all _ h]
  rootNode := by
    intro es ds h1 h2
    simp [ASTnode.ifThenOk, ifThenOkList_of_all _ h1, ifThenOkList_of_all _ h2]

/-- **C2** (precedence).  For primary operands `a`, `b`, `c` with ASTs `A`, `B`, `C`, binary
operators `lo` and `hi` with `hi` of a strictly higher level of the operator table than `lo`, and
a following token `T` among `;`, `)`, `,`: `ParseRval` parses `a lo b hi c` to
`Binary(lo, A, Binary(hi, B, C))` and `a hi b lo c` to `Binary(lo, Binary(hi, A, B), C)`, and
stops at `T`. -/
theorem parse_precedence_three_operands (a b c : List TOKEN) (A B C : ASTnode)
    (lo hi T : TOKEN) (rest : List TOKEN)
    (ha : IsPrimary a A) (hb : IsPrimary b B) (hc : IsPrimary c C)
    (hlo : 1 ≤ binPrec lo.type) (hlt : binPrec lo.type < binPrec hi.type)
    (hT : isFollowTok T.type = true) :
    Parses ParseRval (a ++ lo :: (b ++ hi :: (c ++ T :: rest)))
        (.BinaryASTnode lo.lexeme A (.BinaryASTnode hi.lexeme B C)) (T :: rest) ∧
    Parses ParseRval (a ++ hi :: (b ++ lo :: (c ++ T :: rest)))
        (.BinaryASTnode lo.lexeme (.BinaryASTnode hi.lexeme A B) C) (T :: rest) := by
  have hj6 := binPrec_le_six hi.type
  have hloP := ne_LPAR_of_binPrec_pos lo.type (by omega)
  have hhiP := ne_LPAR_of_binPrec_pos hi.type (by omega)
  obtain ⟨⟨bh, bt, rfl, -⟩, -⟩ := id hb
  constructor
  · -- the right operand of `lo` is read by level `binPrec lo + 1`, which folds `b hi c`
    intro st hs
    obtain ⟨s1, hA, hs1⟩ := operand_level (binPrec lo.type + 1) (by omega) (by omega) a A ha st
      lo _ hs hloP (by omega)
    have hc1 := sees_CurTok _ _ _ hs1
    obtain ⟨s2, hB, hs2⟩ := operand_level (binPrec hi.type + 1) (by omega) (by omega) _ B hb
      (getNextToken s1) hi _ (sees_next _ _ _ _ hs1) hhiP (by omega)
    have hc2 := sees_CurTok _ _ _ hs2
    obtain ⟨s3, hP, hs3⟩ := binop_stop (binPrec hi.type) (by omega) hj6 B hi c C T rest s2 rfl hc
      hT hs2
    have hc3 := sees_CurTok _ _ _ hs3
    have hJ := level_enter (binPrec hi.type) (by omega) hj6 _ _ B _ hB (by rw [hc2]) hP
    obtain ⟨d, hd⟩ : ∃ d, binPrec hi.type = binPrec lo.type + 1 + d :=
      ⟨binPrec hi.type - (binPrec lo.type + 1), by omega⟩
    have hI := levels_down d (binPrec lo.type + 1) (by omega) (by omega) _ _ _
      (by rw [← hd]; exact hJ)
      (fun j _ _ => by rw [hc3, binPrec_of_follow _ hT]; omega)
    have hS := prime_stop (binPrec lo.type) hlo (by omega) A (.BinaryASTnode hi.lexeme B C)
      s1 s3 (by rw [hc1]) hI (by rw [hc3]; exact hT)
    rw [hc1] at hS
    have hL := level_enter (binPrec lo.type) hlo (by omega) _ _ A _ hA (by rw [hc1]) hS
    exact ⟨s3, level_to_rval _ hlo (by omega) _ _ _ hL (by rw [hc3]; exact hT), hs3⟩
  · -- the prime production of `hi` hands `Binary(hi, A, B)` to the prime production of `lo`
    intro st hs
    obtain ⟨s1, hA, hs1⟩ := operand_level (binPrec hi.type + 1) (by omega) (by omega) a A ha st
      hi _ hs hhiP (by omega)
    have hc1 := sees_CurTok _ _ _ hs1
    obtain ⟨s2, hB, hs2⟩ := operand_level (binPrec hi.type + 1) (by omega) (by omega) _ B hb
      (getNextToken s1) lo _ (sees_next _ _ _ _ hs1) hloP (by omega)
    have hc2 := sees_CurTok _ _ _ hs2
    obtain ⟨s3, hP, hs3⟩ := binop_stop (binPrec lo.type) hlo (by omega)
      (.BinaryASTnode hi.lexeme A B) lo c C T rest s2 rfl hc hT hs2
    have hc3 := sees_CurTok _ _ _ hs3
    have hD := prime_delegate (binPrec hi.type) (binPrec lo.type) hlo (by omega) hj6 A B
      s1 s2 (.BinaryASTnode lo.lexeme (.BinaryASTnode hi.lexeme A B) C, s3) (by rw [hc1]) hB
      (by rw [hc2]) (by rw [hc1]; exact hP)
    have hL := level_enter (binPrec hi.type) (by omega) hj6 _ _ A _ hA (by rw [hc1]) hD
    exact ⟨s3, level_to_rval _ (by omega) (by omega) _ _ _ hL (by rw [hc3]; exact hT), hs3⟩

/-- Witness of C2: `1 + 2 * 3 ;` and `1 * 2 + 3 ;`. -/
theorem parse_precedence_three_operands_witness :
    Parses ParseRval
        [tok INT_LIT "1", tok PLUS "+", tok INT_LIT "2", tok ASTERIX "*", tok INT_LIT "3",
          tok SC ";"]
        (.BinaryASTnode "+" (.IntASTnode 1) (.BinaryASTnode "*" (.IntASTnode 2) (.IntASTnode 3)))
        [tok SC ";"] ∧
    Parses ParseRval
        [tok INT_LIT "1", tok ASTERIX "*", tok INT_LIT "2", tok PLUS "+", tok INT_LIT "3",
          tok SC ";"]
        (.BinaryASTnode "+" (.BinaryASTnode "*" (.IntASTnode 1) (.IntASTnode 2)) (.IntASTnode 3))
        [tok SC ";"] :=
  parse_precedence_three_operands [tok INT_LIT "1"] [tok INT_LIT "2"] [tok INT_LIT "3"]
    (.IntASTnode 1) (.IntASTnode 2) (.IntASTnode 3) (tok PLUS "+") (tok ASTERIX "*") (tok SC ";") []
    (isPrimary_int _ rfl 1 rfl) (isPrimary_int _ rfl 2 rfl)
    (isPrimary_int _ rfl 3 rfl) (by decide) (by decide) (by decide)

/-- **C3** (left associativity).  For `n ≥ 2` primary operands `x1 .. xn` joined by operators
`o1 .. o(n-1)` that all belong to one level `k` of the operator table, followed by a token `T`
among `;`, `)`, `,`: `ParseRval` parses `x1 o1 x2 ... o(n-1) xn` to the left-nested tree
`Binary(o(n-1), ... Binary(o2, Binary(o1, X1, X2), X3) ..., Xn)` and stops at `T`.  The chain
lists the pairs `(o1, x2), ..., (o(n-1), xn)` with the AST of each operand. -/
theorem parse_left_assoc_chain (k : Nat) (x1 : List TOKEN) (X1 : ASTnode)
    (chain : List (TOKEN × List TOKEN × ASTnode)) (T : TOKEN) (rest : List TOKEN)
    (hk : 1 ≤ k) (h1 : IsPrimary x1 X1) (hne : chain ≠ [])
    (hall : ∀ p ∈ chain, binPrec p.1.type = k ∧ IsPrimary p.2.1 p.2.2)
    (hT : isFollowTok T.type = true) :
    Parses ParseRval (x1 ++ (chainTokens chain ++ T :: rest)) (leftNested X1 chain)
      (T :: rest) := by
  obtain ⟨⟨o, x, X⟩, more, rfl⟩ := List.exists_cons_of_ne_nil hne
  have ho : binPrec o.type = k := (hall (o, x, X) (by simp)).1
  have hk6 : k ≤ 6 := ho ▸ binPrec_le_six o.type
  intro st hs
  obtain ⟨s1, hA, hs1⟩ := operand_level (k + 1) (by omega) (by omega) x1 X1 h1 st o
    (x ++ chainTokens more ++ T :: rest) (by simpa [chainTokens] using hs)
    (ne_LPAR_of_binPrec_pos _ (by omega)) (by omega)
  obtain ⟨s2, hC, hs2⟩ := chain_prime k hk hk6 T rest hT more o x X X1 s1 hall
    (by simpa [chainTokens] using hs1)
  have hL := level_enter k hk hk6 st s1 X1 _ hA (by rw [sees_CurTok _ _ _ hs1]; exact ho) hC
  exact ⟨s2, level_to_rval k hk (by omega) _ _ _ hL (by rw [sees_CurTok _ _ _ hs2]; exact hT),
    hs2⟩

/-- Witness of C3: `a - b - c ;` gives `((a-b)-c)` and `a == b == c ;` gives
`Binary("==", Binary("==", a, b), c)`. -/
theorem parse_left_assoc_chain_witness :
    Parses ParseRval
        [tok IDENT "a", tok MINUS "-", tok IDENT "b", tok MINUS "-", tok IDENT "c", tok SC ";"]
        (.BinaryASTnode "-" (.BinaryASTnode "-" (.VariableASTnode "a") (.VariableASTnode "b"))
          (.VariableASTnode "c")) [tok SC ";"] ∧
    Parses ParseRval
        [tok IDENT "a", tok EQ "==", tok IDENT "b", tok EQ "==", tok IDENT "c", tok SC ";"]
        (.BinaryASTnode "==" (.BinaryASTnode "==" (.VariableASTnode "a") (.VariableASTnode "b"))
          (.VariableASTnode "c")) [tok SC ";"] := by
  constructor
  · exact parse_left_assoc_chain 5 [tok IDENT "a"] (.VariableASTnode "a")
      [(tok MINUS "-", [tok IDENT "b"], .VariableASTnode "b"),
       (tok MINUS "-", [tok IDENT "c"], .VariableASTnode "c")] (tok SC ";") [] (by decide)
      (isPrimary_ident (tok IDENT "a") rfl) (by simp)
      (by
        intro p hp
        simp only [List.mem_cons, List.mem_singleton, List.not_mem_nil, or_false] at hp
        rcases hp with rfl | rfl
        · exact ⟨by decide, isPrimary_ident (tok IDENT "b") rfl⟩
        · exact ⟨by decide, isPrimary_ident (tok IDENT "c") rfl⟩)
      (by decide)
  · exact parse_left_assoc_chain 3 [tok IDENT "a"] (.VariableASTnode "a")
      [(tok EQ "==", [tok IDENT "b"], .VariableASTnode "b"),
       (tok EQ "==", [tok IDENT "c"], .VariableASTnode "c")] (tok SC ";") [] (by decide)
      (isPrimary_ident (tok IDENT "a") rfl) (by simp)
      (by
        intro p hp
        simp only [List.mem_cons, List.mem_singleton, List.not_mem_nil, or_false] at hp
        rcases hp with rfl | rfl
        · exact ⟨by decide, isPrimary_ident (tok IDENT "b") rfl⟩
        · exact ⟨by decide, isPrimary_ident (tok IDENT "c") rfl⟩)
      (by decide)

/-- What the prime productions do with `a p b q c r d`, where `q` binds tighter than `p` and `r`
does not bind tighter than `q`: the prime production of `q` is running inside the right operand
of `p` when it hands `Binary(q, B, C)` to the prime production of `r`, so the node of `r` ends
up as the right operand of `p`. -/
theorem delegation_nests_right (a b c d : List TOKEN) (A B C D : ASTnode)
    (p q r T : TOKEN) (rest : List TOKEN)
    (ha : IsPrimary a A) (hb : IsPrimary b B) (hc : IsPrimary c C) (hd : IsPrimary d D)
    (hp : 1 ≤ binPrec p.type) (hpq : binPrec p.type < binPrec q.type)
    (hr : 1 ≤ binPrec r.type) (hrq : binPrec r.type ≤ binPrec q.type)
    (hT : isFollowTok T.type = true) :
    Parses ParseRval (a ++ p :: (b ++ q :: (c ++ r :: (d ++ T :: rest))))
      (.BinaryASTnode p.lexeme A (.BinaryASTnode r.lexeme (.BinaryASTnode q.lexeme B C) D))
      (T :: rest) := by
  have hq6 := binPrec_le_six q.type
  have hpP := ne_LPAR_of_binPrec_pos p.type (by omega)
  have hqP := ne_LPAR_of_binPrec_pos q.type (by omega)
  have hrP := ne_LPAR_of_binPrec_pos r.type (by omega)
  obtain ⟨⟨bh, bt, rfl, -⟩, -⟩ := id hb
  obtain ⟨⟨ch, ct, rfl, -⟩, -⟩ := id hc
  intro st hs
  obtain ⟨s1, hA, hs1⟩ := operand_level (binPrec p.type + 1) (by omega) (by omega) a A ha st
    p _ hs hpP (by omega)
  have hc1 := sees_CurTok _ _ _ hs1
  -- inside the right operand of `p`: level `binPrec q` reads `b q c r d`
  obtain ⟨s2, hB, hs2⟩ := operand_level (binPrec q.type + 1) (by omega) (by omega) _ B hb
    (getNextToken s1) q _ (sees_next _ _ _ _ hs1) hqP (by omega)
  have hc2 := sees_CurTok _ _ _ hs2
  obtain ⟨s3, hC, hs3⟩ := operand_level (binPrec q.type + 1) (by omega) (by omega) _ C hc
    (getNextToken s2) r _ (sees_next _ _ _ _ hs2) hrP (by omega)
  have hc3 := sees_CurTok _ _ _ hs3
  obtain ⟨s4, hR, hs4⟩ := binop_stop (binPrec r.type) hr (by omega)
    (.BinaryASTnode q.lexeme B C) r d D T rest s3 rfl hd hT hs3
  have hc4 := sees_CurTok _ _ _ hs4
  have hQ := prime_delegate (binPrec q.type) (binPrec r.type) hr hrq hq6 B C s2 s3
    (.BinaryASTnode r.lexeme (.BinaryASTnode q.lexeme B C) D, s4) (by rw [hc2]) hC
    (by rw [hc3]) (by rw [hc2]; exact hR)
  have hJ := level_enter (binPrec q.type) (by omega) hq6 _ _ B _ hB (by rw [hc2]) hQ
  obtain ⟨e, he⟩ : ∃ e, binPrec q.type = binPrec p.type + 1 + e :=
    ⟨binPrec q.type - (binPrec p.type + 1), by omega⟩
  have hI := levels_down e (binPrec p.type + 1) (by omega) (by omega) _ _ _
    (by rw [← he]; exact hJ)
    (fun j _ _ => by rw [hc4, binPrec_of_follow _ hT]; omega)
  -- the prime production of `p` takes all of it as its right operand
  have hS := prime_stop (binPrec p.type) hp (by omega) A
    (.BinaryASTnode r.lexeme (.BinaryASTnode q.lexeme B C) D) s1 s4 (by rw [hc1]) hI
    (by rw [hc4]; exact hT)
  rw [hc1] at hS
  have hL := level_enter (binPrec p.type) hp (by omega) _ _ A _ hA (by rw [hc1]) hS
  exact ⟨s4, level_to_rval _ hp (by omega) _ _ _ hL (by rw [hc4]; exact hT), hs4⟩

/-- **C4** (delegation between prime productions), evaluated on the code: `a - b * c - d ;` is
parsed to `a - ((b * c) - d)` and not to `(a - (b * c)) - d`, and `x + a * b == c ;` is parsed to
`x + ((a * b) == c)` and not to `(x + (a * b)) == c`. -/
theorem delegation_loses_left_operand :
    Parses ParseRval
        [tok IDENT "a", tok MINUS "-", tok IDENT "b", tok ASTERIX "*", tok IDENT "c",
          tok MINUS "-", tok IDENT "d", tok SC ";"]
        (.BinaryASTnode "-" (.VariableASTnode "a")
          (.BinaryASTnode "-" (.BinaryASTnode "*" (.VariableASTnode "b") (.VariableASTnode "c"))
            (.VariableASTnode "d"))) [tok SC ";"] ∧
    Parses ParseRval
        [tok IDENT "x", tok PLUS "+", tok IDENT "a", tok ASTERIX "*", tok IDENT "b",
          tok EQ "==", tok IDENT "c", tok SC ";"]
        (.BinaryASTnode "+" (.VariableASTnode "x")
          (.BinaryASTnode "==" (.BinaryASTnode "*" (.VariableASTnode "a") (.VariableASTnode "b"))
            (.VariableASTnode "c"))) [tok SC ";"] :=
  ⟨delegation_nests_right [tok IDENT "a"] [tok IDENT "b"] [tok IDENT "c"] [tok IDENT "d"] _ _ _ _
      (tok MINUS "-") (tok ASTERIX "*") (tok MINUS "-") (tok SC ";") []
      (isPrimary_ident _ rfl) (isPrimary_ident _ rfl) (isPrimary_ident _ rfl)
      (isPrimary_ident _ rfl) (by decide) (by decide) (by decide) (by decide) (by decide),
   delegation_nests_right [tok IDENT "x"] [tok IDENT "a"] [tok IDENT "b"] [tok IDENT "c"] _ _ _ _
      (tok PLUS "+") (tok ASTERIX "*") (tok EQ "==") (tok SC ";") []
      (isPrimary_ident _ rfl) (isPrimary_ident _ rfl) (isPrimary_ident _ rfl)
      (isPrimary_ident _ rfl) (by decide) (by decide) (by decide) (by decide) (by decide)⟩

/-- The reference parser reads an operand and climbs from it. -/
theorem ref_expr_rule (mp : Nat) (st st1 : PState) (P : ASTnode) (r : ASTnode × PState)
    (h : Evals ParseRvalSix st (P, st1)) (hc : Evals (fun n => refClimb n mp P) st1 r) :
    Evals (fun n => refExpr n mp) st r := by
  obtain ⟨m, hm⟩ := h
  obtain ⟨m2, hm2⟩ := hc
  refine ⟨max m m2 + 1, fun n hn => ?_⟩
  obtain ⟨n, rfl⟩ : ∃ i, n = i + 1 := ⟨n - 1, by omega⟩
  have h1 := hm n (by omega)
  have h2 := hm2 n (by omega)
  simp only at h2 ⊢
  rw [refExpr, h1]
  exact h2

/-- The reference parser stops climbing at a token that is no operator of precedence at least
`mp`. -/
theorem ref_climb_stop (mp : Nat) (st : PState) (lhs : ASTnode)
    (h : ¬ (0 < binPrec st.CurTok.type ∧ mp ≤ binPrec st.CurTok.type)) :
    Evals (fun n => refClimb n mp lhs) st (lhs, st) := by
  refine ⟨1, fun n hn => ?_⟩
  obtain ⟨n, rfl⟩ : ∃ i, n = i + 1 := ⟨n - 1, by omega⟩
  simp only
  rw [refClimb, if_neg h]

/-- The reference parser folds an operator of precedence at least `mp` to the left and goes on
climbing. -/
theorem ref_climb_step (mp : Nat) (st st1 : PState) (lhs R : ASTnode) (r : ASTnode × PState)
    (h : 0 < binPrec st.CurTok.type ∧ mp ≤ binPrec st.CurTok.type)
    (hr : Evals (fun n => refExpr n (binPrec st.CurTok.type + 1)) (getNextToken st) (R, st1))
    (hc : Evals (fun n => refClimb n mp (.BinaryASTnode st.CurTok.lexeme lhs R)) st1 r) :
    Evals (fun n => refClimb n mp lhs) st r := by
  obtain ⟨m, hm⟩ := hr
  obtain ⟨m2, hm2⟩ := hc
  refine ⟨max m m2 + 1, fun n hn => ?_⟩
  obtain ⟨n, rfl⟩ : ∃ i, n = i + 1 := ⟨n - 1, by omega⟩
  have h1 := hm n (by omega)
  have h2 := hm2 n (by omega)
  simp only at h1 h2 ⊢
  rw [refClimb, if_pos h, h1]
  exact h2


/-- The reference parser returns a primary operand when the token after it is no operator of
precedence at least `mp`. -/
theorem ref_atom (mp : Nat) (x : List TOKEN) (X : ASTnode) (t : TOKEN) (rest : List TOKEN)
    (hx : IsPrimary x X) (ht : t.type ≠ LPAR)
    (hstop : ¬ (0 < binPrec t.type ∧ mp ≤ binPrec t.type)) :
    Parses (fun n => refExpr n mp) (x ++ t :: rest) X (t :: rest) := by
  intro st hs
  obtain ⟨s1, h1, hs1⟩ := primary_six x X hx st t rest hs ht
  exact ⟨s1, ref_expr_rule mp st s1 X _ h1
    (ref_climb_stop mp s1 X (by rw [sees_CurTok _ _ _ hs1]; exact hstop)), hs1⟩

/-- **C1** (refinement of the reference parser), evaluated on `a - b * c - d ;`: the
productions of the source return `a - ((b * c) - d)`, the precedence-climbing reference parser
over the same operator table returns `(a - (b * c)) - d`. -/
theorem parser_differs_from_reference :
    Parses ParseRval
        [tok IDENT "a", tok MINUS "-", tok IDENT "b", tok ASTERIX "*", tok IDENT "c",
          tok MINUS "-", tok IDENT "d", tok SC ";"]
        (.BinaryASTnode "-" (.VariableASTnode "a")
          (.BinaryASTnode "-" (.BinaryASTnode "*" (.VariableASTnode "b") (.VariableASTnode "c"))
            (.VariableASTnode "d"))) [tok SC ";"] ∧
    Parses (fun n => refExpr n 1)
        [tok IDENT "a", tok MINUS "-", tok IDENT "b", tok ASTERIX "*", tok IDENT "c",
          tok MINUS "-", tok IDENT "d", tok SC ";"]
        (.BinaryASTnode "-"
          (.BinaryASTnode "-" (.VariableASTnode "a")
            (.BinaryASTnode "*" (.VariableASTnode "b") (.VariableASTnode "c")))
          (.VariableASTnode "d")) [tok SC ";"] ∧
    ASTnode.BinaryASTnode "-" (.VariableASTnode "a")
        (.BinaryASTnode "-" (.BinaryASTnode "*" (.VariableASTnode "b") (.VariableASTnode "c"))
          (.VariableASTnode "d")) ≠
      ASTnode.BinaryASTnode "-"
        (.BinaryASTnode "-" (.VariableASTnode "a")
          (.BinaryASTnode "*" (.VariableASTnode "b") (.VariableASTnode "c")))
        (.VariableASTnode "d") := by
  refine ⟨?_, ?_, by simp⟩
  · exact delegation_nests_right [tok IDENT "a"] [tok IDENT "b"] [tok IDENT "c"] [tok IDENT "d"]
      _ _ _ _ (tok MINUS "-") (tok ASTERIX "*") (tok MINUS "-") (tok SC ";") []
      (isPrimary_ident _ rfl) (isPrimary_ident _ rfl) (isPrimary_ident _ rfl)
      (isPrimary_ident _ rfl) (by decide) (by decide) (by decide) (by decide) (by decide)
  · intro st hs
    -- operand `a`; the first `-` has precedence 5
    obtain ⟨s1, hA, hs1⟩ := primary_six [tok IDENT "a"] _ (isPrimary_ident _ rfl) st
      (tok MINUS "-") _ hs (by decide)
    have hc1 := sees_CurTok _ _ _ hs1
    -- its right operand, at minimum precedence 6: operand `b`, then `*`
    obtain ⟨s2, hB, hs2⟩ := primary_six [tok IDENT "b"] _ (isPrimary_ident _ rfl)
      (getNextToken s1) (tok ASTERIX "*") _ (sees_next _ _ _ _ hs1) (by decide)
    have hc2 := sees_CurTok _ _ _ hs2
    -- the right operand of `*`, at minimum precedence 7: `c`, stopping at the second `-`
    obtain ⟨s3, hC, hs3⟩ := ref_atom 7 [tok IDENT "c"] _ (tok MINUS "-")
      [tok IDENT "d", tok SC ";"] (isPrimary_ident _ rfl) (by decide) (by decide)
      (getNextToken s2) (sees_next _ _ _ _ hs2)
    have hc3 := sees_CurTok _ _ _ hs3
    -- the right operand of the second `-`, at minimum precedence 6: `d`
    obtain ⟨s4, hD, hs4⟩ := ref_atom 6 [tok IDENT "d"] _ (tok SC ";") []
      (isPrimary_ident _ rfl) (by decide) (by decide) (getNextToken s3) (sees_next _ _ _ _ hs3)
    have hc4 := sees_CurTok _ _ _ hs4
    refine ⟨s4, ?_, hs4⟩
    refine ref_expr_rule 1 st s1 _ _ hA ?_
    refine ref_climb_step 1 s1 s3 _
      (.BinaryASTnode "*" (.VariableASTnode "b") (.VariableASTnode "c")) _
      (by rw [hc1]; decide) ?_ ?_
    · rw [hc1]
      refine ref_expr_rule _ _ s2 _ _ hB ?_
      refine ref_climb_step _ s2 s3 _ (.VariableASTnode "c") _ (by rw [hc2]; decide)
        (by rw [hc2]; exact hC) ?_
      rw [hc2]
      exact ref_climb_stop _ _ _ (by rw [hc3]; decide)
    · rw [hc1]
      refine ref_climb_step 1 s3 s4 _ (.VariableASTnode "d") _ (by rw [hc3]; decide)
        (by rw [hc3]; exact hD) ?_
      rw [hc3]
      exact ref_climb_stop _ _ _ (by rw [hc4]; decide)

/-- `ParseRvalSeven` returns a primary operand. -/
theorem primary_seven (ts : List TOKEN) (P : ASTnode) (hp : IsPrimary ts P) (st : PState)
    (t : TOKEN) (rest : List TOKEN) (hs : st.sees (ts ++ t :: rest)) (ht : t.type ≠ LPAR) :
    ∃ st1, Evals ParseRvalSeven st (P, st1) ∧ st1.sees (t :: rest) := by
  obtain ⟨⟨hd, tl, rfl, hty⟩, hev⟩ := hp
  obtain ⟨st1, ⟨m, hm⟩, hs1⟩ := hev t rest ht st hs
  refine ⟨st1, ⟨m + 1, fun n hn => ?_⟩, hs1⟩
  obtain ⟨n, rfl⟩ : ∃ i, n = i + 1 := ⟨n - 1, by omega⟩
  have hcur : st.CurTok = hd := sees_CurTok st hd _ hs
  have hl : hd.type ≠ LPAR := by
    rcases hty with h | h | h | h <;> simp [h]
  rw [ParseRvalSeven]
  simp only [hcur, hl, ↓reduceIte]
  exact hm n (by omega)

/-- **C6** (stacked unary operators).  For `k ≥ 1` tokens `u1 .. uk` among `-` and `!` in front
of a primary operand `p` with AST `P`, `ParseRvalSix` parses `u1 u2 ... uk p` to
`Unary(u1, Unary(u2, ... Unary(uk, P)))`, whatever token other than `(` comes next. -/
theorem parse_unary_chain (us : List TOKEN) (p : List TOKEN) (P : ASTnode) (t : TOKEN)
    (rest : List TOKEN) (hne : us ≠ []) (hall : ∀ u ∈ us, isUnaryTok u.type = true)
    (hp : IsPrimary p P) (ht : t.type ≠ LPAR) :
    Parses ParseRvalSix (us ++ (p ++ t :: rest)) (unaryNested us P) (t :: rest) := by
  obtain ⟨u, more, rfl⟩ := List.exists_cons_of_ne_nil hne
  clear hne
  induction more generalizing u with
  | nil =>
    intro st hs
    obtain ⟨⟨ph, pt, rfl, hty⟩, -⟩ := id hp
    have hu := hall u (by simp)
    simp only [List.singleton_append, List.cons_append] at hs
    have hcur := sees_CurTok _ _ _ hs
    have hn := sees_next _ _ _ _ hs
    obtain ⟨st1, ⟨m, hm⟩, hs1⟩ := primary_seven (ph :: pt) P hp (getNextToken st) t rest hn ht
    have hnu : isUnaryTok (getNextToken st).CurTok.type = false := by
      rw [sees_CurTok _ _ _ hn]
      rcases hty with h | h | h | h <;> simp [isUnaryTok, h]
    refine ⟨st1, ⟨m + 1, fun n hn' => ?_⟩, hs1⟩
    obtain ⟨n, rfl⟩ : ∃ i, n = i + 1 := ⟨n - 1, by omega⟩
    rw [ParseRvalSix]
    simp [hcur, hu, hnu, hm n (by omega), unaryNested]
  | cons u2 more ih =>
    intro st hs
    have hu := hall u (by simp)
    have hu2 := hall u2 (by simp)
    simp only [List.cons_append] at hs
    have hcur := sees_CurTok _ _ _ hs
    have hn := sees_next _ _ _ _ hs
    obtain ⟨st1, ⟨m, hm⟩, hs1⟩ := ih u2 (fun v hv => hall v (List.mem_cons_of_mem _ hv))
      (getNextToken st) (by simpa using hn)
    refine ⟨st1, ⟨m + 1, fun n hn' => ?_⟩, hs1⟩
    obtain ⟨n, rfl⟩ : ∃ i, n = i + 1 := ⟨n - 1, by omega⟩
    rw [ParseRvalSix]
    have hnu : isUnaryTok (getNextToken st).CurTok.type = true := by
      rw [sees_CurTok _ _ _ hn]; exact hu2
    simp only [hcur, hu, hnu, ↓reduceIte, hm n (by omega)]
    simp [unaryNested]

/-- Witness of C6: `- - x ;` gives `Unary("-", Unary("-", x))`, and `! - f ( ) ;` gives
`Unary("!", Unary("-", Call f))`. -/
theorem parse_unary_chain_witness :
    Parses ParseRvalSix [tok MINUS "-", tok MINUS "-", tok IDENT "x", tok SC ";"]
        (.UnaryASTnode "-" (.UnaryASTnode "-" (.VariableASTnode "x"))) [tok SC ";"] ∧
    Parses ParseRvalSix
        [tok NOT "!", tok MINUS "-", tok IDENT "f", tok LPAR "(", tok RPAR ")", tok SC ";"]
        (.UnaryASTnode "!" (.UnaryASTnode "-" (.CallASTnode "f" []))) [tok SC ";"] :=
  ⟨parse_unary_chain [tok MINUS "-", tok MINUS "-"] [tok IDENT "x"] (.VariableASTnode "x")
      (tok SC ";") [] (by simp) (by decide) (isPrimary_ident _ rfl) (by decide),
   parse_unary_chain [tok NOT "!", tok MINUS "-"] [tok IDENT "f", tok LPAR "(", tok RPAR ")"]
      (.CallASTnode "f" []) (tok SC ";") [] (by simp) (by decide)
      (isPrimary_call0 _ _ _ rfl rfl rfl) (by decide)⟩

/-- Putting the peeked token back leaves the same tokens in front of the parser. -/
theorem sees_restorePeeked (st : PState) (h t : TOKEN) (ts : List TOKEN)
    (hs : st.sees (h :: t :: ts)) : (restorePeeked st).sees (h :: t :: ts) := by
  have hcur := sees_CurTok _ _ _ hs
  obtain ⟨hd, tl, he, hc, hb⟩ := sees_next _ _ _ _ hs
  obtain ⟨h1, h2⟩ := List.cons.inj he
  subst h1 h2
  refine ⟨h, t :: ts, rfl, hcur, ?_⟩
  simp [restorePeeked, putBackToken, hc, hb]

/-- On an identifier that is not followed by `=`, `ParseExpr` returns what `ParseRval` returns. -/
theorem parseExpr_of_rval_ident (h t : TOKEN) (ts : List TOKEN) (v : ASTnode)
    (remaining : List TOKEN) (hh : h.type = IDENT) (ht : t.type ≠ ASSIGN)
    (hr : Parses ParseRval (h :: t :: ts) v remaining) :
    Parses ParseExpr (h :: t :: ts) v remaining := by
  intro st hs
  obtain ⟨st1, ⟨m, hm⟩, hs1⟩ := hr (restorePeeked st) (sees_restorePeeked _ _ _ _ hs)
  refine ⟨st1, ⟨m + 1, fun n hn => ?_⟩, hs1⟩
  obtain ⟨n, rfl⟩ : ∃ i, n = i + 1 := ⟨n - 1, by omega⟩
  rw [ParseExpr]
  simp only [sees_CurTok _ _ _ hs, hh, sees_CurTok _ _ _ (sees_next _ _ _ _ hs), ht, ↓reduceIte]
  exact hm n (by omega)

/-- `ParseRval` returns a primary operand that is followed by `;`, `)` or `,`. -/
theorem parseRval_primary (p : List TOKEN) (P : ASTnode) (T : TOKEN) (rest : List TOKEN)
    (hp : IsPrimary p P) (hT : isFollowTok T.type = true) :
    Parses ParseRval (p ++ T :: rest) P (T :: rest) := by
  intro st hs
  have := operand_level 1 (le_refl 1) (by omega) p P hp st T rest hs (ne_LPAR_of_follow _ hT)
    (by rw [binPrec_of_follow _ hT]; omega)
  simpa [levelParser] using this

/-- An assignment `x = e` wraps what `ParseExpr` returns on `e`. -/
theorem parseExpr_assign (x eq : TOKEN) (input : List TOKEN) (E : ASTnode)
    (remaining : List TOKEN) (hx : x.type = IDENT) (heq : eq.type = ASSIGN) (hne : input ≠ [])
    (he : Parses ParseExpr input E remaining) :
    Parses ParseExpr (x :: eq :: input)
      (.VariableAssignmentASTnode (.VariableASTnode x.lexeme) E) remaining := by
  obtain ⟨ih, it, rfl⟩ := List.exists_cons_of_ne_nil hne
  intro st hs
  have hcur := sees_CurTok _ _ _ hs
  have h1 := sees_next _ _ _ _ hs
  have h2 := sees_next _ _ _ _ h1
  obtain ⟨st1, ⟨m, hm⟩, hs1⟩ := he _ h2
  refine ⟨st1, ⟨m + 1, fun n hn => ?_⟩, hs1⟩
  obtain ⟨n, rfl⟩ : ∃ i, n = i + 1 := ⟨n - 1, by omega⟩
  rw [ParseExpr]
  simp only [hcur, hx, sees_CurTok _ _ _ h1, heq, ↓reduceIte, hm n (by omega)]

/-- **C5** (assignment).  For an identifier `x`, a token `=` and tokens `input` that `ParseExpr`
parses to `E`: `ParseExpr` parses `x = input` to `VarAssign(VarRef x, E)`; assignment nests to
the right, `y = x = input` gives `VarAssign(VarRef y, VarAssign(VarRef x, E))`; and a call of
`ParseExpr` builds a `VarAssign` node only when the current token is an identifier and the token
after it is `=`: in every other case its result is the result of `ParseRval` on the same
tokens.  Hence in every tree that `ParseExpr` returns, and in every tree that `parser` returns,
the target of every `VarAssign` node is a variable reference. -/
theorem parseExpr_assignment (x eq : TOKEN) (input : List TOKEN) (E : ASTnode)
    (remaining : List TOKEN) (hx : x.type = IDENT) (heq : eq.type = ASSIGN) (hne : input ≠ [])
    (he : Parses ParseExpr input E remaining) :
    Parses ParseExpr (x :: eq :: input)
      (.VariableAssignmentASTnode (.VariableASTnode x.lexeme) E) remaining ∧
    (∀ y eq2 : TOKEN, y.type = IDENT → eq2.type = ASSIGN →
      Parses ParseExpr (y :: eq2 :: x :: eq :: input)
        (.VariableAssignmentASTnode (.VariableASTnode y.lexeme)
          (.VariableAssignmentASTnode (.VariableASTnode x.lexeme) E)) remaining) ∧
    (∀ (n : Nat) (st st1 : PState) (v : ASTnode), ParseExpr (n + 1) st = .ok (v, st1) →
      (st.CurTok.type = IDENT ∧ (getNextToken st).CurTok.type = ASSIGN ∧
        ∃ E1, v = .VariableAssignmentASTnode (.VariableASTnode st.CurTok.lexeme) E1 ∧
          ParseExpr n (getNextToken (getNextToken st)) = .ok (E1, st1)) ∨
      (st.CurTok.type = IDENT ∧ (getNextToken st).CurTok.type ≠ ASSIGN ∧
        ParseRval n (restorePeeked st) = .ok (v, st1)) ∨
      (st.CurTok.type ≠ IDENT ∧ ParseRval n st = .ok (v, st1))) ∧
    (∀ (n : Nat) (st st1 : PState) (v : ASTnode), ParseExpr n st = .ok (v, st1) →
      v.targetsOk = true) ∧
    (∀ (n : Nat) (st st1 : PState) (v : ASTnode), parser n st = .ok (v, st1) →
      v.targetsOk = true) := by
  refine ⟨parseExpr_assign x eq input E remaining hx heq hne he, fun y eq2 hy heq2 => ?_, ?_,
    fun n st st1 v h => (exprs_closed _ targetsOk_closed n).1 st v st1 h,
    fun n st st1 v h => parser_closed _ targetsOk_closed n st v st1 h⟩
  · exact parseExpr_assign y eq2 (x :: eq :: input) _ remaining hy heq2 (by simp)
      (parseExpr_assign x eq input E remaining hx heq hne he)
  · intro n st st1 v h
    rw [ParseExpr] at h
    by_cases h1 : st.CurTok.type = IDENT
    · by_cases h2 : (getNextToken st).CurTok.type = ASSIGN
      · left
        simp only [h1, h2, ↓reduceIte] at h
        cases hE : ParseExpr n (getNextToken (getNextToken st)) with
        | error e => rw [hE] at h; cases h
        | ok r =>
          obtain ⟨E1, s⟩ := r
          rw [hE] at h
          simp only [Except.ok.injEq, Prod.mk.injEq] at h
          exact ⟨h1, h2, E1, h.1.symm, by rw [h.2]⟩
      · right; left
        simp only [h1, h2, ↓reduceIte] at h
        exact ⟨h1, h2, h⟩
    · right; right
      simp only [h1, ↓reduceIte] at h
      split at h
      · exact ⟨h1, h⟩
      · cases h

/-- Witness of C5: `a = c ;` gives `VarAssign(a, c)` and `b = a = c ;` gives
`VarAssign(b, VarAssign(a, c))`. -/
theorem parseExpr_assignment_witness :
    Parses ParseExpr [tok IDENT "a", tok ASSIGN "=", tok IDENT "c", tok SC ";"]
      (.VariableAssignmentASTnode (.VariableASTnode "a") (.VariableASTnode "c")) [tok SC ";"] ∧
    Parses ParseExpr
      [tok IDENT "b", tok ASSIGN "=", tok IDENT "a", tok ASSIGN "=", tok IDENT "c", tok SC ";"]
      (.VariableAssignmentASTnode (.VariableASTnode "b")
        (.VariableAssignmentASTnode (.VariableASTnode "a") (.VariableASTnode "c")))
      [tok SC ";"] :=
  have h := parseExpr_assignment (tok IDENT "a") (tok ASSIGN "=") [tok IDENT "c", tok SC ";"]
    (.VariableASTnode "c") [tok SC ";"] rfl rfl (by simp)
    (parseExpr_of_rval_ident _ _ _ _ _ rfl (by decide)
      (parseRval_primary [tok IDENT "c"] _ (tok SC ";") [] (isPrimary_ident _ rfl) (by decide)))
  ⟨h.1, h.2.1 (tok IDENT "b") (tok ASSIGN "=") rfl rfl⟩

theorem stmt_first_not_type (x : Int) (h : CheckMembership stmt_token_array 12 x = true) :
    ¬ (x = INT_TOK ∨ x = FLOAT_TOK ∨ x = BOOL_TOK) := by
  simp [CheckMembership, stmt_token_array] at h
  simp only [INT_TOK, FLOAT_TOK, BOOL_TOK]
  omega

theorem stmt_first_follows (x : Int) (h : CheckMembership stmt_token_array 12 x = true) :
    CheckMembership else_follow_array 13 x = true := by
  simp [CheckMembership, stmt_token_array, else_follow_array] at h ⊢
  omega

theorem stmt_first_not_RBRA (x : Int) (h : CheckMembership stmt_token_array 12 x = true) :
    x ≠ RBRA := by
  simp [CheckMembership, stmt_token_array] at h
  simp only [RBRA]
  omega

/-- `ParseLocalDecl` on a local declaration. -/
theorem parseLocalDecl_ok (ts : List TOKEN) (D : ASTnode) (hd : IsLocalDecl ts D) (st : PState)
    (t : TOKEN) (rest : List TOKEN) (hs : st.sees (ts ++ t :: rest)) :
    ∃ st1, ParseLocalDecl st = .ok (D, st1) ∧ st1.sees (t :: rest) ∧
      (st.CurTok.type = INT_TOK ∨ st.CurTok.type = FLOAT_TOK ∨ st.CurTok.type = BOOL_TOK) := by
  obtain ⟨ty, id, sc, rfl, hid, hsc, hty⟩ := hd
  simp only [List.cons_append, List.nil_append] at hs
  have hcur := sees_CurTok _ _ _ hs
  have h1 := sees_next _ _ _ _ hs
  have h2 := sees_next _ _ _ _ h1
  have h3 := sees_next _ _ _ _ h2
  refine ⟨_, ?_, h3, ?_⟩
  · rcases hty with ⟨h, rfl⟩ | ⟨h, rfl⟩ | ⟨h, rfl⟩ <;>
      simp [ParseLocalDecl, ParseVarType, hcur, h, sees_CurTok _ _ _ h1, hid,
        sees_CurTok _ _ _ h2, hsc]
  · rw [hcur]
    rcases hty with ⟨h, -⟩ | ⟨h, -⟩ | ⟨h, -⟩ <;> simp [h]

/-- `ParseLocalDeclsPrime` appends the declarations that follow, in source order, and stops at
the first token of a statement. -/
theorem parseLocalDeclsPrime_ok (t : TOKEN) (rest : List TOKEN)
    (ht : CheckMembership stmt_token_array 12 t.type = true)
    (ds : List (List TOKEN × ASTnode)) :
    ∀ (acc : List ASTnode) (st : PState), (∀ d ∈ ds, IsLocalDecl d.1 d.2) →
      st.sees (concatTokens ds ++ t :: rest) →
      ∃ st1, Evals (fun n => ParseLocalDeclsPrime n acc) st (acc ++ ds.map (·.2), st1) ∧
        st1.sees (t :: rest) := by
  induction ds with
  | nil =>
    intro acc st _ hs
    simp only [concatTokens, List.nil_append] at hs
    refine ⟨st, ⟨1, fun n hn => ?_⟩, hs⟩
    obtain ⟨n, rfl⟩ : ∃ i, n = i + 1 := ⟨n - 1, by omega⟩
    simp only
    rw [ParseLocalDeclsPrime, if_neg (by rw [sees_CurTok _ _ _ hs]; exact stmt_first_not_type _ ht),
      if_pos (by rw [sees_CurTok _ _ _ hs]; exact ht)]
    simp
  | cons d ds ih =>
    intro acc st hall hs
    obtain ⟨dts, D⟩ := d
    simp only [concatTokens, List.append_assoc] at hs
    obtain ⟨s1, h1, hs1, hty⟩ := parseLocalDecl_ok dts D (hall (dts, D) (by simp)) st
      ((concatTokens ds ++ t :: rest).head (by simp))
      ((concatTokens ds ++ t :: rest).tail) (by simpa using hs)
    obtain ⟨s2, ⟨m, hm⟩, hs2⟩ := ih (acc ++ [D]) s1
      (fun x hx => hall x (List.mem_cons_of_mem _ hx)) (by simpa using hs1)
    refine ⟨s2, ⟨m + 1, fun n hn => ?_⟩, hs2⟩
    obtain ⟨n, rfl⟩ : ∃ i, n = i + 1 := ⟨n - 1, by omega⟩
    have := hm n (by omega)
    simp only at this ⊢
    rw [ParseLocalDeclsPrime, if_pos hty, h1]
    simpa using this

/-- `ParseStmtListPrime` appends the statements that follow, in source order, and stops at
`\x7d`. -/
theorem parseStmtListPrime_ok (rb : TOKEN) (rest : List TOKEN) (hrb : rb.type = RBRA)
    (ss : List (List TOKEN × ASTnode)) :
    ∀ (acc : List ASTnode) (st : PState), (∀ s ∈ ss, IsStmt s.1 s.2) →
      st.sees (concatTokens ss ++ rb :: rest) →
      ∃ st1, Evals (fun n => ParseStmtListPrime n acc) st (acc ++ ss.map (·.2), st1) ∧
        st1.sees (rb :: rest) := by
  induction ss with
  | nil =>
    intro acc st _ hs
    simp only [concatTokens, List.nil_append] at hs
    refine ⟨st, ⟨1, fun n hn => ?_⟩, hs⟩
    obtain ⟨n, rfl⟩ : ∃ i, n = i + 1 := ⟨n - 1, by omega⟩
    simp only
    rw [ParseStmtListPrime]
    simp [sees_CurTok _ _ _ hs, hrb, CheckMembership, stmt_token_array]
  | cons s ss ih =>
    intro acc st hall hs
    obtain ⟨sts, S⟩ := s
    obtain ⟨⟨sh, stl, rfl, hfirst⟩, hparse⟩ := hall (sts, S) (by simp)
    simp only [concatTokens, List.append_assoc] at hs
    have hcur := sees_CurTok _ _ _ hs
    -- the token after this statement starts the next statement or is the closing brace
    have hnext : CheckMembership else_follow_array 13
        ((concatTokens ss ++ rb :: rest).head (by simp)).type = true := by
      cases ss with
      | nil => simp [concatTokens, hrb, CheckMembership, else_follow_array]
      | cons s2 ss2 =>
        obtain ⟨s2ts, S2⟩ := s2
        obtain ⟨⟨h2, t2, he, hf2⟩, -⟩ := hall (s2ts, S2) (by simp)
        simp only at he
        subst he
        simpa [concatTokens] using stmt_first_follows _ hf2
    obtain ⟨s1, ⟨m1, hm1⟩, hs1⟩ := hparse _ ((concatTokens ss ++ rb :: rest).tail) hnext st
      (by simpa using hs)
    obtain ⟨s2, ⟨m2, hm2⟩, hs2⟩ := ih (acc ++ [S]) s1
      (fun x hx => hall x (List.mem_cons_of_mem _ hx)) (by simpa using hs1)
    refine ⟨s2, ⟨max m1 m2 + 1, fun n hn => ?_⟩, hs2⟩
    obtain ⟨n, rfl⟩ : ∃ i, n = i + 1 := ⟨n - 1, by omega⟩
    have e1 := hm1 n (by omega)
    have e2 := hm2 n (by omega)
    simp only at e2 ⊢
    rw [ParseStmtListPrime]
    simp [hcur, hfirst, e1, e2]

/-- Blocks: `ParseBlock` parses an opening brace, local declarations, at least one statement
and a closing brace to the block of the declarations and the statements, both in source order,
and stops after the closing brace. -/
theorem parseBlock_ok (lb rb t : TOKEN) (decls stmts : List (List TOKEN × ASTnode))
    (rest : List TOKEN) (hlb : lb.type = LBRA) (hrb : rb.type = RBRA)
    (hd : ∀ d ∈ decls, IsLocalDecl d.1 d.2) (hst : ∀ s ∈ stmts, IsStmt s.1 s.2)
    (hne : stmts ≠ []) :
    Parses ParseBlock (lb :: (concatTokens decls ++ (concatTokens stmts ++ rb :: t :: rest)))
      (.BlockASTnode (decls.map (·.2)) (stmts.map (·.2))) (t :: rest) := by
  obtain ⟨⟨s1ts, S1⟩, ss, rfl⟩ := List.exists_cons_of_ne_nil hne
  obtain ⟨⟨sh, stl, rfl, hfirst⟩, hparse⟩ := hst (s1ts, S1) (by simp)
  -- the statement list, from a state in front of the first statement
  have hlist : ∀ st : PState, st.sees (concatTokens ((sh :: stl, S1) :: ss) ++ rb :: t :: rest) →
      ∃ st1, Evals ParseStmtList st (((sh :: stl, S1) :: ss).map (·.2), st1) ∧
        st1.sees (rb :: t :: rest) := by
    intro st hs
    simp only [concatTokens, List.append_assoc] at hs
    have hnext : CheckMembership else_follow_array 13
        ((concatTokens ss ++ rb :: t :: rest).head (by simp)).type = true := by
      cases ss with
      | nil => simp [concatTokens, hrb, CheckMembership, else_follow_array]
      | cons s2 ss2 =>
        obtain ⟨s2ts, S2⟩ := s2
        obtain ⟨⟨h2, t2, he, hf2⟩, -⟩ := hst (s2ts, S2) (by simp)
        simp only at he
        subst he
        simpa [concatTokens] using stmt_first_follows _ hf2
    obtain ⟨a1, ⟨m1, hm1⟩, ha1⟩ := hparse _ ((concatTokens ss ++ rb :: t :: rest).tail) hnext st
      (by simpa using hs)
    obtain ⟨a2, ⟨m2, hm2⟩, ha2⟩ := parseStmtListPrime_ok rb (t :: rest) hrb ss [S1] a1
      (fun x hx => hst x (List.mem_cons_of_mem _ hx)) (by simpa using ha1)
    refine ⟨a2, ⟨max m1 m2 + 1, fun n hn => ?_⟩, ha2⟩
    obtain ⟨n, rfl⟩ : ∃ i, n = i + 1 := ⟨n - 1, by omega⟩
    have e1 := hm1 n (by omega)
    have e2 := hm2 n (by omega)
    simp only at e1 e2
    rw [ParseStmtList, e1]
    simpa using e2
  intro st hs
  have hcur := sees_CurTok _ _ _ hs
  cases decls with
  | nil =>
    simp only [concatTokens, List.nil_append] at hs
    have h1 : (getNextToken st).sees (concatTokens ((sh :: stl, S1) :: ss) ++ rb :: t :: rest) := by
      simpa [concatTokens] using sees_next _ _ _ _ (by simpa [concatTokens] using hs)
    obtain ⟨a2, ⟨m, hm⟩, ha2⟩ := hlist _ h1
    have hc1 : (getNextToken st).CurTok = sh := by
      simpa [concatTokens] using sees_CurTok _ sh _ (by simpa [concatTokens] using h1)
    refine ⟨getNextToken a2, ⟨m + 1, fun n hn => ?_⟩, sees_next _ _ _ _ ha2⟩
    obtain ⟨n, rfl⟩ : ∃ i, n = i + 1 := ⟨n - 1, by omega⟩
    rw [ParseBlock]
    simp only [hcur, hlb, ↓reduceIte]
    rw [if_neg (by rw [hc1]; exact stmt_first_not_type _ hfirst), hm n (by omega)]
    simp [sees_CurTok _ _ _ ha2, hrb]
  | cons d ds =>
    obtain ⟨dts, D⟩ := d
    obtain ⟨ty, id, sc, rfl, hid, hsc, hty⟩ := hd (dts, D) (by simp)
    have hD : IsLocalDecl [ty, id, sc] D := ⟨ty, id, sc, rfl, hid, hsc, hty⟩
    simp only [concatTokens, List.cons_append, List.nil_append, List.append_assoc] at hs
    have h1 := sees_next _ _ _ _ hs
    obtain ⟨a1, e1, ha1, hty1⟩ := parseLocalDecl_ok [ty, id, sc] D hD (getNextToken st)
      ((concatTokens ds ++ (sh :: stl ++ (concatTokens ss ++ rb :: t :: rest))).head (by simp))
      ((concatTokens ds ++ (sh :: stl ++ (concatTokens ss ++ rb :: t :: rest))).tail)
      (by simpa using h1)
    obtain ⟨a2, ⟨m2, hm2⟩, ha2⟩ := parseLocalDeclsPrime_ok sh
      (stl ++ (concatTokens ss ++ rb :: t :: rest)) hfirst ds [D] a1
      (fun x hx => hd x (List.mem_cons_of_mem _ hx)) (by simpa using ha1)
    obtain ⟨a3, ⟨m3, hm3⟩, ha3⟩ := hlist a2 (by simpa [concatTokens] using ha2)
    refine ⟨getNextToken a3, ⟨max m2 m3 + 1, fun n hn => ?_⟩, sees_next _ _ _ _ ha3⟩
    obtain ⟨n, rfl⟩ : ∃ i, n = i + 1 := ⟨n - 1, by omega⟩
    have e2 := hm2 n (by omega)
    simp only at e2
    rw [ParseBlock]
    simp only [hcur, hlb, ↓reduceIte]
    rw [if_pos hty1, ParseLocalDecls, if_pos hty1, e1]
    simp only [e2, hm3 n (by omega)]
    simp [sees_CurTok _ _ _ ha3, hrb]

/-- **C7, as amended** (blocks).  For `n ≥ 0` local declarations `d1 .. dn` and `m ≥ 1`
statements `s1 .. sm`, `ParseBlock` parses `\x7b d1 ... dn s1 ... sm \x7d` to
`Block([D1..Dn], [S1..Sm])` with both lists in source order, and stops after the closing brace. -/
theorem parseBlock_decls_stmts (lb rb t : TOKEN) (decls stmts : List (List TOKEN × ASTnode))
    (rest : List TOKEN) (hlb : lb.type = LBRA) (hrb : rb.type = RBRA)
    (hd : ∀ d ∈ decls, IsLocalDecl d.1 d.2) (hst : ∀ s ∈ stmts, IsStmt s.1 s.2)
    (hne : stmts ≠ []) :
    Parses ParseBlock (lb :: (concatTokens decls ++ (concatTokens stmts ++ rb :: t :: rest)))
      (.BlockASTnode (decls.map (·.2)) (stmts.map (·.2))) (t :: rest) :=
  parseBlock_ok lb rb t decls stmts rest hlb hrb hd hst hne

/-- On a token of `rval_array` (`(`, `-`, `!` or a literal), `ParseExpr` returns what `ParseRval`
returns. -/
theorem parseExpr_of_rval_other (input : List TOKEN) (v : ASTnode) (remaining : List TOKEN)
    (hfirst : ∀ h ∈ input.head?, CheckMembership rval_array 6 h.type = true)
    (hr : Parses ParseRval input v remaining) : Parses ParseExpr input v remaining := by
  intro st hs
  obtain ⟨st1, ⟨m, hm⟩, hs1⟩ := hr st hs
  refine ⟨st1, ⟨m + 1, fun n hn => ?_⟩, hs1⟩
  obtain ⟨n, rfl⟩ : ∃ i, n = i + 1 := ⟨n - 1, by omega⟩
  obtain ⟨hd, tl, rfl, hc, -⟩ := hs
  have hm6 := hfirst hd (by simp)
  have hni : hd.type ≠ IDENT := by
    intro h
    rw [h] at hm6
    simp [CheckMembership, rval_array] at hm6
  rw [ParseExpr]
  simp only [hc, hni, hm6, ↓reduceIte]
  exact hm n (by omega)

/-- The empty statement `;` is a statement; its AST is the null pointer. -/
theorem isStmt_empty (sc : TOKEN) (hsc : sc.type = SC) : IsStmt [sc] .null := by
  refine ⟨⟨sc, [], rfl, by simp [hsc, CheckMembership, stmt_token_array]⟩, ?_⟩
  intro t rest _ st hs
  have hcur := sees_CurTok _ _ _ hs
  refine ⟨getNextToken st, ⟨1, fun n hn => ?_⟩, sees_next _ _ _ _ hs⟩
  obtain ⟨n, rfl⟩ : ∃ i, n = i + 1 := ⟨n - 1, by omega⟩
  rw [ParseStmt]
  simp [hcur, hsc, CheckMembership, expr_stmt_array, ParseExprStmt, expr_array]

/-- The statement `return ;`. -/
theorem isStmt_return_void (ret sc : TOKEN) (hret : ret.type = RETURN) (hsc : sc.type = SC) :
    IsStmt [ret, sc] (.ReturnExprASTnode .null) := by
  refine ⟨⟨ret, [sc], rfl, by simp [hret, CheckMembership, stmt_token_array]⟩, ?_⟩
  intro t rest _ st hs
  have hcur := sees_CurTok _ _ _ hs
  have h1 := sees_next _ _ _ _ hs
  refine ⟨getNextToken (getNextToken st), ⟨1, fun n hn => ?_⟩, sees_next _ _ _ _ h1⟩
  obtain ⟨n, rfl⟩ : ∃ i, n = i + 1 := ⟨n - 1, by omega⟩
  rw [ParseStmt]
  simp [hcur, hret, CheckMembership, expr_stmt_array, ParseReturn, sees_CurTok _ _ _ h1, hsc]

/-- An expression statement `e ;`. -/
theorem isStmt_expr (eh : TOKEN) (et : List TOKEN) (E : ASTnode) (sc : TOKEN)
    (hsc : sc.type = SC) (hfirst : CheckMembership expr_array 7 eh.type = true)
    (he : ∀ rest, Parses ParseExpr (eh :: et ++ sc :: rest) E (sc :: rest)) :
    IsStmt (eh :: et ++ [sc]) E := by
  have hf8 : CheckMembership expr_stmt_array 8 eh.type = true := by
    simp [CheckMembership, expr_array, expr_stmt_array] at hfirst ⊢
    omega
  have hf12 : CheckMembership stmt_token_array 12 eh.type = true := by
    simp [CheckMembership, expr_array, stmt_token_array] at hfirst ⊢
    omega
  refine ⟨⟨eh, et ++ [sc], rfl, hf12⟩, ?_⟩
  intro t rest _ st hs
  have hcur := sees_CurTok _ _ _ hs
  obtain ⟨s1, ⟨m, hm⟩, hs1⟩ := he (t :: rest) st (by simpa using hs)
  refine ⟨getNextToken s1, ⟨m + 1, fun n hn => ?_⟩, sees_next _ _ _ _ hs1⟩
  obtain ⟨n, rfl⟩ : ∃ i, n = i + 1 := ⟨n - 1, by omega⟩
  rw [ParseStmt]
  simp only [hcur, hf8, ↓reduceIte, ParseExprStmt, hfirst, hm n (by omega),
    sees_CurTok _ _ _ hs1, hsc]

/-- Witness of C7 as amended: `\x7b int x ; x = 1 ; return ; \x7d`. -/
theorem parseBlock_decls_stmts_witness :
    Parses ParseBlock
      [tok LBRA "\x7b", tok INT_TOK "int", tok IDENT "x", tok SC ";", tok IDENT "x",
        tok ASSIGN "=", tok INT_LIT "1", tok SC ";", tok RETURN "return", tok SC ";",
        tok RBRA "\x7d", eofTOK]
      (.BlockASTnode [.VariableDeclarationASTnode "x" "int"]
        [.VariableAssignmentASTnode (.VariableASTnode "x") (.IntASTnode 1),
          .ReturnExprASTnode .null]) [eofTOK] :=
  parseBlock_decls_stmts (tok LBRA "\x7b") (tok RBRA "\x7d") eofTOK
    [([tok INT_TOK "int", tok IDENT "x", tok SC ";"], .VariableDeclarationASTnode "x" "int")]
    [([tok IDENT "x", tok ASSIGN "=", tok INT_LIT "1", tok SC ";"],
        .VariableAssignmentASTnode (.VariableASTnode "x") (.IntASTnode 1)),
      ([tok RETURN "return", tok SC ";"], .ReturnExprASTnode .null)] [] rfl rfl
    (by
      intro d hd
      simp only [List.mem_singleton] at hd
      subst hd
      exact ⟨_, _, _, rfl, rfl, rfl, Or.inl ⟨rfl, rfl⟩⟩)
    (by
      intro s hs
      simp only [List.mem_cons, List.mem_singleton, List.not_mem_nil, or_false] at hs
      rcases hs with rfl | rfl
      · exact isStmt_expr (tok IDENT "x") [tok ASSIGN "=", tok INT_LIT "1"] _ (tok SC ";") rfl
          (by decide)
          (fun rest => parseExpr_assign _ _ _ _ _ rfl rfl (by simp)
            (parseExpr_of_rval_other _ _ _ (by simp [CheckMembership, rval_array, tok])
              (parseRval_primary [tok INT_LIT "1"] _ (tok SC ";") rest
                (isPrimary_int _ rfl 1 rfl) (by decide))))
      · exact isStmt_return_void _ _ rfl rfl)
    (by simp)

/-- **C7, counterexample**: a block without statements is rejected.  On `\x7b \x7d` and on
`\x7b int x ; \x7d` (followed by the end of the file) `ParseBlock` throws a syntax error, and
returns a block for no fuel. -/
theorem parseBlock_rejects_no_statement :
    (∀ n, ∃ msg, ParseBlock (n + 3)
        (PState.ofTokens [tok LBRA "\x7b", tok RBRA "\x7d", eofTOK]) = .error (.logError msg)) ∧
    (∀ n r, ParseBlock n (PState.ofTokens [tok LBRA "\x7b", tok RBRA "\x7d", eofTOK]) ≠ .ok r) ∧
    (∀ n, ∃ msg, ParseBlock (n + 3)
        (PState.ofTokens [tok LBRA "\x7b", tok INT_TOK "int", tok IDENT "x", tok SC ";",
          tok RBRA "\x7d", eofTOK]) = .error (.logError msg)) ∧
    (∀ n r, ParseBlock n
        (PState.ofTokens [tok LBRA "\x7b", tok INT_TOK "int", tok IDENT "x", tok SC ";",
          tok RBRA "\x7d", eofTOK]) ≠ .ok r) := by
  have e1 : ∀ n, ∃ msg, ParseBlock (n + 3)
      (PState.ofTokens [tok LBRA "\x7b", tok RBRA "\x7d", eofTOK]) = .error (.logError msg) := by
    intro n
    refine ⟨"Syntax Error: Expected (, -, !, identifier, int literal, float literal, bool literal, ; for expression statement, \x7b for block statement, if for if statement, while for while statement, or return for return statement", ?_⟩
    rw [ParseBlock]
    simp only [CurTok_ofTokens_cons, getNextToken_ofTokens_cons, tok, LBRA, RBRA, INT_TOK,
      FLOAT_TOK, BOOL_TOK, ↓reduceIte]
    rw [ParseStmtList, ParseStmt]
    simp [CurTok_ofTokens_cons, CheckMembership, expr_stmt_array]
  have e2 : ∀ n, ∃ msg, ParseBlock (n + 3)
      (PState.ofTokens [tok LBRA "\x7b", tok INT_TOK "int", tok IDENT "x", tok SC ";",
        tok RBRA "\x7d", eofTOK]) = .error (.logError msg) := by
    intro n
    refine ⟨"Syntax Error: Expected variable type int, float, or bool for declaration or (, -, !, identifier, int literal, float literal, bool literal, ;, while, if, return, \x7b for statement", ?_⟩
    rw [ParseBlock]
    simp only [CurTok_ofTokens_cons, getNextToken_ofTokens_cons, tok, LBRA, RBRA, INT_TOK,
      FLOAT_TOK, BOOL_TOK, ↓reduceIte]
    simp [ParseLocalDecls, ParseLocalDecl, ParseVarType, CurTok_ofTokens_cons,
      getNextToken_ofTokens_cons]
    rw [ParseLocalDeclsPrime]
    simp [CurTok_ofTokens_cons, CheckMembership, stmt_token_array]
  refine ⟨e1, ?_, e2, ?_⟩
  · intro n r h
    rcases n with _ | _ | _ | n
    · cases h
    · cases h
    · cases h
    · obtain ⟨msg, hm⟩ := e1 n
      rw [hm] at h
      cases h
  · intro n r h
    rcases n with _ | _ | _ | n
    · cases h
    · cases h
    · cases h
    · obtain ⟨msg, hm⟩ := e2 n
      rw [hm] at h
      cases h

/-- A `while` statement: `while ( cond ) body`, for a condition that `ParseExpr` parses and a
body that `ParseStmt` parses.  The body of the node is whatever `ParseStmt` returned. -/
theorem isStmt_while (w lp rp : TOKEN) (ch : TOKEN) (ct : List TOKEN) (C : ASTnode)
    (body : List TOKEN) (B : ASTnode) (hw : w.type = WHILE) (hlp : lp.type = LPAR)
    (hrp : rp.type = RPAR) (hfirst : CheckMembership expr_array 7 ch.type = true)
    (hc : ∀ rest, Parses ParseExpr (ch :: ct ++ rp :: rest) C (rp :: rest))
    (hb : IsStmt body B) :
    IsStmt (w :: lp :: (ch :: ct ++ rp :: body)) (.WhileExprASTnode C B) := by
  obtain ⟨⟨bh, bt, rfl, -⟩, hbody⟩ := hb
  refine ⟨⟨w, _, rfl, by simp [hw, CheckMembership, stmt_token_array]⟩, ?_⟩
  intro t rest ht st hs
  simp only [List.cons_append, List.append_assoc] at hs
  have hcur := sees_CurTok _ _ _ hs
  have h1 := sees_next _ _ _ _ hs
  have h2 := sees_next _ _ _ _ h1
  obtain ⟨s3, ⟨m3, hm3⟩, hs3⟩ := hc (bh :: bt ++ t :: rest) _ (by simpa using h2)
  have h4 := sees_next _ _ _ _ hs3
  obtain ⟨s5, ⟨m5, hm5⟩, hs5⟩ := hbody t rest ht _ (by simpa using h4)
  refine ⟨s5, ⟨max m3 m5 + 2, fun n hn => ?_⟩, hs5⟩
  obtain ⟨n, rfl⟩ : ∃ i, n = i + 2 := ⟨n - 2, by omega⟩
  rw [ParseStmt]
  simp only [hcur, hw, CheckMembership, expr_stmt_array]
  simp only [WHILE, LPAR, MINUS, NOT, IDENT, INT_LIT, FLOAT_LIT, BOOL_LIT, SC, LBRA, IF,
    List.take, List.any, Int.reduceNeg, Int.reduceBEq, Bool.or_false, Bool.false_eq_true,
    ↓reduceIte, Int.reduceEq]
  rw [ParseWhile]
  simp only [sees_CurTok _ _ _ h1, hlp, sees_CurTok _ _ _ h2, hfirst, ↓reduceIte,
    hm3 (n) (by omega), sees_CurTok _ _ _ hs3, hrp, hm5 n (by omega)]

/-- **C8** (no null `While` body, no null `If` then-block), evaluated on the code: on the
program `int f ( ) \x7b while ( x ) ; \x7d` the parser succeeds and returns a root whose
`While` node has the null pointer as its body, because `ParseWhile` stores what `ParseStmt`
returns and `ParseExprStmt` returns `nullptr` for the empty statement `;`.  The other half
holds: in every tree that `parser` returns, the then-part of every `If` node is a block. -/
theorem parser_returns_null_while_body :
    (∃ st1, Evals parser
      (PState.start [tok INT_TOK "int", tok IDENT "f", tok LPAR "(", tok RPAR ")",
        tok LBRA "\x7b", tok WHILE "while", tok LPAR "(", tok IDENT "x", tok RPAR ")",
        tok SC ";", tok RBRA "\x7d", eofTOK])
      (.RootASTnode []
        [.FunctionDefASTnode (.FunctionPrototypeASTnode "f" "int" [])
          (.BlockASTnode [] [.WhileExprASTnode (.VariableASTnode "x") .null])], st1)) ∧
    (∀ (n : Nat) (st st1 : PState) (v : ASTnode), parser n st = .ok (v, st1) →
      v.ifThenOk = true) := by
  refine ⟨?_, fun n st st1 v h => parser_closed _ ifThenOk_closed n st v st1 h⟩
  have hwhile : IsStmt [tok WHILE "while", tok LPAR "(", tok IDENT "x", tok RPAR ")", tok SC ";"]
      (.WhileExprASTnode (.VariableASTnode "x") .null) :=
    isStmt_while (tok WHILE "while") (tok LPAR "(") (tok RPAR ")") (tok IDENT "x") []
      (.VariableASTnode "x") [tok SC ";"] .null rfl rfl rfl (by decide)
      (fun rest => parseExpr_of_rval_ident _ _ _ _ _ rfl (by decide)
        (parseRval_primary [tok IDENT "x"] _ (tok RPAR ")") rest (isPrimary_ident _ rfl)
          (by decide)))
      (isStmt_empty _ rfl)
  have hblock := parseBlock_ok (tok LBRA "\x7b") (tok RBRA "\x7d") eofTOK []
    [([tok WHILE "while", tok LPAR "(", tok IDENT "x", tok RPAR ")", tok SC ";"],
      .WhileExprASTnode (.VariableASTnode "x") .null)] [] rfl rfl (by simp)
    (by
      intro s hs
      simp only [List.mem_singleton] at hs
      subst hs
      exact hwhile)
    (by simp)
  obtain ⟨s, ⟨m, hm⟩, hs⟩ := hblock
    (PState.ofTokens [tok LBRA "\x7b", tok WHILE "while", tok LPAR "(", tok IDENT "x",
      tok RPAR ")", tok SC ";", tok RBRA "\x7d", eofTOK]) (sees_ofTokens _ _)
  refine ⟨s, m + 1, fun n hn => ?_⟩
  obtain ⟨n, rfl⟩ : ∃ i, n = i + 1 := ⟨n - 1, by omega⟩
  have hb := hm (n + 1) (by omega)
  have hcur : s.CurTok = eofTOK := sees_CurTok _ _ _ hs
  have e : ParseDeclListPrime (n + 1)
      [.FunctionDefASTnode (.FunctionPrototypeASTnode "f" "int" [])
        (.BlockASTnode [] [.WhileExprASTnode (.VariableASTnode "x") .null])] s =
      .ok ([.FunctionDefASTnode (.FunctionPrototypeASTnode "f" "int" [])
        (.BlockASTnode [] [.WhileExprASTnode (.VariableASTnode "x") .null])], s) := by
    rw [ParseDeclListPrime]
    simp [hcur, eofTOK]
  simp only [concatTokens, List.nil_append, List.map, List.cons_append] at hb
  simp [parser, ParseProgram, ParseDeclList, ParseDecl, ParseTypeNameDecl, ParseVarType,
    ParseVarFunDecl, ParseParams, getNextToken, PState.start, tok]
  simp [PState.ofTokens, getNextToken, PState.start, tok] at hb
  simp [hb, e]

/-- **C9, as amended** (first token outside the FIRST set of `program`).  When the first token
of the stream is none of `extern`, `int`, `float`, `bool`, `void`: if it is not `EOF_TOK`,
`parser` throws the syntax error of `ParseProgram` and returns no root; if it is `EOF_TOK`,
`parser` returns the null pointer and reports no error.  The same holds for the stream without
any token, whose first token is the `EOF_TOK` of the lexer. -/
theorem parser_first_token_not_in_first_set (t : TOKEN) (ts : List TOKEN)
    (hne : t.type ≠ EXTERN ∧ t.type ≠ INT_TOK ∧ t.type ≠ FLOAT_TOK ∧ t.type ≠ BOOL_TOK ∧
      t.type ≠ VOID_TOK) :
    (t.type ≠ EOF_TOK → ∀ n, parser n (PState.start (t :: ts)) = .error (.logError
      "Syntax Error: Expected extern for extern or type int, float, bool, or void")) ∧
    (t.type = EOF_TOK → ∀ n, parser n (PState.start (t :: ts)) =
      .ok (.null, PState.ofTokens (t :: ts))) ∧
    (∀ n, parser n (PState.start []) = .ok (.null, PState.ofTokens [])) := by
  obtain ⟨h1, h2, h3, h4, h5⟩ := hne
  refine ⟨fun h0 n => ?_, fun h0 n => ?_, fun n => rfl⟩
  · have hc : (getNextToken (PState.start (t :: ts))).CurTok = t := rfl
    rw [parser, if_pos (by rw [hc]; exact h0), ParseProgram, hc, if_neg h1,
      if_neg (by rintro (h | h | h | h) <;> contradiction)]
  · have hc : (getNextToken (PState.start (t :: ts))).CurTok = t := rfl
    rw [parser, if_neg (by rw [hc]; simpa using h0)]
    rfl

/-- Witness of C9 as amended: a stream that starts with an identifier is rejected with the
syntax error; a stream that starts with the end-of-file token gives the null pointer. -/
theorem parser_first_token_not_in_first_set_witness :
    (∀ n, parser n (PState.start [tok IDENT "x", tok SC ";", eofTOK]) = .error (.logError
      "Syntax Error: Expected extern for extern or type int, float, bool, or void")) ∧
    (∀ n, parser n (PState.start [eofTOK]) = .ok (.null, PState.ofTokens [eofTOK])) :=
  ⟨(parser_first_token_not_in_first_set (tok IDENT "x") [tok SC ";", eofTOK]
      (by decide)).1 (by decide),
   (parser_first_token_not_in_first_set eofTOK [] (by decide)).2.1 rfl⟩

/-- **C9, counterexample**: on the stream that consists of the end-of-file token only, and on
the stream without any token, `parser` does not fail: it returns the null pointer, for every
fuel, and no syntax error is reported. -/
theorem parser_eof_only_is_no_error :
    (∀ n, parser n (PState.start [eofTOK]) = .ok (.null, PState.ofTokens [eofTOK])) ∧
    (∀ n, parser n (PState.start []) = .ok (.null, PState.ofTokens [])) ∧
    (∀ n e, parser n (PState.start [eofTOK]) ≠ .error e) :=
  ⟨fun _ => rfl, fun _ => rfl, fun _ _ h => by cases h⟩

/-! ### The counters of type `int` -/

theorem toI32_add_left (a b : Int) : toI32 (toI32 a + b) = toI32 (a + b) := by
  unfold toI32
  omega

theorem toI32_sub_left (a b : Int) : toI32 (toI32 a - b) = toI32 (a - b) := by
  unfold toI32
  omega

theorem toI32_congr {a b : Int} (h : a = b) : toI32 a = toI32 b := by rw [h]

theorem toI32_of_range (x : Int) (h1 : -2147483648 ≤ x) (h2 : x ≤ 2147483647) :
    toI32 x = x := by
  unfold toI32
  omega

theorem natCast_ne_EOF (b : Nat) : ((b : Int) = -1) = False := by
  simp only [eq_iff_iff, iff_false]
  omega

theorem isspace_ne_EOF (c : Int) (h : isspace c = true) : (c = -1) = False := by
  simp only [eq_iff_iff, iff_false]
  intro hc
  subst hc
  simp [isspace] at h

/-- The white-space loop does not read past its input, and it discards the lookahead when that
is white space. -/
theorem skipWhitespace_unread (bs : List Nat) :
    ∀ c ln col : Int,
      (skipWhitespace bs c ln col).unread + (if isspace c = true then 1 else 0) ≤
        bs.length + (if c = EOF then 0 else 1) := by
  induction bs with
  | nil =>
    intro c ln col
    rw [skipWhitespace]
    by_cases hsp : isspace c = true
    · have := isspace_ne_EOF c hsp
      by_cases hnl : c = 10 ∨ c = 13 <;> simp [hsp, hnl, this, LexState.unread]
    · simp [hsp, LexState.unread]
  | cons b bs ih =>
    intro c ln col
    rw [skipWhitespace]
    by_cases hsp : isspace c = true
    · have hc := isspace_ne_EOF c hsp
      have hb := natCast_ne_EOF b
      by_cases hnl : c = 10 ∨ c = 13
      · have := ih (b : Int) (toI32 (ln + 1)) (1 + 1)
        simp only [EOF, hsp, hnl, hc, hb, ↓reduceIte, List.length_cons] at this ⊢
        split_ifs at this <;> omega
      · have := ih (b : Int) ln (toI32 (col + 1))
        simp only [EOF, hsp, hnl, hc, hb, ↓reduceIte, List.length_cons] at this ⊢
        split_ifs at this <;> omega
    · simp [hsp, LexState.unread]

theorem skipWhitespace_input_le (bs : List Nat) :
    ∀ c ln col : Int, (skipWhitespace bs c ln col).input.length ≤ bs.length := by
  induction bs with
  | nil =>
    intro c ln col
    rw [skipWhitespace]
    split_ifs <;> simp
  | cons b bs ih =>
    intro c ln col
    rw [skipWhitespace]
    split_ifs
    · exact le_trans (ih _ _ _) (by simp)
    · exact le_trans (ih _ _ _) (by simp)
    · simp

/-- After the identifier loop the lookahead is a byte that was read, or `EOF`. -/
theorem identLoop_unread (bs : List Nat) :
    ∀ (acc : List Int) (col : Int),
      (identLoop bs acc col).2.2.1.length + (if (identLoop bs acc col).2.1 = EOF then 0 else 1) ≤
        bs.length := by
  induction bs with
  | nil => intro acc col; simp [identLoop]
  | cons b bs ih =>
    intro acc col
    rw [identLoop]
    by_cases h : (isalnum (b : Int) || (b : Int) == 95) = true
    · rw [if_pos h]
      exact le_trans (ih _ _) (by simp)
    · rw [if_neg h]
      simp [natCast_ne_EOF]

/-- After a digit loop the lookahead is a byte that was read, or `EOF`. -/
theorem digitLoop_unread (bs : List Nat) :
    ∀ (c : Int) (acc : List Int) (col : Int),
      (digitLoop bs c acc col).2.2.1.length +
        (if (digitLoop bs c acc col).2.1 = EOF then 0 else 1) ≤ bs.length := by
  induction bs with
  | nil => intro c acc col; simp [digitLoop]
  | cons b bs ih =>
    intro c acc col
    rw [digitLoop]
    by_cases h : isdigit (b : Int) = true
    · rw [if_pos h]
      exact le_trans (ih _ _ _) (by simp)
    · rw [if_neg h]
      simp [natCast_ne_EOF]

/-- After the comment loop the lookahead is a byte that was read, or `EOF`. -/
theorem commentLoop_unread (bs : List Nat) :
    ∀ col : Int,
      (commentLoop bs col).2.1.length + (if (commentLoop bs col).1 = EOF then 0 else 1) ≤
        bs.length := by
  induction bs with
  | nil => intro col; simp [commentLoop]
  | cons b bs ih =>
    intro col
    rw [commentLoop]
    by_cases h : (b : Int) ≠ EOF ∧ (b : Int) ≠ 10 ∧ (b : Int) ≠ 13
    · rw [if_pos h]
      exact le_trans (ih _) (by simp)
    · rw [if_neg h]
      simp [natCast_ne_EOF]

theorem getc_unread (bs : List Nat) :
    (getc bs).2.length + (if (getc bs).1 = EOF then 0 else 1) ≤ bs.length := by
  cases bs with
  | nil => simp [getc]
  | cons b bs => simp [getc, natCast_ne_EOF]

theorem singleTok_unread (lex : String) (ty : Int) (s : LexState) :
    (singleTok lex ty s).2.unread ≤ s.input.length := by
  simpa [singleTok, LexState.unread] using getc_unread s.input

theorem pairTok_unread (second : Int) (lex2 : String) (ty2 : Int) (lex1 : String) (ty1 : Int)
    (s : LexState) : (pairTok second lex2 ty2 lex1 ty1 s).2.unread ≤ s.input.length := by
  unfold pairTok
  have h1 := getc_unread s.input
  have h2 := getc_unread (getc s.input).2
  by_cases h : (getc s.input).1 = second
  · simp only [h, ↓reduceIte, LexState.unread]
    rw [h] at h1
    split_ifs at h1 h2 ⊢ <;> omega
  · simp only [h, ↓reduceIte, LexState.unread]
    exact h1

theorem identTok_unread (s : LexState) : (identTok s).2.unread ≤ s.input.length := by
  simpa [identTok, LexState.unread] using identLoop_unread s.input [s.LastChar]
    (toI32 (s.columnNo + 1))

theorem numberTok_unread (s : LexState) : (numberTok s).2.unread ≤ s.input.length := by
  unfold numberTok
  have h1 := digitLoop_unread s.input s.LastChar [] s.columnNo
  by_cases hc : s.LastChar = 46
  · simpa [hc, LexState.unread] using h1
  · by_cases hd : (digitLoop s.input s.LastChar [] s.columnNo).2.1 = 46
    · have h2 := digitLoop_unread (digitLoop s.input s.LastChar [] s.columnNo).2.2.1 46
        (digitLoop s.input s.LastChar [] s.columnNo).1
        (digitLoop s.input s.LastChar [] s.columnNo).2.2.2
      simp only [hc, hd, ↓reduceIte, LexState.unread]
      omega
    · simpa [hc, hd, LexState.unread] using h1

theorem otherTok_unread (s : LexState) : (otherTok s).2.unread ≤ s.input.length := by
  simpa [otherTok, LexState.unread] using getc_unread s.input

theorem branch_close (X : TOKEN × LexState) (n : Nat) (hX : X.2.unread ≤ n) (t : TOKEN)
    (s1 : LexState) (h : some X = some (t, s1)) : s1.unread + 1 ≤ n + 1 := by
  simp only [Option.some.injEq] at h
  rw [h] at hX
  exact Nat.succ_le_succ hX

/-- Every call of `gettok` that returns a token other than `EOF_TOK` uses up at least one of
the bytes that were still unread, and one more when the lookahead was white space. -/
theorem gettokFuel_progress (fuel : Nat) :
    ∀ (s : LexState) (t : TOKEN) (s1 : LexState), gettokFuel fuel s = some (t, s1) →
      t.type ≠ EOF_TOK →
      s1.unread + 1 + (if isspace s.LastChar = true then 1 else 0) ≤ s.unread := by
  induction fuel with
  | zero => intro s t s1 h; simp [gettokFuel] at h
  | succ fuel ih =>
    intro s t s1 h ht
    have hw := skipWhitespace_unread s.input s.LastChar s.lineNo s.columnNo
    have hs : s.unread = s.input.length + (if s.LastChar = EOF then 0 else 1) := rfl
    suffices h2 : s1.unread + 1 ≤
        (skipWhitespace s.input s.LastChar s.lineNo s.columnNo).unread by omega
    rw [gettokFuel] at h
    generalize skipWhitespace s.input s.LastChar s.lineNo s.columnNo = sw at h hw ⊢
    clear hw hs
    simp only at h
    by_cases hE : sw.LastChar = EOF
    · exfalso
      simp only [EOF] at hE
      simp [hE, isalpha, isdigit, eofTok, returnTok] at h
      exact ht (by rw [← h.1]; rfl)
    · have hu : sw.unread = sw.input.length + 1 := by
        simp only [LexState.unread, hE, ↓reduceIte]
      rw [hu]
      by_cases c1 : (isalpha sw.LastChar || sw.LastChar == 95) = true
      · rw [if_pos c1] at h; exact branch_close _ _ (identTok_unread sw) _ _ h
      rw [if_neg c1] at h
      by_cases c2 : sw.LastChar = 61
      · rw [if_pos c2] at h; exact branch_close _ _ (pairTok_unread _ _ _ _ _ sw) _ _ h
      rw [if_neg c2] at h
      by_cases c3 : sw.LastChar = 123
      · rw [if_pos c3] at h; exact branch_close _ _ (singleTok_unread _ _ sw) _ _ h
      rw [if_neg c3] at h
      by_cases c4 : sw.LastChar = 125
      · rw [if_pos c4] at h; exact branch_close _ _ (singleTok_unread _ _ sw) _ _ h
      rw [if_neg c4] at h
      by_cases c5 : sw.LastChar = 40
      · rw [if_pos c5] at h; exact branch_close _ _ (singleTok_unread _ _ sw) _ _ h
      rw [if_neg c5] at h
      by_cases c6 : sw.LastChar = 41
      · rw [if_pos c6] at h; exact branch_close _ _ (singleTok_unread _ _ sw) _ _ h
      rw [if_neg c6] at h
      by_cases c7 : sw.LastChar = 59
      · rw [if_pos c7] at h; exact branch_close _ _ (singleTok_unread _ _ sw) _ _ h
      rw [if_neg c7] at h
      by_cases c8 : sw.LastChar = 44
      · rw [if_pos c8] at h; exact branch_close _ _ (singleTok_unread _ _ sw) _ _ h
      rw [if_neg c8] at h
      by_cases c9 : (isdigit sw.LastChar || sw.LastChar == 46) = true
      · rw [if_pos c9] at h; exact branch_close _ _ (numberTok_unread sw) _ _ h
      rw [if_neg c9] at h
      by_cases c10 : sw.LastChar = 38
      · rw [if_pos c10] at h; exact branch_close _ _ (pairTok_unread _ _ _ _ _ sw) _ _ h
      rw [if_neg c10] at h
      by_cases c11 : sw.LastChar = 124
      · rw [if_pos c11] at h; exact branch_close _ _ (pairTok_unread _ _ _ _ _ sw) _ _ h
      rw [if_neg c11] at h
      by_cases c12 : sw.LastChar = 33
      · rw [if_pos c12] at h; exact branch_close _ _ (pairTok_unread _ _ _ _ _ sw) _ _ h
      rw [if_neg c12] at h
      by_cases c13 : sw.LastChar = 60
      · rw [if_pos c13] at h; exact branch_close _ _ (pairTok_unread _ _ _ _ _ sw) _ _ h
      rw [if_neg c13] at h
      by_cases c14 : sw.LastChar = 62
      · rw [if_pos c14] at h; exact branch_close _ _ (pairTok_unread _ _ _ _ _ sw) _ _ h
      rw [if_neg c14] at h
      by_cases c15 : sw.LastChar = 47
      · rw [if_pos c15] at h
        have hg := getc_unread sw.input
        by_cases c16 : (getc sw.input).1 = 47
        · rw [if_pos c16] at h
          have hc := commentLoop_unread (getc sw.input).2 (toI32 (sw.columnNo + 1))
          by_cases c17 : (commentLoop (getc sw.input).2 (toI32 (sw.columnNo + 1))).1 ≠ EOF
          · rw [if_pos c17] at h
            have := ih _ t s1 h ht
            simp only [LexState.unread] at this ⊢
            rw [if_neg c17] at this hc
            omega
          · rw [if_neg c17] at h
            exfalso
            simp only [eofTok, returnTok, Option.some.injEq, Prod.mk.injEq] at h
            exact ht (by rw [← h.1])
        · rw [if_neg c16] at h
          refine branch_close (_, _) _ ?_ _ _ h
          simpa [LexState.unread] using hg
      rw [if_neg c15, if_neg hE] at h
      exact branch_close _ _ (otherTok_unread sw) _ _ h

/-- The fuel of `gettok` is never used up: `gettok` returns a token on every state. -/
theorem gettokFuel_total (fuel : Nat) :
    ∀ s : LexState, s.input.length < fuel → ∃ r, gettokFuel fuel s = some r := by
  induction fuel with
  | zero => intro s h; omega
  | succ fuel ih =>
    intro s hlen
    have hw := skipWhitespace_input_le s.input s.LastChar s.lineNo s.columnNo
    rw [gettokFuel]
    generalize skipWhitespace s.input s.LastChar s.lineNo s.columnNo = sw at hw ⊢
    simp only
    by_cases c1 : (isalpha sw.LastChar || sw.LastChar == 95) = true
    · rw [if_pos c1]; exact ⟨_, rfl⟩
    rw [if_neg c1]
    by_cases c2 : sw.LastChar = 61
    · rw [if_pos c2]; exact ⟨_, rfl⟩
    rw [if_neg c2]
    by_cases c3 : sw.LastChar = 123
    · rw [if_pos c3]; exact ⟨_, rfl⟩
    rw [if_neg c3]
    by_cases c4 : sw.LastChar = 125
    · rw [if_pos c4]; exact ⟨_, rfl⟩
    rw [if_neg c4]
    by_cases c5 : sw.LastChar = 40
    · rw [if_pos c5]; exact ⟨_, rfl⟩
    rw [if_neg c5]
    by_cases c6 : sw.LastChar = 41
    · rw [if_pos c6]; exact ⟨_, rfl⟩
    rw [if_neg c6]
    by_cases c7 : sw.LastChar = 59
    · rw [if_pos c7]; exact ⟨_, rfl⟩
    rw [if_neg c7]
    by_cases c8 : sw.LastChar = 44
    · rw [if_pos c8]; exact ⟨_, rfl⟩
    rw [if_neg c8]
    by_cases c9 : (isdigit sw.LastChar || sw.LastChar == 46) = true
    · rw [if_pos c9]; exact ⟨_, rfl⟩
    rw [if_neg c9]
    by_cases c10 : sw.LastChar = 38
    · rw [if_pos c10]; exact ⟨_, rfl⟩
    rw [if_neg c10]
    by_cases c11 : sw.LastChar = 124
    · rw [if_pos c11]; exact ⟨_, rfl⟩
    rw [if_neg c11]
    by_cases c12 : sw.LastChar = 33
    · rw [if_pos c12]; exact ⟨_, rfl⟩
    rw [if_neg c12]
    by_cases c13 : sw.LastChar = 60
    · rw [if_pos c13]; exact ⟨_, rfl⟩
    rw [if_neg c13]
    by_cases c14 : sw.LastChar = 62
    · rw [if_pos c14]; exact ⟨_, rfl⟩
    rw [if_neg c14]
    by_cases c15 : sw.LastChar = 47
    · rw [if_pos c15]
      by_cases c16 : (getc sw.input).1 = 47
      · rw [if_pos c16]
        by_cases c17 : (commentLoop (getc sw.input).2 (toI32 (sw.columnNo + 1))).1 ≠ EOF
        · rw [if_pos c17]
          apply ih
          have hg := getc_unread sw.input
          have hc := commentLoop_unread (getc sw.input).2 (toI32 (sw.columnNo + 1))
          have hE : ¬ (getc sw.input).1 = EOF := by rw [c16]; simp
          rw [if_neg hE] at hg
          simp only
          omega
        · rw [if_neg c17]
          exact ⟨_, rfl⟩
      · rw [if_neg c16]
        exact ⟨_, rfl⟩
    rw [if_neg c15]
    by_cases c18 : sw.LastChar = EOF
    · rw [if_pos c18]; exact ⟨_, rfl⟩
    · rw [if_neg c18]; exact ⟨_, rfl⟩

theorem gettok_total (s : LexState) : ∃ r, gettok s = some r :=
  gettokFuel_total _ s (Nat.lt_succ_self _)

/-- From a state with at most `m` unread bytes, a token of kind `EOF_TOK` is returned after at
most `m` calls that return other tokens. -/
theorem eof_within (m : Nat) :
    ∀ s : LexState, s.unread ≤ m →
      ∃ k, k ≤ m ∧ ∃ ts s1 t s2, gettokN k s = some (ts, s1) ∧
        (∀ x ∈ ts, x.type ≠ EOF_TOK) ∧ gettok s1 = some (t, s2) ∧ t.type = EOF_TOK := by
  induction m with
  | zero =>
    intro s hs
    obtain ⟨⟨t, s2⟩, hr⟩ := gettok_total s
    refine ⟨0, le_refl 0, [], s, t, s2, rfl, by simp, hr, ?_⟩
    by_contra hne
    have := gettokFuel_progress _ s t s2 hr hne
    omega
  | succ m ih =>
    intro s hs
    obtain ⟨⟨t, s2⟩, hr⟩ := gettok_total s
    by_cases ht : t.type = EOF_TOK
    · exact ⟨0, Nat.zero_le _, [], s, t, s2, rfl, by simp, hr, ht⟩
    · have hp := gettokFuel_progress _ s t s2 hr ht
      obtain ⟨k, hk, ts, s3, t3, s4, h1, h2, h3, h4⟩ := ih s2 (by omega)
      refine ⟨k + 1, by omega, t :: ts, s3, t3, s4, ?_, ?_, h3, h4⟩
      · simp [gettokN, hr, h1]
      · intro x hx
        rcases List.mem_cons.mp hx with rfl | hx
        · exact ht
        · exact h2 x hx

/-- **C10** (the lexer terminates).  `gettok` returns a token in every state; every call that
returns a token other than `EOF_TOK` leaves strictly fewer unread bytes (the bytes of the file
that are not yet read, and the lookahead byte in `LastChar`); and for every byte sequence of
length `N`, at most `N` calls return tokens other than `EOF_TOK` before a call returns
`EOF_TOK`: a token of kind `EOF_TOK` is returned after at most `N + 1` calls. -/
theorem gettok_reaches_eof (bytes : List Nat) :
    (∀ s : LexState, ∃ r, gettok s = some r) ∧
    (∀ (s : LexState) (t : TOKEN) (s1 : LexState), gettok s = some (t, s1) →
      t.type ≠ EOF_TOK → s1.unread < s.unread) ∧
    (∃ k, k + 1 ≤ bytes.length + 1 ∧ ∃ ts s1 t s2,
      gettokN k (LexState.init bytes) = some (ts, s1) ∧ ts.length = k ∧
      (∀ x ∈ ts, x.type ≠ EOF_TOK) ∧ gettok s1 = some (t, s2) ∧ t.type = EOF_TOK) := by
  refine ⟨gettok_total, ?_, ?_⟩
  · intro s t s1 h ht
    have := gettokFuel_progress _ s t s1 h ht
    omega
  · obtain ⟨⟨t, s2⟩, hr⟩ := gettok_total (LexState.init bytes)
    by_cases ht : t.type = EOF_TOK
    · exact ⟨0, by omega, [], _, t, s2, rfl, rfl, by simp, hr, ht⟩
    · have hp := gettokFuel_progress _ _ t s2 hr ht
      have hi : (LexState.init bytes).unread = bytes.length + 1 := by
        simp [LexState.init, LexState.unread]
      have hsp : isspace (LexState.init bytes).LastChar = true := by
        simp [LexState.init, isspace]
      rw [hsp, hi] at hp
      simp only [↓reduceIte] at hp
      obtain ⟨k, hk, ts, s3, t3, s4, h1, h2, h3, h4⟩ := eof_within (bytes.length - 1) s2
        (by omega)
      have hlen : ∀ (k : Nat) (s : LexState) (ts : List TOKEN) (s1 : LexState),
          gettokN k s = some (ts, s1) → ts.length = k := by
        intro k
        induction k with
        | zero => intro s ts s1 h; simp [gettokN] at h; simp [← h.1]
        | succ k ihk =>
          intro s ts s1 h
          rw [gettokN] at h
          cases hg : gettok s with
          | none => simp [hg] at h
          | some r =>
            obtain ⟨a, b⟩ := r
            simp only [hg] at h
            cases hn : gettokN k b with
            | none => simp [hn] at h
            | some q =>
              obtain ⟨ts2, s5⟩ := q
              simp only [hn, Option.some.injEq, Prod.mk.injEq] at h
              rw [← h.1, List.length_cons, ihk b ts2 s5 hn]
      refine ⟨k + 1, by omega, t :: ts, s3, t3, s4, ?_, ?_, ?_, h3, h4⟩
      · simp [gettokN, hr, h1]
      · rw [List.length_cons, hlen k s2 ts s3 h1]
      · intro x hx
        rcases List.mem_cons.mp hx with rfl | hx
        · exact ht
        · exact h2 x hx

theorem reads_init (bytes : List Nat) : (LexState.init bytes).reads (32 :: bytes) := ⟨rfl, rfl⟩

theorem reads_nil_iff (s : LexState) : s.reads [] ↔ s.LastChar = EOF ∧ s.input = [] := Iff.rfl

theorem reads_cons_iff (s : LexState) (b : Nat) (bs : List Nat) :
    s.reads (b :: bs) ↔ s.LastChar = (b : Int) ∧ s.input = bs := Iff.rfl

/-- A state built from `getc`: reading the front of `bs` leaves the state reading `bs`. -/
theorem reads_getc (bs : List Nat) (ln col : Int) :
    (LexState.mk (getc bs).2 (getc bs).1 ln col).reads bs := by
  cases bs <;> exact ⟨rfl, rfl⟩

theorem frontChar_ne_of_cons (b : Nat) (bs : List Nat) : frontChar (b :: bs) ≠ EOF := by
  simp only [frontChar, EOF]
  omega

/-- The identifier loop takes the longest run of word bytes. -/
theorem identLoop_eq (bs : List Nat) : ∀ (acc : List Int) (col : Int),
    identLoop bs acc (toI32 col) =
      (acc ++ (bs.takeWhile isWordByte).map (fun b : Nat => (b : Int)),
        frontChar (bs.dropWhile isWordByte), (bs.dropWhile isWordByte).tail,
        toI32 (col + ((bs.takeWhile isWordByte).length : Int))) := by
  induction bs with
  | nil => intro acc col; simp [identLoop, frontChar]
  | cons b bs ih =>
    intro acc col
    rw [identLoop]
    by_cases h : isWordByte b = true
    · have h' : (isalnum (b : Int) || (b : Int) == 95) = true := h
      rw [if_pos h', toI32_add_left, ih, List.takeWhile_cons_of_pos h,
        List.dropWhile_cons_of_pos h]
      simp only [List.map_cons, List.append_assoc, List.singleton_append, List.length_cons,
        Nat.cast_add, Nat.cast_one]
      congr 4
      ring
    · have h' : ¬ (isalnum (b : Int) || (b : Int) == 95) = true := h
      rw [if_neg h', List.takeWhile_cons_of_neg h, List.dropWhile_cons_of_neg h]
      simp [frontChar]

/-- The digit loop takes the current byte and the longest run of digits after it. -/
theorem digitLoop_eq (bs : List Nat) : ∀ (c : Int) (acc : List Int) (col : Int),
    digitLoop bs c acc col =
      (acc ++ c :: (bs.takeWhile isDigitByte).map (fun b : Nat => (b : Int)),
        frontChar (bs.dropWhile isDigitByte), (bs.dropWhile isDigitByte).tail,
        toI32 (col + 1 + ((bs.takeWhile isDigitByte).length : Int))) := by
  induction bs with
  | nil => intro c acc col; simp [digitLoop, frontChar]
  | cons b bs ih =>
    intro c acc col
    rw [digitLoop]
    by_cases h : isDigitByte b = true
    · have h' : isdigit (b : Int) = true := h
      rw [if_pos h', ih, List.takeWhile_cons_of_pos h, List.dropWhile_cons_of_pos h]
      simp only [List.map_cons, List.append_assoc, List.singleton_append, List.length_cons,
        Nat.cast_add, Nat.cast_one, List.cons_append, List.nil_append]
      rw [add_assoc (toI32 (col + 1)), toI32_add_left]
      congr 4
      ring
    · have h' : ¬ isdigit (b : Int) = true := h
      rw [if_neg h', List.takeWhile_cons_of_neg h, List.dropWhile_cons_of_neg h]
      simp [frontChar]

/-- The comment loop stops at the first line break. -/
theorem commentLoop_eq (bs : List Nat) : ∀ (col : Int),
    commentLoop bs col =
      (frontChar (bs.dropWhile (fun b => !isNewline b)),
        (bs.dropWhile (fun b => !isNewline b)).tail,
        toI32 (col + 1 + ((bs.takeWhile (fun b => !isNewline b)).length : Int))) := by
  induction bs with
  | nil => intro col; simp [commentLoop, frontChar]
  | cons b bs ih =>
    intro col
    rw [commentLoop]
    by_cases h : isNewline b = true
    · have h' : ¬ ((b : Int) ≠ EOF ∧ (b : Int) ≠ 10 ∧ (b : Int) ≠ 13) := by
        simp only [isNewline, Bool.or_eq_true, beq_iff_eq] at h
        rcases h with h | h <;> subst h <;> simp
      rw [if_neg h']
      simp [h, frontChar]
    · have h' : (b : Int) ≠ EOF ∧ (b : Int) ≠ 10 ∧ (b : Int) ≠ 13 := by
        simp only [isNewline, Bool.or_eq_true, beq_iff_eq, not_or] at h
        refine ⟨by simp only [EOF]; omega, ?_, ?_⟩ <;> omega
      rw [if_pos h', ih]
      simp only [h, Bool.not_false, List.dropWhile_cons_of_pos, List.takeWhile_cons_of_pos,
        List.length_cons, Nat.cast_add, Nat.cast_one, Bool.false_eq_true, not_false_eq_true]
      rw [add_assoc (toI32 (col + 1)), toI32_add_left]
      simp [h]
      congr 1
      ring

theorem skipWhitespace_nonspace (input : List Nat) (c ln col : Int) (h : isspace c = false) :
    skipWhitespace input c ln col = ⟨input, c, ln, col⟩ := by
  cases input <;> simp [skipWhitespace, h]

theorem skipWhitespace_space (input : List Nat) (c ln col : Int) (h : isspace c = true) :
    skipWhitespace input c ln col =
      skipWhitespace input.tail (frontChar input)
        (if c = 10 ∨ c = 13 then toI32 (ln + 1) else ln)
        (if c = 10 ∨ c = 13 then 1 + 1 else toI32 (col + 1)) := by
  have he : isspace EOF = false := by decide
  cases input with
  | nil =>
    rw [skipWhitespace, if_pos h]
    simp only [List.tail_nil, frontChar]
    rw [skipWhitespace_nonspace _ _ _ _ he]
    split_ifs <;> rfl
  | cons b bs =>
    rw [skipWhitespace, if_pos h]
    simp only [List.tail_cons, frontChar]
    split_ifs <;> rfl

/-- The white-space loop stops in front of the first byte that is not white space. -/
theorem skipWhitespace_reads (bs : List Nat) : ∀ (ln col : Int),
    (skipWhitespace bs.tail (frontChar bs) ln col).reads (bs.dropWhile isSpaceByte) := by
  induction bs with
  | nil =>
    intro ln col
    rw [skipWhitespace_nonspace _ _ _ _ (by decide)]
    exact ⟨rfl, rfl⟩
  | cons b bs ih =>
    intro ln col
    by_cases h : isSpaceByte b = true
    · have h' : isspace (frontChar (b :: bs)) = true := h
      rw [skipWhitespace_space _ _ _ _ h', List.dropWhile_cons_of_pos h]
      exact ih _ _
    · have h' : isspace (frontChar (b :: bs)) = false := by simpa [isSpaceByte] using h
      rw [skipWhitespace_nonspace _ _ _ _ h', List.dropWhile_cons_of_neg h]
      exact ⟨rfl, rfl⟩

theorem lineOf_snoc (pre : List Nat) (b : Nat) :
    lineOf (pre ++ [b]) = if isNewline b = true then lineOf pre + 1 else lineOf pre := by
  unfold lineOf
  by_cases h : isNewline b = true
  · simp [List.filter_append, h]; ring
  · simp [List.filter_append, h]

theorem colOf_snoc (pre : List Nat) (b : Nat) :
    colOf (pre ++ [b]) = if isNewline b = true then 1 else colOf pre + 1 := by
  unfold colOf
  by_cases h : isNewline b = true
  · simp [h]
  · simp [h]; ring

theorem lineOf_append (l : List Nat) (hl : ∀ b ∈ l, isNewline b = false) :
    ∀ pre : List Nat, lineOf (pre ++ l) = lineOf pre := by
  induction l with
  | nil => intro pre; simp
  | cons b l ih =>
    intro pre
    have e : pre ++ b :: l = (pre ++ [b]) ++ l := by simp
    rw [e, ih (fun x hx => hl x (List.mem_cons_of_mem _ hx)), lineOf_snoc]
    simp [hl b (List.mem_cons_self _ _)]

theorem colOf_append (l : List Nat) (hl : ∀ b ∈ l, isNewline b = false) :
    ∀ pre : List Nat, colOf (pre ++ l) = colOf pre + (l.length : Int) := by
  induction l with
  | nil => intro pre; simp
  | cons b l ih =>
    intro pre
    have e : pre ++ b :: l = (pre ++ [b]) ++ l := by simp
    rw [e, ih (fun x hx => hl x (List.mem_cons_of_mem _ hx)), colOf_snoc]
    simp [hl b (List.mem_cons_self _ _)]
    ring

/-- The white-space loop keeps the position counters in step with the input. -/
theorem skipWhitespace_inStep (bs : List Nat) : ∀ (pre : List Nat) (ln col : Int),
    ln = toI32 (lineOf pre) → col = toI32 (colOf pre + 1) →
    (skipWhitespace bs.tail (frontChar bs) ln col).inStep (pre ++ bs.takeWhile isSpaceByte) := by
  induction bs with
  | nil =>
    intro pre ln col hl hc
    rw [skipWhitespace_nonspace _ _ _ _ (by decide)]
    simpa [LexState.inStep] using ⟨hl, hc⟩
  | cons b bs ih =>
    intro pre ln col hl hc
    by_cases h : isSpaceByte b = true
    · have h' : isspace (frontChar (b :: bs)) = true := h
      rw [skipWhitespace_space _ _ _ _ h', List.takeWhile_cons_of_pos h]
      have e : pre ++ b :: List.takeWhile isSpaceByte bs =
          (pre ++ [b]) ++ List.takeWhile isSpaceByte bs := by simp
      rw [e]
      refine ih (pre ++ [b]) _ _ ?_ ?_
      · rw [lineOf_snoc]
        by_cases hn : isNewline b = true
        · have : (frontChar (b :: bs) = 10 ∨ frontChar (b :: bs) = 13) := by
            simp only [isNewline, Bool.or_eq_true, beq_iff_eq] at hn
            simp only [frontChar]
            omega
          rw [if_pos this, if_pos hn, hl, toI32_add_left]
        · have : ¬ (frontChar (b :: bs) = 10 ∨ frontChar (b :: bs) = 13) := by
            simp only [isNewline, Bool.or_eq_true, beq_iff_eq] at hn
            simp only [frontChar]
            omega
          rw [if_neg this, if_neg hn, hl]
      · rw [colOf_snoc]
        by_cases hn : isNewline b = true
        · have : (frontChar (b :: bs) = 10 ∨ frontChar (b :: bs) = 13) := by
            simp only [isNewline, Bool.or_eq_true, beq_iff_eq] at hn
            simp only [frontChar]
            omega
          rw [if_pos this, if_pos hn]
          rfl
        · have : ¬ (frontChar (b :: bs) = 10 ∨ frontChar (b :: bs) = 13) := by
            simp only [isNewline, Bool.or_eq_true, beq_iff_eq] at hn
            simp only [frontChar]
            omega
          rw [if_neg this, if_neg hn, hc, toI32_add_left]
    · have h' : isspace (frontChar (b :: bs)) = false := by simpa [isSpaceByte] using h
      rw [skipWhitespace_nonspace _ _ _ _ h', List.takeWhile_cons_of_neg h]
      simpa [LexState.inStep] using ⟨hl, hc⟩

theorem gettokFuel_ident (f : Nat) (s0 : LexState)
    (h : (isalpha (skipWhitespace s0.input s0.LastChar s0.lineNo s0.columnNo).LastChar ||
      (skipWhitespace s0.input s0.LastChar s0.lineNo s0.columnNo).LastChar == 95) = true) :
    gettokFuel (f + 1) s0 = some (identTok (skipWhitespace s0.input s0.LastChar s0.lineNo s0.columnNo)) := by
  rw [gettokFuel]
  simp only [h, ↓reduceIte]

theorem gettokFuel_pair_eq (f : Nat) (s0 : LexState)
    (h : (skipWhitespace s0.input s0.LastChar s0.lineNo s0.columnNo).LastChar = 61) :
    gettokFuel (f + 1) s0 =
      some (pairTok 61 "==" EQ "=" ASSIGN (skipWhitespace s0.input s0.LastChar s0.lineNo s0.columnNo)) := by
  rw [gettokFuel]
  simp +decide only [h, ↓reduceIte]

theorem gettokFuel_pair_amp (f : Nat) (s0 : LexState)
    (h : (skipWhitespace s0.input s0.LastChar s0.lineNo s0.columnNo).LastChar = 38) :
    gettokFuel (f + 1) s0 =
      some (pairTok 38 "&&" AND "&" 38 (skipWhitespace s0.input s0.LastChar s0.lineNo s0.columnNo)) := by
  rw [gettokFuel]
  simp +decide only [h, ↓reduceIte]

theorem gettokFuel_pair_bar (f : Nat) (s0 : LexState)
    (h : (skipWhitespace s0.input s0.LastChar s0.lineNo s0.columnNo).LastChar = 124) :
    gettokFuel (f + 1) s0 =
      some (pairTok 124 "||" OR "|" 124 (skipWhitespace s0.input s0.LastChar s0.lineNo s0.columnNo)) := by
  rw [gettokFuel]
  simp +decide only [h, ↓reduceIte]

theorem gettokFuel_pair_not (f : Nat) (s0 : LexState)
    (h : (skipWhitespace s0.input s0.LastChar s0.lineNo s0.columnNo).LastChar = 33) :
    gettokFuel (f + 1) s0 =
      some (pairTok 61 "!=" NE "!" NOT (skipWhitespace s0.input s0.LastChar s0.lineNo s0.columnNo)) := by
  rw [gettokFuel]
  simp +decide only [h, ↓reduceIte]

theorem gettokFuel_pair_lt (f : Nat) (s0 : LexState)
    (h : (skipWhitespace s0.input s0.LastChar s0.lineNo s0.columnNo).LastChar = 60) :
    gettokFuel (f + 1) s0 =
      some (pairTok 61 "<=" LE "<" LT (skipWhitespace s0.input s0.LastChar s0.lineNo s0.columnNo)) := by
  rw [gettokFuel]
  simp +decide only [h, ↓reduceIte]

theorem gettokFuel_pair_gt (f : Nat) (s0 : LexState)
    (h : (skipWhitespace s0.input s0.LastChar s0.lineNo s0.columnNo).LastChar = 62) :
    gettokFuel (f + 1) s0 =
      some (pairTok 61 ">=" GE ">" GT (skipWhitespace s0.input s0.LastChar s0.lineNo s0.columnNo)) := by
  rw [gettokFuel]
  simp +decide only [h, ↓reduceIte]

theorem gettokFuel_single_lbra (f : Nat) (s0 : LexState)
    (h : (skipWhitespace s0.input s0.LastChar s0.lineNo s0.columnNo).LastChar = 123) :
    gettokFuel (f + 1) s0 = some (singleTok "\x7b" LBRA (skipWhitespace s0.input s0.LastChar s0.lineNo s0.columnNo)) := by
  rw [gettokFuel]
  simp +decide only [h, ↓reduceIte]

theorem gettokFuel_single_rbra (f : Nat) (s0 : LexState)
    (h : (skipWhitespace s0.input s0.LastChar s0.lineNo s0.columnNo).LastChar = 125) :
    gettokFuel (f + 1) s0 = some (singleTok "\x7d" RBRA (skipWhitespace s0.input s0.LastChar s0.lineNo s0.columnNo)) := by
  rw [gettokFuel]
  simp +decide only [h, ↓reduceIte]

theorem gettokFuel_single_lpar (f : Nat) (s0 : LexState)
    (h : (skipWhitespace s0.input s0.LastChar s0.lineNo s0.columnNo).LastChar = 40) :
    gettokFuel (f + 1) s0 = some (singleTok "(" LPAR (skipWhitespace s0.input s0.LastChar s0.lineNo s0.columnNo)) := by
  rw [gettokFuel]
  simp +decide only [h, ↓reduceIte]

theorem gettokFuel_single_rpar (f : Nat) (s0 : LexState)
    (h : (skipWhitespace s0.input s0.LastChar s0.lineNo s0.columnNo).LastChar = 41) :
    gettokFuel (f + 1) s0 = some (singleTok ")" RPAR (skipWhitespace s0.input s0.LastChar s0.lineNo s0.columnNo)) := by
  rw [gettokFuel]
  simp +decide only [h, ↓reduceIte]

theorem gettokFuel_single_sc (f : Nat) (s0 : LexState)
    (h : (skipWhitespace s0.input s0.LastChar s0.lineNo s0.columnNo).LastChar = 59) :
    gettokFuel (f + 1) s0 = some (singleTok ";" SC (skipWhitespace s0.input s0.LastChar s0.lineNo s0.columnNo)) := by
  rw [gettokFuel]
  simp +decide only [h, ↓reduceIte]

theorem gettokFuel_single_comma (f : Nat) (s0 : LexState)
    (h : (skipWhitespace s0.input s0.LastChar s0.lineNo s0.columnNo).LastChar = 44) :
    gettokFuel (f + 1) s0 = some (singleTok "," COMMA (skipWhitespace s0.input s0.LastChar s0.lineNo s0.columnNo)) := by
  rw [gettokFuel]
  simp +decide only [h, ↓reduceIte]

theorem gettokFuel_number (f : Nat) (s0 : LexState)
    (h : (isdigit (skipWhitespace s0.input s0.LastChar s0.lineNo s0.columnNo).LastChar ||
      (skipWhitespace s0.input s0.LastChar s0.lineNo s0.columnNo).LastChar == 46) = true) :
    gettokFuel (f + 1) s0 =
      some (numberTok (skipWhitespace s0.input s0.LastChar s0.lineNo s0.columnNo)) := by
  rw [gettokFuel]
  generalize skipWhitespace s0.input s0.LastChar s0.lineNo s0.columnNo = sw at h ⊢
  have hr : 46 ≤ sw.LastChar ∧ sw.LastChar ≤ 57 := by
    simp only [isdigit, Bool.or_eq_true, Bool.and_eq_true, decide_eq_true_eq, beq_iff_eq] at h
    omega
  have h1 : ¬ (isalpha sw.LastChar || sw.LastChar == 95) = true := by
    simp only [isalpha, Bool.or_eq_true, Bool.and_eq_true, decide_eq_true_eq, beq_iff_eq]
    omega
  simp only
  rw [if_neg h1, if_neg (by omega), if_neg (by omega), if_neg (by omega), if_neg (by omega),
    if_neg (by omega), if_neg (by omega), if_neg (by omega), if_pos h]

theorem gettokFuel_slash_div (f : Nat) (s0 : LexState)
    (h : (skipWhitespace s0.input s0.LastChar s0.lineNo s0.columnNo).LastChar = 47)
    (h2 : (getc (skipWhitespace s0.input s0.LastChar s0.lineNo s0.columnNo).input).1 ≠ 47) :
    gettokFuel (f + 1) s0 =
      some (returnTok "/" DIV
          ⟨(getc (skipWhitespace s0.input s0.LastChar s0.lineNo s0.columnNo).input).2,
           (getc (skipWhitespace s0.input s0.LastChar s0.lineNo s0.columnNo).input).1,
           (skipWhitespace s0.input s0.LastChar s0.lineNo s0.columnNo).lineNo,
           toI32 ((skipWhitespace s0.input s0.LastChar s0.lineNo s0.columnNo).columnNo + 1)⟩,
        ⟨(getc (skipWhitespace s0.input s0.LastChar s0.lineNo s0.columnNo).input).2,
           (getc (skipWhitespace s0.input s0.LastChar s0.lineNo s0.columnNo).input).1,
           (skipWhitespace s0.input s0.LastChar s0.lineNo s0.columnNo).lineNo,
           toI32 ((skipWhitespace s0.input s0.LastChar s0.lineNo s0.columnNo).columnNo + 1)⟩) := by
  rw [gettokFuel]
  generalize skipWhitespace s0.input s0.LastChar s0.lineNo s0.columnNo = sw at h h2 ⊢
  simp +decide only [h, h2, ↓reduceIte]

theorem gettokFuel_slash_comment (f : Nat) (s0 : LexState)
    (h : (skipWhitespace s0.input s0.LastChar s0.lineNo s0.columnNo).LastChar = 47)
    (h2 : (getc (skipWhitespace s0.input s0.LastChar s0.lineNo s0.columnNo).input).1 = 47) :
    gettokFuel (f + 1) s0 =
      if (commentLoop (getc (skipWhitespace s0.input s0.LastChar s0.lineNo s0.columnNo).input).2
          (toI32 ((skipWhitespace s0.input s0.LastChar s0.lineNo s0.columnNo).columnNo + 1))).1 ≠ EOF then
        gettokFuel f
          ⟨(commentLoop (getc (skipWhitespace s0.input s0.LastChar s0.lineNo s0.columnNo).input).2
              (toI32 ((skipWhitespace s0.input s0.LastChar s0.lineNo s0.columnNo).columnNo + 1))).2.1,
           (commentLoop (getc (skipWhitespace s0.input s0.LastChar s0.lineNo s0.columnNo).input).2
              (toI32 ((skipWhitespace s0.input s0.LastChar s0.lineNo s0.columnNo).columnNo + 1))).1,
           (skipWhitespace s0.input s0.LastChar s0.lineNo s0.columnNo).lineNo,
           (commentLoop (getc (skipWhitespace s0.input s0.LastChar s0.lineNo s0.columnNo).input).2
              (toI32 ((skipWhitespace s0.input s0.LastChar s0.lineNo s0.columnNo).columnNo + 1))).2.2⟩
      else
        some (eofTok
          ⟨(commentLoop (getc (skipWhitespace s0.input s0.LastChar s0.lineNo s0.columnNo).input).2
              (toI32 ((skipWhitespace s0.input s0.LastChar s0.lineNo s0.columnNo).columnNo + 1))).2.1,
           (commentLoop (getc (skipWhitespace s0.input s0.LastChar s0.lineNo s0.columnNo).input).2
              (toI32 ((skipWhitespace s0.input s0.LastChar s0.lineNo s0.columnNo).columnNo + 1))).1,
           (skipWhitespace s0.input s0.LastChar s0.lineNo s0.columnNo).lineNo,
           (commentLoop (getc (skipWhitespace s0.input s0.LastChar s0.lineNo s0.columnNo).input).2
              (toI32 ((skipWhitespace s0.input s0.LastChar s0.lineNo s0.columnNo).columnNo + 1))).2.2⟩) := by
  rw [gettokFuel]
  generalize skipWhitespace s0.input s0.LastChar s0.lineNo s0.columnNo = sw at h h2 ⊢
  simp +decide only [h, h2, ↓reduceIte]

theorem gettokFuel_eof (f : Nat) (s0 : LexState)
    (h : (skipWhitespace s0.input s0.LastChar s0.lineNo s0.columnNo).LastChar = EOF) :
    gettokFuel (f + 1) s0 =
      some (eofTok (skipWhitespace s0.input s0.LastChar s0.lineNo s0.columnNo)) := by
  rw [gettokFuel]
  simp +decide only [h, ↓reduceIte]

/-- The bytes that no branch of `gettok` other than the last one takes. -/
theorem gettokFuel_other (f : Nat) (s0 : LexState)
    (h1 : (isalpha (skipWhitespace s0.input s0.LastChar s0.lineNo s0.columnNo).LastChar ||
      (skipWhitespace s0.input s0.LastChar s0.lineNo s0.columnNo).LastChar == 95) = false)
    (h2 : (isdigit (skipWhitespace s0.input s0.LastChar s0.lineNo s0.columnNo).LastChar ||
      (skipWhitespace s0.input s0.LastChar s0.lineNo s0.columnNo).LastChar == 46) = false)
    (h3 : (skipWhitespace s0.input s0.LastChar s0.lineNo s0.columnNo).LastChar ∉
      ([61, 123, 125, 40, 41, 59, 44, 38, 124, 33, 60, 62, 47, EOF] : List Int)) :
    gettokFuel (f + 1) s0 =
      some (otherTok (skipWhitespace s0.input s0.LastChar s0.lineNo s0.columnNo)) := by
  rw [gettokFuel]
  generalize skipWhitespace s0.input s0.LastChar s0.lineNo s0.columnNo = sw at h1 h2 h3 ⊢
  simp only [List.mem_cons, List.mem_singleton, List.not_mem_nil, or_false, not_or] at h3
  obtain ⟨a1, a2, a3, a4, a5, a6, a7, a8, a9, a10, a11, a12, a13, a14⟩ := h3
  simp only [h1, h2, a1, a2, a3, a4, a5, a6, a7, a8, a9, a10, a11, a12, a13, a14, ↓reduceIte,
    Bool.false_eq_true]

theorem ite_congr_dead {α : Type} (c : Prop) [Decidable c] (a x y : α) (h : ¬ c → x = y) :
    (if c then a else x) = (if c then a else y) := by
  by_cases hc : c
  · rw [if_pos hc, if_pos hc]
  · rw [if_neg hc, if_neg hc, h hc]

/-- More fuel does not change the result of `gettokFuel`. -/
theorem gettokFuel_succ (f : Nat) :
    ∀ (s : LexState) (r : TOKEN × LexState), gettokFuel f s = some r →
      gettokFuel (f + 1) s = some r := by
  induction f with
  | zero => intro s r h; rw [gettokFuel] at h; cases h
  | succ f ih =>
    intro s r h
    by_cases hc : (skipWhitespace s.input s.LastChar s.lineNo s.columnNo).LastChar = 47 ∧
        (getc (skipWhitespace s.input s.LastChar s.lineNo s.columnNo).input).1 = 47
    · rw [gettokFuel_slash_comment _ _ hc.1 hc.2] at h ⊢
      split_ifs at h ⊢ with h1
      · exact ih _ _ h
      · exact h
    · rw [← h]
      rw [gettokFuel, gettokFuel]
      generalize skipWhitespace s.input s.LastChar s.lineNo s.columnNo = sw at hc
      simp only
      iterate 14 refine ite_congr_dead _ _ _ _ (fun _ => ?_)
      by_cases h1 : sw.LastChar = 47
      · rw [if_pos h1, if_pos h1]
        by_cases h2 : (getc sw.input).1 = 47
        · exact absurd ⟨h1, h2⟩ hc
        · rw [if_neg h2, if_neg h2]
      · rw [if_neg h1, if_neg h1]

theorem gettokFuel_mono (f f' : Nat) (hle : f ≤ f') (s : LexState) (r : TOKEN × LexState)
    (h : gettokFuel f s = some r) : gettokFuel f' s = some r := by
  induction f' with
  | zero =>
    have : f = 0 := by omega
    subst this
    exact h
  | succ f' ih =>
    by_cases he : f = f' + 1
    · subst he; exact h
    · exact gettokFuel_succ _ _ _ (ih (by omega))

/-- With enough fuel, `gettokFuel` is `gettok`. -/
theorem gettokFuel_eq_gettok (f : Nat) (s : LexState) (hf : s.input.length < f) :
    gettokFuel f s = gettok s := by
  obtain ⟨r, hr⟩ := gettok_total s
  rw [hr]
  exact gettokFuel_mono _ _ (by omega) _ _ hr

theorem lexemeOf_length (l : List Nat) : (lexemeOf l).length = l.length := by
  unfold lexemeOf bytesToString
  rw [String.length_mk, List.length_map, List.length_map]

theorem bytesToString_cons_cast (c : Nat) (l : List Nat) :
    bytesToString ([(c : Int)] ++ l.map (fun b : Nat => (b : Int))) = lexemeOf (c :: l) := by
  simp [lexemeOf]

theorem isNewline_of_wordByte (b : Nat) (h : isWordByte b = true) : isNewline b = false := by
  simp only [isWordByte, isalnum, isalpha, isdigit, Bool.or_eq_true, Bool.and_eq_true,
    decide_eq_true_eq, beq_iff_eq] at h
  simp only [isNewline, Bool.or_eq_false_iff, beq_eq_false_iff_ne, ne_eq]
  omega

theorem isNewline_of_digitByte (b : Nat) (h : isDigitByte b = true) : isNewline b = false := by
  simp only [isDigitByte, isdigit, Bool.and_eq_true, decide_eq_true_eq] at h
  simp only [isNewline, Bool.or_eq_false_iff, beq_eq_false_iff_ne, ne_eq]
  omega

theorem isNewline_of_not_space (b : Nat) (h : isSpaceByte b = false) : isNewline b = false := by
  simp only [isSpaceByte, isspace, Bool.or_eq_false_iff, Bool.and_eq_false_imp,
    beq_eq_false_iff_ne, decide_eq_true_eq, decide_eq_false_iff_not] at h
  simp only [isNewline, Bool.or_eq_false_iff, beq_eq_false_iff_ne, ne_eq]
  omega

theorem wordKind_of_not_reserved (str : String) (h1 : str ≠ "int") (h2 : str ≠ "float")
    (h3 : str ≠ "bool") (h4 : str ≠ "void") (h5 : str ≠ "extern") (h6 : str ≠ "if")
    (h7 : str ≠ "else") (h8 : str ≠ "while") (h9 : str ≠ "return") (h10 : str ≠ "true")
    (h11 : str ≠ "false") : wordKind str = IDENT := by
  have e1 := beq_eq_false_iff_ne.mpr h1
  have e2 := beq_eq_false_iff_ne.mpr h2
  have e3 := beq_eq_false_iff_ne.mpr h3
  have e4 := beq_eq_false_iff_ne.mpr h4
  have e5 := beq_eq_false_iff_ne.mpr h5
  have e6 := beq_eq_false_iff_ne.mpr h6
  have e7 := beq_eq_false_iff_ne.mpr h7
  have e8 := beq_eq_false_iff_ne.mpr h8
  have e9 := beq_eq_false_iff_ne.mpr h9
  have e10 := beq_eq_false_iff_ne.mpr h10
  have e11 := beq_eq_false_iff_ne.mpr h11
  simp only [wordKind, reservedWords, List.lookup, e1, e2, e3, e4, e5, e6, e7, e8, e9, e10, e11]

theorem keywordTok_fields (str : String) (s : LexState) :
    (keywordTok str s).type = wordKind str ∧ (keywordTok str s).lexeme = str ∧
      (keywordTok str s).lineNo = s.lineNo ∧
      (keywordTok str s).columnNo = toI32 (s.columnNo - (str.length : Int) - 1) := by
  unfold keywordTok
  by_cases h1 : str = "int"
  · rw [if_pos h1]
    subst h1
    exact ⟨rfl, rfl, rfl, rfl⟩
  rw [if_neg h1]
  by_cases h2 : str = "bool"
  · rw [if_pos h2]
    subst h2
    exact ⟨rfl, rfl, rfl, rfl⟩
  rw [if_neg h2]
  by_cases h3 : str = "float"
  · rw [if_pos h3]
    subst h3
    exact ⟨rfl, rfl, rfl, rfl⟩
  rw [if_neg h3]
  by_cases h4 : str = "void"
  · rw [if_pos h4]
    subst h4
    exact ⟨rfl, rfl, rfl, rfl⟩
  rw [if_neg h4]
  by_cases h5 : str = "bool"
  · rw [if_pos h5]
    subst h5
    exact ⟨rfl, rfl, rfl, rfl⟩
  rw [if_neg h5]
  by_cases h6 : str = "extern"
  · rw [if_pos h6]
    subst h6
    exact ⟨rfl, rfl, rfl, rfl⟩
  rw [if_neg h6]
  by_cases h7 : str = "if"
  · rw [if_pos h7]
    subst h7
    exact ⟨rfl, rfl, rfl, rfl⟩
  rw [if_neg h7]
  by_cases h8 : str = "else"
  · rw [if_pos h8]
    subst h8
    exact ⟨rfl, rfl, rfl, rfl⟩
  rw [if_neg h8]
  by_cases h9 : str = "while"
  · rw [if_pos h9]
    subst h9
    exact ⟨rfl, rfl, rfl, rfl⟩
  rw [if_neg h9]
  by_cases h10 : str = "return"
  · rw [if_pos h10]
    subst h10
    exact ⟨rfl, rfl, rfl, rfl⟩
  rw [if_neg h10]
  by_cases h11 : str = "true"
  · rw [if_pos h11]
    subst h11
    exact ⟨rfl, rfl, rfl, rfl⟩
  rw [if_neg h11]
  by_cases h12 : str = "false"
  · rw [if_pos h12]
    subst h12
    exact ⟨rfl, rfl, rfl, rfl⟩
  rw [if_neg h12]
  exact ⟨(wordKind_of_not_reserved str h1 h3 h2 h4 h6 h7 h8 h9 h10 h11 h12).symm, rfl, rfl, rfl⟩

theorem reads_dropWhile_mk (l : List Nat) (ln col : Int) :
    (LexState.mk l.tail (frontChar l) ln col).reads l := ⟨rfl, rfl⟩

theorem no_newline_takeWhile (p : Nat → Bool) (hp : ∀ b, p b = true → isNewline b = false)
    (c : Nat) (hc : isNewline c = false) (r : List Nat) :
    ∀ b ∈ c :: r.takeWhile p, isNewline b = false := by
  intro b hb
  rcases List.mem_cons.mp hb with h | h
  · rw [h]; exact hc
  · exact hp b (List.mem_takeWhile_imp h)

/-- The identifier branch on the stream `c :: r`. -/
theorem identTok_emits (sw : LexState) (c : Nat) (r : List Nat) (hr : sw.reads (c :: r))
    (hc : (isalpha (c : Int) || (c : Int) == 95) = true) :
    sw.emits (identTok sw) (wordKind (lexemeOf (c :: r.takeWhile isWordByte)))
      (c :: r.takeWhile isWordByte) (r.dropWhile isWordByte) := by
  obtain ⟨h1, h2⟩ := hr
  simp only [frontChar, List.tail_cons] at h1 h2
  have hk := keywordTok_fields (lexemeOf (c :: r.takeWhile isWordByte))
    ⟨(r.dropWhile isWordByte).tail, frontChar (r.dropWhile isWordByte), sw.lineNo,
      toI32 (sw.columnNo + 1 + ((r.takeWhile isWordByte).length : Int))⟩
  have hcn : isNewline c = false := by
    simp only [isalpha, Bool.or_eq_true, Bool.and_eq_true, decide_eq_true_eq, beq_iff_eq] at hc
    simp only [isNewline, Bool.or_eq_false_iff, beq_eq_false_iff_ne, ne_eq]
    omega
  have hnl := no_newline_takeWhile isWordByte isNewline_of_wordByte c hcn r
  unfold identTok
  rw [h1, h2, identLoop_eq]
  dsimp only
  rw [bytesToString_cons_cast]
  refine ⟨hk.1, hk.2.1, ⟨rfl, rfl⟩, ?_⟩
  intro pre hin
  obtain ⟨hl, hcol⟩ := hin
  refine ⟨?_, ?_, ?_, ?_⟩
  · rw [hk.2.2.1]; exact hl
  · rw [hk.2.2.2, lexemeOf_length, hcol]
    simp only [toI32_add_left, toI32_sub_left, add_assoc, sub_sub, List.length_cons,
      List.length_append, List.length_nil, Nat.cast_add, Nat.cast_one, Nat.cast_zero]
    exact toI32_congr (by ring)
  · show sw.lineNo = _
    rw [lineOf_append _ hnl, hl]
  · show toI32 (sw.columnNo + 1 + _) = _
    rw [colOf_append _ hnl, hcol]
    simp only [toI32_add_left, toI32_sub_left, add_assoc, sub_sub, List.length_cons,
      List.length_append, List.length_nil, Nat.cast_add, Nat.cast_one, Nat.cast_zero]
    exact toI32_congr (by ring)

/-- The one-character branches on the stream `c :: r`. -/
theorem singleTok_emits (sw : LexState) (c : Nat) (r : List Nat) (hr : sw.reads (c :: r))
    (lex : String) (ty : Int) (hlex : lex = lexemeOf [c]) (hcn : isNewline c = false) :
    sw.emits (singleTok lex ty sw) ty [c] r := by
  obtain ⟨h1, h2⟩ := hr
  simp only [frontChar, List.tail_cons] at h1 h2
  unfold singleTok
  rw [h2]
  refine ⟨rfl, hlex, reads_getc r _ _, ?_⟩
  intro pre hin
  obtain ⟨hl, hcol⟩ := hin
  have hnl : ∀ b ∈ [c], isNewline b = false := by simpa using hcn
  refine ⟨hl, ?_, ?_, ?_⟩
  · show toI32 (toI32 (sw.columnNo + 1) - (lex.length : Int) - 1) = _
    rw [hlex, lexemeOf_length, hcol]
    simp only [toI32_add_left, toI32_sub_left, add_assoc, sub_sub, List.length_cons,
      List.length_append, List.length_nil, Nat.cast_add, Nat.cast_one, Nat.cast_zero]
    exact toI32_congr (by ring)
  · show sw.lineNo = _
    rw [lineOf_append _ hnl, hl]
  · show toI32 (sw.columnNo + 1) = _
    rw [colOf_append _ hnl, hcol]
    simp only [toI32_add_left, toI32_sub_left, add_assoc, sub_sub, List.length_cons,
      List.length_append, List.length_nil, Nat.cast_add, Nat.cast_one, Nat.cast_zero]
    exact toI32_congr (by ring)

/-- The last branch on the stream `c :: r`. -/
theorem otherTok_emits (sw : LexState) (c : Nat) (r : List Nat) (hr : sw.reads (c :: r))
    (hcn : isNewline c = false) :
    sw.emits (otherTok sw) (c : Int) [c] r := by
  obtain ⟨h1, h2⟩ := hr
  simp only [frontChar, List.tail_cons] at h1 h2
  unfold otherTok
  rw [h2, h1]
  have hlex : bytesToString [(c : Int)] = lexemeOf [c] := by simp [lexemeOf]
  refine ⟨rfl, hlex, reads_getc r _ _, ?_⟩
  intro pre hin
  obtain ⟨hl, hcol⟩ := hin
  have hnl : ∀ b ∈ [c], isNewline b = false := by simpa using hcn
  refine ⟨hl, ?_, ?_, ?_⟩
  · show toI32 (toI32 (sw.columnNo + 1) - ((bytesToString [(c : Int)]).length : Int) - 1) = _
    rw [hlex, lexemeOf_length, hcol]
    simp only [toI32_add_left, toI32_sub_left, add_assoc, sub_sub, List.length_cons,
      List.length_append, List.length_nil, Nat.cast_add, Nat.cast_one, Nat.cast_zero]
    exact toI32_congr (by ring)
  · show sw.lineNo = _
    rw [lineOf_append _ hnl, hl]
  · show toI32 (sw.columnNo + 1) = _
    rw [colOf_append _ hnl, hcol]
    simp only [toI32_add_left, toI32_sub_left, add_assoc, sub_sub, List.length_cons,
      List.length_append, List.length_nil, Nat.cast_add, Nat.cast_one, Nat.cast_zero]
    exact toI32_congr (by ring)

/-- The two-character branches on the stream `c :: d :: r` when `d` is the second character. -/
theorem pairTok_emits_two (sw : LexState) (c d : Nat) (r : List Nat)
    (hr : sw.reads (c :: d :: r)) (lex2 : String) (ty2 : Int) (lex1 : String) (ty1 : Int)
    (hlex : lex2 = lexemeOf [c, d]) (hcn : isNewline c = false) (hdn : isNewline d = false) :
    sw.emits (pairTok (d : Int) lex2 ty2 lex1 ty1 sw) ty2 [c, d] r := by
  obtain ⟨h1, h2⟩ := hr
  simp only [frontChar, List.tail_cons] at h1 h2
  unfold pairTok
  rw [h2]
  simp only [getc, ↓reduceIte]
  refine ⟨rfl, hlex, reads_getc r _ _, ?_⟩
  intro pre hin
  obtain ⟨hl, hcol⟩ := hin
  have hnl : ∀ b ∈ [c, d], isNewline b = false := by
    intro b hb
    simp only [List.mem_cons, List.mem_singleton, List.not_mem_nil, or_false] at hb
    rcases hb with h | h <;> rw [h] <;> assumption
  refine ⟨hl, ?_, ?_, ?_⟩
  · show toI32 (toI32 (sw.columnNo + 2) - (lex2.length : Int) - 1) = _
    rw [hlex, lexemeOf_length, hcol]
    simp only [toI32_add_left, toI32_sub_left, add_assoc, sub_sub, List.length_cons,
      List.length_append, List.length_nil, Nat.cast_add, Nat.cast_one, Nat.cast_zero]
    exact toI32_congr (by ring)
  · show sw.lineNo = _
    rw [lineOf_append _ hnl, hl]
  · show toI32 (sw.columnNo + 2) = _
    rw [colOf_append _ hnl, hcol]
    simp only [toI32_add_left, toI32_sub_left, add_assoc, sub_sub, List.length_cons,
      List.length_append, List.length_nil, Nat.cast_add, Nat.cast_one, Nat.cast_zero]
    exact toI32_congr (by ring)

/-- The two-character branches on the stream `c :: r` when `r` does not start with the second
character. -/
theorem pairTok_emits_one (sw : LexState) (c : Nat) (r : List Nat)
    (hr : sw.reads (c :: r)) (second : Int) (lex2 : String) (ty2 : Int) (lex1 : String)
    (ty1 : Int) (hsec : frontChar r ≠ second)
    (hlex : lex1 = lexemeOf [c]) (hcn : isNewline c = false) :
    sw.emits (pairTok second lex2 ty2 lex1 ty1 sw) ty1 [c] r := by
  obtain ⟨h1, h2⟩ := hr
  simp only [frontChar, List.tail_cons] at h1 h2
  have hg : (getc r).1 = frontChar r := by cases r <;> rfl
  unfold pairTok
  rw [h2]
  simp only [hg, hsec, ↓reduceIte]
  refine ⟨rfl, hlex, ?_, ?_⟩
  · have := reads_getc r sw.lineNo (toI32 (sw.columnNo + 1))
    rw [hg] at this
    exact this
  intro pre hin
  obtain ⟨hl, hcol⟩ := hin
  have hnl : ∀ b ∈ [c], isNewline b = false := by simpa using hcn
  refine ⟨hl, ?_, ?_, ?_⟩
  · show toI32 (toI32 (sw.columnNo + 1) - (lex1.length : Int) - 1) = _
    rw [hlex, lexemeOf_length, hcol]
    simp only [toI32_add_left, toI32_sub_left, add_assoc, sub_sub, List.length_cons,
      List.length_append, List.length_nil, Nat.cast_add, Nat.cast_one, Nat.cast_zero]
    exact toI32_congr (by ring)
  · show sw.lineNo = _
    rw [lineOf_append _ hnl, hl]
  · show toI32 (sw.columnNo + 1) = _
    rw [colOf_append _ hnl, hcol]
    simp only [toI32_add_left, toI32_sub_left, add_assoc, sub_sub, List.length_cons,
      List.length_append, List.length_nil, Nat.cast_add, Nat.cast_one, Nat.cast_zero]
    exact toI32_congr (by ring)

/-- The number branch on a stream that starts with `.`. -/
theorem numberTok_emits_dot (sw : LexState) (r : List Nat) (hr : sw.reads (46 :: r)) :
    sw.emits (numberTok sw) FLOAT_LIT (46 :: r.takeWhile isDigitByte)
      (r.dropWhile isDigitByte) := by
  obtain ⟨h1, h2⟩ := hr
  simp only [frontChar, List.tail_cons] at h1 h2
  have hnl := no_newline_takeWhile isDigitByte isNewline_of_digitByte 46 (by decide) r
  have hlex : bytesToString ([] ++ ((46 : Nat) : Int) :: (r.takeWhile isDigitByte).map
      (fun b : Nat => (b : Int))) = lexemeOf (46 :: r.takeWhile isDigitByte) := by
    simp [lexemeOf]
  unfold numberTok
  rw [if_pos (by rw [h1]; rfl), h1, h2, digitLoop_eq]
  dsimp only
  refine ⟨rfl, hlex, ⟨rfl, rfl⟩, ?_⟩
  intro pre hin
  obtain ⟨hl, hcol⟩ := hin
  refine ⟨hl, ?_, ?_, ?_⟩
  · show toI32 (toI32 (sw.columnNo + 1 + _) - ((bytesToString _).length : Int) - 1) = _
    rw [hlex, lexemeOf_length, hcol]
    simp only [toI32_add_left, toI32_sub_left, add_assoc, sub_sub, List.length_cons,
      List.length_append, List.length_nil, Nat.cast_add, Nat.cast_one, Nat.cast_zero]
    exact toI32_congr (by ring)
  · show sw.lineNo = _
    rw [lineOf_append _ hnl, hl]
  · show toI32 (sw.columnNo + 1 + _) = _
    rw [colOf_append _ hnl, hcol]
    simp only [toI32_add_left, toI32_sub_left, add_assoc, sub_sub, List.length_cons,
      List.length_append, List.length_nil, Nat.cast_add, Nat.cast_one, Nat.cast_zero]
    exact toI32_congr (by ring)

theorem isNewline_of_isdigit (c : Nat) (hc : isdigit (c : Int) = true) : isNewline c = false :=
  isNewline_of_digitByte c hc

theorem ne_dot_of_isdigit (c : Nat) (hc : isdigit (c : Int) = true) : ¬ ((c : Int) = 46) := by
  simp only [isdigit, Bool.and_eq_true, decide_eq_true_eq] at hc
  omega

/-- The number branch on digits that are not followed by `.`. -/
theorem numberTok_emits_int (sw : LexState) (c : Nat) (r : List Nat) (hr : sw.reads (c :: r))
    (hc : isdigit (c : Int) = true) (hd : frontChar (r.dropWhile isDigitByte) ≠ 46) :
    sw.emits (numberTok sw) INT_LIT (c :: r.takeWhile isDigitByte)
      (r.dropWhile isDigitByte) := by
  obtain ⟨h1, h2⟩ := hr
  simp only [frontChar, List.tail_cons] at h1 h2
  have hnl := no_newline_takeWhile isDigitByte isNewline_of_digitByte c
    (isNewline_of_isdigit c hc) r
  have hlex : bytesToString ([] ++ (c : Int) :: (r.takeWhile isDigitByte).map
      (fun b : Nat => (b : Int))) = lexemeOf (c :: r.takeWhile isDigitByte) := by
    simp [lexemeOf]
  unfold numberTok
  rw [if_neg (by rw [h1]; exact ne_dot_of_isdigit c hc), h1, h2, digitLoop_eq]
  dsimp only
  rw [if_neg hd]
  refine ⟨rfl, hlex, ⟨rfl, rfl⟩, ?_⟩
  intro pre hin
  obtain ⟨hl, hcol⟩ := hin
  refine ⟨hl, ?_, ?_, ?_⟩
  · show toI32 (toI32 (sw.columnNo + 1 + _) - ((bytesToString _).length : Int) - 1) = _
    rw [hlex, lexemeOf_length, hcol]
    simp only [toI32_add_left, toI32_sub_left, add_assoc, sub_sub, List.length_cons,
      List.length_append, List.length_nil, Nat.cast_add, Nat.cast_one, Nat.cast_zero]
    exact toI32_congr (by ring)
  · show sw.lineNo = _
    rw [lineOf_append _ hnl, hl]
  · show toI32 (sw.columnNo + 1 + _) = _
    rw [colOf_append _ hnl, hcol]
    simp only [toI32_add_left, toI32_sub_left, add_assoc, sub_sub, List.length_cons,
      List.length_append, List.length_nil, Nat.cast_add, Nat.cast_one, Nat.cast_zero]
    exact toI32_congr (by ring)

/-- The number branch on digits followed by `.`. -/
theorem numberTok_emits_float (sw : LexState) (c : Nat) (r r2 : List Nat)
    (hr : sw.reads (c :: r)) (hc : isdigit (c : Int) = true)
    (hd : r.dropWhile isDigitByte = 46 :: r2) :
    sw.emits (numberTok sw) FLOAT_LIT
      (c :: (r.takeWhile isDigitByte ++ 46 :: r2.takeWhile isDigitByte))
      (r2.dropWhile isDigitByte) := by
  obtain ⟨h1, h2⟩ := hr
  simp only [frontChar, List.tail_cons] at h1 h2
  have hnl : ∀ b ∈ c :: (r.takeWhile isDigitByte ++ 46 :: r2.takeWhile isDigitByte),
      isNewline b = false := by
    intro b hb
    rcases List.mem_cons.mp hb with h | h
    · rw [h]; exact isNewline_of_isdigit c hc
    · rcases List.mem_append.mp h with h | h
      · exact isNewline_of_digitByte b (List.mem_takeWhile_imp h)
      · exact no_newline_takeWhile isDigitByte isNewline_of_digitByte 46 (by decide) r2 b h
  have hlex : bytesToString (([] ++ (c : Int) :: (r.takeWhile isDigitByte).map
      (fun b : Nat => (b : Int))) ++ ((46 : Nat) : Int) :: (r2.takeWhile isDigitByte).map
      (fun b : Nat => (b : Int))) =
      lexemeOf (c :: (r.takeWhile isDigitByte ++ 46 :: r2.takeWhile isDigitByte)) := by
    simp [lexemeOf]
  unfold numberTok
  rw [if_neg (by rw [h1]; exact ne_dot_of_isdigit c hc), h1, h2, digitLoop_eq]
  dsimp only
  rw [hd]
  simp only [frontChar, List.tail_cons, Nat.cast_ofNat, ↓reduceIte]
  rw [show (46 : Int) = ((46 : Nat) : Int) from rfl, digitLoop_eq]
  dsimp only
  refine ⟨rfl, hlex, ⟨rfl, rfl⟩, ?_⟩
  intro pre hin
  obtain ⟨hl, hcol⟩ := hin
  refine ⟨hl, ?_, ?_, ?_⟩
  · show toI32 (toI32 (toI32 (sw.columnNo + 1 + _) + 1 + _) -
        ((bytesToString _).length : Int) - 1) = _
    rw [hlex, lexemeOf_length, hcol]
    simp only [toI32_add_left, toI32_sub_left, add_assoc, sub_sub, List.length_cons,
      List.length_append, List.length_nil, Nat.cast_add, Nat.cast_one, Nat.cast_zero]
    exact toI32_congr (by ring)
  · show sw.lineNo = _
    rw [lineOf_append _ hnl, hl]
  · show toI32 (toI32 (sw.columnNo + 1 + _) + 1 + _) = _
    rw [colOf_append _ hnl, hcol]
    simp only [toI32_add_left, toI32_sub_left, add_assoc, sub_sub, List.length_cons,
      List.length_append, List.length_nil, Nat.cast_add, Nat.cast_one, Nat.cast_zero]
    exact toI32_congr (by ring)

/-- The end-of-file branch. -/
theorem eofTok_fields (sw : LexState) (hr : sw.reads []) :
    (eofTok sw).1.type = EOF_TOK ∧ (eofTok sw).1.lexeme = "0" ∧ (eofTok sw).2.reads [] :=
  ⟨rfl, rfl, hr⟩

theorem sw_reads (s : LexState) (bs : List Nat) (hr : s.reads bs) :
    (skipWhitespace s.input s.LastChar s.lineNo s.columnNo).reads
      (bs.dropWhile isSpaceByte) := by
  obtain ⟨h1, h2⟩ := hr
  rw [h1, h2]
  exact skipWhitespace_reads bs _ _

theorem sw_inStep (s : LexState) (bs pre : List Nat) (hr : s.reads bs) (hin : s.inStep pre) :
    (skipWhitespace s.input s.LastChar s.lineNo s.columnNo).inStep
      (pre ++ bs.takeWhile isSpaceByte) := by
  obtain ⟨h1, h2⟩ := hr
  rw [h1, h2]
  exact skipWhitespace_inStep bs pre _ _ hin.1 hin.2

/-- From the branch taken behind the white space to the call of `gettok`. -/
theorem lexes_of_emits (s : LexState) (bs : List Nat) (hr : s.reads bs)
    (res : TOKEN × LexState) (ty : Int) (lex rest : List Nat)
    (hg : gettokFuel (s.input.length + 1) s = some res)
    (he : (skipWhitespace s.input s.LastChar s.lineNo s.columnNo).emits res ty lex rest) :
    s.lexes (bs.takeWhile isSpaceByte) lex rest ty := by
  refine ⟨res.1, res.2, hg, he.1, he.2.1, he.2.2.1, ?_⟩
  intro pre hin
  have h := he.2.2.2 _ (sw_inStep s bs pre hr hin)
  rw [List.append_assoc] at h
  exact h

theorem head_dropWhile_not (p : Nat → Bool) (bs : List Nat) (c : Nat) (r : List Nat)
    (hx : bs.dropWhile p = c :: r) : p c = false := by
  have h := List.head_dropWhile_not p bs (by rw [hx]; simp)
  simp only [hx, List.head_cons] at h
  simpa using h

/-- A word: `gettok` returns the longest run of word bytes, with its kind from the reserved-word
table. -/
theorem gettok_lexes_ident (s : LexState) (bs : List Nat) (c : Nat) (r : List Nat)
    (hr : s.reads bs) (hx : bs.dropWhile isSpaceByte = c :: r)
    (hc : (isalpha (c : Int) || (c : Int) == 95) = true) :
    s.lexes (bs.takeWhile isSpaceByte) (c :: r.takeWhile isWordByte) (r.dropWhile isWordByte)
      (wordKind (lexemeOf (c :: r.takeWhile isWordByte))) := by
  have hsw := sw_reads s bs hr
  rw [hx] at hsw
  refine lexes_of_emits s bs hr _ _ _ _ (gettokFuel_ident _ s ?_) (identTok_emits _ c r hsw hc)
  rw [hsw.1]
  exact hc

/-- A number that starts with `.`. -/
theorem gettok_lexes_dot (s : LexState) (bs : List Nat) (r : List Nat)
    (hr : s.reads bs) (hx : bs.dropWhile isSpaceByte = 46 :: r) :
    s.lexes (bs.takeWhile isSpaceByte) (46 :: r.takeWhile isDigitByte)
      (r.dropWhile isDigitByte) FLOAT_LIT := by
  have hsw := sw_reads s bs hr
  rw [hx] at hsw
  refine lexes_of_emits s bs hr _ _ _ _ (gettokFuel_number _ s ?_) (numberTok_emits_dot _ r hsw)
  rw [hsw.1]
  rfl

/-- Digits that are not followed by `.`. -/
theorem gettok_lexes_int (s : LexState) (bs : List Nat) (c : Nat) (r : List Nat)
    (hr : s.reads bs) (hx : bs.dropWhile isSpaceByte = c :: r)
    (hc : isdigit (c : Int) = true) (hd : frontChar (r.dropWhile isDigitByte) ≠ 46) :
    s.lexes (bs.takeWhile isSpaceByte) (c :: r.takeWhile isDigitByte)
      (r.dropWhile isDigitByte) INT_LIT := by
  have hsw := sw_reads s bs hr
  rw [hx] at hsw
  refine lexes_of_emits s bs hr _ _ _ _ (gettokFuel_number _ s ?_)
    (numberTok_emits_int _ c r hsw hc hd)
  rw [hsw.1]
  simp only [frontChar, hc, Bool.true_or]

/-- Digits followed by `.`. -/
theorem gettok_lexes_float (s : LexState) (bs : List Nat) (c : Nat) (r r2 : List Nat)
    (hr : s.reads bs) (hx : bs.dropWhile isSpaceByte = c :: r)
    (hc : isdigit (c : Int) = true) (hd : r.dropWhile isDigitByte = 46 :: r2) :
    s.lexes (bs.takeWhile isSpaceByte)
      (c :: (r.takeWhile isDigitByte ++ 46 :: r2.takeWhile isDigitByte))
      (r2.dropWhile isDigitByte) FLOAT_LIT := by
  have hsw := sw_reads s bs hr
  rw [hx] at hsw
  refine lexes_of_emits s bs hr _ _ _ _ (gettokFuel_number _ s ?_)
    (numberTok_emits_float _ c r r2 hsw hc hd)
  rw [hsw.1]
  simp only [frontChar, hc, Bool.true_or]

/-- A two-character operator of the table. -/
theorem gettok_lexes_two (s : LexState) (bs : List Nat) (r : List Nat)
    (e : OpEntry) (he : e ∈ operatorTable)
    (hr : s.reads bs) (hx : bs.dropWhile isSpaceByte = e.first :: e.second :: r) :
    s.lexes (bs.takeWhile isSpaceByte) [e.first, e.second] r e.kind2 ∧
      e.lexeme2 = lexemeOf [e.first, e.second] := by
  have hsw := sw_reads s bs hr
  rw [hx] at hsw
  have hl := hsw.1
  simp only [operatorTable, List.mem_cons, List.mem_singleton, List.not_mem_nil, or_false] at he
  rcases he with rfl | rfl | rfl | rfl | rfl | rfl
  · exact ⟨lexes_of_emits s bs hr _ _ _ _ (gettokFuel_pair_eq _ s hl)
      (pairTok_emits_two _ 61 61 r hsw _ _ _ _ rfl (by decide) (by decide)), rfl⟩
  · exact ⟨lexes_of_emits s bs hr _ _ _ _ (gettokFuel_pair_not _ s hl)
      (pairTok_emits_two _ 33 61 r hsw _ _ _ _ rfl (by decide) (by decide)), rfl⟩
  · exact ⟨lexes_of_emits s bs hr _ _ _ _ (gettokFuel_pair_lt _ s hl)
      (pairTok_emits_two _ 60 61 r hsw _ _ _ _ rfl (by decide) (by decide)), rfl⟩
  · exact ⟨lexes_of_emits s bs hr _ _ _ _ (gettokFuel_pair_gt _ s hl)
      (pairTok_emits_two _ 62 61 r hsw _ _ _ _ rfl (by decide) (by decide)), rfl⟩
  · exact ⟨lexes_of_emits s bs hr _ _ _ _ (gettokFuel_pair_amp _ s hl)
      (pairTok_emits_two _ 38 38 r hsw _ _ _ _ rfl (by decide) (by decide)), rfl⟩
  · exact ⟨lexes_of_emits s bs hr _ _ _ _ (gettokFuel_pair_bar _ s hl)
      (pairTok_emits_two _ 124 124 r hsw _ _ _ _ rfl (by decide) (by decide)), rfl⟩

/-- A byte that starts neither a word nor a number, and is not the first byte of a
two-character operator or of a comment that follows: `gettok` returns it as a one-character
token whose kind is the code of the byte. -/
theorem gettok_lexes_one (s : LexState) (bs : List Nat) (c : Nat) (r : List Nat)
    (hr : s.reads bs) (hx : bs.dropWhile isSpaceByte = c :: r)
    (hw : (isalpha (c : Int) || (c : Int) == 95) = false)
    (hd : (isdigit (c : Int) || (c : Int) == 46) = false)
    (hsec : ∀ e ∈ operatorTable, e.first = c → frontChar r ≠ (e.second : Int))
    (hsl : c = 47 → frontChar r ≠ 47) :
    s.lexes (bs.takeWhile isSpaceByte) [c] r (c : Int) := by
  have hsw := sw_reads s bs hr
  rw [hx] at hsw
  have hl := hsw.1
  have hg : (getc (skipWhitespace s.input s.LastChar s.lineNo s.columnNo).input).1 =
      frontChar r := by
    rw [hsw.2]
    cases r <;> rfl
  have hcn : isNewline c = false :=
    isNewline_of_not_space c (head_dropWhile_not isSpaceByte bs c r hx)
  by_cases h61 : c = 61
  · subst h61
    exact lexes_of_emits s bs hr _ _ _ _ (gettokFuel_pair_eq _ s hl)
      (pairTok_emits_one _ 61 r hsw _ _ _ _ _
        (hsec ⟨61, 61, "==", EQ, "=", ASSIGN⟩ (by simp [operatorTable]) rfl) rfl hcn)
  by_cases h33 : c = 33
  · subst h33
    exact lexes_of_emits s bs hr _ _ _ _ (gettokFuel_pair_not _ s hl)
      (pairTok_emits_one _ 33 r hsw _ _ _ _ _
        (hsec ⟨33, 61, "!=", NE, "!", NOT⟩ (by simp [operatorTable]) rfl) rfl hcn)
  by_cases h60 : c = 60
  · subst h60
    exact lexes_of_emits s bs hr _ _ _ _ (gettokFuel_pair_lt _ s hl)
      (pairTok_emits_one _ 60 r hsw _ _ _ _ _
        (hsec ⟨60, 61, "<=", LE, "<", LT⟩ (by simp [operatorTable]) rfl) rfl hcn)
  by_cases h62 : c = 62
  · subst h62
    exact lexes_of_emits s bs hr _ _ _ _ (gettokFuel_pair_gt _ s hl)
      (pairTok_emits_one _ 62 r hsw _ _ _ _ _
        (hsec ⟨62, 61, ">=", GE, ">", GT⟩ (by simp [operatorTable]) rfl) rfl hcn)
  by_cases h38 : c = 38
  · subst h38
    exact lexes_of_emits s bs hr _ _ _ _ (gettokFuel_pair_amp _ s hl)
      (pairTok_emits_one _ 38 r hsw _ _ _ _ _
        (hsec ⟨38, 38, "&&", AND, "&", 38⟩ (by simp [operatorTable]) rfl) rfl hcn)
  by_cases h124 : c = 124
  · subst h124
    exact lexes_of_emits s bs hr _ _ _ _ (gettokFuel_pair_bar _ s hl)
      (pairTok_emits_one _ 124 r hsw _ _ _ _ _
        (hsec ⟨124, 124, "||", OR, "|", 124⟩ (by simp [operatorTable]) rfl) rfl hcn)
  by_cases h123 : c = 123
  · subst h123
    exact lexes_of_emits s bs hr _ _ _ _ (gettokFuel_single_lbra _ s hl)
      (singleTok_emits _ 123 r hsw _ _ rfl hcn)
  by_cases h125 : c = 125
  · subst h125
    exact lexes_of_emits s bs hr _ _ _ _ (gettokFuel_single_rbra _ s hl)
      (singleTok_emits _ 125 r hsw _ _ rfl hcn)
  by_cases h40 : c = 40
  · subst h40
    exact lexes_of_emits s bs hr _ _ _ _ (gettokFuel_single_lpar _ s hl)
      (singleTok_emits _ 40 r hsw _ _ rfl hcn)
  by_cases h41 : c = 41
  · subst h41
    exact lexes_of_emits s bs hr _ _ _ _ (gettokFuel_single_rpar _ s hl)
      (singleTok_emits _ 41 r hsw _ _ rfl hcn)
  by_cases h59 : c = 59
  · subst h59
    exact lexes_of_emits s bs hr _ _ _ _ (gettokFuel_single_sc _ s hl)
      (singleTok_emits _ 59 r hsw _ _ rfl hcn)
  by_cases h44 : c = 44
  · subst h44
    exact lexes_of_emits s bs hr _ _ _ _ (gettokFuel_single_comma _ s hl)
      (singleTok_emits _ 44 r hsw _ _ rfl hcn)
  by_cases h47 : c = 47
  · subst h47
    exact lexes_of_emits s bs hr _ _ _ _
      (gettokFuel_slash_div _ s hl (by rw [hg]; exact hsl rfl))
      (singleTok_emits _ 47 r hsw "/" DIV rfl hcn)
  refine lexes_of_emits s bs hr _ _ _ _ (gettokFuel_other _ s ?_ ?_ ?_)
    (otherTok_emits _ c r hsw hcn)
  · rw [hl]; exact hw
  · rw [hl]; exact hd
  · rw [hl]
    simp only [frontChar, EOF, List.mem_cons, List.mem_singleton, List.not_mem_nil, or_false,
      not_or]
    omega

theorem frontChar_eq_EOF_iff (l : List Nat) : frontChar l = EOF ↔ l = [] := by
  cases l with
  | nil => simp [frontChar]
  | cons b bs =>
    simp only [frontChar, EOF, reduceCtorEq, iff_false]

/-- A comment that ends in a line break: `gettok` restarts behind the comment text. -/
theorem gettok_comment (s : LexState) (bs r : List Nat) (hr : s.reads bs)
    (hx : bs.dropWhile isSpaceByte = 47 :: 47 :: r)
    (hne : r.dropWhile (fun b => !isNewline b) ≠ []) :
    ∃ s2, gettok s = gettok s2 ∧ s2.reads (r.dropWhile (fun b => !isNewline b)) ∧
      ∀ pre, s.inStep pre →
        s2.inStep (pre ++ (bs.takeWhile isSpaceByte ++
          47 :: 47 :: r.takeWhile (fun b => !isNewline b))) := by
  have hsw := sw_reads s bs hr
  rw [hx] at hsw
  obtain ⟨hl, hi⟩ := hsw
  simp only [frontChar, List.tail_cons, Nat.cast_ofNat] at hl hi
  have hg1 : (getc (skipWhitespace s.input s.LastChar s.lineNo s.columnNo).input).1 = 47 := by
    rw [hi]; rfl
  have hg2 : (getc (skipWhitespace s.input s.LastChar s.lineNo s.columnNo).input).2 = r := by
    rw [hi]; rfl
  have hfe : frontChar (r.dropWhile (fun b => !isNewline b)) ≠ EOF := by
    rw [Ne, frontChar_eq_EOF_iff]
    exact hne
  have hstep : gettok s = gettokFuel s.input.length
      ⟨(r.dropWhile (fun b => !isNewline b)).tail, frontChar (r.dropWhile (fun b => !isNewline b)),
        (skipWhitespace s.input s.LastChar s.lineNo s.columnNo).lineNo,
        toI32 (toI32 ((skipWhitespace s.input s.LastChar s.lineNo s.columnNo).columnNo + 1) + 1 +
          ((r.takeWhile (fun b => !isNewline b)).length : Int))⟩ := by
    unfold gettok
    rw [gettokFuel_slash_comment _ _ hl hg1, hg2, commentLoop_eq]
    dsimp only
    rw [if_pos hfe]
  refine ⟨⟨(r.dropWhile (fun b => !isNewline b)).tail,
    frontChar (r.dropWhile (fun b => !isNewline b)),
    (skipWhitespace s.input s.LastChar s.lineNo s.columnNo).lineNo,
    toI32 (toI32 ((skipWhitespace s.input s.LastChar s.lineNo s.columnNo).columnNo + 1) + 1 +
      ((r.takeWhile (fun b => !isNewline b)).length : Int))⟩, ?_, ⟨rfl, rfl⟩, ?_⟩
  · rw [hstep]
    apply gettokFuel_eq_gettok
    show (r.dropWhile (fun b => !isNewline b)).tail.length < s.input.length
    have h1 : (bs.dropWhile isSpaceByte).length ≤ bs.length := (List.dropWhile_suffix _).length_le
    have h2 : (r.dropWhile (fun b => !isNewline b)).length ≤ r.length :=
      (List.dropWhile_suffix _).length_le
    rw [hx] at h1
    simp only [List.length_cons] at h1
    rw [hr.2, List.length_tail, List.length_tail]
    omega
  · intro pre hin
    obtain ⟨h1, h2⟩ := sw_inStep s bs pre hr hin
    have hnl : ∀ b ∈ 47 :: 47 :: r.takeWhile (fun b => !isNewline b), isNewline b = false := by
      intro b hb
      rcases List.mem_cons.mp hb with h | h
      · rw [h]; decide
      rcases List.mem_cons.mp h with h | h
      · rw [h]; decide
      · simpa using List.mem_takeWhile_imp h
    constructor
    · show (skipWhitespace s.input s.LastChar s.lineNo s.columnNo).lineNo = _
      rw [← List.append_assoc, lineOf_append _ hnl, h1]
    · show toI32 (toI32 ((skipWhitespace s.input s.LastChar s.lineNo s.columnNo).columnNo + 1) +
        1 + _) = _
      rw [← List.append_assoc, colOf_append _ hnl, h2]
      simp only [toI32_add_left, add_assoc, List.length_cons, Nat.cast_add, Nat.cast_one]
      exact toI32_congr (by ring)

/-- A comment that runs to the end of the file: `gettok` returns `EOF_TOK`. -/
theorem gettok_comment_eof (s : LexState) (bs r : List Nat) (hr : s.reads bs)
    (hx : bs.dropWhile isSpaceByte = 47 :: 47 :: r)
    (he : r.dropWhile (fun b => !isNewline b) = []) :
    ∃ t s1, gettok s = some (t, s1) ∧ t.type = EOF_TOK ∧ t.lexeme = "0" ∧ s1.reads [] := by
  have hsw := sw_reads s bs hr
  rw [hx] at hsw
  obtain ⟨hl, hi⟩ := hsw
  simp only [frontChar, List.tail_cons, Nat.cast_ofNat] at hl hi
  have hg1 : (getc (skipWhitespace s.input s.LastChar s.lineNo s.columnNo).input).1 = 47 := by
    rw [hi]; rfl
  have hg2 : (getc (skipWhitespace s.input s.LastChar s.lineNo s.columnNo).input).2 = r := by
    rw [hi]; rfl
  have hstep : gettok s = some (eofTok
      ⟨[], EOF, (skipWhitespace s.input s.LastChar s.lineNo s.columnNo).lineNo,
        toI32 (toI32 ((skipWhitespace s.input s.LastChar s.lineNo s.columnNo).columnNo + 1) + 1 +
          ((r.takeWhile (fun b => !isNewline b)).length : Int))⟩) := by
    unfold gettok
    rw [gettokFuel_slash_comment _ _ hl hg1, hg2, commentLoop_eq, he]
    dsimp only
    rw [if_neg (by simp [frontChar])]
    rfl
  exact ⟨_, _, hstep, rfl, rfl, rfl, rfl⟩

/-- Nothing but white space is left: `gettok` returns `EOF_TOK`. -/
theorem gettok_eof (s : LexState) (bs : List Nat) (hr : s.reads bs)
    (hx : bs.dropWhile isSpaceByte = []) :
    ∃ t s1, gettok s = some (t, s1) ∧ t.type = EOF_TOK ∧ t.lexeme = "0" ∧ s1.reads [] := by
  have hsw := sw_reads s bs hr
  rw [hx] at hsw
  exact ⟨_, _, gettokFuel_eof _ s hsw.1, rfl, rfl, hsw⟩

/-- One call of `gettok` is determined by the bytes still to be read.  From the stream `bs`
either every state returns `EOF_TOK` and is left at the end of the input, or `bs` splits into
skipped bytes `gap`, a non-empty lexeme `lex` and a remainder `rest`, and every state that reads
`bs` returns the token of `lex` with the same kind and is left reading `rest`. -/
theorem gettok_stream (n : Nat) : ∀ bs : List Nat, bs.length ≤ n →
    (∀ s : LexState, s.reads bs →
      ∃ t s1, gettok s = some (t, s1) ∧ t.type = EOF_TOK ∧ t.lexeme = "0" ∧ s1.reads []) ∨
    (∃ gap lex rest ty, bs = gap ++ (lex ++ rest) ∧ lex ≠ [] ∧
      ∀ s : LexState, s.reads bs → s.lexes gap lex rest ty) := by
  induction n with
  | zero =>
    intro bs hlen
    have : bs = [] := List.length_eq_zero.mp (by omega)
    subst this
    exact Or.inl (fun s hr => gettok_eof s [] hr rfl)
  | succ n ih =>
    intro bs hlen
    have hsplit : bs = bs.takeWhile isSpaceByte ++ bs.dropWhile isSpaceByte :=
      (List.takeWhile_append_dropWhile _ _).symm
    cases hx : bs.dropWhile isSpaceByte with
    | nil => exact Or.inl (fun s hr => gettok_eof s bs hr hx)
    | cons c r =>
      rw [hx] at hsplit
      have hlenx : r.length + 1 ≤ bs.length := by
        have := (List.dropWhile_suffix isSpaceByte (l := bs)).length_le
        rw [hx] at this
        simpa using this
      by_cases hw : (isalpha (c : Int) || (c : Int) == 95) = true
      · refine Or.inr ⟨_, c :: r.takeWhile isWordByte, r.dropWhile isWordByte, _, ?_, by simp,
          fun s hr => gettok_lexes_ident s bs c r hr hx hw⟩
        rw [List.cons_append, List.takeWhile_append_dropWhile]
        exact hsplit
      by_cases hdot : c = 46
      · subst hdot
        refine Or.inr ⟨_, 46 :: r.takeWhile isDigitByte, r.dropWhile isDigitByte, _, ?_, by simp,
          fun s hr => gettok_lexes_dot s bs r hr hx⟩
        rw [List.cons_append, List.takeWhile_append_dropWhile]
        exact hsplit
      by_cases hd : isdigit (c : Int) = true
      · cases hdd : r.dropWhile isDigitByte with
        | nil =>
          refine Or.inr ⟨_, c :: r.takeWhile isDigitByte, r.dropWhile isDigitByte, _, ?_,
            by simp, fun s hr => gettok_lexes_int s bs c r hr hx hd ?_⟩
          · rw [List.cons_append, List.takeWhile_append_dropWhile]
            exact hsplit
          · rw [hdd]; decide
        | cons d r2 =>
          by_cases hd46 : d = 46
          · subst hd46
            refine Or.inr ⟨_, c :: (r.takeWhile isDigitByte ++ 46 :: r2.takeWhile isDigitByte),
              r2.dropWhile isDigitByte, _, ?_, by simp,
              fun s hr => gettok_lexes_float s bs c r r2 hr hx hd hdd⟩
            have e : r = r.takeWhile isDigitByte ++ 46 :: (r2.takeWhile isDigitByte ++
                r2.dropWhile isDigitByte) := by
              rw [List.takeWhile_append_dropWhile, ← hdd, List.takeWhile_append_dropWhile]
            rw [List.cons_append, List.append_assoc, List.cons_append, ← e]
            exact hsplit
          · refine Or.inr ⟨_, c :: r.takeWhile isDigitByte, r.dropWhile isDigitByte, _, ?_,
              by simp, fun s hr => gettok_lexes_int s bs c r hr hx hd ?_⟩
            · rw [List.cons_append, List.takeWhile_append_dropWhile]
              exact hsplit
            · rw [hdd]
              simp only [frontChar]
              omega
      have hw' : (isalpha (c : Int) || (c : Int) == 95) = false := by simpa using hw
      have hd' : (isdigit (c : Int) || (c : Int) == 46) = false := by
        simp only [Bool.or_eq_false_iff, beq_eq_false_iff_ne, ne_eq]
        exact ⟨by simpa using hd, by omega⟩
      by_cases hpair : ∃ e ∈ operatorTable, e.first = c ∧ frontChar r = (e.second : Int)
      · obtain ⟨e, he, hf, hs⟩ := hpair
        cases r with
        | nil =>
          exfalso
          simp only [frontChar, EOF] at hs
          omega
        | cons d r' =>
          simp only [frontChar, Nat.cast_inj] at hs
          subst hf hs
          refine Or.inr ⟨_, [e.first, e.second], r', _, ?_, by simp,
            fun s hr => (gettok_lexes_two s bs r' e he hr hx).1⟩
          simpa using hsplit
      by_cases hcom : c = 47 ∧ frontChar r = 47
      · obtain ⟨hc47, hf⟩ := hcom
        subst hc47
        cases r with
        | nil =>
          exfalso
          simp only [frontChar, EOF] at hf
          omega
        | cons d r' =>
          simp only [frontChar] at hf
          have hd47 : d = 47 := by omega
          subst hd47
          cases hcd : r'.dropWhile (fun b => !isNewline b) with
          | nil => exact Or.inl (fun s hr => gettok_comment_eof s bs r' hr hx hcd)
          | cons e1 r3 =>
            have hlen3 : (r'.dropWhile (fun b => !isNewline b)).length ≤ n := by
              have := (List.dropWhile_suffix (fun b => !isNewline b) (l := r')).length_le
              simp only [List.length_cons] at hlenx
              omega
            have hne : r'.dropWhile (fun b => !isNewline b) ≠ [] := by rw [hcd]; simp
            rcases ih _ hlen3 with h | ⟨gap, lex, rest, ty, hb, hl, h⟩
            · left
              intro s hr
              obtain ⟨s2, hg, hr2, -⟩ := gettok_comment s bs r' hr hx hne
              rw [hg]
              exact h s2 hr2
            · right
              refine ⟨bs.takeWhile isSpaceByte ++ 47 :: 47 ::
                (r'.takeWhile (fun b => !isNewline b) ++ gap), lex, rest, ty, ?_, hl, ?_⟩
              · have e : r' = r'.takeWhile (fun b => !isNewline b) ++ (gap ++ (lex ++ rest)) := by
                  rw [← hb, List.takeWhile_append_dropWhile]
                rw [List.append_assoc, List.cons_append, List.cons_append, List.append_assoc,
                  ← e]
                exact hsplit
              · intro s hr
                obtain ⟨s2, hg, hr2, hin2⟩ := gettok_comment s bs r' hr hx hne
                obtain ⟨t, s1, hg1, h1, h2, h3, h4⟩ := h s2 hr2
                refine ⟨t, s1, by rw [hg]; exact hg1, h1, h2, h3, ?_⟩
                intro pre hin
                have := h4 _ (hin2 pre hin)
                simpa [List.append_assoc] using this
      · refine Or.inr ⟨_, [c], r, _, by simpa using hsplit, by simp,
          fun s hr => gettok_lexes_one s bs c r hr hx hw' hd' ?_ ?_⟩
        · intro e he hf hs
          exact hpair ⟨e, he, hf, hs⟩
        · intro h47 hs
          exact hcom ⟨h47, hs⟩

theorem gettokN_succ_some (k : Nat) (s s1 : LexState) (ts : List TOKEN)
    (h : gettokN (k + 1) s = some (ts, s1)) :
    ∃ t s' ts', gettok s = some (t, s') ∧ gettokN k s' = some (ts', s1) ∧ ts = t :: ts' := by
  rw [gettokN] at h
  cases hg : gettok s with
  | none => rw [hg] at h; cases h
  | some r =>
    obtain ⟨t, s'⟩ := r
    rw [hg] at h
    dsimp only at h
    cases hn : gettokN k s' with
    | none => rw [hn] at h; cases h
    | some r2 =>
      obtain ⟨ts', s2⟩ := r2
      rw [hn] at h
      simp only [Option.some.injEq, Prod.mk.injEq] at h
      exact ⟨t, s', ts', rfl, by rw [← h.2]; exact hn, h.1.symm⟩

theorem gettokN_length (k : Nat) : ∀ (s s1 : LexState) (ts : List TOKEN),
    gettokN k s = some (ts, s1) → ts.length = k := by
  induction k with
  | zero =>
    intro s s1 ts h
    simp only [gettokN, Option.some.injEq, Prod.mk.injEq] at h
    rw [← h.1]; rfl
  | succ k ih =>
    intro s s1 ts h
    obtain ⟨t, s', ts', -, h2, rfl⟩ := gettokN_succ_some k s s1 ts h
    simp [ih _ _ _ h2]

/-- The first call of `gettok` reads the first byte of the file over the initial blank. -/
theorem gettok_init (bytes : List Nat) :
    gettok (LexState.init bytes) = gettok ⟨bytes.tail, frontChar bytes, 1, 1 + 1⟩ := by
  have e : gettokFuel (bytes.length + 1) (LexState.init bytes) =
      gettokFuel (bytes.length + 1) ⟨bytes.tail, frontChar bytes, 1, 1 + 1⟩ := by
    rw [gettokFuel, gettokFuel]
    have hs : skipWhitespace (LexState.init bytes).input (LexState.init bytes).LastChar
        (LexState.init bytes).lineNo (LexState.init bytes).columnNo =
        skipWhitespace bytes.tail (frontChar bytes) 1 (1 + 1) := by
      show skipWhitespace bytes 32 1 1 = _
      rw [skipWhitespace_space _ _ _ _ (by decide)]
      rw [if_neg (by decide), if_neg (by decide)]
      rfl
    rw [hs]
  show gettokFuel (bytes.length + 1) (LexState.init bytes) = _
  rw [e]
  exact gettokFuel_eq_gettok _ _ (by simp only [List.length_tail]; omega)

theorem gettokN_init (bytes : List Nat) (k : Nat) :
    gettokN (k + 1) (LexState.init bytes) =
      gettokN (k + 1) ⟨bytes.tail, frontChar bytes, 1, 1 + 1⟩ := by
  rw [gettokN, gettokN, gettok_init]

/-- The token of the last of `k + 1` calls of `gettok` sits where the input says, from any state
whose counters are in step with the input. -/
theorem positions_from (k : Nat) : ∀ (s : LexState) (bs pre : List Nat), s.reads bs →
    (s.inStep pre ∨ bs = []) → ∀ (ts : List TOKEN) (s1 : LexState) (t : TOKEN),
    gettokN (k + 1) s = some (ts, s1) → ts.getLast? = some t → t.type ≠ EOF_TOK →
    ∃ p lex rest, pre ++ bs = p ++ (lex ++ rest) ∧ lex ≠ [] ∧ t.lexeme = lexemeOf lex ∧
      s1.reads rest ∧ t.columnNo = toI32 (colOf p) ∧ t.lineNo = toI32 (lineOf p) := by
  induction k with
  | zero =>
    intro s bs pre hr hin ts s1 t h hlast hne
    obtain ⟨t0, s', ts', hg, hn, rfl⟩ := gettokN_succ_some 0 s s1 ts h
    simp only [gettokN, Option.some.injEq, Prod.mk.injEq] at hn
    obtain ⟨rfl, rfl⟩ := hn
    simp only [List.getLast?_singleton, Option.some.injEq] at hlast
    subst hlast
    rcases gettok_stream bs.length bs (le_refl _) with he | ⟨gap, lex, rest, ty, hb, hl, hx⟩
    · obtain ⟨t1, s2, hg2, ht, -, -⟩ := he s hr
      rw [hg] at hg2
      simp only [Option.some.injEq, Prod.mk.injEq] at hg2
      rw [hg2.1] at hne
      exact absurd ht hne
    · obtain ⟨t1, s2, hg2, -, hlex, hr2, hpos⟩ := hx s hr
      rw [hg] at hg2
      simp only [Option.some.injEq, Prod.mk.injEq] at hg2
      obtain ⟨rfl, rfl⟩ := hg2
      rcases hin with hin | hnil
      · obtain ⟨h1, h2, -⟩ := hpos pre hin
        exact ⟨pre ++ gap, lex, rest, by rw [hb, List.append_assoc], hl, hlex, hr2, h2, h1⟩
      · subst hnil
        have : lex = [] := by
          have := congrArg List.length hb
          simp only [List.length_nil, List.length_append] at this
          exact List.length_eq_zero.mp (by omega)
        exact absurd this hl
  | succ k ih =>
    intro s bs pre hr hin ts s1 t h hlast hne
    obtain ⟨t0, s', ts', hg, hn, rfl⟩ := gettokN_succ_some (k + 1) s s1 ts h
    have hlen := gettokN_length _ _ _ _ hn
    have hlast' : ts'.getLast? = some t := by
      cases ts' with
      | nil => simp at hlen
      | cons a as => simpa [List.getLast?_cons_cons] using hlast
    rcases gettok_stream bs.length bs (le_refl _) with he | ⟨gap, lex, rest, ty, hb, hl, hx⟩
    · obtain ⟨t1, s2, hg2, -, -, hr2⟩ := he s hr
      rw [hg] at hg2
      simp only [Option.some.injEq, Prod.mk.injEq] at hg2
      obtain ⟨rfl, rfl⟩ := hg2
      have := ih s' [] (pre ++ bs) hr2 (Or.inr rfl) ts' s1 t hn hlast' hne
      simpa using this
    · obtain ⟨t1, s2, hg2, -, -, hr2, hpos⟩ := hx s hr
      rw [hg] at hg2
      simp only [Option.some.injEq, Prod.mk.injEq] at hg2
      obtain ⟨rfl, rfl⟩ := hg2
      rcases hin with hin | hnil
      · obtain ⟨-, -, h3⟩ := hpos pre hin
        have := ih s' rest (pre ++ (gap ++ lex)) hr2 (Or.inl h3) ts' s1 t hn hlast' hne
        rw [hb]
        simpa [List.append_assoc] using this
      · subst hnil
        have : lex = [] := by
          have := congrArg List.length hb
          simp only [List.length_nil, List.length_append] at this
          exact List.length_eq_zero.mp (by omega)
        exact absurd this hl

theorem lineOf_bounds (pre : List Nat) : 1 ≤ lineOf pre ∧ lineOf pre ≤ (pre.length : Int) + 1 := by
  unfold lineOf
  have := List.length_filter_le isNewline pre
  omega

theorem colOf_bounds (pre : List Nat) : 1 ≤ colOf pre ∧ colOf pre ≤ (pre.length : Int) + 1 := by
  unfold colOf
  have := (List.takeWhile_prefix (fun b => !isNewline b) (l := pre.reverse)).length_le
  rw [List.length_reverse] at this
  omega

/-- **C14, as amended** (token positions, as values of type `int`).  For every input and every
call of `gettok` that returns a token other than `EOF_TOK`: the input splits into the bytes
`pre` in front of the token, the bytes `lex` of its lexeme and the bytes `rest` that the lexer
is left reading.  Let the column be the 1-based position of the first byte of the lexeme within
its line (the bytes since the last `\n` or `\r` of `pre`, or since the start of the input) and
the line be 1 plus the number of `\n` and `\r` in `pre`.
* `columnNo` and `lineNo` are the column and the line as values of type `int`, that is modulo
  `2^32`.
* `columnNo` is the column when the column is at most `2^31 - 1`, and `lineNo` is the line when
  the line is at most `2^31 - 1`.
* Both hold for every token of an input of fewer than `2^31 - 2` bytes (the counters of the
  lexer run up to two ahead of the column). -/
theorem token_position (bytes : List Nat) (k : Nat) (ts : List TOKEN) (s1 : LexState)
    (t : TOKEN) (h : gettokN (k + 1) (LexState.init bytes) = some (ts, s1))
    (hlast : ts.getLast? = some t) (ht : t.type ≠ EOF_TOK) :
    ∃ pre lex rest, bytes = pre ++ (lex ++ rest) ∧ lex ≠ [] ∧ t.lexeme = lexemeOf lex ∧
      s1.reads rest ∧ t.columnNo = toI32 (colOf pre) ∧ t.lineNo = toI32 (lineOf pre) ∧
      (colOf pre ≤ 2147483647 → t.columnNo = colOf pre) ∧
      (lineOf pre ≤ 2147483647 → t.lineNo = lineOf pre) ∧
      (bytes.length < 2147483646 → t.columnNo = colOf pre ∧ t.lineNo = lineOf pre) := by
  rw [gettokN_init] at h
  obtain ⟨pre, lex, rest, hb, hl, hlex, hr, hc, hn⟩ :=
    positions_from k ⟨bytes.tail, frontChar bytes, 1, 1 + 1⟩ bytes [] ⟨rfl, rfl⟩
      (Or.inl ⟨(by decide : (1 : Int) = toI32 (lineOf [])),
        (by decide : (1 + 1 : Int) = toI32 (colOf [] + 1))⟩) ts s1 t h hlast ht
  rw [List.nil_append] at hb
  have hcb := colOf_bounds pre
  have hlb := lineOf_bounds pre
  have hcol : colOf pre ≤ 2147483647 → t.columnNo = colOf pre := fun hle => by
    rw [hc]; exact toI32_of_range _ (by omega) hle
  have hline : lineOf pre ≤ 2147483647 → t.lineNo = lineOf pre := fun hle => by
    rw [hn]; exact toI32_of_range _ (by omega) hle
  refine ⟨pre, lex, rest, hb, hl, hlex, hr, hc, hn, hcol, hline, fun hlt => ?_⟩
  have hlen : pre.length + lex.length + rest.length = bytes.length := by
    rw [hb]; simp only [List.length_append]; omega
  have hpos : 0 < lex.length := List.length_pos.mpr hl
  exact ⟨hcol (by omega), hline (by omega)⟩

theorem span_append (p : Nat → Bool) (x : List Nat) (hx : ∀ c r, x = c :: r → p c = false) :
    ∀ l : List Nat, (∀ b ∈ l, p b = true) →
      (l ++ x).takeWhile p = l ∧ (l ++ x).dropWhile p = x := by
  intro l
  induction l with
  | nil =>
    intro _
    cases x with
    | nil => simp
    | cons c r => simp [hx c r rfl]
  | cons b l ih =>
    intro hl
    have hb := hl b (List.mem_cons_self _ _)
    obtain ⟨h1, h2⟩ := ih (fun y hy => hl y (List.mem_cons_of_mem _ hy))
    simp [hb, h1, h2]

/-- **C11** (words).  When the bytes to be read are white space `ws`, then a run `w` of
`[A-Za-z0-9_]` that begins with a letter or `_` and is maximal (the byte after it, if any, is
not of that class), `gettok` consumes exactly `w`: it is left reading the bytes after `w`, the
lexeme of the token is `w`, and its kind is the entry of `w` in the reserved-word table (the
keyword kinds, `BOOL_LIT` for `true` and `false`), `IDENT` when `w` is not in the table. -/
theorem gettok_identifier (s : LexState) (ws w rest : List Nat)
    (hs : s.reads (ws ++ (w ++ rest)))
    (hws : ∀ b ∈ ws, isSpaceByte b = true)
    (hhead : ∃ c w', w = c :: w' ∧ (isalpha (c : Int) || (c : Int) == 95) = true)
    (hw : ∀ b ∈ w, isWordByte b = true)
    (hmax : ∀ c r, rest = c :: r → isWordByte c = false) :
    ∃ t s1, gettok s = some (t, s1) ∧ s1.reads rest ∧ t.lexeme = lexemeOf w ∧
      t.type = wordKind (lexemeOf w) ∧
      (∀ k, (lexemeOf w, k) ∈ reservedWords → t.type = k) ∧
      ((∀ k, (lexemeOf w, k) ∉ reservedWords) → t.type = IDENT) := by
  obtain ⟨c, w', rfl, hc⟩ := hhead
  have hcs : isSpaceByte c = false := by
    simp only [isalpha, Bool.or_eq_true, Bool.and_eq_true, decide_eq_true_eq, beq_iff_eq] at hc
    simp only [isSpaceByte, isspace, Bool.or_eq_false_iff, beq_eq_false_iff_ne, ne_eq,
      Bool.and_eq_false_imp, decide_eq_true_eq, decide_eq_false_iff_not]
    omega
  have h1 := span_append isSpaceByte (c :: w' ++ rest)
    (fun c' r' h => by
      simp only [List.cons_append, List.cons.injEq] at h
      rw [← h.1]; exact hcs) ws hws
  have h2 := span_append isWordByte rest hmax w'
    (fun b hb => hw b (List.mem_cons_of_mem _ hb))
  obtain ⟨t, s1, hg, hty, hlex, hr, -⟩ :=
    gettok_lexes_ident s (ws ++ (c :: w' ++ rest)) c (w' ++ rest) hs h1.2 hc
  rw [h2.1] at hty hlex
  rw [h2.2] at hr
  refine ⟨t, s1, hg, hr, hlex, hty, ?_, ?_⟩
  · intro k hk
    rw [hty]
    generalize lexemeOf (c :: w') = str at hk
    simp only [reservedWords, List.mem_cons, Prod.mk.injEq, List.mem_singleton,
      List.not_mem_nil, or_false] at hk
    rcases hk with h | h | h | h | h | h | h | h | h | h | h <;>
    · obtain ⟨hstr, hkind⟩ := h
      subst hstr hkind
      rfl
  · intro hk
    rw [hty]
    generalize lexemeOf (c :: w') = str at hk
    refine wordKind_of_not_reserved str ?_ ?_ ?_ ?_ ?_ ?_ ?_ ?_ ?_ ?_ ?_
    · intro h
      subst h
      refine hk INT_TOK ?_
      simp only [reservedWords, List.mem_cons, List.mem_singleton, true_or, or_true]
    · intro h
      subst h
      refine hk FLOAT_TOK ?_
      simp only [reservedWords, List.mem_cons, List.mem_singleton, true_or, or_true]
    · intro h
      subst h
      refine hk BOOL_TOK ?_
      simp only [reservedWords, List.mem_cons, List.mem_singleton, true_or, or_true]
    · intro h
      subst h
      refine hk VOID_TOK ?_
      simp only [reservedWords, List.mem_cons, List.mem_singleton, true_or, or_true]
    · intro h
      subst h
      refine hk EXTERN ?_
      simp only [reservedWords, List.mem_cons, List.mem_singleton, true_or, or_true]
    · intro h
      subst h
      refine hk IF ?_
      simp only [reservedWords, List.mem_cons, List.mem_singleton, true_or, or_true]
    · intro h
      subst h
      refine hk ELSE ?_
      simp only [reservedWords, List.mem_cons, List.mem_singleton, true_or, or_true]
    · intro h
      subst h
      refine hk WHILE ?_
      simp only [reservedWords, List.mem_cons, List.mem_singleton, true_or, or_true]
    · intro h
      subst h
      refine hk RETURN ?_
      simp only [reservedWords, List.mem_cons, List.mem_singleton, true_or, or_true]
    · intro h
      subst h
      refine hk BOOL_LIT ?_
      simp only [reservedWords, List.mem_cons, List.mem_singleton, true_or, or_true]
    · intro h
      subst h
      refine hk BOOL_LIT ?_
      simp only [reservedWords, List.mem_cons, List.mem_singleton, true_or, or_true]

/-- Witness of C11: in `int1 int` the word `int1` is an identifier, and so are `iffy` and
`_while`; the word `while` alone is the keyword. -/
theorem gettok_identifier_witness :
    (∃ t s1, gettok (LexState.init [105, 110, 116, 49, 32, 105, 110, 116]) = some (t, s1) ∧
      s1.reads [32, 105, 110, 116] ∧ t.lexeme = "int1" ∧ t.type = IDENT) ∧
    (∃ t s1, gettok (LexState.init [105, 102, 102, 121]) = some (t, s1) ∧
      s1.reads [] ∧ t.lexeme = "iffy" ∧ t.type = IDENT) ∧
    (∃ t s1, gettok (LexState.init [95, 119, 104, 105, 108, 101, 59]) = some (t, s1) ∧
      s1.reads [59] ∧ t.lexeme = "_while" ∧ t.type = IDENT) ∧
    (∃ t s1, gettok (LexState.init [119, 104, 105, 108, 101, 40]) = some (t, s1) ∧
      s1.reads [40] ∧ t.lexeme = "while" ∧ t.type = WHILE) := by
  refine ⟨?_, ?_, ?_, ?_⟩
  · obtain ⟨t, s1, h1, h2, h3, h4, -, -⟩ := gettok_identifier
      (LexState.init [105, 110, 116, 49, 32, 105, 110, 116]) [32] [105, 110, 116, 49]
      [32, 105, 110, 116] (reads_init _) (by decide) ⟨105, [110, 116, 49], rfl, by decide⟩
      (by decide) (by intro c r h; cases h; decide)
    exact ⟨t, s1, h1, h2, h3, h4⟩
  · obtain ⟨t, s1, h1, h2, h3, h4, -, -⟩ := gettok_identifier
      (LexState.init [105, 102, 102, 121]) [32] [105, 102, 102, 121]
      [] (reads_init _) (by decide) ⟨105, [102, 102, 121], rfl, by decide⟩
      (by decide) (by intro c r h; cases h)
    exact ⟨t, s1, h1, h2, h3, h4⟩
  · obtain ⟨t, s1, h1, h2, h3, h4, -, -⟩ := gettok_identifier
      (LexState.init [95, 119, 104, 105, 108, 101, 59]) [32] [95, 119, 104, 105, 108, 101]
      [59] (reads_init _) (by decide) ⟨95, [119, 104, 105, 108, 101], rfl, by decide⟩
      (by decide) (by intro c r h; cases h; decide)
    exact ⟨t, s1, h1, h2, h3, h4⟩
  · obtain ⟨t, s1, h1, h2, h3, h4, -, -⟩ := gettok_identifier
      (LexState.init [119, 104, 105, 108, 101, 40]) [32] [119, 104, 105, 108, 101]
      [40] (reads_init _) (by decide) ⟨119, [104, 105, 108, 101], rfl, by decide⟩
      (by decide) (by intro c r h; cases h; decide)
    exact ⟨t, s1, h1, h2, h3, h4⟩

theorem operatorTable_facts (e : OpEntry) (he : e ∈ operatorTable) :
    isSpaceByte e.first = false ∧
    (isalpha (e.first : Int) || (e.first : Int) == 95) = false ∧
    (isdigit (e.first : Int) || (e.first : Int) == 46) = false ∧
    e.first ≠ 47 ∧ e.kind1 = (e.first : Int) ∧ e.lexeme1 = lexemeOf [e.first] ∧
    (∀ e2 ∈ operatorTable, e2.first = e.first → e2.second = e.second) := by
  simp only [operatorTable, List.mem_cons, List.mem_singleton, List.not_mem_nil, or_false] at he
  rcases he with rfl | rfl | rfl | rfl | rfl | rfl
  all_goals
    refine ⟨by decide, by decide, by decide, by decide, rfl, rfl, ?_⟩
    intro e2 he2 hf
    simp only [operatorTable, List.mem_cons, List.mem_singleton, List.not_mem_nil,
      or_false] at he2
    rcases he2 with rfl | rfl | rfl | rfl | rfl | rfl <;> first | rfl | (exact absurd hf (by decide))

/-- **C12** (operators).  For each entry of the operator table (`=`, `!`, `<`, `>` with second
byte `=`, and `&`, `|` with themselves as second byte) and white space `ws` in front of its
first byte: when the next byte is the second byte, `gettok` returns the two-character token
(`EQ`, `NE`, `LE`, `GE`, `AND`, `OR`) and is left reading the bytes after both; otherwise it
returns the one-character token (`ASSIGN`, `NOT`, `LT`, `GT`, and for `&` and `|` the token
whose kind is the code of the byte) and is left reading from the following byte on. -/
theorem gettok_operator (e : OpEntry) (he : e ∈ operatorTable) (s : LexState)
    (ws rest : List Nat) (hws : ∀ b ∈ ws, isSpaceByte b = true)
    (hs : s.reads (ws ++ e.first :: rest)) :
    (∀ r, rest = e.second :: r →
      ∃ t s1, gettok s = some (t, s1) ∧ t.type = e.kind2 ∧ t.lexeme = e.lexeme2 ∧ s1.reads r) ∧
    (frontChar rest ≠ (e.second : Int) →
      ∃ t s1, gettok s = some (t, s1) ∧ t.type = e.kind1 ∧ t.lexeme = e.lexeme1 ∧
        s1.reads rest ∧ ((e.first = 38 ∨ e.first = 124) → t.type = (e.first : Int))) := by
  obtain ⟨f1, f2, f3, f4, f5, f6, f7⟩ := operatorTable_facts e he
  have h1 := span_append isSpaceByte (e.first :: rest)
    (fun c' r' h => by
      simp only [List.cons.injEq] at h
      rw [← h.1]; exact f1) ws hws
  constructor
  · intro r hr
    subst hr
    obtain ⟨⟨t, s1, hg, hty, hlex, hrd, -⟩, hl2⟩ :=
      gettok_lexes_two s _ r e he hs h1.2
    exact ⟨t, s1, hg, hty, by rw [hlex, hl2], hrd⟩
  · intro hne
    obtain ⟨t, s1, hg, hty, hlex, hrd, -⟩ :=
      gettok_lexes_one s _ e.first rest hs h1.2 f2 f3
        (fun e2 he2 hf => by rw [f7 e2 he2 hf]; exact hne)
        (fun h => absurd h f4)
    exact ⟨t, s1, hg, by rw [hty, f5], by rw [hlex, f6], hrd, fun _ => hty⟩

/-- Witness of C12: `<=` is one token `LE`, `<` before `1` is `LT` and leaves `1`, `&&` is
`AND`, and a single `&` before `x` is a token of kind 38. -/
theorem gettok_operator_witness :
    (∃ t s1, gettok (LexState.init [60, 61, 49]) = some (t, s1) ∧ t.type = LE ∧
      t.lexeme = "<=" ∧ s1.reads [49]) ∧
    (∃ t s1, gettok (LexState.init [60, 49]) = some (t, s1) ∧ t.type = LT ∧
      t.lexeme = "<" ∧ s1.reads [49]) ∧
    (∃ t s1, gettok (LexState.init [38, 38, 120]) = some (t, s1) ∧ t.type = AND ∧
      t.lexeme = "&&" ∧ s1.reads [120]) ∧
    (∃ t s1, gettok (LexState.init [38, 120]) = some (t, s1) ∧ t.type = 38 ∧
      t.lexeme = "&" ∧ s1.reads [120]) := by
  refine ⟨?_, ?_, ?_, ?_⟩
  · exact (gettok_operator ⟨60, 61, "<=", LE, "<", LT⟩ (by simp [operatorTable])
      (LexState.init [60, 61, 49]) [32] [61, 49] (by decide) (reads_init _)).1 [49] rfl
  · obtain ⟨t, s1, h1, h2, h3, h4, -⟩ :=
      (gettok_operator ⟨60, 61, "<=", LE, "<", LT⟩ (by simp [operatorTable])
        (LexState.init [60, 49]) [32] [49] (by decide) (reads_init _)).2 (by decide)
    exact ⟨t, s1, h1, h2, h3, h4⟩
  · exact (gettok_operator ⟨38, 38, "&&", AND, "&", 38⟩ (by simp [operatorTable])
      (LexState.init [38, 38, 120]) [32] [38, 120] (by decide) (reads_init _)).1 [120] rfl
  · obtain ⟨t, s1, h1, h2, h3, h4, -⟩ :=
      (gettok_operator ⟨38, 38, "&&", AND, "&", 38⟩ (by simp [operatorTable])
        (LexState.init [38, 120]) [32] [120] (by decide) (reads_init _)).2 (by decide)
    exact ⟨t, s1, h1, h2, h3, h4⟩

theorem span_sep (p : Nat → Bool) (h : Nat) (T' : List Nat) (hp : p h = false) :
    ∀ r : List Nat, (r ++ h :: T').takeWhile p = r.takeWhile p ∧
      (r ++ h :: T').dropWhile p = r.dropWhile p ++ h :: T' := by
  intro r
  induction r with
  | nil => simp [hp]
  | cons b r ih =>
    by_cases hb : p b = true
    · simp [hb, ih.1, ih.2]
    · simp [hb]

theorem suffix_getLast (l' l : List Nat) (hs : l' <:+ l) (hl : l.getLast? ≠ some 47) :
    l'.getLast? ≠ some 47 := by
  obtain ⟨p, rfl⟩ := hs
  cases l' with
  | nil => simp
  | cons a as =>
    rw [List.getLast?_append_of_ne_nil _ (by simp)] at hl
    exact hl

theorem views_succ (k : Nat) (s s' : LexState) (t : TOKEN) (hg : gettok s = some (t, s')) :
    (gettokN (k + 1) s).map (fun r => tokenViews r.1) =
      (gettokN k s').map (fun r => (t.type, t.lexeme) :: tokenViews r.1) := by
  rw [gettokN, hg]
  dsimp only
  cases gettokN k s' with
  | none => rfl
  | some r => rfl

theorem gettokN_congr (k : Nat) (s s2 : LexState) (hg : gettok s = gettok s2) :
    gettokN (k + 1) s = gettokN (k + 1) s2 := by
  rw [gettokN, gettokN, hg]

/-- The token kinds and lexemes that `gettok` returns are determined by the bytes to be read. -/
theorem views_deterministic (k : Nat) : ∀ (bs : List Nat) (sA sB : LexState),
    sA.reads bs → sB.reads bs →
    (gettokN k sA).map (fun r => tokenViews r.1) =
      (gettokN k sB).map (fun r => tokenViews r.1) := by
  induction k with
  | zero => intro bs sA sB _ _; rfl
  | succ k ih =>
    intro bs sA sB hA hB
    rcases gettok_stream bs.length bs (le_refl _) with he | ⟨gap, lex, rest, ty, -, -, hx⟩
    · obtain ⟨tA, sA', hgA, htA, hlA, hrA⟩ := he sA hA
      obtain ⟨tB, sB', hgB, htB, hlB, hrB⟩ := he sB hB
      rw [views_succ k sA sA' tA hgA, views_succ k sB sB' tB hgB, htA, htB, hlA, hlB]
      have := ih [] sA' sB' hrA hrB
      cases h1 : gettokN k sA' <;> cases h2 : gettokN k sB' <;> rw [h1, h2] at this <;>
        simp_all
    · obtain ⟨tA, sA', hgA, htA, hlA, hrA, -⟩ := hx sA hA
      obtain ⟨tB, sB', hgB, htB, hlB, hrB, -⟩ := hx sB hB
      rw [views_succ k sA sA' tA hgA, views_succ k sB sB' tB hgB, htA, htB, hlA, hlB]
      have := ih rest sA' sB' hrA hrB
      cases h1 : gettokN k sA' <;> cases h2 : gettokN k sB' <;> rw [h1, h2] at this <;>
        simp_all

/-- `gettok` from a state gives what it gives from the state behind the white space. -/
theorem gettok_skip (s : LexState) (bs : List Nat) (hr : s.reads bs) :
    ∃ s2, gettok s = gettok s2 ∧ s2.reads (bs.dropWhile isSpaceByte) := by
  refine ⟨skipWhitespace s.input s.LastChar s.lineNo s.columnNo, ?_, sw_reads s bs hr⟩
  have hsw := sw_reads s bs hr
  have hns : isspace (skipWhitespace s.input s.LastChar s.lineNo s.columnNo).LastChar =
      false := by
    rw [hsw.1]
    cases hx : bs.dropWhile isSpaceByte with
    | nil => decide
    | cons c r => exact head_dropWhile_not isSpaceByte bs c r hx
  have e : gettokFuel (s.input.length + 1) s = gettokFuel (s.input.length + 1)
      (skipWhitespace s.input s.LastChar s.lineNo s.columnNo) := by
    rw [gettokFuel, gettokFuel]
    rw [skipWhitespace_nonspace
      (skipWhitespace s.input s.LastChar s.lineNo s.columnNo).input _ _ _ hns]
  show gettokFuel (s.input.length + 1) s = _
  rw [e]
  apply gettokFuel_eq_gettok
  have := skipWhitespace_input_le s.input s.LastChar s.lineNo s.columnNo
  omega

theorem operatorTable_second (e : OpEntry) (he : e ∈ operatorTable) :
    e.second = 61 ∨ e.second = 38 ∨ e.second = 124 := by
  simp only [operatorTable, List.mem_cons, List.mem_singleton, List.not_mem_nil, or_false] at he
  rcases he with rfl | rfl | rfl | rfl | rfl | rfl <;> simp

/-- A token that starts inside `c0 :: r` and is followed by a separator byte `h` (not a word
byte, a digit, `.`, `=`, `&` or `|`) does not depend on what `h` and the bytes after it are. -/
theorem tok_congr (c0 : Nat) (r : List Nat)
    (hcm : ¬ (c0 = 47 ∧ (r = [] ∨ frontChar r = 47))) :
    ∃ (ty : Int) (lex u' : List Nat), u' <:+ r ∧
      ∀ (h : Nat) (T' : List Nat), isWordByte h = false → isDigitByte h = false → h ≠ 46 →
        h ≠ 61 → h ≠ 38 → h ≠ 124 →
        ∀ (s : LexState) (bs : List Nat), s.reads bs →
          bs.dropWhile isSpaceByte = c0 :: (r ++ h :: T') →
          ∃ tk s1, gettok s = some (tk, s1) ∧ tk.type = ty ∧ tk.lexeme = lexemeOf lex ∧
            s1.reads (u' ++ h :: T') := by
  by_cases hw : (isalpha (c0 : Int) || (c0 : Int) == 95) = true
  · refine ⟨wordKind (lexemeOf (c0 :: r.takeWhile isWordByte)), c0 :: r.takeWhile isWordByte,
      r.dropWhile isWordByte,
      List.dropWhile_suffix _, ?_⟩
    intro h T' h1 _ _ _ _ _ s bs hr hx
    obtain ⟨tk, s1, hg, hty, hlex, hrd, -⟩ := gettok_lexes_ident s bs c0 _ hr hx hw
    rw [(span_sep isWordByte h T' h1 r).1] at hty hlex
    rw [(span_sep isWordByte h T' h1 r).2] at hrd
    exact ⟨tk, s1, hg, hty, hlex, hrd⟩
  by_cases hdot : c0 = 46
  · subst hdot
    refine ⟨FLOAT_LIT, 46 :: r.takeWhile isDigitByte, r.dropWhile isDigitByte,
      List.dropWhile_suffix _, ?_⟩
    intro h T' _ h2 _ _ _ _ s bs hr hx
    obtain ⟨tk, s1, hg, hty, hlex, hrd, -⟩ := gettok_lexes_dot s bs _ hr hx
    rw [(span_sep isDigitByte h T' h2 r).1] at hlex
    rw [(span_sep isDigitByte h T' h2 r).2] at hrd
    exact ⟨tk, s1, hg, hty, hlex, hrd⟩
  by_cases hd : isdigit (c0 : Int) = true
  · cases hdd : r.dropWhile isDigitByte with
    | nil =>
      refine ⟨INT_LIT, c0 :: r.takeWhile isDigitByte, r.dropWhile isDigitByte,
        List.dropWhile_suffix _, ?_⟩
      intro h T' _ h2 h3 _ _ _ s bs hr hx
      obtain ⟨tk, s1, hg, hty, hlex, hrd, -⟩ := gettok_lexes_int s bs c0 _ hr hx hd (by
        rw [(span_sep isDigitByte h T' h2 r).2, hdd]
        simp only [List.nil_append, frontChar]
        omega)
      rw [(span_sep isDigitByte h T' h2 r).1] at hlex
      rw [(span_sep isDigitByte h T' h2 r).2] at hrd
      exact ⟨tk, s1, hg, hty, hlex, hrd⟩
    | cons d r2 =>
      by_cases hd46 : d = 46
      · subst hd46
        refine ⟨FLOAT_LIT, c0 :: (r.takeWhile isDigitByte ++ 46 :: r2.takeWhile isDigitByte),
          r2.dropWhile isDigitByte, ?_, ?_⟩
        · refine (List.dropWhile_suffix _).trans ((List.suffix_cons 46 r2).trans ?_)
          rw [← hdd]
          exact List.dropWhile_suffix _
        intro h T' _ h2 _ _ _ _ s bs hr hx
        obtain ⟨tk, s1, hg, hty, hlex, hrd, -⟩ := gettok_lexes_float s bs c0 _ (r2 ++ h :: T')
          hr hx hd (by rw [(span_sep isDigitByte h T' h2 r).2, hdd]; rfl)
        rw [(span_sep isDigitByte h T' h2 r).1, (span_sep isDigitByte h T' h2 r2).1] at hlex
        rw [(span_sep isDigitByte h T' h2 r2).2] at hrd
        exact ⟨tk, s1, hg, hty, hlex, hrd⟩
      · refine ⟨INT_LIT, c0 :: r.takeWhile isDigitByte, r.dropWhile isDigitByte,
          List.dropWhile_suffix _, ?_⟩
        intro h T' _ h2 h3 _ _ _ s bs hr hx
        obtain ⟨tk, s1, hg, hty, hlex, hrd, -⟩ := gettok_lexes_int s bs c0 _ hr hx hd (by
          rw [(span_sep isDigitByte h T' h2 r).2, hdd]
          simp only [List.cons_append, frontChar]
          omega)
        rw [(span_sep isDigitByte h T' h2 r).1] at hlex
        rw [(span_sep isDigitByte h T' h2 r).2] at hrd
        exact ⟨tk, s1, hg, hty, hlex, hrd⟩
  have hw' : (isalpha (c0 : Int) || (c0 : Int) == 95) = false := by simpa using hw
  have hd' : (isdigit (c0 : Int) || (c0 : Int) == 46) = false := by
    simp only [Bool.or_eq_false_iff, beq_eq_false_iff_ne, ne_eq]
    exact ⟨by simpa using hd, by omega⟩
  by_cases hpair : ∃ e ∈ operatorTable, e.first = c0 ∧ frontChar r = (e.second : Int)
  · obtain ⟨e, he, hf, hs⟩ := hpair
    cases r with
    | nil =>
      exfalso
      simp only [frontChar, EOF] at hs
      omega
    | cons d r' =>
      simp only [frontChar, Nat.cast_inj] at hs
      subst hf hs
      refine ⟨e.kind2, [e.first, e.second], r', List.suffix_cons _ _, ?_⟩
      intro h T' _ _ _ _ _ _ s bs hr hx
      obtain ⟨tk, s1, hg, hty, hlex, hrd, -⟩ := (gettok_lexes_two s bs _ e he hr hx).1
      exact ⟨tk, s1, hg, hty, hlex, hrd⟩
  · refine ⟨(c0 : Int), [c0], r, List.suffix_refl _, ?_⟩
    intro h T' _ _ _ h4 h5 h6 s bs hr hx
    obtain ⟨tk, s1, hg, hty, hlex, hrd, -⟩ := gettok_lexes_one s bs c0 _ hr hx hw' hd' (by
        intro e he hf hs
        cases r with
        | nil =>
          simp only [List.nil_append, frontChar, Nat.cast_inj] at hs
          rcases operatorTable_second e he with h' | h' | h' <;> omega
        | cons d r' => exact hpair ⟨e, he, hf, hs⟩) (by
        intro h47 hs
        cases r with
        | nil => exact hcm ⟨h47, Or.inl rfl⟩
        | cons d r' => exact hcm ⟨h47, Or.inr hs⟩)
    exact ⟨tk, s1, hg, hty, hlex, hrd⟩

theorem dropWhile_append_cons (p : Nat → Bool) (u T : List Nat) (c0 : Nat) (r : List Nat)
    (hx : u.dropWhile p = c0 :: r) : (u ++ T).dropWhile p = c0 :: (r ++ T) := by
  rw [List.dropWhile_append, hx]
  simp

theorem views_map_congr (t t' : TOKEN) (a b : Option (List TOKEN × LexState))
    (ht : t.type = t'.type) (hl : t.lexeme = t'.lexeme)
    (h : a.map (fun r => tokenViews r.1) = b.map (fun r => tokenViews r.1)) :
    a.map (fun r => (t.type, t.lexeme) :: tokenViews r.1) =
      b.map (fun r => (t'.type, t'.lexeme) :: tokenViews r.1) := by
  rw [ht, hl]
  cases a <;> cases b <;> simp_all

/-- The lexer on `u // c \n t` and on `u \n t`, from any two states that read these streams,
when `u` does not end in `/` and the comment text `c` has no line break. -/
theorem comment_sim (c t : List Nat) (hc : ∀ b ∈ c, isNewline b = false) (n : Nat) :
    ∀ u : List Nat, u.length = n → u.getLast? ≠ some 47 →
    ∀ (k : Nat) (sA sB : LexState), sA.reads (u ++ 47 :: 47 :: (c ++ 10 :: t)) →
      sB.reads (u ++ 10 :: t) →
      (gettokN k sA).map (fun r => tokenViews r.1) =
        (gettokN k sB).map (fun r => tokenViews r.1) := by
  induction n using Nat.strong_induction_on with
  | _ n ih =>
    intro u hlen hlast k sA sB hA hB
    cases k with
    | zero => rfl
    | succ k =>
      have hcomA : ∀ l : List Nat, (∀ b ∈ l, (!isNewline b) = true) →
          (l ++ 47 :: 47 :: (c ++ 10 :: t)).dropWhile (fun b => !isNewline b) = 10 :: t := by
        intro l hl
        have := (span_append (fun b => !isNewline b) (10 :: t)
          (fun c' r' h => by
            simp only [List.cons.injEq] at h
            rw [← h.1]; rfl) (l ++ 47 :: 47 :: c) (by
            intro b hb
            rcases List.mem_append.mp hb with h | h
            · exact hl b h
            · simp only [List.mem_cons] at h
              rcases h with h | h | h
              · rw [h]; rfl
              · rw [h]; rfl
              · simp [hc b h])).2
        simpa [List.append_assoc] using this
      have hcomB : ∀ l : List Nat, (∀ b ∈ l, (!isNewline b) = true) →
          (l ++ 10 :: t).dropWhile (fun b => !isNewline b) = 10 :: t := by
        intro l hl
        exact (span_append (fun b => !isNewline b) (10 :: t)
          (fun c' r' h => by
            simp only [List.cons.injEq] at h
            rw [← h.1]; rfl) l hl).2
      cases hx : u.dropWhile isSpaceByte with
      | nil =>
        have hall : ∀ b ∈ u, isSpaceByte b = true := List.dropWhile_eq_nil_iff.mp hx
        have hxA : (u ++ 47 :: 47 :: (c ++ 10 :: t)).dropWhile isSpaceByte =
            47 :: 47 :: (c ++ 10 :: t) := by
          rw [List.dropWhile_append_of_pos hall]
          rfl
        have hxB : (u ++ 10 :: t).dropWhile isSpaceByte = (10 :: t).dropWhile isSpaceByte :=
          List.dropWhile_append_of_pos hall
        obtain ⟨sA2, hgA, hrA2, -⟩ := gettok_comment sA _ (c ++ 10 :: t) hA hxA (by
          have := hcomA [] (by simp)
          simp only [List.nil_append] at this
          have e : List.dropWhile (fun b => !isNewline b) (c ++ 10 :: t) = 10 :: t :=
            (span_append (fun b => !isNewline b) (10 :: t)
              (fun c' r' h => by
                simp only [List.cons.injEq] at h
                rw [← h.1]; rfl) c (by intro b hb; simp [hc b hb])).2
          rw [e]; simp)
        have e : List.dropWhile (fun b => !isNewline b) (c ++ 10 :: t) = 10 :: t :=
          (span_append (fun b => !isNewline b) (10 :: t)
            (fun c' r' h => by
              simp only [List.cons.injEq] at h
              rw [← h.1]; rfl) c (by intro b hb; simp [hc b hb])).2
        rw [e] at hrA2
        obtain ⟨sA3, hgA3, hrA3⟩ := gettok_skip sA2 _ hrA2
        obtain ⟨sB2, hgB, hrB2⟩ := gettok_skip sB _ hB
        rw [hxB] at hrB2
        rw [gettokN_congr k sA sA3 (hgA.trans hgA3), gettokN_congr k sB sB2 hgB]
        exact views_deterministic (k + 1) _ sA3 sB2 hrA3 hrB2
      | cons c0 r =>
        have hsuf : (c0 :: r) <:+ u := by rw [← hx]; exact List.dropWhile_suffix _
        have hlenr : r.length + 1 ≤ u.length := by simpa using hsuf.length_le
        have hxA := dropWhile_append_cons isSpaceByte u (47 :: 47 :: (c ++ 10 :: t)) c0 r hx
        have hxB := dropWhile_append_cons isSpaceByte u (10 :: t) c0 r hx
        by_cases hcm : c0 = 47 ∧ (r = [] ∨ frontChar r = 47)
        · obtain ⟨h47, hr⟩ := hcm
          subst h47
          cases r with
          | nil =>
            exfalso
            exact suffix_getLast _ _ hsuf hlast (by simp)
          | cons d r' =>
            have hd : d = 47 := by
              rcases hr with h | h
              · cases h
              · simp only [frontChar] at h
                omega
            subst hd
            simp only [List.cons_append] at hxA hxB
            by_cases hnl : ∀ b ∈ r', (!isNewline b) = true
            · obtain ⟨sA2, hgA, hrA2, -⟩ := gettok_comment sA _ _ hA hxA (by
                rw [hcomA r' hnl]; simp)
              obtain ⟨sB2, hgB, hrB2, -⟩ := gettok_comment sB _ _ hB hxB (by
                rw [hcomB r' hnl]; simp)
              rw [hcomA r' hnl] at hrA2
              rw [hcomB r' hnl] at hrB2
              rw [gettokN_congr k sA sA2 hgA, gettokN_congr k sB sB2 hgB]
              exact views_deterministic (k + 1) _ sA2 sB2 hrA2 hrB2
            · have hne : r'.dropWhile (fun b => !isNewline b) ≠ [] := by
                intro h
                exact hnl (List.dropWhile_eq_nil_iff.mp h)
              have hdA : ∀ T : List Nat, (r' ++ T).dropWhile (fun b => !isNewline b) =
                  r'.dropWhile (fun b => !isNewline b) ++ T := by
                intro T
                rw [List.dropWhile_append]
                cases hdw : r'.dropWhile (fun b => !isNewline b) with
                | nil => exact absurd hdw hne
                | cons a as => simp
              obtain ⟨sA2, hgA, hrA2, -⟩ := gettok_comment sA _ _ hA hxA (by
                rw [hdA]; simp [hne])
              obtain ⟨sB2, hgB, hrB2, -⟩ := gettok_comment sB _ _ hB hxB (by
                rw [hdA]; simp [hne])
              rw [hdA] at hrA2 hrB2
              rw [gettokN_congr k sA sA2 hgA, gettokN_congr k sB sB2 hgB]
              have hsuf2 : r'.dropWhile (fun b => !isNewline b) <:+ u :=
                (List.dropWhile_suffix _).trans (((List.suffix_cons 47 r').trans
                  (List.suffix_cons 47 _)).trans hsuf)
              have hl2 : (r'.dropWhile (fun b => !isNewline b)).length < n := by
                have := (List.dropWhile_suffix (fun b => !isNewline b) (l := r')).length_le
                simp only [List.length_cons] at hlenr
                omega
              exact ih _ hl2 _ rfl (suffix_getLast _ _ hsuf2 hlast) (k + 1) sA2 sB2 hrA2 hrB2
        · obtain ⟨ty, lex, u', hu', hall⟩ := tok_congr c0 r hcm
          obtain ⟨tA, sA', hgA, htA, hlA, hrA⟩ := hall 47 (47 :: (c ++ 10 :: t)) (by decide)
            (by decide) (by decide) (by decide) (by decide) (by decide) sA _ hA hxA
          obtain ⟨tB, sB', hgB, htB, hlB, hrB⟩ := hall 10 t (by decide)
            (by decide) (by decide) (by decide) (by decide) (by decide) sB _ hB hxB
          rw [views_succ k sA sA' tA hgA, views_succ k sB sB' tB hgB]
          have hl2 : u'.length < n := by
            have := hu'.length_le
            omega
          exact views_map_congr tA tB _ _ (by rw [htA, htB]) (by rw [hlA, hlB])
            (ih _ hl2 u' rfl (suffix_getLast _ _ (hu'.trans ((List.suffix_cons c0 r).trans hsuf))
              hlast) k sA' sB' hrA hrB)

/-- **C13** (line comments).  For bytes `s` that do not end in `/`, a comment text `c` without
`\n` and `\r`, and bytes `t`: for every number `k` of calls, the kinds and lexemes of the first
`k` tokens of `s ++ "//" ++ c ++ "\n" ++ t` are those of the first `k` tokens of
`s ++ "\n" ++ t`.  And a `/` that is not followed by `/` is the token `DIV`; the lexer is left
reading the byte after it. -/
theorem comment_invisible (s c t : List Nat) (hs : s.getLast? ≠ some 47)
    (hc : ∀ b ∈ c, isNewline b = false) :
    (∀ k : Nat,
      (gettokN k (LexState.init (s ++ 47 :: 47 :: (c ++ 10 :: t)))).map
          (fun r => tokenViews r.1) =
        (gettokN k (LexState.init (s ++ 10 :: t))).map (fun r => tokenViews r.1)) ∧
    (∀ (st : LexState) (ws rest : List Nat), (∀ b ∈ ws, isSpaceByte b = true) →
      st.reads (ws ++ 47 :: rest) → frontChar rest ≠ 47 →
      ∃ tk s1, gettok st = some (tk, s1) ∧ tk.type = DIV ∧ tk.lexeme = "/" ∧
        s1.reads rest) := by
  constructor
  · intro k
    have hA := reads_init (s ++ 47 :: 47 :: (c ++ 10 :: t))
    have hB := reads_init (s ++ 10 :: t)
    rw [← List.cons_append] at hA hB
    exact comment_sim c t hc _ (32 :: s) rfl (by
      cases s with
      | nil => simp
      | cons a as => simpa [List.getLast?_cons_cons] using hs) k _ _ hA hB
  · intro st ws rest hws hr hne
    have h1 := span_append isSpaceByte (47 :: rest)
      (fun c' r' h => by
        simp only [List.cons.injEq] at h
        rw [← h.1]; rfl) ws hws
    obtain ⟨tk, s1, hg, hty, hlex, hrd, -⟩ := gettok_lexes_one st _ 47 rest hr h1.2
      (by decide) (by decide)
      (fun e he hf => by
        have := operatorTable_facts e he
        exact absurd hf this.2.2.2.1)
      (fun _ => hne)
    exact ⟨tk, s1, hg, hty, hlex, hrd⟩

/-- Witness of C13: `a// x` + line break + `b` and `a` + line break + `b` both give the tokens
`a`, `b` and `EOF_TOK`. -/
theorem comment_invisible_witness :
    (gettokN 3 (LexState.init [97, 47, 47, 32, 120, 10, 98])).map (fun r => tokenViews r.1) =
      (gettokN 3 (LexState.init [97, 10, 98])).map (fun r => tokenViews r.1) ∧
    (gettokN 3 (LexState.init [97, 10, 98])).map (fun r => tokenViews r.1) =
      some [(IDENT, "a"), (IDENT, "b"), (EOF_TOK, "0")] :=
  ⟨(comment_invisible [97] [32, 120] [98] (by decide) (by decide)).1 3, by decide⟩

/-- Witness of C14: in `a` + line break + ` bc` the second token `bc` is in line 2, column 2. -/
theorem token_position_witness :
    ∃ pre lex rest, [97, 10, 32, 98, 99] = pre ++ (lex ++ rest) ∧ lex ≠ [] ∧
      "bc" = lexemeOf lex ∧ (LexState.mk [] EOF 2 5).reads rest ∧
      (2 : Int) = toI32 (colOf pre) ∧ (2 : Int) = toI32 (lineOf pre) ∧
      (colOf pre ≤ 2147483647 → (2 : Int) = colOf pre) ∧
      (lineOf pre ≤ 2147483647 → (2 : Int) = lineOf pre) ∧
      ([97, 10, 32, 98, 99].length < 2147483646 →
        (2 : Int) = colOf pre ∧ (2 : Int) = lineOf pre) :=
  token_position [97, 10, 32, 98, 99] 1
    [⟨IDENT, "a", 1, 1⟩, ⟨IDENT, "bc", 2, 2⟩] ⟨[], EOF, 2, 5⟩ ⟨IDENT, "bc", 2, 2⟩
    (by decide) rfl (by decide)

/-- The first token of a file of `n` blanks and the letter `a`: the word `a` in line 1, with the
column `n + 1` as a value of type `int`. -/
theorem gettok_after_blanks (n : Nat) :
    ∃ s1, gettok (LexState.init (List.replicate n 32 ++ [97])) =
        some (⟨IDENT, "a", 1, toI32 ((n : Int) + 1)⟩, s1) ∧
      colOf (List.replicate n 32) = (n : Int) + 1 := by
  have hsp : ∀ b ∈ List.replicate n 32, isSpaceByte b = true := fun b hb => by
    rw [List.eq_of_mem_replicate hb]; decide
  have hnl : ∀ b ∈ List.replicate n 32, isNewline b = false := fun b hb => by
    rw [List.eq_of_mem_replicate hb]; decide
  have hspan := span_append isSpaceByte [97]
    (fun c r h => by
      simp only [List.cons.injEq] at h
      rw [← h.1]; decide) (List.replicate n 32) hsp
  have hcol : colOf (List.replicate n 32) = (n : Int) + 1 := by
    have := colOf_append (List.replicate n 32) hnl []
    rw [List.nil_append, List.length_replicate] at this
    rw [this, show colOf [] = 1 from rfl, add_comm]
  have hline : lineOf (List.replicate n 32) = 1 := by
    have := lineOf_append (List.replicate n 32) hnl []
    rw [List.nil_append] at this
    rw [this]
    rfl
  obtain ⟨t, s1, hg, hty, hlex, -, hpos⟩ :=
    gettok_lexes_ident ⟨(List.replicate n 32 ++ [97]).tail,
      frontChar (List.replicate n 32 ++ [97]), 1, 1 + 1⟩ (List.replicate n 32 ++ [97]) 97 []
      ⟨rfl, rfl⟩ hspan.2 (by decide)
  obtain ⟨hl, hc, -⟩ := hpos []
    ⟨(by decide : (1 : Int) = toI32 (lineOf [])),
      (by decide : (1 + 1 : Int) = toI32 (colOf [] + 1))⟩
  rw [List.nil_append, hspan.1] at hl hc
  rw [hcol] at hc
  rw [hline] at hl
  refine ⟨s1, ?_, hcol⟩
  rw [gettok_init, hg]
  have ht : t = ⟨IDENT, "a", 1, toI32 ((n : Int) + 1)⟩ := by
    cases t
    simp only at hty hlex hl hc
    rw [hty, hlex, hl, hc]
    rfl
  rw [ht]

/-- **C14, counterexample** (a column beyond the range of `int`).  The input is `2^31 - 1`
blanks followed by the letter `a`.  The first call of `gettok` returns the word `a`, whose first
byte is byte number `2^31` of line 1; the `columnNo` of the token is `-2^31`, which is the column
of no byte at all. -/
theorem token_column_wraps :
    ∃ t s1, gettok (LexState.init (List.replicate 2147483647 32 ++ [97])) = some (t, s1) ∧
      gettokN 1 (LexState.init (List.replicate 2147483647 32 ++ [97])) = some ([t], s1) ∧
      t.type = IDENT ∧ t.lexeme = "a" ∧ t.lineNo = 1 ∧
      colOf (List.replicate 2147483647 32) = 2147483648 ∧
      t.columnNo = -2147483648 ∧ ∀ pre : List Nat, t.columnNo ≠ colOf pre := by
  obtain ⟨s1, hg, hcol⟩ := gettok_after_blanks 2147483647
  have e : toI32 (((2147483647 : Nat) : Int) + 1) = -2147483648 := by decide
  rw [e] at hg
  refine ⟨_, s1, hg, ?_, rfl, rfl, rfl, ?_, rfl, fun pre h => ?_⟩
  · rw [gettokN, hg]
    rfl
  · rw [hcol]
    rfl
  · have := (colOf_bounds pre).1
    have h' : (-2147483648 : Int) = colOf pre := h
    omega


/-! ### Code generation: what the builder calls keep -/

@[simp] theorem emit_frames (σ : CGState) (n : String) (k : InstrKind) :
    (σ.emit n k).2.NamedValuesArray = σ.NamedValuesArray := by
  unfold CGState.emit; cases σ.insertBlock <;> rfl

@[simp] theorem emit_globals (σ : CGState) (n : String) (k : InstrKind) :
    (σ.emit n k).2.globals = σ.globals := by
  unfold CGState.emit; cases σ.insertBlock <;> rfl

@[simp] theorem emit_insertBlock (σ : CGState) (n : String) (k : InstrKind) :
    (σ.emit n k).2.insertBlock = σ.insertBlock := by
  unfold CGState.emit; cases h : σ.insertBlock <;> simp [h]

@[simp] theorem emit_functions (σ : CGState) (n : String) (k : InstrKind) :
    (σ.emit n k).2.functions = σ.functions := by
  unfold CGState.emit; cases σ.insertBlock <;> rfl

@[simp] theorem emit_nextId (σ : CGState) (n : String) (k : InstrKind) :
    (σ.emit n k).2.nextId = σ.nextId + 1 := by
  unfold CGState.emit; cases σ.insertBlock <;> rfl

@[simp] theorem emit_fst (σ : CGState) (n : String) (k : InstrKind) :
    (σ.emit n k).1 = σ.nextId := by
  unfold CGState.emit; cases σ.insertBlock <;> rfl

@[simp] theorem create_snd (σ : CGState) (n : String) (k : InstrKind) (ty : LType) :
    (σ.create n k ty).2 = (σ.emit n k).2 := rfl

@[simp] theorem create_fst (σ : CGState) (n : String) (k : InstrKind) (ty : LType) :
    (σ.create n k ty).1 = .inst σ.nextId ty := by
  unfold CGState.create; rw [emit_fst]

@[simp] theorem createBlock_frames (σ : CGState) (n : String) (p : Option String) :
    (σ.createBlock n p).2.NamedValuesArray = σ.NamedValuesArray := by
  unfold CGState.createBlock; cases p <;> rfl

@[simp] theorem createBlock_globals (σ : CGState) (n : String) (p : Option String) :
    (σ.createBlock n p).2.globals = σ.globals := by
  unfold CGState.createBlock; cases p <;> rfl

@[simp] theorem createBlock_insertBlock (σ : CGState) (n : String) (p : Option String) :
    (σ.createBlock n p).2.insertBlock = σ.insertBlock := by
  unfold CGState.createBlock; cases p <;> rfl

theorem pushBlock_ok {σ σ' : CGState} {f : Option String} {b : Nat} {u : Unit}
    (h : σ.pushBlock f b = .ok (u, σ')) :
    σ'.NamedValuesArray = σ.NamedValuesArray ∧ σ'.globals = σ.globals ∧
      σ'.insertBlock = σ.insertBlock := by
  unfold CGState.pushBlock at h
  cases f with
  | none => simp at h
  | some f =>
    simp only [Except.ok.injEq, Prod.mk.injEq] at h
    rw [← h.2]; exact ⟨rfl, rfl, rfl⟩

theorem CreateEntryBlockAlloca_ok {σ σ' : CGState} {f : Option String} {n t : String}
    {a : AllocaInst} (h : CreateEntryBlockAlloca f n t σ = .ok (a, σ')) :
    σ'.NamedValuesArray = σ.NamedValuesArray ∧ σ'.globals = σ.globals ∧
      σ'.insertBlock = σ.insertBlock ∧ σ'.GlobalValues = σ.GlobalValues := by
  unfold CreateEntryBlockAlloca at h
  split at h
  · simp at h
  · split at h
    · simp at h
    · split at h
      · simp at h
      · split at h
        · simp at h
        · simp only [Except.ok.injEq, Prod.mk.injEq] at h
          rw [← h.2]; exact ⟨rfl, rfl, rfl, rfl⟩

theorem updateAt_length {α : Type} (f : α → α) : ∀ (i : Nat) (l : List α),
    (updateAt f i l).length = l.length
  | i, [] => by cases i <;> rfl
  | 0, _ :: _ => rfl
  | i + 1, a :: as => by simp [updateAt, updateAt_length f i as]

theorem updateAt_take {α : Type} (f : α → α) : ∀ (i b : Nat) (l : List α), b ≤ i →
    (updateAt f i l).take b = l.take b
  | i, _, [], _ => by cases i <;> rfl
  | 0, b, a :: as, h => by
    have : b = 0 := by omega
    subst this; rfl
  | i + 1, 0, a :: as, _ => rfl
  | i + 1, b + 1, a :: as, h => by
    simp [updateAt, updateAt_take f i b as (by omega)]

theorem updateAt_get_ne {α : Type} (f : α → α) : ∀ (i j : Nat) (l : List α), j ≠ i →
    (updateAt f i l).get? j = l.get? j
  | i, _, [], _ => by cases i <;> rfl
  | 0, 0, _ :: _, h => absurd rfl h
  | 0, j + 1, _ :: _, _ => rfl
  | i + 1, 0, _ :: _, _ => rfl
  | i + 1, j + 1, a :: as, h => by
    simp only [updateAt, List.get?_cons_succ]
    exact updateAt_get_ne f i j as (by omega)

theorem updateAt_get_eq {α : Type} (f : α → α) : ∀ (i : Nat) (l : List α),
    (updateAt f i l).get? i = (l.get? i).map f
  | i, [] => by cases i <;> rfl
  | 0, _ :: _ => rfl
  | i + 1, a :: as => by
    simp only [updateAt, List.get?_cons_succ]
    exact updateAt_get_eq f i as

theorem setNamedValue_ok {σ σ' : CGState} {n : String} {a : AllocaInst} {b : Nat} {u : Unit}
    (h : setNamedValue n a b σ = .ok (u, σ')) :
    b < σ.NamedValuesArray.length ∧
      σ'.NamedValuesArray = updateAt (fun frame => (n, a) :: frame) b σ.NamedValuesArray ∧
      σ'.globals = σ.globals ∧ σ'.insertBlock = σ.insertBlock ∧
      σ'.GlobalValues = σ.GlobalValues := by
  unfold setNamedValue at h
  split at h
  · rename_i hb
    simp only [Except.ok.injEq, Prod.mk.injEq] at h
    rw [← h.2]; exact ⟨hb, rfl, rfl, rfl, rfl⟩
  · simp at h

theorem uniqueName_fields (σ : CGState) (n : String) :
    (σ.uniqueName n).2.NamedValuesArray = σ.NamedValuesArray ∧
      (σ.uniqueName n).2.globals = σ.globals ∧
      (σ.uniqueName n).2.insertBlock = σ.insertBlock ∧
      (σ.uniqueName n).2.functions = σ.functions ∧
      (σ.uniqueName n).2.GlobalValues = σ.GlobalValues := by
  unfold CGState.uniqueName
  split <;> exact ⟨rfl, rfl, rfl, rfl, rfl⟩

theorem createFunction_ok {σ σ' : CGState} {n t : String} {args : List (String × String)}
    {f : String} (h : createFunction n t args σ = .ok (f, σ')) :
    σ'.NamedValuesArray = σ.NamedValuesArray ∧ σ'.globals = σ.globals ∧
      σ'.insertBlock = σ.insertBlock := by
  unfold createFunction at h
  split at h
  · simp at h
  · simp only [Except.ok.injEq, Prod.mk.injEq] at h
    rw [← h.2]
    exact ⟨(uniqueName_fields σ n).1, (uniqueName_fields σ n).2.1, (uniqueName_fields σ n).2.2.1⟩

/-! ### The relations `Keeps` and `SameScopes` -/

theorem CGState.Keeps.refl (b : Nat) (σ : CGState) : σ.Keeps b σ :=
  ⟨fun h => ⟨h, rfl⟩, fun h => ⟨h, rfl⟩⟩

theorem CGState.Keeps.trans {b : Nat} {σ1 σ2 σ3 : CGState} (h12 : σ1.Keeps b σ2)
    (h23 : σ2.Keeps b σ3) : σ1.Keeps b σ3 := by
  constructor
  · intro h
    have h2 := h12.1 h
    have h3 := h23.1 h2.1
    exact ⟨h3.1, h3.2.trans h2.2⟩
  · intro h
    have h2 := h12.2 h
    have h3 := h23.2 h2.1
    exact ⟨h3.1, h3.2.trans h2.2⟩

theorem CGState.Keeps.of_fields {b : Nat} {σ σ' : CGState}
    (hf : σ'.NamedValuesArray = σ.NamedValuesArray) (hg : σ'.globals = σ.globals)
    (hi : σ.insertBlock.isSome = true → σ'.insertBlock.isSome = true) : σ.Keeps b σ' :=
  ⟨fun h => ⟨hi h, hg⟩, fun h => ⟨by rw [hf]; exact h, by rw [hf]⟩⟩

theorem CGState.Keeps.of_same {b : Nat} {σ σ' : CGState} (h : σ.SameScopes σ') : σ.Keeps b σ' :=
  CGState.Keeps.of_fields h.1 h.2.1 (fun hi => by rw [h.2.2]; exact hi)

theorem CGState.SameScopes.same (σ : CGState) : σ.SameScopes σ := ⟨rfl, rfl, rfl⟩

theorem CGState.SameScopes.comp {σ1 σ2 σ3 : CGState} (h12 : σ1.SameScopes σ2)
    (h23 : σ2.SameScopes σ3) : σ1.SameScopes σ3 :=
  ⟨h23.1.trans h12.1, h23.2.1.trans h12.2.1, h23.2.2.trans h12.2.2⟩

theorem CGState.SameScopes.emit (σ : CGState) (n : String) (k : InstrKind) :
    σ.SameScopes (σ.emit n k).2 :=
  ⟨emit_frames σ n k, emit_globals σ n k, emit_insertBlock σ n k⟩

/-- A step at index `b + 1` on a stack with a frame `b + 1` is a step at index `b`. -/
theorem CGState.Keeps.lower {b : Nat} {σ σ' : CGState} (h : σ.Keeps (b + 1) σ')
    (hb : b + 1 < σ.NamedValuesArray.length) : σ.Keeps b σ' := by
  refine ⟨h.1, fun _ => ?_⟩
  have h2 := h.2 hb
  refine ⟨by omega, ?_⟩
  have := congrArg (List.take b) h2.2
  simpa [List.take_take] using this

/-! ### Leaf steps -/

theorem VariableASTnode_codegen_same {Name : String} {b : Nat} {σ σ' : CGState}
    {v : Option Value} (h : VariableASTnode_codegen Name b σ = .ok (v, σ')) :
    σ.SameScopes σ' := by
  unfold VariableASTnode_codegen at h
  split at h
  · simp at h
  · simp only [Except.ok.injEq, Prod.mk.injEq, create_snd] at h
    rw [← h.2]; exact CGState.SameScopes.emit _ _ _
  · split at h
    · split at h
      · simp only [Except.ok.injEq, Prod.mk.injEq, create_snd] at h
        rw [← h.2]; exact CGState.SameScopes.emit _ _ _
      · simp at h
    · simp at h

theorem assignTo_same {Name : String} {val : Value} {b : Nat} {σ σ' : CGState}
    {v : Option Value} (h : assignTo Name val b σ = .ok (v, σ')) : σ.SameScopes σ' := by
  unfold assignTo at h
  split at h
  · simp at h
  · split at h
    · simp only [Except.ok.injEq, Prod.mk.injEq] at h
      rw [← h.2]; exact CGState.SameScopes.emit _ _ _
    · simp at h
  · split at h
    · split at h
      · simp only [Except.ok.injEq, Prod.mk.injEq, create_snd] at h
        rw [← h.2]; exact (CGState.SameScopes.emit _ _ _).comp (CGState.SameScopes.emit _ _ _)
      · split at h
        · simp only [Except.ok.injEq, Prod.mk.injEq, create_snd] at h
          rw [← h.2]; exact (CGState.SameScopes.emit _ _ _).comp (CGState.SameScopes.emit _ _ _)
        · simp only [Except.ok.injEq, Prod.mk.injEq] at h
          rw [← h.2]; exact CGState.SameScopes.emit _ _ _
    · simp only [Except.ok.injEq, Prod.mk.injEq] at h
      rw [← h.2]; exact CGState.SameScopes.emit _ _ _

theorem emitOperator_same {e : Option (Opcode × String × Option LType)} {L R : Value}
    {σ σ' : CGState} {v : Option Value} (h : emitOperator e L R σ = .ok (v, σ')) :
    σ.SameScopes σ' := by
  unfold emitOperator at h
  split at h
  · simp at h
  · simp only [Except.ok.injEq, Prod.mk.injEq, create_snd] at h
    rw [← h.2]; exact CGState.SameScopes.emit _ _ _

theorem combineOperands_same {Op : String} {L R : Value} {σ σ' : CGState} {v : Option Value}
    (h : combineOperands Op L R σ = .ok (v, σ')) : σ.SameScopes σ' := by
  unfold combineOperands at h
  split at h
  · split at h
    · exact (CGState.SameScopes.emit _ _ _).comp (emitOperator_same h)
    · split at h
      · exact (CGState.SameScopes.emit _ _ _).comp (emitOperator_same h)
      · exact emitOperator_same h
  · exact emitOperator_same h

theorem applyUnary_same {Op : String} {Operand : Value} {σ σ' : CGState} {v : Option Value}
    (h : applyUnary Op Operand σ = .ok (v, σ')) : σ.SameScopes σ' := by
  unfold applyUnary at h
  split_ifs at h <;>
    first
    | (simp only [Except.ok.injEq, Prod.mk.injEq, create_snd] at h
       rw [← h.2]
       first
       | exact CGState.SameScopes.emit _ _ _
       | exact CGState.SameScopes.same _)

theorem VariableDeclarationASTnode_codegen_keeps {Name Type_ : String} {b : Nat}
    {σ σ' : CGState} {v : Option Value}
    (h : VariableDeclarationASTnode_codegen Name Type_ b σ = .ok (v, σ')) : σ.Keeps b σ' := by
  unfold VariableDeclarationASTnode_codegen at h
  split at h
  · rename_i hib
    split at h
    · simp at h
    · simp only [Except.ok.injEq, Prod.mk.injEq] at h
      rw [← h.2]
      refine ⟨fun hi => ?_, fun hb => ?_⟩
      · rw [hib] at hi; exact absurd hi (by decide)
      · have := (uniqueName_fields σ Name).1
        exact ⟨by simpa [this] using hb, by simp [this]⟩
  · split at h
    · simp at h
    · split at h
      · simp at h
      · rename_i TheFunction _ Variable σ1 h1
        split at h
        · simp at h
        · rename_i u σ2 h2
          simp only [Except.ok.injEq, Prod.mk.injEq] at h
          rw [← h.2]
          have a1 := CreateEntryBlockAlloca_ok h1
          have a2 := setNamedValue_ok h2
          refine ⟨fun hi => ⟨?_, ?_⟩, fun hb => ⟨?_, ?_⟩⟩
          · rw [a2.2.2.2.1, a1.2.2.1]; exact hi
          · rw [a2.2.2.1, a1.2.1]
          · rw [a2.2.1, updateAt_length, a1.1]; exact hb
          · rw [a2.2.1, updateAt_take _ _ _ _ (le_refl b), a1.1]

theorem codegenDecls_keeps : ∀ (ds : List ASTnode) (b : Nat) (r r' : Option (Option Value))
    (σ σ' : CGState), codegenDecls ds b r σ = .ok (r', σ') → σ.Keeps b σ'
  | [], b, r, r', σ, σ', h => by
    simp only [codegenDecls, Except.ok.injEq, Prod.mk.injEq] at h
    rw [← h.2]; exact CGState.Keeps.refl _ _
  | d :: rest, b, r, r', σ, σ', h => by
    cases d <;> simp only [codegenDecls] at h <;> try (exact absurd h (by simp))
    rename_i Name Type_
    split at h
    · simp at h
    · rename_i v σ1 h1
      exact (VariableDeclarationASTnode_codegen_keeps h1).trans
        (codegenDecls_keeps rest b _ r' σ1 σ' h)

theorem codegenExterns_same : ∀ (es : List ASTnode) (σ σ' : CGState) (u : Unit),
    codegenExterns es σ = .ok (u, σ') → σ.SameScopes σ'
  | [], σ, σ', u, h => by
    simp only [codegenExterns, Except.ok.injEq, Prod.mk.injEq] at h
    rw [← h.2]; exact CGState.SameScopes.same _
  | e :: rest, σ, σ', u, h => by
    cases e <;> simp only [codegenExterns] at h <;> try (exact absurd h (by simp))
    split at h
    · simp at h
    · split at h
      · simp at h
      · rename_i f σ1 h1
        have a := createFunction_ok h1
        exact (show σ.SameScopes σ1 from ⟨a.1, a.2.1, a.2.2⟩).comp
          (codegenExterns_same rest σ1 σ' u h)

/-! ### Expressions keep the scopes -/

mutual
theorem codegen_same : ∀ (n : ASTnode) (b : Nat) (σ σ' : CGState) (v : Option Value),
    n.isExpr = true → codegen n b σ = .ok (v, σ') → σ.SameScopes σ'
  | .IntASTnode _, b, σ, σ', v, _, h => by
    simp only [codegen, Except.ok.injEq, Prod.mk.injEq] at h
    rw [← h.2]; exact CGState.SameScopes.same _
  | .FloatASTnode _, b, σ, σ', v, _, h => by
    simp only [codegen, Except.ok.injEq, Prod.mk.injEq] at h
    rw [← h.2]; exact CGState.SameScopes.same _
  | .BoolASTnode _, b, σ, σ', v, _, h => by
    simp only [codegen, Except.ok.injEq, Prod.mk.injEq] at h
    rw [← h.2]; exact CGState.SameScopes.same _
  | .VariableASTnode _, b, σ, σ', v, _, h => by
    simp only [codegen] at h
    exact VariableASTnode_codegen_same h
  | .VariableAssignmentASTnode Variable Val, b, σ, σ', v, he, h => by
    simp only [ASTnode.isExpr] at he
    simp only [codegen] at h
    split at h
    · simp at h
    · split at h
      · simp at h
      · split at h
        · simp at h
        · rename_i σ1 h1
          simp only [Except.ok.injEq, Prod.mk.injEq] at h
          rw [← h.2]; exact codegen_same Val b σ σ1 _ he h1
        · rename_i val σ1 h1
          exact (codegen_same Val b σ σ1 _ he h1).comp (assignTo_same h)
  | .BinaryASTnode Op LHS RHS, b, σ, σ', v, he, h => by
    simp only [ASTnode.isExpr, Bool.and_eq_true] at he
    simp only [codegen] at h
    split at h
    · simp at h
    · rename_i L σ1 h1
      split at h
      · simp at h
      · rename_i R σ2 h2
        have s1 := codegen_same LHS b σ σ1 L he.1 h1
        have s2 := codegen_same RHS b σ1 σ2 R he.2 h2
        split at h
        · exact (s1.comp s2).comp (combineOperands_same h)
        · simp only [Except.ok.injEq, Prod.mk.injEq] at h
          rw [← h.2]; exact s1.comp s2
  | .UnaryASTnode Op Val, b, σ, σ', v, he, h => by
    simp only [ASTnode.isExpr] at he
    simp only [codegen] at h
    split at h
    · simp at h
    · simp at h
    · rename_i val σ1 h1
      exact (codegen_same Val b σ σ1 _ he h1).comp (applyUnary_same h)
  | .CallASTnode CallFunc Args, b, σ, σ', v, he, h => by
    simp only [ASTnode.isExpr] at he
    simp only [codegen] at h
    split at h
    · simp at h
    · split at h
      · simp at h
      · split at h
        · simp at h
        · rename_i σ1 h1
          simp only [Except.ok.injEq, Prod.mk.injEq] at h
          rw [← h.2]; exact codegenArgs_same Args b [] none σ σ1 he h1
        · rename_i args σ1 h1
          simp only [Except.ok.injEq, Prod.mk.injEq, create_snd] at h
          rw [← h.2]
          exact (codegenArgs_same Args b [] _ σ σ1 he h1).comp (CGState.SameScopes.emit _ _ _)
  | .null, _, _, _, _, he, _ => by simp [ASTnode.isExpr] at he
  | .VariableDeclarationASTnode _ _, _, _, _, _, he, _ => by simp [ASTnode.isExpr] at he
  | .BlockASTnode _ _, _, _, _, _, he, _ => by simp [ASTnode.isExpr] at he
  | .FunctionParamASTnode _ _, _, _, _, _, he, _ => by simp [ASTnode.isExpr] at he
  | .FunctionPrototypeASTnode _ _ _, _, _, _, _, he, _ => by simp [ASTnode.isExpr] at he
  | .FunctionDefASTnode _ _, _, _, _, _, he, _ => by simp [ASTnode.isExpr] at he
  | .ExternASTnode _ _ _, _, _, _, _, he, _ => by simp [ASTnode.isExpr] at he
  | .IfExprASTnode _ _ _, _, _, _, _, he, _ => by simp [ASTnode.isExpr] at he
  | .WhileExprASTnode _ _, _, _, _, _, he, _ => by simp [ASTnode.isExpr] at he
  | .ReturnExprASTnode _, _, _, _, _, he, _ => by simp [ASTnode.isExpr] at he
  | .RootASTnode _ _, _, _, _, _, he, _ => by simp [ASTnode.isExpr] at he
theorem codegenArgs_same : ∀ (as : List ASTnode) (b : Nat) (acc : List Value)
    (r : Option (List Value)) (σ σ' : CGState),
    isExprList as = true → codegenArgs as b acc σ = .ok (r, σ') → σ.SameScopes σ'
  | [], b, acc, r, σ, σ', _, h => by
    simp only [codegenArgs, Except.ok.injEq, Prod.mk.injEq] at h
    rw [← h.2]; exact CGState.SameScopes.same _
  | a :: rest, b, acc, r, σ, σ', he, h => by
    simp only [isExprList, Bool.and_eq_true] at he
    simp only [codegenArgs] at h
    split at h
    · simp at h
    · rename_i σ1 h1
      simp only [Except.ok.injEq, Prod.mk.injEq] at h
      rw [← h.2]; exact codegen_same a b σ σ1 _ he.1 h1
    · rename_i val σ1 h1
      exact (codegen_same a b σ σ1 _ he.1 h1).comp
        (codegenArgs_same rest b _ r σ1 σ' he.2 h)
end

/-! ### Statements keep the frames below their index -/

theorem keeps_push (b : Nat) (σ : CGState) (hb : b < σ.NamedValuesArray.length) :
    σ.Keeps b { σ with NamedValuesArray := σ.NamedValuesArray ++ [[]] } := by
  refine ⟨fun h => ⟨h, rfl⟩, fun _ => ⟨?_, ?_⟩⟩
  · simp only [List.length_append, List.length_singleton]; omega
  · exact List.take_append_of_le_length (le_of_lt hb)

theorem keeps_setInsert (b : Nat) (σ : CGState) (blk : Nat) :
    σ.Keeps b { σ with insertBlock := some blk } :=
  ⟨fun _ => ⟨rfl, rfl⟩, fun h => ⟨h, rfl⟩⟩

theorem keeps_emit (b : Nat) (σ : CGState) (n : String) (k : InstrKind) :
    σ.Keeps b (σ.emit n k).2 :=
  CGState.Keeps.of_same (CGState.SameScopes.emit σ n k)

theorem keeps_createBlock (b : Nat) (σ : CGState) (n : String) (p : Option String) :
    σ.Keeps b (σ.createBlock n p).2 :=
  CGState.Keeps.of_same
    ⟨createBlock_frames σ n p, createBlock_globals σ n p, createBlock_insertBlock σ n p⟩

theorem keeps_pushBlock {b : Nat} {σ σ' : CGState} {f : Option String} {blk : Nat} {u : Unit}
    (h : σ.pushBlock f blk = .ok (u, σ')) : σ.Keeps b σ' :=
  CGState.Keeps.of_same (pushBlock_ok h)

theorem insertParent_ok {σ : CGState} {f : Option String} (h : σ.insertParent = .ok f) :
    σ.insertBlock.isSome = true := by
  unfold CGState.insertParent at h
  split at h
  · simp at h
  · rename_i blk hb; rw [hb]; rfl

/-- The shape of a lowered `if`: the children run at index `b + 1` on the stack with a new
frame, and the result keeps the first `b + 1` frames of what they leave. -/
theorem if_core (Cond Then Else : ASTnode) (b : Nat) (σ σ' : CGState) (v : Option Value)
    (ihC : ∀ σa σb w, codegen Cond (b + 1) σa = .ok (w, σb) → σa.Keeps (b + 1) σb)
    (ihT : ∀ σa σb w, codegen Then (b + 1) σa = .ok (w, σb) → σa.Keeps (b + 1) σb)
    (ihE : ∀ σa σb w, codegen Else (b + 1) σa = .ok (w, σb) → σa.Keeps (b + 1) σb)
    (h : codegen (.IfExprASTnode Cond Then Else) b σ = .ok (v, σ')) :
    ∃ σ5 : CGState,
      CGState.Keeps (b + 1) { σ with NamedValuesArray := σ.NamedValuesArray ++ [[]] } σ5 ∧
      b + 1 ≤ σ5.NamedValuesArray.length ∧
      σ'.NamedValuesArray = σ5.NamedValuesArray.take (b + 1) ∧
      σ'.globals = σ5.globals ∧ σ'.insertBlock.isSome = true ∧
      σ.insertBlock.isSome = true := by
  simp only [codegen] at h
  split at h
  · simp at h
  · rename_i TheFunction hp
    have hib : σ.insertBlock.isSome = true := insertParent_ok hp
    split at h
    · simp at h
    · simp at h
    · rename_i cond σ1 h1
      have k1 := ((keeps_createBlock (b + 1) _ "if then" TheFunction).trans
        ((keeps_createBlock (b + 1) _ "else then" none).trans
          (keeps_createBlock (b + 1) _ "end" none))).trans (ihC _ _ _ h1)
      split at h
      · split at h
        · split at h
          · simp at h
          · rename_i w σ2 h2
            have k2 := ihT _ _ _ h2
            split at h
            · simp at h
            · rename_i u σ3 h3
              split at h
              · rename_i hlen
                simp only [Except.ok.injEq, Prod.mk.injEq] at h
                refine ⟨σ3, ?_, hlen, ?_, ?_, ?_, hib⟩
                · exact k1.trans (((keeps_emit _ _ _ _).trans
                    ((keeps_emit _ _ _ _).trans (keeps_setInsert _ _ _))).trans
                    (k2.trans (keeps_pushBlock h3)))
                · rw [← h.2]
                · rw [← h.2]; exact emit_globals _ _ _
                · rw [← h.2]; rfl
              · simp at h
        · split at h
          · simp at h
          · rename_i w σ2 h2
            have k2 := ihT _ _ _ h2
            split at h
            · simp at h
            · rename_i u σ3 h3
              split at h
              · simp at h
              · rename_i w4 σ4 h4
                have k4 := ihE _ _ _ h4
                split at h
                · simp at h
                · rename_i u5 σ5 h5
                  split at h
                  · rename_i hlen
                    simp only [Except.ok.injEq, Prod.mk.injEq] at h
                    refine ⟨σ5, ?_, hlen, ?_, ?_, ?_, hib⟩
                    · exact k1.trans (((keeps_emit _ _ _ _).trans
                        ((keeps_emit _ _ _ _).trans (keeps_setInsert _ _ _))).trans
                        (k2.trans (((keeps_emit _ _ _ _).trans (keeps_pushBlock h3)).trans
                          ((keeps_setInsert _ _ _).trans (k4.trans (keeps_pushBlock h5))))))
                    · rw [← h.2]
                    · rw [← h.2]; exact emit_globals _ _ _
                    · rw [← h.2]; rfl
                  · simp at h
      · simp at h

/-- The shape of a lowered `while`: the children run at index `b + 1` on the stack with a new
frame, and the stack they leave is the result. -/
theorem while_core (Cond Then : ASTnode) (b : Nat) (σ σ' : CGState) (v : Option Value)
    (ihC : ∀ σa σb w, codegen Cond (b + 1) σa = .ok (w, σb) → σa.Keeps (b + 1) σb)
    (ihT : ∀ σa σb w, codegen Then (b + 1) σa = .ok (w, σb) → σa.Keeps (b + 1) σb)
    (h : codegen (.WhileExprASTnode Cond Then) b σ = .ok (v, σ')) :
    CGState.Keeps (b + 1) { σ with NamedValuesArray := σ.NamedValuesArray ++ [[]] } σ' ∧
      σ.insertBlock.isSome = true := by
  simp only [codegen] at h
  split at h
  · simp at h
  · rename_i TheFunction hp
    have hib : σ.insertBlock.isSome = true := insertParent_ok hp
    split at h
    · simp at h
    · simp at h
    · rename_i cond σ1 h1
      have k1 := ((keeps_createBlock (b + 1) _ "header" TheFunction).trans
        ((keeps_createBlock (b + 1) _ "body" none).trans
          ((keeps_createBlock (b + 1) _ "end" none).trans
            ((keeps_emit _ _ _ _).trans (keeps_setInsert _ _ _))))).trans (ihC _ _ _ h1)
      split at h
      · simp at h
      · rename_i u σ2 h2
        split at h
        · simp at h
        · rename_i w σ3 h3
          have k3 := ihT _ _ _ h3
          split at h
          · simp at h
          · rename_i u4 σ4 h4
            simp only [Except.ok.injEq, Prod.mk.injEq] at h
            refine ⟨?_, hib⟩
            rw [← h.2]
            exact k1.trans (((keeps_emit _ _ _ _).trans
              ((keeps_emit _ _ _ _).trans (keeps_pushBlock h2))).trans
              ((keeps_setInsert _ _ _).trans (k3.trans (((keeps_emit _ _ _ _).trans
                (keeps_pushBlock h4)).trans
                ((keeps_emit _ _ _ _).trans (keeps_setInsert _ _ _))))))

theorem keeps_of_push {b : Nat} {σ σ4 σ' : CGState}
    (k : CGState.Keeps (b + 1) { σ with NamedValuesArray := σ.NamedValuesArray ++ [[]] } σ4)
    (hib : σ'.insertBlock.isSome = true) (hg : σ'.globals = σ4.globals)
    (hf : b < σ.NamedValuesArray.length → b + 1 ≤ σ4.NamedValuesArray.length →
      b < σ'.NamedValuesArray.length ∧
        σ'.NamedValuesArray.take b = σ4.NamedValuesArray.take b) :
    σ.Keeps b σ' := by
  refine ⟨fun h => ⟨hib, ?_⟩, fun hb => ?_⟩
  · rw [hg]; exact (k.1 h).2
  · have k2 := k.2 (by simp only [List.length_append, List.length_singleton]; omega)
    have k3 := hf hb (le_of_lt k2.1)
    refine ⟨k3.1, ?_⟩
    rw [k3.2]
    have := congrArg (List.take b) k2.2
    simp only [List.take_take, Nat.min_eq_left (Nat.le_succ b)] at this
    rw [this]
    exact List.take_append_of_le_length (le_of_lt hb)

mutual
theorem codegen_keeps : ∀ (n : ASTnode) (b : Nat) (σ σ' : CGState) (v : Option Value),
    n.defFree = true → codegen n b σ = .ok (v, σ') → σ.Keeps b σ'
  | .null, b, σ, σ', v, _, h => by simp [codegen] at h
  | .IntASTnode _, b, σ, σ', v, _, h => by
    simp only [codegen, Except.ok.injEq, Prod.mk.injEq] at h
    rw [← h.2]; exact CGState.Keeps.refl _ _
  | .FloatASTnode _, b, σ, σ', v, _, h => by
    simp only [codegen, Except.ok.injEq, Prod.mk.injEq] at h
    rw [← h.2]; exact CGState.Keeps.refl _ _
  | .BoolASTnode _, b, σ, σ', v, _, h => by
    simp only [codegen, Except.ok.injEq, Prod.mk.injEq] at h
    rw [← h.2]; exact CGState.Keeps.refl _ _
  | .VariableASTnode _, b, σ, σ', v, _, h => by
    simp only [codegen] at h
    exact CGState.Keeps.of_same (VariableASTnode_codegen_same h)
  | .VariableAssignmentASTnode Variable Val, b, σ, σ', v, he, h => by
    simp only [ASTnode.defFree, Bool.and_eq_true] at he
    simp only [codegen] at h
    split at h
    · simp at h
    · split at h
      · simp at h
      · split at h
        · simp at h
        · rename_i σ1 h1
          simp only [Except.ok.injEq, Prod.mk.injEq] at h
          rw [← h.2]; exact codegen_keeps Val b σ σ1 _ he.2 h1
        · rename_i val σ1 h1
          exact (codegen_keeps Val b σ σ1 _ he.2 h1).trans
            (CGState.Keeps.of_same (assignTo_same h))
  | .VariableDeclarationASTnode _ _, b, σ, σ', v, _, h => by
    simp only [codegen] at h
    exact VariableDeclarationASTnode_codegen_keeps h
  | .BlockASTnode Declarations Statements, b, σ, σ', v, he, h => by
    simp only [ASTnode.defFree, Bool.and_eq_true] at he
    simp only [codegen] at h
    split at h
    · simp at h
    · rename_i r σ1 h1
      split at h
      · simp at h
      · simp at h
      · rename_i v2 σ2 h2
        simp only [Except.ok.injEq, Prod.mk.injEq] at h
        rw [← h.2]
        exact (codegenDecls_keeps _ _ _ _ _ _ h1).trans
          (codegenSeq_keeps Statements b r _ σ1 σ2 he.2 h2)
  | .BinaryASTnode Op LHS RHS, b, σ, σ', v, he, h => by
    simp only [ASTnode.defFree, Bool.and_eq_true] at he
    simp only [codegen] at h
    split at h
    · simp at h
    · rename_i L σ1 h1
      split at h
      · simp at h
      · rename_i R σ2 h2
        have s1 := codegen_keeps LHS b σ σ1 L he.1 h1
        have s2 := codegen_keeps RHS b σ1 σ2 R he.2 h2
        split at h
        · exact (s1.trans s2).trans (CGState.Keeps.of_same (combineOperands_same h))
        · simp only [Except.ok.injEq, Prod.mk.injEq] at h
          rw [← h.2]; exact s1.trans s2
  | .UnaryASTnode Op Val, b, σ, σ', v, he, h => by
    simp only [ASTnode.defFree] at he
    simp only [codegen] at h
    split at h
    · simp at h
    · simp at h
    · rename_i val σ1 h1
      exact (codegen_keeps Val b σ σ1 _ he h1).trans
        (CGState.Keeps.of_same (applyUnary_same h))
  | .CallASTnode CallFunc Args, b, σ, σ', v, he, h => by
    simp only [ASTnode.defFree] at he
    simp only [codegen] at h
    split at h
    · simp at h
    · split at h
      · simp at h
      · split at h
        · simp at h
        · rename_i σ1 h1
          simp only [Except.ok.injEq, Prod.mk.injEq] at h
          rw [← h.2]; exact codegenArgs_keeps Args b [] none σ σ1 he h1
        · rename_i args σ1 h1
          simp only [Except.ok.injEq, Prod.mk.injEq, create_snd] at h
          rw [← h.2]
          exact (codegenArgs_keeps Args b [] _ σ σ1 he h1).trans (keeps_emit _ _ _ _)
  | .FunctionParamASTnode _ _, b, σ, σ', v, _, h => by
    simp only [codegen, Except.ok.injEq, Prod.mk.injEq] at h
    rw [← h.2]; exact CGState.Keeps.refl _ _
  | .FunctionPrototypeASTnode _ _ _, b, σ, σ', v, _, h => by
    simp only [codegen] at h
    split at h
    · simp at h
    · split at h
      · simp at h
      · rename_i F σ1 h1
        simp only [Except.ok.injEq, Prod.mk.injEq] at h
        rw [← h.2]
        exact CGState.Keeps.of_same (createFunction_ok h1)
  | .FunctionDefASTnode _ _, _, _, _, _, he, _ => by simp [ASTnode.defFree] at he
  | .ExternASTnode _ _ _, b, σ, σ', v, _, h => by
    simp only [codegen] at h
    split at h
    · simp at h
    · split at h
      · simp at h
      · rename_i F σ1 h1
        simp only [Except.ok.injEq, Prod.mk.injEq] at h
        rw [← h.2]
        exact CGState.Keeps.of_same (createFunction_ok h1)
  | .IfExprASTnode Cond Then Else, b, σ, σ', v, he, h => by
    simp only [ASTnode.defFree, Bool.and_eq_true] at he
    obtain ⟨σ5, k, hlen, hf, hg, hib, _⟩ := if_core Cond Then Else b σ σ' v
      (fun σa σb w hw => codegen_keeps Cond (b + 1) σa σb w he.1.1 hw)
      (fun σa σb w hw => codegen_keeps Then (b + 1) σa σb w he.1.2 hw)
      (fun σa σb w hw => codegen_keeps Else (b + 1) σa σb w he.2 hw) h
    refine keeps_of_push k hib hg (fun hb hle => ?_)
    rw [hf]
    refine ⟨?_, ?_⟩
    · rw [List.length_take]; omega
    · rw [List.take_take, Nat.min_eq_left (Nat.le_succ b)]
  | .WhileExprASTnode Cond Then, b, σ, σ', v, he, h => by
    simp only [ASTnode.defFree, Bool.and_eq_true] at he
    obtain ⟨k, hib⟩ := while_core Cond Then b σ σ' v
      (fun σa σb w hw => codegen_keeps Cond (b + 1) σa σb w he.1 hw)
      (fun σa σb w hw => codegen_keeps Then (b + 1) σa σb w he.2 hw) h
    exact keeps_of_push k (k.1 hib).1 rfl (fun hb hle => ⟨by omega, rfl⟩)
  | .ReturnExprASTnode ReturnValue, b, σ, σ', v, he, h => by
    simp only [ASTnode.defFree] at he
    simp only [codegen] at h
    split at h
    · simp only [Except.ok.injEq, Prod.mk.injEq, create_snd] at h
      rw [← h.2]; exact keeps_emit _ _ _ _
    · split at h
      · simp at h
      · simp at h
      · rename_i val σ1 h1
        simp only [Except.ok.injEq, Prod.mk.injEq] at h
        rw [← h.2]
        exact (codegen_keeps ReturnValue b σ σ1 _ he h1).trans (keeps_emit _ _ _ _)
  | .RootASTnode Ext_List Decl_List, b, σ, σ', v, he, h => by
    simp only [ASTnode.defFree] at he
    simp only [codegen] at h
    split at h
    · simp at h
    · rename_i u σ1 h1
      split at h
      · simp at h
      · rename_i r σ2 h2
        simp only [Except.ok.injEq, Prod.mk.injEq] at h
        rw [← h.2]
        exact (CGState.Keeps.of_same (codegenExterns_same _ _ _ _ h1)).trans
          (codegenSeq_keeps Decl_List b none r σ1 σ2 he h2)
theorem codegenSeq_keeps : ∀ (ss : List ASTnode) (b : Nat) (r r' : Option (Option Value))
    (σ σ' : CGState), defFreeList ss = true → codegenSeq ss b r σ = .ok (r', σ') →
    σ.Keeps b σ'
  | [], b, r, r', σ, σ', _, h => by
    simp only [codegenSeq, Except.ok.injEq, Prod.mk.injEq] at h
    rw [← h.2]; exact CGState.Keeps.refl _ _
  | s :: rest, b, r, r', σ, σ', he, h => by
    simp only [defFreeList, Bool.and_eq_true] at he
    simp only [codegenSeq] at h
    split at h
    · simp at h
    · rename_i v σ1 h1
      exact (codegen_keeps s b σ σ1 v he.1 h1).trans
        (codegenSeq_keeps rest b _ r' σ1 σ' he.2 h)
theorem codegenArgs_keeps : ∀ (as : List ASTnode) (b : Nat) (acc : List Value)
    (r : Option (List Value)) (σ σ' : CGState),
    defFreeList as = true → codegenArgs as b acc σ = .ok (r, σ') → σ.Keeps b σ'
  | [], b, acc, r, σ, σ', _, h => by
    simp only [codegenArgs, Except.ok.injEq, Prod.mk.injEq] at h
    rw [← h.2]; exact CGState.Keeps.refl _ _
  | a :: rest, b, acc, r, σ, σ', he, h => by
    simp only [defFreeList, Bool.and_eq_true] at he
    simp only [codegenArgs] at h
    split at h
    · simp at h
    · rename_i σ1 h1
      simp only [Except.ok.injEq, Prod.mk.injEq] at h
      rw [← h.2]; exact codegen_keeps a b σ σ1 _ he.1 h1
    · rename_i val σ1 h1
      exact (codegen_keeps a b σ σ1 _ he.1 h1).trans
        (codegenArgs_keeps rest b _ r σ1 σ' he.2 h)
end

/-! ### The scope walk -/

theorem findAlloca_congr (l1 l2 : List (List (String × AllocaInst))) (x : String) :
    ∀ i : Nat, (∀ k, k ≤ i → l1.get? k = l2.get? k) → findAlloca l1 i x = findAlloca l2 i x
  | 0, h => by
    simp only [findAlloca, h 0 (le_refl 0)]
  | i + 1, h => by
    simp only [findAlloca, h (i + 1) (le_refl _)]
    rw [findAlloca_congr l1 l2 x i (fun k hk => h k (by omega))]

theorem findAlloca_take (l extra : List (List (String × AllocaInst))) (x : String) (i : Nat)
    (hi : i < l.length) : findAlloca (l.take (i + 1) ++ extra) i x = findAlloca l i x := by
  apply findAlloca_congr
  intro k hk
  rw [List.get?_eq_getElem?, List.get?_eq_getElem?,
    List.getElem?_append_left (by rw [List.length_take]; omega),
    List.getElem?_take_of_lt (by omega)]

theorem findAlloca_none (l : List (List (String × AllocaInst))) (x : String) :
    ∀ i : Nat, i < l.length →
      (findAlloca l i x = .ok none ↔
        ∀ k frame, k ≤ i → l.get? k = some frame → frame.lookup x = none)
  | 0, hi => by
    obtain ⟨frame, hf⟩ : ∃ frame, l.get? 0 = some frame :=
      ⟨l.get ⟨0, hi⟩, List.get?_eq_get hi⟩
    simp only [findAlloca, hf]
    constructor
    · intro h k frame2 hk hk2
      have : k = 0 := by omega
      subst this
      rw [hf] at hk2
      simp only [Option.some.injEq] at hk2
      rw [← hk2]
      simpa using h
    · intro h
      rw [h 0 frame (le_refl 0) hf]
  | i + 1, hi => by
    obtain ⟨frame, hf⟩ : ∃ frame, l.get? (i + 1) = some frame :=
      ⟨l.get ⟨i + 1, hi⟩, List.get?_eq_get hi⟩
    have ih := findAlloca_none l x i (by omega)
    simp only [findAlloca, hf]
    cases hl : frame.lookup x with
    | some A =>
      simp only [Except.ok.injEq]
      constructor
      · intro h; simp at h
      · intro h
        have := h (i + 1) frame (le_refl _) hf
        rw [hl] at this; simp at this
    | none =>
      simp only
      rw [ih]
      constructor
      · intro h k frame2 hk hk2
        by_cases hki : k ≤ i
        · exact h k frame2 hki hk2
        · have : k = i + 1 := by omega
          subst this
          rw [hf] at hk2
          simp only [Option.some.injEq] at hk2
          rw [← hk2]; exact hl
      · intro h k frame2 hk hk2
        exact h k frame2 (by omega) hk2

theorem findAlloca_some (l : List (List (String × AllocaInst))) (x : String) (A : AllocaInst) :
    ∀ i : Nat, i < l.length →
      (findAlloca l i x = .ok (some A) ↔
        ∃ j frame, j ≤ i ∧ l.get? j = some frame ∧ frame.lookup x = some A ∧
          ∀ k frame2, j < k → k ≤ i → l.get? k = some frame2 → frame2.lookup x = none)
  | 0, hi => by
    obtain ⟨frame, hf⟩ : ∃ frame, l.get? 0 = some frame :=
      ⟨l.get ⟨0, hi⟩, List.get?_eq_get hi⟩
    simp only [findAlloca, hf, Except.ok.injEq]
    constructor
    · intro h
      exact ⟨0, frame, le_refl 0, hf, h, fun k _ h1 h2 => by omega⟩
    · rintro ⟨j, frame2, hj, hj2, hl, _⟩
      have : j = 0 := by omega
      subst this
      rw [hf] at hj2
      simp only [Option.some.injEq] at hj2
      rw [hj2]; exact hl
  | i + 1, hi => by
    obtain ⟨frame, hf⟩ : ∃ frame, l.get? (i + 1) = some frame :=
      ⟨l.get ⟨i + 1, hi⟩, List.get?_eq_get hi⟩
    have ih := findAlloca_some l x A i (by omega)
    simp only [findAlloca, hf]
    cases hl : frame.lookup x with
    | some B =>
      simp only [Except.ok.injEq, Option.some.injEq]
      constructor
      · intro h
        subst h
        exact ⟨i + 1, frame, le_refl _, hf, hl, fun k _ h1 h2 => by omega⟩
      · rintro ⟨j, frame2, hj, hj2, hl2, hmax⟩
        by_cases hji : j = i + 1
        · subst hji
          rw [hf] at hj2
          simp only [Option.some.injEq] at hj2
          subst hj2
          rw [hl] at hl2
          simpa using hl2
        · have := hmax (i + 1) frame (by omega) (le_refl _) hf
          rw [hl] at this; simp at this
    | none =>
      simp only
      rw [ih]
      constructor
      · rintro ⟨j, frame2, hj, hj2, hl2, hmax⟩
        refine ⟨j, frame2, by omega, hj2, hl2, fun k frame3 h1 h2 h3 => ?_⟩
        by_cases hki : k ≤ i
        · exact hmax k frame3 h1 hki h3
        · have : k = i + 1 := by omega
          subst this
          rw [hf] at h3
          simp only [Option.some.injEq] at h3
          rw [← h3]; exact hl
      · rintro ⟨j, frame2, hj, hj2, hl2, hmax⟩
        have hji : j ≠ i + 1 := by
          intro hji
          subst hji
          rw [hf] at hj2
          simp only [Option.some.injEq] at hj2
          subst hj2
          rw [hl] at hl2
          simp at hl2
        exact ⟨j, frame2, by omega, hj2, hl2, fun k frame3 h1 h2 h3 =>
          hmax k frame3 h1 (by omega) h3⟩

theorem findAlloca_ok (l : List (List (String × AllocaInst))) (x : String) :
    ∀ i : Nat, i < l.length → ∃ r, findAlloca l i x = .ok r
  | 0, hi => by
    obtain ⟨frame, hf⟩ : ∃ frame, l.get? 0 = some frame :=
      ⟨l.get ⟨0, hi⟩, List.get?_eq_get hi⟩
    exact ⟨frame.lookup x, by simp only [findAlloca, hf]⟩
  | i + 1, hi => by
    obtain ⟨frame, hf⟩ : ∃ frame, l.get? (i + 1) = some frame :=
      ⟨l.get ⟨i + 1, hi⟩, List.get?_eq_get hi⟩
    simp only [findAlloca, hf]
    cases hl : frame.lookup x with
    | some B => exact ⟨_, rfl⟩
    | none => exact findAlloca_ok l x i (by omega)

theorem emit_with_frames (σ : CGState) (F : List (List (String × AllocaInst))) (n : String)
    (k : InstrKind) :
    ({ σ with NamedValuesArray := F } : CGState).emit n k =
      ((σ.emit n k).1, { (σ.emit n k).2 with NamedValuesArray := F }) := by
  unfold CGState.emit
  cases h : σ.insertBlock <;> simp [h]

theorem VariableASTnode_codegen_local {σ : CGState} {i : Nat} {x : String} {A : AllocaInst}
    (h : findAlloca σ.NamedValuesArray i x = .ok (some A)) :
    codegen (.VariableASTnode x) i σ =
      .ok (some (.inst σ.nextId A.AllocatedType),
        (σ.emit x (.load A.AllocatedType (.inst A.id .ptr))).2) := by
  simp only [codegen, VariableASTnode_codegen, h, create_fst, create_snd]

theorem VariableASTnode_codegen_global {σ : CGState} {i : Nat} {x : String}
    {g : GlobalVariable} (h : findAlloca σ.NamedValuesArray i x = .ok none)
    (hg : σ.getNamedGlobal x = some g)
    (hty : g.ValueType = .float ∨ g.ValueType = .i32 ∨ g.ValueType = .i1) :
    codegen (.VariableASTnode x) i σ =
      .ok (some (.inst σ.nextId g.ValueType), (σ.emit x (.load g.ValueType (.global g))).2) := by
  simp only [codegen, VariableASTnode_codegen, h, hg, create_fst, create_snd, if_pos hty]

theorem VariableASTnode_codegen_undefined {σ : CGState} {i : Nat} {x : String}
    (h : findAlloca σ.NamedValuesArray i x = .ok none) (hg : σ.getNamedGlobal x = none) :
    codegen (.VariableASTnode x) i σ =
      .error (.logError ("Semantic Error: Undefined variable name " ++ x)) := by
  simp only [codegen, VariableASTnode_codegen, h, hg]

/-- **C19** (`VariableASTnode::codegen`, for a scope index `i` inside the scope stack).
Lowering a reference to `x` at index `i`:
* when frame `j ≤ i` binds `x` to the slot `A` and no frame between `j` and `i` binds `x`, one
  load of `A` is emitted and its value returned;
* when no frame `0..i` binds `x` and the module has a global named `x` (of type `float`, `i32`
  or `i1`), one load of that global is emitted;
* the result is the undefined-variable error if and only if no frame `0..i` binds `x` and no
  global named `x` exists;
* every successful lowering creates exactly one instruction, a load;
* the frames above `i` are not consulted: replacing them by any others gives the same result. -/
theorem variable_lookup (σ : CGState) (i : Nat) (x : String)
    (hi : i < σ.NamedValuesArray.length) :
    (∀ j frame A, j ≤ i → σ.NamedValuesArray.get? j = some frame → frame.lookup x = some A →
      (∀ k frame2, j < k → k ≤ i → σ.NamedValuesArray.get? k = some frame2 →
        frame2.lookup x = none) →
      codegen (.VariableASTnode x) i σ =
        .ok (some (.inst σ.nextId A.AllocatedType),
          (σ.emit x (.load A.AllocatedType (.inst A.id .ptr))).2)) ∧
    ((∀ k frame, k ≤ i → σ.NamedValuesArray.get? k = some frame → frame.lookup x = none) →
      ∀ g, σ.getNamedGlobal x = some g →
        (g.ValueType = .float ∨ g.ValueType = .i32 ∨ g.ValueType = .i1) →
        codegen (.VariableASTnode x) i σ =
          .ok (some (.inst σ.nextId g.ValueType),
            (σ.emit x (.load g.ValueType (.global g))).2)) ∧
    (codegen (.VariableASTnode x) i σ =
        .error (.logError ("Semantic Error: Undefined variable name " ++ x)) ↔
      (∀ k frame, k ≤ i → σ.NamedValuesArray.get? k = some frame → frame.lookup x = none) ∧
        σ.getNamedGlobal x = none) ∧
    (∀ v σ', codegen (.VariableASTnode x) i σ = .ok (v, σ') →
      ∃ ty ptr, v = some (.inst σ.nextId ty) ∧ σ' = (σ.emit x (.load ty ptr)).2 ∧
        σ'.nextId = σ.nextId + 1) ∧
    (∀ extra, codegen (.VariableASTnode x) i
        { σ with NamedValuesArray := σ.NamedValuesArray.take (i + 1) ++ extra } =
      (codegen (.VariableASTnode x) i σ).map
        (fun r => (r.1, { r.2 with
          NamedValuesArray := σ.NamedValuesArray.take (i + 1) ++ extra }))) := by
  refine ⟨?_, ?_, ?_, ?_, ?_⟩
  · intro j frame A hj hf hl hmax
    exact VariableASTnode_codegen_local
      ((findAlloca_some _ x A i hi).mpr ⟨j, frame, hj, hf, hl, hmax⟩)
  · intro hnone g hg hty
    exact VariableASTnode_codegen_global ((findAlloca_none _ x i hi).mpr hnone) hg hty
  · constructor
    · intro h
      obtain ⟨r, hr⟩ := findAlloca_ok σ.NamedValuesArray x i hi
      cases r with
      | some A =>
        rw [VariableASTnode_codegen_local hr] at h
        simp at h
      | none =>
        refine ⟨(findAlloca_none _ x i hi).mp hr, ?_⟩
        cases hg : σ.getNamedGlobal x with
        | none => rfl
        | some g =>
          simp only [codegen, VariableASTnode_codegen, hr, hg] at h
          split at h <;> simp at h
    · rintro ⟨hnone, hg⟩
      exact VariableASTnode_codegen_undefined ((findAlloca_none _ x i hi).mpr hnone) hg
  · intro v σ' h
    simp only [codegen, VariableASTnode_codegen] at h
    split at h
    · simp at h
    · simp only [Except.ok.injEq, Prod.mk.injEq, create_fst, create_snd] at h
      exact ⟨_, _, h.1.symm, h.2.symm, by rw [← h.2, emit_nextId]⟩
    · split at h
      · split at h
        · simp only [Except.ok.injEq, Prod.mk.injEq, create_fst, create_snd] at h
          exact ⟨_, _, h.1.symm, h.2.symm, by rw [← h.2, emit_nextId]⟩
        · simp at h
      · simp at h
  · intro extra
    simp only [codegen, VariableASTnode_codegen, findAlloca_take _ extra x i hi]
    obtain ⟨r, hr⟩ := findAlloca_ok σ.NamedValuesArray x i hi
    rw [hr]
    cases r with
    | some A =>
      simp only [CGState.create, emit_with_frames, Except.map]
    | none =>
      simp only [CGState.getNamedGlobal]
      cases hg : σ.globals.find? (fun g => g.Name == x) with
      | none => simp only [Except.map]
      | some g =>
        simp only
        split
        · simp only [CGState.create, emit_with_frames, Except.map]
        · simp only [Except.map]

/-! ### Function definitions and the insertion block -/

theorem allocaArgs_insertBlock (f : String) (Args : List (String × String)) :
    ∀ (as : List (String × LType)) (count : Nat) (σ σ' : CGState) (u : Unit),
      allocaArgs f Args as count σ = .ok (u, σ') → σ'.insertBlock = σ.insertBlock
  | [], count, σ, σ', u, h => by
    simp only [allocaArgs, Except.ok.injEq, Prod.mk.injEq] at h
    rw [← h.2]
  | (argName, argTy) :: rest, count, σ, σ', u, h => by
    simp only [allocaArgs] at h
    split at h
    · simp at h
    · split at h
      · simp at h
      · rename_i Alloca σ1 h1
        split at h
        · simp at h
        · rename_i u2 σ2 h2
          rw [allocaArgs_insertBlock f Args rest (count + 1) σ2 σ' u h,
            (setNamedValue_ok h2).2.2.2.1, emit_insertBlock,
            (CreateEntryBlockAlloca_ok h1).2.2.1]

/-- After a function definition is lowered, `Builder` has an insertion block. -/
theorem functionDef_insertBlock (Prototype Body : ASTnode) (b : Nat) (σ σ' : CGState)
    (v : Option Value) (hfree : Body.defFree = true)
    (h : codegen (.FunctionDefASTnode Prototype Body) b σ = .ok (v, σ')) :
    σ'.insertBlock.isSome = true := by
  simp only [codegen] at h
  split at h
  · simp at h
  · split at h
    · simp at h
    · split at h
      · simp at h
      · split at h
        · simp at h
        · rename_i TheFunction σ1 h1
          split at h
          · simp at h
          · rename_i u σ2 h2
            have hib : σ2.insertBlock.isSome = true := by
              rw [allocaArgs_insertBlock _ _ _ _ _ _ _ h2]; rfl
            split at h
            · split at h
              · simp at h
              · rename_i σ3 h3
                simp only [Except.ok.injEq, Prod.mk.injEq] at h
                rw [← h.2]
                exact ((codegen_keeps Body 0 σ2 σ3 _ hfree h3).1 hib).1
              · rename_i RetVal σ3 h3
                have h4 := ((codegen_keeps Body 0 σ2 σ3 _ hfree h3).1 hib).1
                split at h <;>
                · simp only [Except.ok.injEq, Prod.mk.injEq] at h
                  rw [← h.2, emit_insertBlock]
                  exact h4
            · simp at h

/-- The state `bodyStart` is the state in which `FunctionDefASTnode::codegen` lowers the body of
`void f(bool c, int a, float b)` in an empty module: for the body `return;` the result is
`bodyStart` with the two returns of that body. -/
theorem bodyStart_reached :
    codegen (.FunctionDefASTnode (.FunctionPrototypeASTnode "f" "void" sampleParams)
      (.BlockASTnode [] [.ReturnExprASTnode .null])) 0 CGState.init =
    .ok (some (.function "f"), ((bodyStart.emit "" (.ret none)).2.emit "" (.ret none)).2) := rfl

/-! ### Claims about scopes -/

/-- **C15** (a declaration in an `if` body does not leak).  Let an `if` statement without a
function definition inside be lowered at the scope index `b` of its containing block, on a scope
stack that has a frame `b`.  Then the scope stack afterwards is the first `b + 1` frames of the
stack before, and the global variables are the same.  Hence, for every name `x`:
* when no frame `0..b` bound `x` before the `if` and there is no global `x` (so `x` is declared
  in the `if` only), a reference to `x` after the `if` fails with the undefined-variable error,
  and so does an assignment `x = e` for every expression `e` that lowers to a value;
* the scope walk for `x` after the `if` finds what it found before the `if`: when the containing
  scopes bind `x` to the slot `A`, a reference to `x` after the `if` loads from `A` and an
  assignment stores to the target found as `A`. -/
theorem if_declaration_does_not_leak (Cond Then Else : ASTnode) (b : Nat) (σ σ' : CGState)
    (v : Option Value) (x : String)
    (hfree : (ASTnode.IfExprASTnode Cond Then Else).defFree = true)
    (hb : b < σ.NamedValuesArray.length)
    (h : codegen (.IfExprASTnode Cond Then Else) b σ = .ok (v, σ')) :
    σ'.NamedValuesArray = σ.NamedValuesArray.take (b + 1) ∧ σ'.globals = σ.globals ∧
    ((∀ k frame, k ≤ b → σ.NamedValuesArray.get? k = some frame → frame.lookup x = none) →
      σ.getNamedGlobal x = none →
      codegen (.VariableASTnode x) b σ' =
          .error (.logError ("Semantic Error: Undefined variable name " ++ x)) ∧
        ∀ e val σ1, e.isExpr = true → codegen e b σ' = .ok (some val, σ1) →
          codegen (.VariableAssignmentASTnode (.VariableASTnode x) e) b σ' =
            .error (.logError ("Semantic Error: Undefined variable name " ++ x))) ∧
    (∀ A, findAlloca σ.NamedValuesArray b x = .ok (some A) →
      codegen (.VariableASTnode x) b σ' =
          .ok (some (.inst σ'.nextId A.AllocatedType),
            (σ'.emit x (.load A.AllocatedType (.inst A.id .ptr))).2) ∧
        ∀ e val σ1, e.isExpr = true → codegen e b σ' = .ok (some val, σ1) →
          findAlloca σ1.NamedValuesArray b x = .ok (some A) ∧
          codegen (.VariableAssignmentASTnode (.VariableASTnode x) e) b σ' =
            assignTo x val b σ1) := by
  simp only [ASTnode.defFree, Bool.and_eq_true] at hfree
  obtain ⟨σ5, k, hlen, hf, hg, _, hib⟩ := if_core Cond Then Else b σ σ' v
    (fun σa σb w hw => codegen_keeps Cond (b + 1) σa σb w hfree.1.1 hw)
    (fun σa σb w hw => codegen_keeps Then (b + 1) σa σb w hfree.1.2 hw)
    (fun σa σb w hw => codegen_keeps Else (b + 1) σa σb w hfree.2 hw) h
  have k2 := k.2 (by simp only [List.length_append, List.length_singleton]; omega)
  have hframes : σ'.NamedValuesArray = σ.NamedValuesArray.take (b + 1) := by
    rw [hf, k2.2]
    exact List.take_append_of_le_length hb
  have hglobals : σ'.globals = σ.globals := by
    rw [hg]; exact (k.1 hib).2
  have hfind : findAlloca σ'.NamedValuesArray b x = findAlloca σ.NamedValuesArray b x := by
    rw [hframes]
    have := findAlloca_take σ.NamedValuesArray [] x b hb
    rwa [List.append_nil] at this
  have hassign : ∀ e val σ1, e.isExpr = true → codegen e b σ' = .ok (some val, σ1) →
      findAlloca σ1.NamedValuesArray b x = findAlloca σ.NamedValuesArray b x ∧
      σ1.getNamedGlobal x = σ.getNamedGlobal x ∧
      codegen (.VariableAssignmentASTnode (.VariableASTnode x) e) b σ' =
        assignTo x val b σ1 := by
    intro e val σ1 he h1
    have s := codegen_same e b σ' σ1 _ he h1
    refine ⟨by rw [s.1]; exact hfind, ?_, ?_⟩
    · unfold CGState.getNamedGlobal; rw [s.2.1, hglobals]
    · simp only [codegen, ASTnode.isNull, ASTnode.variableName, h1, Bool.false_eq_true,
        ↓reduceIte]
  refine ⟨hframes, hglobals, ?_, ?_⟩
  · intro hnone hglob
    have hfn : findAlloca σ'.NamedValuesArray b x = .ok none := by
      rw [hfind]; exact (findAlloca_none _ x b hb).mpr hnone
    have hgl : σ'.getNamedGlobal x = none := by
      unfold CGState.getNamedGlobal at hglob ⊢; rw [hglobals]; exact hglob
    refine ⟨VariableASTnode_codegen_undefined hfn hgl, ?_⟩
    intro e val σ1 he h1
    obtain ⟨a1, a2, a3⟩ := hassign e val σ1 he h1
    rw [a3]
    unfold assignTo
    rw [a1, (findAlloca_none _ x b hb).mpr hnone, a2, hglob]
  · intro A hA
    refine ⟨VariableASTnode_codegen_local (by rw [hfind]; exact hA), ?_⟩
    intro e val σ1 he h1
    obtain ⟨a1, _, a3⟩ := hassign e val σ1 he h1
    exact ⟨by rw [a1]; exact hA, a3⟩

/-- Witness of C15: in the body of `void f(bool c, int a, float b)`, after
`if (c) \x7b int x; x = a; \x7d` a reference to `x` is the undefined-variable error, and a
reference to `a` loads from the slot of the parameter; the function
`void f(bool c, int a, float b) \x7b if (c) \x7b int x; x = a; \x7d x = a; \x7d` ends with the
undefined-variable error for `x`. -/
theorem if_declaration_does_not_leak_witness :
    ∃ σ', codegen ifDeclares 0 bodyStart = .ok (none, σ') ∧
      codegen (.VariableASTnode "x") 0 σ' =
        .error (.logError "Semantic Error: Undefined variable name x") ∧
      codegen (.VariableASTnode "a") 0 σ' =
        .ok (some (.inst σ'.nextId .i32), (σ'.emit "a" (.load .i32 (.inst 2 .ptr))).2) ∧
      codegen ifThenUse 0 CGState.init =
        .error (.logError "Semantic Error: Undefined variable name x") :=
  ⟨_, rfl,
    ((if_declaration_does_not_leak (.VariableASTnode "c")
      (.BlockASTnode [.VariableDeclarationASTnode "x" "int"]
        [.VariableAssignmentASTnode (.VariableASTnode "x") (.VariableASTnode "a")])
      .null 0 bodyStart _ none "x" rfl (by decide) rfl).2.2.1
      (fun k frame hk hf => by
        have : k = 0 := by omega
        subst this
        simp only [bodyStart, List.get?_cons_zero, Option.some.injEq] at hf
        subst hf
        rfl) rfl).1,
    ((if_declaration_does_not_leak (.VariableASTnode "c")
      (.BlockASTnode [.VariableDeclarationASTnode "x" "int"]
        [.VariableAssignmentASTnode (.VariableASTnode "x") (.VariableASTnode "a")])
      .null 0 bodyStart _ none "a" rfl (by decide) rfl).2.2.2
      ⟨2, .i32, "a"⟩ rfl).1, rfl⟩

/-- **C16** (lowering a `while` pops its frame), evaluated on the code: it does not.
`WhileExprASTnode::codegen` pushes a frame and never erases it.
* On a scope stack that ends at the index `b` of the containing block, the stack has more
  frames after a `while` statement is lowered than before.
* In the body of `void f(bool c, int a, float b)`, after `while (c) \x7b int x; x = a; \x7d` the
  stack has a second frame that binds `x` to the slot of the loop body, and the later statement
  `if (c) \x7b x = a; \x7d` at the same depth is lowered without an error: the store in its
  then-block goes to that slot.
* The function with these two statements is lowered without an error. -/
theorem while_frame_not_popped :
    (∀ (Cond Then : ASTnode) (b : Nat) (σ σ' : CGState) (v : Option Value),
      (ASTnode.WhileExprASTnode Cond Then).defFree = true →
      σ.NamedValuesArray.length = b + 1 →
      codegen (.WhileExprASTnode Cond Then) b σ = .ok (v, σ') →
      σ.NamedValuesArray.length < σ'.NamedValuesArray.length) ∧
    (∃ σ1 σ2, codegen whileDeclares 0 bodyStart = .ok (none, σ1) ∧
      σ1.NamedValuesArray = bodyStart.NamedValuesArray ++ [[("x", ⟨10, .i32, "x"⟩)]] ∧
      σ1.globals = [] ∧
      codegen ifUses 0 σ1 = .ok (none, σ2) ∧
      σ2.blocks.get? 4 = some ⟨"if then", some "f",
        [⟨18, "a", .load .i32 (.inst 2 .ptr)⟩,
          ⟨19, "", .store (.inst 18 .i32) (.inst 10 .ptr)⟩,
          ⟨20, "", .br 6⟩]⟩) ∧
    (∃ σ', codegen whileThenIf 0 CGState.init = .ok (some (.function "f"), σ')) := by
  refine ⟨?_, ⟨_, _, rfl, rfl, rfl, rfl, rfl⟩, ⟨_, rfl⟩⟩
  intro Cond Then b σ σ' v hfree hlen h
  simp only [ASTnode.defFree, Bool.and_eq_true] at hfree
  obtain ⟨k, _⟩ := while_core Cond Then b σ σ' v
    (fun σa σb w hw => codegen_keeps Cond (b + 1) σa σb w hfree.1 hw)
    (fun σa σb w hw => codegen_keeps Then (b + 1) σa σb w hfree.2 hw) h
  have k2 := k.2 (by simp only [List.length_append, List.length_singleton]; omega)
  omega

/-- **C17** (the then-block and the else-block have separate scopes), evaluated on the code:
they share one frame.  `IfExprASTnode::codegen` pushes one frame and lowers both blocks at the
same index.  In the body of `void f(bool c, int a, float b)`, where no frame binds `x` and no
global `x` exists, the statement `if (c) \x7b int x; x = a; \x7d else \x7b x = a; \x7d` is
lowered without an error, and the store of the else-block goes to the slot that the then-block
declared (instruction 9, the `alloca` named `x` at the head of the entry block).  The function
with this body is lowered without an error. -/
theorem else_block_sees_then_declaration :
    findAlloca bodyStart.NamedValuesArray 0 "x" = .ok none ∧
    bodyStart.getNamedGlobal "x" = none ∧
    (∃ σ', codegen ifThenElse 0 bodyStart = .ok (none, σ') ∧
      (σ'.blocks.get? 0).map (fun bb => bb.instrs.head?) =
        some (some ⟨9, "x", .alloca .i32⟩) ∧
      σ'.blocks.get? 2 = some ⟨"else then", some "f",
        [⟨13, "a", .load .i32 (.inst 2 .ptr)⟩,
          ⟨14, "", .store (.inst 13 .i32) (.inst 9 .ptr)⟩,
          ⟨15, "", .br 3⟩]⟩) ∧
    (∃ σ', codegen thenElse 0 CGState.init = .ok (some (.function "f"), σ')) :=
  ⟨rfl, rfl, ⟨_, rfl, rfl, rfl⟩, ⟨_, rfl⟩⟩

/-- **C18** (every top-level variable declaration is a global), evaluated on the code: only
those before the first function definition are.  `VariableDeclarationASTnode::codegen` takes
the global path when `Builder` has no insertion block, and after a function definition the
insertion block stays set.
* The program `int f(int a) \x7b return a; \x7d int g; int h() \x7b return g; \x7d` ends with
  the undefined-variable error for `g`.
* After `int f(int a) \x7b return a; \x7d int g;` the module has no global variable, the global
  table is empty, and the entry block of `f` starts with an `alloca` named `g`.
* In general: after a function definition is lowered there is an insertion block; with an
  insertion block a variable declaration adds no global variable and no entry of the global
  table, and creates one instruction.
* Without an insertion block a declaration of type `int`, `float` or `bool` adds a global
  variable of that type, records it in the global table and creates no instruction; so
  `int g; int h() \x7b return g; \x7d` is lowered with a load of the global `g`. -/
theorem top_level_declaration_after_function :
    codegen functionGlobalFunction 0 CGState.init =
      .error (.logError "Semantic Error: Undefined variable name g") ∧
    (∃ σ', codegen functionThenGlobal 0 CGState.init = .ok (none, σ') ∧
      σ'.globals = [] ∧ σ'.GlobalValues = [] ∧
      (σ'.blocks.get? 0).map (fun bb => (bb.parent, bb.instrs.head?)) =
        some (some "f", some ⟨4, "g", .alloca .i32⟩)) ∧
    (∀ (Prototype Body : ASTnode) (b : Nat) (σ σ' : CGState) (v : Option Value),
      Body.defFree = true → codegen (.FunctionDefASTnode Prototype Body) b σ = .ok (v, σ') →
      σ'.insertBlock.isSome = true) ∧
    (∀ (Name Type_ : String) (b : Nat) (σ σ' : CGState) (v : Option Value),
      σ.insertBlock.isSome = true →
      codegen (.VariableDeclarationASTnode Name Type_) b σ = .ok (v, σ') →
      σ'.globals = σ.globals ∧ σ'.GlobalValues = σ.GlobalValues ∧
        σ'.nextId = σ.nextId + 1) ∧
    (∀ (Name Type_ : String) (b : Nat) (σ : CGState) (ty : LType),
      σ.insertBlock = none → varTypeOf Type_ = some ty →
      ∃ σ', codegen (.VariableDeclarationASTnode Name Type_) b σ = .ok (none, σ') ∧
        σ'.globals = σ.globals ++ [⟨(σ.uniqueName Name).1, ty⟩] ∧
        σ'.GlobalValues.lookup Name = some ⟨(σ.uniqueName Name).1, ty⟩ ∧
        σ'.blocks = σ.blocks ∧ σ'.nextId = σ.nextId) ∧
    (∃ σ', codegen globalThenFunction 0 CGState.init = .ok (none, σ') ∧
      σ'.globals = [⟨"g", .i32⟩] ∧
      σ'.blocks.get? 0 = some ⟨"entry", some "h",
        [⟨0, "g", .load .i32 (.global ⟨"g", .i32⟩)⟩,
          ⟨1, "", .ret (some (.inst 0 .i32))⟩]⟩) := by
  refine ⟨rfl, ⟨_, rfl, rfl, rfl, rfl⟩, ?_, ?_, ?_, ⟨_, rfl, rfl, rfl⟩⟩
  · intro Prototype Body b σ σ' v hfree h
    exact functionDef_insertBlock Prototype Body b σ σ' v hfree h
  · intro Name Type_ b σ σ' v hib h
    simp only [codegen, VariableDeclarationASTnode_codegen] at h
    split at h
    · rename_i hnone
      rw [hnone] at hib
      exact absurd hib (by decide)
    · split at h
      · simp at h
      · split at h
        · simp at h
        · rename_i TheFunction _ Variable σ1 h1
          split at h
          · simp at h
          · rename_i u σ2 h2
            simp only [Except.ok.injEq, Prod.mk.injEq] at h
            rw [← h.2]
            have a1 := CreateEntryBlockAlloca_ok h1
            have a2 := setNamedValue_ok h2
            refine ⟨by rw [a2.2.2.1, a1.2.1], by rw [a2.2.2.2.2, a1.2.2.2], ?_⟩
            unfold setNamedValue at h2
            split at h2
            · simp only [Except.ok.injEq, Prod.mk.injEq] at h2
              rw [← h2.2]
              unfold CreateEntryBlockAlloca at h1
              split at h1
              · simp at h1
              · split at h1
                · simp at h1
                · split at h1
                  · simp at h1
                  · split at h1
                    · simp at h1
                    · simp only [Except.ok.injEq, Prod.mk.injEq] at h1
                      rw [← h1.2]
            · simp at h2
  · intro Name Type_ b σ ty hib hty
    simp only [codegen, VariableDeclarationASTnode_codegen, hib, hty]
    refine ⟨_, rfl, ?_, ?_, ?_, ?_⟩
    · simp only [(uniqueName_fields σ Name).2.1]
    · simp only [List.lookup, beq_self_eq_true]
    · unfold CGState.uniqueName; split <;> rfl
    · unfold CGState.uniqueName; split <;> rfl

/-- Witness of C19: on a stack of three frames where frames 0 and 2 bind `x`,
a reference to `x` at index 1 loads from the slot of frame 0. -/
theorem variable_lookup_witness :
    1 < scopeSample.NamedValuesArray.length ∧
    codegen (.VariableASTnode "x") 1 scopeSample =
      .ok (some (.inst 3 .i32), (scopeSample.emit "x" (.load .i32 (.inst 0 .ptr))).2) :=
  ⟨by decide,
    (variable_lookup scopeSample 1 "x" (by decide)).1 0 [("x", ⟨0, .i32, "x"⟩)]
      ⟨0, .i32, "x"⟩ (by decide) rfl rfl
      (fun k frame h1 h2 hf => by
        have : k = 1 := by omega
        subst this
        simp only [scopeSample, List.get?_cons_succ, List.get?_cons_zero,
          Option.some.injEq] at hf
        subst hf
        rfl)⟩

/-- **C20** (`BinaryASTnode::codegen` on an int and a float operand), evaluated on the code.
Let the operands lower to the values `L` and `R`.
* When one is of type `i32` and the other of type `float`, one `SIToFP` conversion of the
  `i32` operand is emitted, followed by the instruction of the float table for the operator;
  when both are `i32`, the instruction of the integer table on `L` and `R` is emitted and no
  conversion.  An entry of a table is emitted as one instruction.
* For `+ - * / % < <= >= > == !=` the float table gives a floating-point opcode (`FAdd` for
  `+`), and no entry of the integer table is a floating-point opcode.
* For `&&` and `||` the float table gives the integer opcodes `And` and `Or`: in the body of
  `void f(bool c, int a, float b)` the expression `a && b` is lowered to an `SIToFP` of `a`
  followed by an `And` on two `float` operands, where `a + b` is lowered to an `SIToFP` and an
  `FAdd`. -/
theorem binary_mixed_operands :
    (∀ (Op : String) (LHS RHS : ASTnode) (b : Nat) (σ σ1 σ2 : CGState) (L R : Value),
      codegen LHS b σ = .ok (some L, σ1) → codegen RHS b σ1 = .ok (some R, σ2) →
      (L.getType = .i32 → R.getType = .float →
        codegen (.BinaryASTnode Op LHS RHS) b σ =
          emitOperator (floatOpcode Op) (.inst σ2.nextId .float) R
            (σ2.emit "convtmp" (.op .SIToFP [L] .float)).2) ∧
      (L.getType = .float → R.getType = .i32 →
        codegen (.BinaryASTnode Op LHS RHS) b σ =
          emitOperator (floatOpcode Op) L (.inst σ2.nextId .float)
            (σ2.emit "convtmp" (.op .SIToFP [R] .float)).2) ∧
      (L.getType = .i32 → R.getType = .i32 →
        codegen (.BinaryASTnode Op LHS RHS) b σ = emitOperator (intOpcode Op) L R σ2)) ∧
    (∀ (opcode : Opcode) (name : String) (ty : Option LType) (L R : Value) (σ : CGState),
      emitOperator (some (opcode, name, ty)) L R σ =
        .ok (some (.inst σ.nextId (ty.getD L.getType)),
          (σ.emit name (.op opcode [L, R] (ty.getD L.getType))).2)) ∧
    (∀ Op ∈ ["+", "-", "*", "/", "%", "<", "<=", ">=", ">", "==", "!="],
      (floatOpcode Op).map (fun e => e.1.isFloatOp) = some true) ∧
    floatOpcode "+" = some (.FAdd, "addftmp", none) ∧
    (∀ Op e, intOpcode Op = some e → e.1.isFloatOp = false) ∧
    floatOpcode "&&" = some (.And, "andftmp", none) ∧
    floatOpcode "||" = some (.Or, "orftmp", none) ∧
    Opcode.And.isFloatOp = false ∧ Opcode.Or.isFloatOp = false ∧
    (∃ σ', codegen (.BinaryASTnode "&&" (.VariableASTnode "a") (.VariableASTnode "b")) 0
        bodyStart = .ok (some (.inst 9 .float), σ') ∧
      (σ'.blocks.get? 0).map (fun bb => bb.instrs.drop 6) =
        some [⟨6, "a", .load .i32 (.inst 2 .ptr)⟩, ⟨7, "b", .load .float (.inst 4 .ptr)⟩,
          ⟨8, "convtmp", .op .SIToFP [.inst 6 .i32] .float⟩,
          ⟨9, "andftmp", .op .And [.inst 8 .float, .inst 7 .float] .float⟩]) ∧
    (∃ σ', codegen (.BinaryASTnode "+" (.VariableASTnode "a") (.VariableASTnode "b")) 0
        bodyStart = .ok (some (.inst 9 .float), σ') ∧
      (σ'.blocks.get? 0).map (fun bb => bb.instrs.drop 6) =
        some [⟨6, "a", .load .i32 (.inst 2 .ptr)⟩, ⟨7, "b", .load .float (.inst 4 .ptr)⟩,
          ⟨8, "convtmp", .op .SIToFP [.inst 6 .i32] .float⟩,
          ⟨9, "addftmp", .op .FAdd [.inst 8 .float, .inst 7 .float] .float⟩]) := by
  refine ⟨?_, ?_, ?_, rfl, ?_, rfl, rfl, rfl, rfl, ⟨_, rfl, rfl⟩, ⟨_, rfl, rfl⟩⟩
  · intro Op LHS RHS b σ σ1 σ2 L R h1 h2
    refine ⟨fun hL hR => ?_, fun hL hR => ?_, fun hL hR => ?_⟩
    · simp only [codegen, h1, h2, combineOperands, hL, hR, or_true, ↓reduceIte, ne_eq,
        not_false_eq_true, create_fst, create_snd, reduceCtorEq]
    · simp only [codegen, h1, h2, combineOperands, hL, hR, true_or, ↓reduceIte, ne_eq,
        not_true_eq_false, not_false_eq_true, create_fst, create_snd, reduceCtorEq]
    · simp only [codegen, h1, h2, combineOperands, hL, hR, or_self, ↓reduceIte,
        reduceCtorEq]
  · intro opcode name ty L R σ
    simp only [emitOperator, create_fst, create_snd]
  · decide
  · intro Op e h
    unfold intOpcode at h
    by_cases c0 : Op = "+"
    · rw [if_pos c0] at h
      simp only [Option.some.injEq] at h
      rw [← h]
      rfl
    rw [if_neg c0] at h
    by_cases c1 : Op = "-"
    · rw [if_pos c1] at h
      simp only [Option.some.injEq] at h
      rw [← h]
      rfl
    rw [if_neg c1] at h
    by_cases c2 : Op = "*"
    · rw [if_pos c2] at h
      simp only [Option.some.injEq] at h
      rw [← h]
      rfl
    rw [if_neg c2] at h
    by_cases c3 : Op = "/"
    · rw [if_pos c3] at h
      simp only [Option.some.injEq] at h
      rw [← h]
      rfl
    rw [if_neg c3] at h
    by_cases c4 : Op = "%"
    · rw [if_pos c4] at h
      simp only [Option.some.injEq] at h
      rw [← h]
      rfl
    rw [if_neg c4] at h
    by_cases c5 : Op = "<"
    · rw [if_pos c5] at h
      simp only [Option.some.injEq] at h
      rw [← h]
      rfl
    rw [if_neg c5] at h
    by_cases c6 : Op = "<="
    · rw [if_pos c6] at h
      simp only [Option.some.injEq] at h
      rw [← h]
      rfl
    rw [if_neg c6] at h
    by_cases c7 : Op = ">="
    · rw [if_pos c7] at h
      simp only [Option.some.injEq] at h
      rw [← h]
      rfl
    rw [if_neg c7] at h
    by_cases c8 : Op = ">"
    · rw [if_pos c8] at h
      simp only [Option.some.injEq] at h
      rw [← h]
      rfl
    rw [if_neg c8] at h
    by_cases c9 : Op = "=="
    · rw [if_pos c9] at h
      simp only [Option.some.injEq] at h
      rw [← h]
      rfl
    rw [if_neg c9] at h
    by_cases c10 : Op = "!="
    · rw [if_pos c10] at h
      simp only [Option.some.injEq] at h
      rw [← h]
      rfl
    rw [if_neg c10] at h
    by_cases c11 : Op = "&&"
    · rw [if_pos c11] at h
      simp only [Option.some.injEq] at h
      rw [← h]
      rfl
    rw [if_neg c11] at h
    by_cases c12 : Op = "||"
    · rw [if_pos c12] at h
      simp only [Option.some.injEq] at h
      rw [← h]
      rfl
    rw [if_neg c12] at h
    exact absurd h (by simp)

/-! ### The instructions of the insertion block -/

theorem emit_blocks (σ : CGState) (n : String) (k : InstrKind) (blk : Nat)
    (h : σ.insertBlock = some blk) :
    (σ.emit n k).2.blocks =
      updateAt (fun bb => { bb with instrs := bb.instrs ++ [⟨σ.nextId, n, k⟩] }) blk
        σ.blocks := by
  unfold CGState.emit
  rw [h]

theorem emit_blocks_get (σ : CGState) (n : String) (k : InstrKind) (blk : Nat) (bb : BasicBlock)
    (h : σ.insertBlock = some blk) (hb : σ.blocks.get? blk = some bb) :
    (σ.emit n k).2.blocks.get? blk =
      some { bb with instrs := bb.instrs ++ [⟨σ.nextId, n, k⟩] } := by
  rw [emit_blocks σ n k blk h, updateAt_get_eq, hb]
  rfl

theorem pushBlock_blocks_get {σ σ' : CGState} {f : Option String} {b : Nat} {u : Unit}
    (h : σ.pushBlock f b = .ok (u, σ')) (blk : Nat) (bb : BasicBlock)
    (hb : σ.blocks.get? blk = some bb) :
    ∃ bb', σ'.blocks.get? blk = some bb' ∧ bb'.instrs = bb.instrs ∧ bb'.name = bb.name := by
  unfold CGState.pushBlock at h
  cases f with
  | none => simp at h
  | some f =>
    simp only [Except.ok.injEq, Prod.mk.injEq] at h
    rw [← h.2]
    by_cases hc : blk = b
    · subst hc
      exact ⟨{ bb with parent := some f }, by rw [updateAt_get_eq, hb]; rfl, rfl, rfl⟩
    · exact ⟨bb, by rw [updateAt_get_ne _ _ _ _ hc, hb], rfl, rfl⟩

theorem pushBlock_nextId {σ σ' : CGState} {f : Option String} {b : Nat} {u : Unit}
    (h : σ.pushBlock f b = .ok (u, σ')) : σ'.nextId = σ.nextId := by
  unfold CGState.pushBlock at h
  cases f with
  | none => simp at h
  | some f =>
    simp only [Except.ok.injEq, Prod.mk.injEq] at h
    rw [← h.2]

/-! ### Assignments -/

theorem codegen_assign_of_value {x : String} {e : ASTnode} {b : Nat} {σ σ1 : CGState}
    {val : Value} (h : codegen e b σ = .ok (some val, σ1)) :
    codegen (.VariableAssignmentASTnode (.VariableASTnode x) e) b σ = assignTo x val b σ1 := by
  simp only [codegen, ASTnode.isNull, ASTnode.variableName, h, Bool.false_eq_true, ↓reduceIte]

/-- **C21** (implicit conversion in assignments), evaluated on the code.  Let the right-hand
side of `x = e` lower to the value `val`.
* When the scope walk finds the slot `A` for `x`: for a `float` slot and an `i32` value one
  `SIToFP` of the value and a store of the converted value into `A` are emitted; for an `i32`
  slot and a `float` value one `FPToSI` and the store.
* When the scope walk finds no slot and the module has a global `x`, the value is stored into
  the global as it is, whatever the two types are: no conversion is emitted.
* In `float g; void f(bool c, int a, float b) \x7b g = a; \x7d` the body is lowered to a load of
  `a` and a store of that `i32` value into the `float` global; in the body of that function
  `b = a` is lowered to the load, an `SIToFP` and the store of the converted value. -/
theorem assignment_conversion :
    (∀ (x : String) (e : ASTnode) (b : Nat) (σ σ1 : CGState) (val : Value) (A : AllocaInst),
      codegen e b σ = .ok (some val, σ1) →
      findAlloca σ1.NamedValuesArray b x = .ok (some A) →
      (A.AllocatedType = .float → val.getType = .i32 →
        codegen (.VariableAssignmentASTnode (.VariableASTnode x) e) b σ =
          .ok (some (.inst σ1.nextId .float),
            ((σ1.emit "" (.op .SIToFP [val] .float)).2.emit ""
              (.store (.inst σ1.nextId .float) (.inst A.id .ptr))).2)) ∧
      (A.AllocatedType = .i32 → val.getType = .float →
        codegen (.VariableAssignmentASTnode (.VariableASTnode x) e) b σ =
          .ok (some (.inst σ1.nextId .i32),
            ((σ1.emit "" (.op .FPToSI [val] .i32)).2.emit ""
              (.store (.inst σ1.nextId .i32) (.inst A.id .ptr))).2))) ∧
    (∀ (x : String) (e : ASTnode) (b : Nat) (σ σ1 : CGState) (val : Value)
        (g : GlobalVariable),
      codegen e b σ = .ok (some val, σ1) →
      findAlloca σ1.NamedValuesArray b x = .ok none → σ1.getNamedGlobal x = some g →
      codegen (.VariableAssignmentASTnode (.VariableASTnode x) e) b σ =
        .ok (some val, (σ1.emit "" (.store val (.global g))).2)) ∧
    (∃ σ', codegen assignGlobal 0 CGState.init = .ok (none, σ') ∧
      σ'.globals = [⟨"g", .float⟩] ∧
      (σ'.blocks.get? 0).map (fun bb => bb.instrs.drop 6) =
        some [⟨6, "a", .load .i32 (.inst 2 .ptr)⟩,
          ⟨7, "", .store (.inst 6 .i32) (.global ⟨"g", .float⟩)⟩,
          ⟨8, "", .ret none⟩]) ∧
    (∃ σ', codegen (.VariableAssignmentASTnode (.VariableASTnode "b") (.VariableASTnode "a")) 0
        bodyStart = .ok (some (.inst 7 .float), σ') ∧
      (σ'.blocks.get? 0).map (fun bb => bb.instrs.drop 6) =
        some [⟨6, "a", .load .i32 (.inst 2 .ptr)⟩,
          ⟨7, "", .op .SIToFP [.inst 6 .i32] .float⟩,
          ⟨8, "", .store (.inst 7 .float) (.inst 4 .ptr)⟩]) := by
  refine ⟨?_, ?_, ⟨_, rfl, rfl, rfl⟩, ⟨_, rfl, rfl⟩⟩
  · intro x e b σ σ1 val A h hA
    refine ⟨fun hs hv => ?_, fun hs hv => ?_⟩
    · rw [codegen_assign_of_value h]
      simp only [assignTo, hA, hs, hv, ne_eq, reduceCtorEq, not_false_eq_true, ↓reduceIte,
        or_self, create_fst, create_snd]
    · rw [codegen_assign_of_value h]
      simp only [assignTo, hA, hs, hv, ne_eq, reduceCtorEq, not_false_eq_true, ↓reduceIte,
        true_or, create_fst, create_snd]
  · intro x e b σ σ1 val g h hA hg
    rw [codegen_assign_of_value h]
    simp only [assignTo, hA, hg]

/-! ### Error messages -/

theorem append_left_cancel_str (p a b : String) (h : p ++ a = p ++ b) : a = b := by
  have h2 := congrArg String.data h
  simp only [String.data_append, List.append_cancel_left_eq] at h2
  exact String.ext h2

theorem append_ne_of_prefix (p q x y : String) (n : Nat) (hp : n ≤ p.data.length)
    (hq : n ≤ q.data.length) (hne : p.data.take n ≠ q.data.take n) : p ++ x ≠ q ++ y := by
  intro h
  have h2 := congrArg (fun s => s.data.take n) h
  simp only [String.data_append, List.take_append_of_le_length hp,
    List.take_append_of_le_length hq] at h2
  exact hne h2

theorem undefVar_ne_undefFn (x f : String) :
    CGError.logError ("Semantic Error: Undefined variable name " ++ x) ≠
      CGError.logError ("Semantic Error: Undefined function referenced " ++ f) := by
  intro h
  injection h with h
  exact append_ne_of_prefix _ _ x f 27 (by decide) (by decide) (by decide) h

theorem lit_ne_undefFn (msg f : String) (h17 : 17 ≤ msg.data.length)
    (hne : msg.data.take 17 ≠ "Semantic Error: U".data) :
    CGError.logError msg ≠
      CGError.logError ("Semantic Error: Undefined function referenced " ++ f) := by
  intro h
  injection h with h
  have := append_ne_of_prefix msg "Semantic Error: Undefined function referenced " "" f 17 h17
    (by decide) (by
      intro h2
      exact hne (h2.trans (by decide)))
  rw [String.append_empty] at this
  exact this h

theorem undefFn_inj (g f : String)
    (h : CGError.logError ("Semantic Error: Undefined function referenced " ++ g) =
      CGError.logError ("Semantic Error: Undefined function referenced " ++ f)) : g = f := by
  injection h with h
  exact append_left_cancel_str _ _ _ h

/-! ### Calls -/

theorem getFunction_congr {σ σ' : CGState} (h : σ'.functions = σ.functions) (f : String) :
    σ'.getFunction f = σ.getFunction f := by
  unfold CGState.getFunction; rw [h]

theorem findAlloca_error (frames : List (List (String × AllocaInst))) (x : String) :
    ∀ (b : Nat) (e : CGError), findAlloca frames b x = .error e → e = .outOfRange
  | 0, e, h => by
    simp only [findAlloca] at h
    split at h
    · simp only [Except.error.injEq] at h; exact h.symm
    · simp at h
  | i + 1, e, h => by
    simp only [findAlloca] at h
    split at h
    · simp only [Except.error.injEq] at h; exact h.symm
    · split at h
      · simp at h
      · exact findAlloca_error frames x i e h

theorem outOfRange_ne_undefFn (f : String) : CGError.outOfRange ≠ undefinedFunctionError f := by
  simp [undefinedFunctionError]

theorem VariableASTnode_codegen_calls (x f : String) (b : Nat) (σ : CGState) :
    (∀ v σ', VariableASTnode_codegen x b σ = .ok (v, σ') → σ'.functions = σ.functions) ∧
    VariableASTnode_codegen x b σ ≠ .error (undefinedFunctionError f) := by
  unfold VariableASTnode_codegen
  split
  · rename_i e he
    refine ⟨fun v σ' h => by simp at h, fun h => ?_⟩
    rw [findAlloca_error _ _ _ _ he] at h
    exact outOfRange_ne_undefFn f (Except.error.inj h)
  · refine ⟨fun v σ' h => ?_, fun h => by simp at h⟩
    simp only [Except.ok.injEq, Prod.mk.injEq, create_snd] at h
    rw [← h.2, emit_functions]
  · split
    · split
      · refine ⟨fun v σ' h => ?_, fun h => by simp at h⟩
        simp only [Except.ok.injEq, Prod.mk.injEq, create_snd] at h
        rw [← h.2, emit_functions]
      · exact ⟨fun v σ' h => by simp at h, fun h => by simp [undefinedFunctionError] at h⟩
    · exact ⟨fun v σ' h => by simp at h,
        fun h => undefVar_ne_undefFn _ _ (Except.error.inj h)⟩

theorem assignTo_calls (x f : String) (val : Value) (b : Nat) (σ : CGState) :
    (∀ v σ', assignTo x val b σ = .ok (v, σ') → σ'.functions = σ.functions) ∧
    assignTo x val b σ ≠ .error (undefinedFunctionError f) := by
  unfold assignTo
  split
  · rename_i e he
    refine ⟨fun v σ' h => by simp at h, fun h => ?_⟩
    rw [findAlloca_error _ _ _ _ he] at h
    exact outOfRange_ne_undefFn f (Except.error.inj h)
  · split
    · refine ⟨fun v σ' h => ?_, fun h => by simp at h⟩
      simp only [Except.ok.injEq, Prod.mk.injEq] at h
      rw [← h.2, emit_functions]
    · exact ⟨fun v σ' h => by simp at h,
        fun h => undefVar_ne_undefFn _ _ (Except.error.inj h)⟩
  · split
    · split
      · refine ⟨fun v σ' h => ?_, fun h => by simp at h⟩
        simp only [Except.ok.injEq, Prod.mk.injEq, create_snd] at h
        rw [← h.2, emit_functions, emit_functions]
      · split
        · refine ⟨fun v σ' h => ?_, fun h => by simp at h⟩
          simp only [Except.ok.injEq, Prod.mk.injEq, create_snd] at h
          rw [← h.2, emit_functions, emit_functions]
        · refine ⟨fun v σ' h => ?_, fun h => by simp at h⟩
          simp only [Except.ok.injEq, Prod.mk.injEq] at h
          rw [← h.2, emit_functions]
    · refine ⟨fun v σ' h => ?_, fun h => by simp at h⟩
      simp only [Except.ok.injEq, Prod.mk.injEq] at h
      rw [← h.2, emit_functions]

theorem emitOperator_calls (e : Option (Opcode × String × Option LType)) (f : String)
    (L R : Value) (σ : CGState) :
    (∀ v σ', emitOperator e L R σ = .ok (v, σ') → σ'.functions = σ.functions) ∧
    emitOperator e L R σ ≠ .error (undefinedFunctionError f) := by
  unfold emitOperator
  split
  · exact ⟨fun v σ' h => by simp at h,
      fun h => lit_ne_undefFn _ f (by decide) (by decide) (Except.error.inj h)⟩
  · refine ⟨fun v σ' h => ?_, fun h => by simp at h⟩
    simp only [Except.ok.injEq, Prod.mk.injEq, create_snd] at h
    rw [← h.2, emit_functions]

theorem combineOperands_calls (Op f : String) (L R : Value) (σ : CGState) :
    (∀ v σ', combineOperands Op L R σ = .ok (v, σ') → σ'.functions = σ.functions) ∧
    combineOperands Op L R σ ≠ .error (undefinedFunctionError f) := by
  unfold combineOperands
  split
  · split
    · have := emitOperator_calls (floatOpcode Op) f
        (σ.create "convtmp" (.op .SIToFP [L] .float) .float).1 R
        (σ.create "convtmp" (.op .SIToFP [L] .float) .float).2
      exact ⟨fun v σ' h => by rw [this.1 v σ' h, create_snd, emit_functions], this.2⟩
    · split
      · have := emitOperator_calls (floatOpcode Op) f L
          (σ.create "convtmp" (.op .SIToFP [R] .float) .float).1
          (σ.create "convtmp" (.op .SIToFP [R] .float) .float).2
        exact ⟨fun v σ' h => by rw [this.1 v σ' h, create_snd, emit_functions], this.2⟩
      · exact emitOperator_calls _ f L R σ
  · exact emitOperator_calls _ f L R σ

theorem applyUnary_calls (Op f : String) (Operand : Value) (σ : CGState) :
    (∀ v σ', applyUnary Op Operand σ = .ok (v, σ') → σ'.functions = σ.functions) ∧
    applyUnary Op Operand σ ≠ .error (undefinedFunctionError f) := by
  unfold applyUnary
  split_ifs <;>
    first
    | exact ⟨fun v σ' h => by simp at h,
        fun h => lit_ne_undefFn _ f (by decide) (by decide) (Except.error.inj h)⟩
    | (refine ⟨fun v σ' h => ?_, fun h => by simp at h⟩
       simp only [Except.ok.injEq, Prod.mk.injEq, create_snd] at h
       rw [← h.2]
       try exact emit_functions _ _ _)

theorem argumentCount_ne_undefFn (n m : Nat) (f : String) :
    argumentCountError n m ≠ undefinedFunctionError f := by
  unfold argumentCountError undefinedFunctionError
  intro h
  injection h with h
  rw [String.append_assoc, String.append_assoc] at h
  exact append_ne_of_prefix _ _ _ f 17 (by decide) (by decide) (by decide) h

mutual
theorem codegen_expr_calls : ∀ (e : ASTnode) (f : String) (b : Nat) (σ : CGState),
    e.isExpr = true →
    (∀ v σ', codegen e b σ = .ok (v, σ') → σ'.functions = σ.functions) ∧
    (σ.getFunction f ≠ none → codegen e b σ ≠ .error (undefinedFunctionError f))
  | .IntASTnode _, f, b, σ, _ => by
    simp only [codegen]
    exact ⟨fun v σ' h => by simp only [Except.ok.injEq, Prod.mk.injEq] at h; rw [← h.2],
      fun _ h => by simp at h⟩
  | .FloatASTnode _, f, b, σ, _ => by
    simp only [codegen]
    exact ⟨fun v σ' h => by simp only [Except.ok.injEq, Prod.mk.injEq] at h; rw [← h.2],
      fun _ h => by simp at h⟩
  | .BoolASTnode _, f, b, σ, _ => by
    simp only [codegen]
    exact ⟨fun v σ' h => by simp only [Except.ok.injEq, Prod.mk.injEq] at h; rw [← h.2],
      fun _ h => by simp at h⟩
  | .VariableASTnode x, f, b, σ, _ => by
    simp only [codegen]
    exact ⟨(VariableASTnode_codegen_calls x f b σ).1,
      fun _ => (VariableASTnode_codegen_calls x f b σ).2⟩
  | .VariableAssignmentASTnode Variable Val, f, b, σ, he => by
    simp only [ASTnode.isExpr] at he
    have ih := codegen_expr_calls Val f b σ he
    simp only [codegen]
    split
    · exact ⟨fun v σ' h => by simp at h,
        fun _ h => lit_ne_undefFn _ f (by decide) (by decide) (Except.error.inj h)⟩
    · split
      · exact ⟨fun v σ' h => by simp at h,
          fun _ h => by simp [undefinedFunctionError] at h⟩
      · split
        · rename_i e h1
          exact ⟨fun v σ' h => by simp at h, fun hf h => ih.2 hf (h1.trans (congrArg Except.error (Except.error.inj h)))⟩
        · rename_i σ1 h1
          refine ⟨fun v σ' h => ?_, fun _ h => by simp at h⟩
          simp only [Except.ok.injEq, Prod.mk.injEq] at h
          rw [← h.2]; exact ih.1 _ _ h1
        · rename_i val σ1 h1
          have a := fun nm => assignTo_calls nm f val b σ1
          exact ⟨fun v σ' h => ((a _).1 v σ' h).trans (ih.1 _ _ h1), fun _ => (a _).2⟩
  | .BinaryASTnode Op LHS RHS, f, b, σ, he => by
    simp only [ASTnode.isExpr, Bool.and_eq_true] at he
    have ihL := codegen_expr_calls LHS f b σ he.1
    simp only [codegen]
    split
    · rename_i e h1
      exact ⟨fun v σ' h => by simp at h, fun hf h => ihL.2 hf (h1.trans (congrArg Except.error (Except.error.inj h)))⟩
    · rename_i L σ1 h1
      have f1 := ihL.1 _ _ h1
      have ihR := codegen_expr_calls RHS f b σ1 he.2
      split
      · rename_i e h2
        exact ⟨fun v σ' h => by simp at h,
          fun hf h => ihR.2 (by rw [getFunction_congr f1]; exact hf) (h2.trans (congrArg Except.error (Except.error.inj h)))⟩
      · rename_i R σ2 h2
        have f2 := ihR.1 _ _ h2
        split
        · have a := fun L R => combineOperands_calls Op f L R σ2
          exact ⟨fun v σ' h => (((a _ _).1 v σ' h).trans f2).trans f1, fun _ => (a _ _).2⟩
        · refine ⟨fun v σ' h => ?_, fun _ h => by simp at h⟩
          simp only [Except.ok.injEq, Prod.mk.injEq] at h
          rw [← h.2]; exact f2.trans f1
  | .UnaryASTnode Op Val, f, b, σ, he => by
    simp only [ASTnode.isExpr] at he
    have ih := codegen_expr_calls Val f b σ he
    simp only [codegen]
    split
    · rename_i e h1
      exact ⟨fun v σ' h => by simp at h, fun hf h => ih.2 hf (h1.trans (congrArg Except.error (Except.error.inj h)))⟩
    · exact ⟨fun v σ' h => by simp at h, fun _ h => by simp [undefinedFunctionError] at h⟩
    · rename_i val σ1 h1
      have a := applyUnary_calls Op f val σ1
      exact ⟨fun v σ' h => (a.1 v σ' h).trans (ih.1 _ _ h1), fun _ => a.2⟩
  | .CallASTnode CallFunc Args, f, b, σ, he => by
    simp only [ASTnode.isExpr] at he
    have ih := codegenArgs_expr_calls Args f b [] σ he
    simp only [codegen]
    split
    · rename_i hnone
      refine ⟨fun v σ' h => by simp at h, fun hf h => ?_⟩
      have := undefFn_inj CallFunc f (Except.error.inj h)
      subst this
      exact hf hnone
    · split
      · exact ⟨fun v σ' h => by simp at h,
          fun _ h => argumentCount_ne_undefFn _ _ f (Except.error.inj h)⟩
      · split
        · rename_i e h1
          exact ⟨fun v σ' h => by simp at h, fun hf h => ih.2 hf (h1.trans (congrArg Except.error (Except.error.inj h)))⟩
        · rename_i σ1 h1
          refine ⟨fun v σ' h => ?_, fun _ h => by simp at h⟩
          simp only [Except.ok.injEq, Prod.mk.injEq] at h
          rw [← h.2]; exact ih.1 _ _ h1
        · rename_i vs σ1 h1
          refine ⟨fun v σ' h => ?_, fun _ h => by simp at h⟩
          simp only [Except.ok.injEq, Prod.mk.injEq, create_snd] at h
          rw [← h.2, emit_functions]; exact ih.1 _ _ h1
  | .null, _, _, _, he => by simp [ASTnode.isExpr] at he
  | .VariableDeclarationASTnode _ _, _, _, _, he => by simp [ASTnode.isExpr] at he
  | .BlockASTnode _ _, _, _, _, he => by simp [ASTnode.isExpr] at he
  | .FunctionParamASTnode _ _, _, _, _, he => by simp [ASTnode.isExpr] at he
  | .FunctionPrototypeASTnode _ _ _, _, _, _, he => by simp [ASTnode.isExpr] at he
  | .FunctionDefASTnode _ _, _, _, _, he => by simp [ASTnode.isExpr] at he
  | .ExternASTnode _ _ _, _, _, _, he => by simp [ASTnode.isExpr] at he
  | .IfExprASTnode _ _ _, _, _, _, he => by simp [ASTnode.isExpr] at he
  | .WhileExprASTnode _ _, _, _, _, he => by simp [ASTnode.isExpr] at he
  | .ReturnExprASTnode _, _, _, _, he => by simp [ASTnode.isExpr] at he
  | .RootASTnode _ _, _, _, _, he => by simp [ASTnode.isExpr] at he
theorem codegenArgs_expr_calls : ∀ (as : List ASTnode) (f : String) (b : Nat)
    (acc : List Value) (σ : CGState), isExprList as = true →
    (∀ r σ', codegenArgs as b acc σ = .ok (r, σ') → σ'.functions = σ.functions) ∧
    (σ.getFunction f ≠ none → codegenArgs as b acc σ ≠ .error (undefinedFunctionError f))
  | [], f, b, acc, σ, _ => by
    simp only [codegenArgs]
    exact ⟨fun v σ' h => by simp only [Except.ok.injEq, Prod.mk.injEq] at h; rw [← h.2],
      fun _ h => by simp at h⟩
  | a :: rest, f, b, acc, σ, he => by
    simp only [isExprList, Bool.and_eq_true] at he
    have ih := codegen_expr_calls a f b σ he.1
    simp only [codegenArgs]
    split
    · rename_i e h1
      exact ⟨fun v σ' h => by simp at h, fun hf h => ih.2 hf (h1.trans (congrArg Except.error (Except.error.inj h)))⟩
    · rename_i σ1 h1
      refine ⟨fun v σ' h => ?_, fun _ h => by simp at h⟩
      simp only [Except.ok.injEq, Prod.mk.injEq] at h
      rw [← h.2]; exact ih.1 _ _ h1
    · rename_i val σ1 h1
      have f1 := ih.1 _ _ h1
      have ih2 := codegenArgs_expr_calls rest f b (acc ++ [val]) σ1 he.2
      exact ⟨fun v σ' h => (ih2.1 v σ' h).trans f1,
        fun hf => ih2.2 (by rw [getFunction_congr f1]; exact hf)⟩
end

theorem createFunction_functions {σ σ' : CGState} {n t : String}
    {args : List (String × String)} {F : String}
    (h : createFunction n t args σ = .ok (F, σ')) :
    ∃ fn : Function, fn.name = (σ.uniqueName n).1 ∧ F = fn.name ∧
      σ'.functions = σ.functions ++ [fn] := by
  unfold createFunction at h
  split at h
  · simp at h
  · simp only [Except.ok.injEq, Prod.mk.injEq] at h
    rename_i rt _
    refine ⟨⟨(σ.uniqueName n).1, rt,
      (setArgNames ((args.map (fun a => a.1)).take
          (args.filterMap (fun a => varTypeOf a.2)).length) [] 0).zip
        (args.filterMap (fun a => varTypeOf a.2)), []⟩, rfl, h.1.symm, ?_⟩
    rw [← h.2, (uniqueName_fields σ n).2.2.2.1]

theorem getFunction_none_of_fresh (σ : CGState) (n : String)
    (h : σ.symbols.contains n = false) : σ.getFunction n = none := by
  unfold CGState.getFunction
  rw [List.find?_eq_none]
  intro fn hfn hname
  have hmem : n ∈ σ.symbols := by
    unfold CGState.symbols
    rw [List.mem_append]
    left
    rw [List.mem_map]
    exact ⟨fn, hfn, by simpa using hname⟩
  have : σ.symbols.contains n = true := by simpa using hmem
  rw [h] at this
  exact absurd this (by decide)

theorem createFunction_getFunction {σ σ' : CGState} {n t : String}
    {args : List (String × String)} {F : String}
    (h : createFunction n t args σ = .ok (F, σ')) :
    (σ.symbols.contains n = false → σ'.getFunction n ≠ none) ∧
    (∀ g, σ.getFunction g ≠ none → σ'.getFunction g ≠ none) := by
  obtain ⟨fn, hname, -, hfs⟩ := createFunction_functions h
  constructor
  · intro hfresh
    have hnone := getFunction_none_of_fresh σ n hfresh
    have hu : (σ.uniqueName n).1 = n := by
      unfold CGState.uniqueName
      rw [hfresh]
      rfl
    unfold CGState.getFunction at hnone ⊢
    rw [hfs, List.find?_append, hnone]
    simp [List.find?, hname, hu]
  · intro g hg
    unfold CGState.getFunction at hg ⊢
    rw [hfs, List.find?_append]
    cases hf : List.find? (fun f => f.name == g) σ.functions with
    | none => exact absurd hf hg
    | some x => simp

theorem codegenArgs_acc (b : Nat) : ∀ (as : List ASTnode) (acc : List Value) (σ σ' : CGState)
    (vs : List Value), argsLower b as σ vs σ' →
    codegenArgs as b acc σ = .ok (some (acc ++ vs), σ')
  | [], acc, σ, σ', vs, h => by
    simp only [argsLower] at h
    simp only [codegenArgs, h.1, h.2, List.append_nil]
  | a :: rest, acc, σ, σ', vs, h => by
    simp only [argsLower] at h
    obtain ⟨v, σ1, vs', h1, hv, h2⟩ := h
    simp only [codegenArgs, h1]
    rw [codegenArgs_acc b rest (acc ++ [v]) σ1 σ' vs' h2, hv]
    simp

theorem argsLower_of_codegenArgs (b : Nat) : ∀ (as : List ASTnode) (acc : List Value)
    (σ σ' : CGState) (r : List Value), codegenArgs as b acc σ = .ok (some r, σ') →
    ∃ vs, r = acc ++ vs ∧ argsLower b as σ vs σ'
  | [], acc, σ, σ', r, h => by
    simp only [codegenArgs, Except.ok.injEq, Prod.mk.injEq, Option.some.injEq] at h
    exact ⟨[], by rw [← h.1, List.append_nil], rfl, h.2.symm⟩
  | a :: rest, acc, σ, σ', r, h => by
    simp only [codegenArgs] at h
    split at h
    · simp at h
    · simp at h
    · rename_i v σ1 h1
      obtain ⟨vs, hr, hl⟩ := argsLower_of_codegenArgs b rest (acc ++ [v]) σ1 σ' r h
      exact ⟨v :: vs, by rw [hr]; simp, v, σ1, vs, h1, rfl, hl⟩

/-- **C22** (`CallASTnode::codegen`, undefined callee).
* When the module has no function named `f`, lowering `f(args)` ends with the
  undefined-function error for `f`, whatever the arguments are: none of them is lowered.
* When the module has a function named `f` and the arguments are expressions, the result is
  not the undefined-function error for `f`.
* An extern lowered while the name is free in the module makes the module have a function of
  that name, and lowering an extern keeps the functions that the module has.
* `int main() \x7b foo(); return 0; \x7d` ends with the undefined-function error for `foo`; with
  `extern int foo();` in front it is lowered, with one call of `foo`. -/
theorem call_undefined_function :
    (∀ (f : String) (args : List ASTnode) (b : Nat) (σ : CGState),
      σ.getFunction f = none →
      codegen (.CallASTnode f args) b σ = .error (undefinedFunctionError f)) ∧
    (∀ (f : String) (args : List ASTnode) (b : Nat) (σ : CGState),
      isExprList args = true → σ.getFunction f ≠ none →
      codegen (.CallASTnode f args) b σ ≠ .error (undefinedFunctionError f)) ∧
    (∀ (Name Type_ : String) (Params : List ASTnode) (b : Nat) (σ σ' : CGState)
        (v : Option Value),
      codegen (.ExternASTnode Name Type_ Params) b σ = .ok (v, σ') →
      (σ.symbols.contains Name = false → σ'.getFunction Name ≠ none) ∧
      (∀ g, σ.getFunction g ≠ none → σ'.getFunction g ≠ none)) ∧
    codegen callUndefined 0 CGState.init = .error (undefinedFunctionError "foo") ∧
    (∃ σ', codegen callExtern 0 CGState.init = .ok (none, σ') ∧
      σ'.blocks.get? 0 = some ⟨"entry", some "main",
        [⟨0, "calltmp", .call "foo" [] .i32⟩, ⟨1, "", .ret (some (.constInt 32 0))⟩]⟩) := by
  refine ⟨?_, ?_, ?_, rfl, ⟨_, rfl, rfl⟩⟩
  · intro f args b σ h
    simp only [codegen, h, undefinedFunctionError]
  · intro f args b σ he hf
    exact (codegen_expr_calls (.CallASTnode f args) f b σ (by simpa [ASTnode.isExpr] using he)).2 hf
  · intro Name Type_ Params b σ σ' v h
    simp only [codegen] at h
    split at h
    · simp at h
    · split at h
      · simp at h
      · rename_i F σ1 h1
        simp only [Except.ok.injEq, Prod.mk.injEq] at h
        rw [← h.2]
        exact createFunction_getFunction h1

/-- **C23** (`CallASTnode::codegen`, number of arguments).  Let the module have the function
`callee` under the name `f`.
* When the number of arguments differs from the number of parameters of `callee`, lowering
  `f(args)` ends with the argument-count error (expected the number of parameters, got the
  number of arguments), whatever the arguments are: none of them is lowered.
* When the numbers are equal and the arguments are lowered from left to right to the values
  `vs`, one call instruction of `callee` with the operands `vs`, in this order, is emitted after
  the code of the arguments, and its value is returned.
* When the numbers are equal, the result is the error of the arguments if their lowering ends
  with one, and the null value without a call if one of them lowers to null.
* Every lowering of `f(args)` that returns a value is of the second kind.
* In the body of `void f(bool c, int a, float b)` with `g(int x, float y)` in the module,
  `g(a, b)` is lowered to the two loads and a call with their values in this order, and `g(a)`
  ends with the argument-count error, expected 2 but got 1. -/
theorem call_argument_count :
    (∀ (f : String) (args : List ASTnode) (b : Nat) (σ : CGState) (callee : Function),
      σ.getFunction f = some callee → callee.args.length ≠ args.length →
      codegen (.CallASTnode f args) b σ =
        .error (argumentCountError callee.args.length args.length)) ∧
    (∀ (f : String) (args : List ASTnode) (b : Nat) (σ σ' : CGState) (callee : Function)
        (vs : List Value),
      σ.getFunction f = some callee → callee.args.length = args.length →
      argsLower b args σ vs σ' →
      codegen (.CallASTnode f args) b σ =
        .ok (some (.inst σ'.nextId callee.returnType),
          (σ'.emit "calltmp" (.call callee.name vs callee.returnType)).2)) ∧
    (∀ (f : String) (args : List ASTnode) (b : Nat) (σ : CGState) (callee : Function),
      σ.getFunction f = some callee → callee.args.length = args.length →
      (∀ e, codegenArgs args b [] σ = .error e →
        codegen (.CallASTnode f args) b σ = .error e) ∧
      (∀ σ1, codegenArgs args b [] σ = .ok (none, σ1) →
        codegen (.CallASTnode f args) b σ = .ok (none, σ1))) ∧
    (∀ (f : String) (args : List ASTnode) (b : Nat) (σ σ'' : CGState) (v : Value),
      codegen (.CallASTnode f args) b σ = .ok (some v, σ'') →
      ∃ callee vs σ', σ.getFunction f = some callee ∧ callee.args.length = args.length ∧
        vs.length = args.length ∧ argsLower b args σ vs σ' ∧
        v = .inst σ'.nextId callee.returnType ∧
        σ'' = (σ'.emit "calltmp" (.call callee.name vs callee.returnType)).2) ∧
    (∃ σ', codegen (.CallASTnode "g" [.VariableASTnode "a", .VariableASTnode "b"]) 0
        bodyStartWithG = .ok (some (.inst 8 .i32), σ') ∧
      (σ'.blocks.get? 0).map (fun bb => bb.instrs.drop 6) =
        some [⟨6, "a", .load .i32 (.inst 2 .ptr)⟩, ⟨7, "b", .load .float (.inst 4 .ptr)⟩,
          ⟨8, "calltmp", .call "g" [.inst 6 .i32, .inst 7 .float] .i32⟩]) ∧
    codegen (.CallASTnode "g" [.VariableASTnode "a"]) 0 bodyStartWithG =
      .error (argumentCountError 2 1) := by
  refine ⟨?_, ?_, ?_, ?_, ⟨_, rfl, rfl⟩, rfl⟩
  · intro f args b σ callee hf hne
    simp only [codegen, hf, hne, ne_eq, not_false_eq_true, ↓reduceIte, argumentCountError]
  · intro f args b σ σ' callee vs hf heq hl
    have := codegenArgs_acc b args [] σ σ' vs hl
    simp only [List.nil_append] at this
    simp only [codegen, hf, heq, ne_eq, not_true_eq_false, ↓reduceIte, this, create_fst,
      create_snd]
  · intro f args b σ callee hf heq
    refine ⟨fun e he => ?_, fun σ1 he => ?_⟩
    · simp only [codegen, hf, heq, ne_eq, not_true_eq_false, ↓reduceIte, he]
    · simp only [codegen, hf, heq, ne_eq, not_true_eq_false, ↓reduceIte, he]
  · intro f args b σ σ'' v h
    simp only [codegen] at h
    split at h
    · simp at h
    · rename_i callee hf
      split at h
      · simp at h
      · rename_i heq
        simp only [ne_eq, not_not] at heq
        split at h
        · simp at h
        · simp at h
        · rename_i vs σ1 h1
          obtain ⟨vs', hr, hl⟩ := argsLower_of_codegenArgs b args [] σ σ1 vs h1
          simp only [List.nil_append] at hr
          subst hr
          simp only [Except.ok.injEq, Prod.mk.injEq, Option.some.injEq, create_fst,
            create_snd] at h
          refine ⟨callee, vs, σ1, hf, heq, ?_, hl, h.1.symm, h.2.symm⟩
          clear h h1 hf heq
          induction args generalizing σ vs with
          | nil => simp only [argsLower] at hl; rw [hl.1]; rfl
          | cons a rest ih =>
            simp only [argsLower] at hl
            obtain ⟨v1, σ2, vs2, -, hv, h2⟩ := hl
            rw [hv, List.length_cons, List.length_cons, ih σ2 vs2 h2]

/-! ### The parameter list `(void)` -/

theorem createFunction_void (Name Type_ nm : String) (σ : CGState) :
    createFunction Name Type_ [(nm, "VOID")] σ = createFunction Name Type_ [] σ := by
  unfold createFunction
  rfl

theorem allocaArgs_void (f nm : String) (σ : CGState) :
    ∀ args : List (String × LType),
      (args = [] ∧ allocaArgs f [(nm, "VOID")] args 0 σ = .ok ((), σ) ∧
        allocaArgs f [] args 0 σ = .ok ((), σ)) ∨
      (args ≠ [] ∧ allocaArgs f [(nm, "VOID")] args 0 σ = .error .uninitialised ∧
        allocaArgs f [] args 0 σ = .error .outOfRange)
  | [] => Or.inl ⟨rfl, rfl, rfl⟩
  | (argName, argTy) :: rest => Or.inr ⟨by simp, rfl, rfl⟩

theorem find?_map_of_inv {α : Type} (p : α → Bool) (g : α → α) (hp : ∀ x, p (g x) = p x) :
    ∀ l : List α, (l.map g).find? p = (l.find? p).map g
  | [] => rfl
  | a :: l => by
    simp only [List.map_cons, List.find?_cons, hp]
    cases p a with
    | true => rfl
    | false => exact find?_map_of_inv p g hp l

theorem getFunction_createBlock_args (σ : CGState) (n f g : String) :
    ((σ.createBlock n (some f)).2.getFunction g).map (fun fn => fn.args) =
      (σ.getFunction g).map (fun fn => fn.args) := by
  unfold CGState.createBlock CGState.getFunction
  simp only
  rw [find?_map_of_inv]
  · cases List.find? (fun f => f.name == g) σ.functions with
    | none => rfl
    | some fn =>
      simp only [Option.map_some']
      split <;> rfl
  · intro x
    split <;> rfl

theorem getFunction_name {σ : CGState} {n : String} {fn : Function}
    (h : σ.getFunction n = some fn) : fn.name = n := by
  unfold CGState.getFunction at h
  have := List.find?_some h
  simpa using this

/-- **C24** (`T f(void)` and `T f()`).
* `ParseParams` returns the single parameter of type `VOID`, named by the lexeme of the token,
  on the token `void`, and the empty list on `)`.
* An extern or a prototype with the single parameter of type `VOID` is lowered as the one with
  the empty parameter list: the results and the states are equal.
* A function definition with the single parameter of type `VOID` is lowered as the one with
  the empty parameter list, for every name, return type, body and state, unless both end in an
  error: `FunctionDefASTnode::codegen` reads the type of a parameter that the definition does
  not have (past the end of `Args` for `()`; the type `VOID`, for which
  `CreateEntryBlockAlloca` returns no value, for `(void)`).
* The two are lowered alike when the name is free in the module, and when the module has a
  function of that name without parameters. -/
theorem void_parameter_list :
    (∀ (n : Nat) (st : PState),
      (st.CurTok.type = VOID_TOK → ParseParams n st =
        .ok ([.FunctionParamASTnode st.CurTok.lexeme "VOID"], getNextToken st)) ∧
      (st.CurTok.type = RPAR → ParseParams n st = .ok ([], st))) ∧
    (∀ (Name Type_ nm : String) (b : Nat) (σ : CGState),
      codegen (.ExternASTnode Name Type_ [.FunctionParamASTnode nm "VOID"]) b σ =
        codegen (.ExternASTnode Name Type_ []) b σ ∧
      codegen (.FunctionPrototypeASTnode Name Type_ [.FunctionParamASTnode nm "VOID"]) b σ =
        codegen (.FunctionPrototypeASTnode Name Type_ []) b σ) ∧
    (∀ (Name Type_ nm : String) (Body : ASTnode) (b : Nat) (σ : CGState),
      (codegen (.FunctionDefASTnode
          (.FunctionPrototypeASTnode Name Type_ [.FunctionParamASTnode nm "VOID"]) Body) b σ =
        codegen (.FunctionDefASTnode (.FunctionPrototypeASTnode Name Type_ []) Body) b σ ∨
      (codegen (.FunctionDefASTnode
          (.FunctionPrototypeASTnode Name Type_ [.FunctionParamASTnode nm "VOID"]) Body) b σ =
          .error .uninitialised ∧
        codegen (.FunctionDefASTnode (.FunctionPrototypeASTnode Name Type_ []) Body) b σ =
          .error .outOfRange)) ∧
      ((σ.symbols.contains Name = false ∨
          ∃ fn, σ.getFunction Name = some fn ∧ fn.args = []) →
        codegen (.FunctionDefASTnode
          (.FunctionPrototypeASTnode Name Type_ [.FunctionParamASTnode nm "VOID"]) Body) b σ =
        codegen (.FunctionDefASTnode (.FunctionPrototypeASTnode Name Type_ []) Body) b σ)) := by
  refine ⟨?_, ?_, ?_⟩
  · intro n st
    refine ⟨fun h => ?_, fun h => ?_⟩
    · simp [ParseParams, h]
    · simp [ParseParams, h]
  · intro Name Type_ nm b σ
    simp only [codegen, paramsOf, createFunction_void, and_self]
  · intro Name Type_ nm Body b σ
    simp only [codegen, ASTnode.isNull, ASTnode.prototypeFields, paramsOf, Bool.false_eq_true,
      ↓reduceIte, createFunction_void]
    cases hg : ({ σ with NamedValuesArray := [[]] } : CGState).getFunction Name with
    | none =>
      simp only
      cases hc : createFunction Name Type_ [] { σ with NamedValuesArray := [[]] } with
      | error e => exact ⟨Or.inl rfl, fun _ => rfl⟩
      | ok p =>
        obtain ⟨F, σ1⟩ := p
        simp only
        have hargs := getFunction_createBlock_args σ1 "entry" F F
        rcases allocaArgs_void F nm
          { (σ1.createBlock "entry" (some F)).2 with
            insertBlock := some (σ1.createBlock "entry" (some F)).1 }
          ((σ1.createBlock "entry" (some F)).2.getFunction F
            |>.map (fun fn => fn.args) |>.getD []) with ⟨h0, h1, h2⟩ | ⟨h0, h1, h2⟩
        · rw [h1, h2]
          exact ⟨Or.inl rfl, fun _ => rfl⟩
        · rw [h1, h2]
          refine ⟨Or.inr ⟨rfl, rfl⟩, fun hcase => ?_⟩
          exfalso
          apply h0
          rw [hargs]
          rcases hcase with hfresh | ⟨fn, hfn, -⟩
          · obtain ⟨fn, hname, hF, hfs⟩ := createFunction_functions hc
            have hu : (CGState.uniqueName { σ with NamedValuesArray := [[]] } Name).1 = Name := by
              unfold CGState.uniqueName
              have : (CGState.symbols { σ with NamedValuesArray := [[]] }).contains Name =
                  false := hfresh
              rw [this]
              rfl
            have hfn0 : fn.args = [] := by
              unfold createFunction at hc
              split at hc
              · simp at hc
              · simp only [Except.ok.injEq, Prod.mk.injEq] at hc
                have h3 := hc.2
                rw [← h3] at hfs
                simp only [(uniqueName_fields _ Name).2.2.2.1, List.append_cancel_left_eq,
                  List.cons.injEq, and_true] at hfs
                rw [← hfs]
                rfl
            have hFN : F = Name := hF.trans (hname.trans hu)
            have hfind : σ1.getFunction F = some fn := by
              rw [hFN]
              unfold CGState.getFunction at hg ⊢
              rw [hfs, List.find?_append, hg]
              simp [List.find?, hname, hu]
            rw [hfind]
            simp [hfn0]
          · have : ({ σ with NamedValuesArray := [[]] } : CGState).getFunction Name =
                some fn := hfn
            rw [hg] at this
            exact absurd this (by simp)
    | some fn =>
      simp only
      have hname := getFunction_name hg
      have hargs := getFunction_createBlock_args { σ with NamedValuesArray := [[]] } "entry"
        fn.name fn.name
      rcases allocaArgs_void fn.name nm
          { (({ σ with NamedValuesArray := [[]] } : CGState).createBlock "entry"
              (some fn.name)).2 with
            insertBlock := some (({ σ with NamedValuesArray := [[]] } : CGState).createBlock
              "entry" (some fn.name)).1 }
          ((({ σ with NamedValuesArray := [[]] } : CGState).createBlock "entry"
              (some fn.name)).2.getFunction fn.name
            |>.map (fun fn => fn.args) |>.getD []) with ⟨h0, h1, h2⟩ | ⟨h0, h1, h2⟩
      · rw [h1, h2]
        exact ⟨Or.inl rfl, fun _ => rfl⟩
      · rw [h1, h2]
        refine ⟨Or.inr ⟨rfl, rfl⟩, fun hcase => ?_⟩
        exfalso
        apply h0
        rw [hargs, hname, hg]
        rcases hcase with hfresh | ⟨fn2, hfn, hfn0⟩
        · have := getFunction_none_of_fresh { σ with NamedValuesArray := [[]] } Name hfresh
          rw [hg] at this
          exact absurd this (by simp)
        · have : ({ σ with NamedValuesArray := [[]] } : CGState).getFunction Name =
              some fn2 := hfn
          rw [hg] at this
          simp only [Option.some.injEq] at this
          subst this
          simp [hfn0]

/-! ### The end of a function definition -/

/-- The shape of a lowered function definition: after the prologue the body is lowered at
index 0, and a return is appended exactly when the value of the body is not null: `ret void`
for the return type `void`, a return of that value otherwise. -/
theorem functionDef_shape (Prototype Body : ASTnode) (b : Nat) (σ σ' : CGState)
    (v : Option Value) (h : codegen (.FunctionDefASTnode Prototype Body) b σ = .ok (v, σ')) :
    ∃ (Name Type_ : String) (Args : List ASTnode) (σ2 σ3 : CGState) (r : Option Value),
      Prototype.prototypeFields = some (Name, Type_, Args) ∧
      σ2.insertBlock.isSome = true ∧ codegen Body 0 σ2 = .ok (r, σ3) ∧
      ((r = none ∧ σ' = σ3) ∨
        (∃ RetVal, r = some RetVal ∧ Type_ = "void" ∧ σ' = (σ3.emit "" (.ret none)).2) ∨
        (∃ RetVal, r = some RetVal ∧ Type_ ≠ "void" ∧
          σ' = (σ3.emit "" (.ret (some RetVal))).2)) := by
  simp only [codegen] at h
  split at h
  · simp at h
  · split at h
    · simp at h
    · rename_i Name Type_ Args hp
      split at h
      · simp at h
      · split at h
        · simp at h
        · rename_i TheFunction σ1 h1
          split at h
          · simp at h
          · rename_i u σ2 h2
            have hib : σ2.insertBlock.isSome = true := by
              rw [allocaArgs_insertBlock _ _ _ _ _ _ _ h2]; rfl
            split at h
            · split at h
              · simp at h
              · rename_i σ3 h3
                simp only [Except.ok.injEq, Prod.mk.injEq] at h
                exact ⟨Name, Type_, Args, σ2, σ3, none, hp, hib, h3, Or.inl ⟨rfl, h.2.symm⟩⟩
              · rename_i RetVal σ3 h3
                split at h
                · rename_i hv
                  simp only [Except.ok.injEq, Prod.mk.injEq] at h
                  exact ⟨Name, Type_, Args, σ2, σ3, some RetVal, hp, hib, h3,
                    Or.inr (Or.inl ⟨RetVal, rfl, hv, h.2.symm⟩)⟩
                · rename_i hv
                  simp only [Except.ok.injEq, Prod.mk.injEq] at h
                  exact ⟨Name, Type_, Args, σ2, σ3, some RetVal, hp, hib, h3,
                    Or.inr (Or.inr ⟨RetVal, rfl, hv, h.2.symm⟩)⟩
            · simp at h

theorem codegenSeq_last (b : Nat) (s : ASTnode) : ∀ (ss : List ASTnode)
    (r r' : Option (Option Value)) (σ σ' : CGState),
    codegenSeq (ss ++ [s]) b r σ = .ok (r', σ') →
    ∃ σ1 v, codegen s b σ1 = .ok (v, σ') ∧ r' = some v
  | [], r, r', σ, σ', h => by
    simp only [List.nil_append, codegenSeq] at h
    split at h
    · simp at h
    · rename_i v σ1 h1
      simp only [Except.ok.injEq, Prod.mk.injEq] at h
      exact ⟨σ, v, by rw [h1, h.2], h.1.symm⟩
  | a :: ss, r, r', σ, σ', h => by
    simp only [List.cons_append, codegenSeq] at h
    split at h
    · simp at h
    · rename_i v σ1 h1
      exact codegenSeq_last b s ss _ r' σ1 σ' h

/-- The value of a block is the value of its last statement. -/
theorem block_value_last (ds ss : List ASTnode) (s : ASTnode) (b : Nat) (σ σ' : CGState)
    (v : Option Value) (h : codegen (.BlockASTnode ds (ss ++ [s])) b σ = .ok (v, σ')) :
    ∃ σ1, codegen s b σ1 = .ok (v, σ') := by
  simp only [codegen] at h
  split at h
  · simp at h
  · rename_i r σ1 h1
    split at h
    · simp at h
    · simp at h
    · rename_i v2 σ2 h2
      simp only [Except.ok.injEq, Prod.mk.injEq] at h
      obtain ⟨σ3, w, hw, hr⟩ := codegenSeq_last b s ss r _ σ1 σ2 h2
      simp only [Option.some.injEq] at hr
      rw [← h.1, ← h.2, hr]
      exact ⟨σ3, hw⟩

theorem if_value (Cond Then Else : ASTnode) (b : Nat) (σ σ' : CGState) (v : Option Value)
    (h : codegen (.IfExprASTnode Cond Then Else) b σ = .ok (v, σ')) : v = none := by
  simp only [codegen] at h
  split at h
  · simp at h
  · split at h
    · simp at h
    · simp at h
    · split at h
      · split at h
        · split at h
          · simp at h
          · split at h
            · simp at h
            · split at h
              · simp only [Except.ok.injEq, Prod.mk.injEq] at h; exact h.1.symm
              · simp at h
        · split at h
          · simp at h
          · split at h
            · simp at h
            · split at h
              · simp at h
              · split at h
                · simp at h
                · split at h
                  · simp only [Except.ok.injEq, Prod.mk.injEq] at h; exact h.1.symm
                  · simp at h
      · simp at h

theorem while_value (Cond Then : ASTnode) (b : Nat) (σ σ' : CGState) (v : Option Value)
    (h : codegen (.WhileExprASTnode Cond Then) b σ = .ok (v, σ')) : v = none := by
  simp only [codegen] at h
  split at h
  · simp at h
  · split at h
    · simp at h
    · simp at h
    · split at h
      · simp at h
      · split at h
        · simp at h
        · split at h
          · simp at h
          · simp only [Except.ok.injEq, Prod.mk.injEq] at h; exact h.1.symm

/-- **C25** (the return at the end of a `void` function), evaluated on the code.
`FunctionDefASTnode::codegen` tests the value that lowering the body returns, not whether the
body emitted a return.
* For the return type `void`, a `ret void` is appended after the lowered body if and only if the
  value of the body is not null; the value of a block is the value of its last statement.
* The value of `return;` is the `ret void` instruction that it emits, not null; the value of an
  `if` and of a `while` statement is null.
* `void f(bool c, int a, float b) \x7b return; \x7d` is lowered to an entry block that ends
  with two `ret void`.
* `void f(bool c, int a, float b) \x7b if (c) \x7b a = a; \x7d \x7d` and the same function with
  `while` are lowered to a module without any return instruction; the insertion block after
  them is the empty `end` block. -/
theorem void_function_return :
    (∀ (Name : String) (Args : List ASTnode) (Body : ASTnode) (b : Nat) (σ σ' : CGState)
        (v : Option Value),
      codegen (.FunctionDefASTnode (.FunctionPrototypeASTnode Name "void" Args) Body) b σ =
        .ok (v, σ') →
      ∃ σ2 σ3 r, codegen Body 0 σ2 = .ok (r, σ3) ∧
        ((r = none ∧ σ' = σ3) ∨ (r ≠ none ∧ σ' = (σ3.emit "" (.ret none)).2))) ∧
    (∀ (ds ss : List ASTnode) (s : ASTnode) (b : Nat) (σ σ' : CGState) (v : Option Value),
      codegen (.BlockASTnode ds (ss ++ [s])) b σ = .ok (v, σ') →
      ∃ σ1, codegen s b σ1 = .ok (v, σ')) ∧
    (∀ (b : Nat) (σ : CGState),
      codegen (.ReturnExprASTnode .null) b σ =
        .ok (some (.inst σ.nextId .void), (σ.emit "" (.ret none)).2)) ∧
    (∀ (Cond Then Else : ASTnode) (b : Nat) (σ σ' : CGState) (v : Option Value),
      codegen (.IfExprASTnode Cond Then Else) b σ = .ok (v, σ') → v = none) ∧
    (∀ (Cond Then : ASTnode) (b : Nat) (σ σ' : CGState) (v : Option Value),
      codegen (.WhileExprASTnode Cond Then) b σ = .ok (v, σ') → v = none) ∧
    (∃ σ', codegen voidReturn 0 CGState.init = .ok (some (.function "f"), σ') ∧
      σ'.returns = [⟨6, "", .ret none⟩, ⟨7, "", .ret none⟩] ∧
      (σ'.blocks.get? 0).map (fun bb => bb.instrs.drop 6) =
        some [⟨6, "", .ret none⟩, ⟨7, "", .ret none⟩]) ∧
    (∃ σ', codegen voidEndsWithIf 0 CGState.init = .ok (some (.function "f"), σ') ∧
      σ'.returns = [] ∧ σ'.insertBlock = some 3 ∧
      σ'.blocks.get? 3 = some ⟨"end", some "f", []⟩) ∧
    (∃ σ', codegen voidEndsWithWhile 0 CGState.init = .ok (some (.function "f"), σ') ∧
      σ'.returns = [] ∧ σ'.insertBlock = some 3 ∧
      σ'.blocks.get? 3 = some ⟨"end", some "f", []⟩) := by
  refine ⟨?_, block_value_last, ?_, if_value, while_value, ⟨_, rfl, rfl, rfl⟩,
    ⟨_, rfl, rfl, rfl, rfl⟩, ⟨_, rfl, rfl, rfl, rfl⟩⟩
  · intro Name Args Body b σ σ' v h
    obtain ⟨N, T, A, σ2, σ3, r, hp, -, hb, hcase⟩ := functionDef_shape _ _ _ _ _ _ h
    simp only [ASTnode.prototypeFields, Option.some.injEq, Prod.mk.injEq] at hp
    refine ⟨σ2, σ3, r, hb, ?_⟩
    rcases hcase with ⟨hr, hs⟩ | ⟨rv, hr, -, hs⟩ | ⟨rv, hr, hT, -⟩
    · exact Or.inl ⟨hr, hs⟩
    · exact Or.inr ⟨by rw [hr]; simp, hs⟩
    · exact absurd hp.2.1.symm hT
  · intro b σ
    simp only [codegen, ASTnode.isNull, ↓reduceIte, create_fst, create_snd]

theorem emit_twice_get (σ : CGState) (n1 n2 : String) (k1 k2 : InstrKind) (blk : Nat)
    (bb : BasicBlock) (h : σ.insertBlock = some blk) (hb : σ.blocks.get? blk = some bb) :
    ((σ.emit n1 k1).2.emit n2 k2).2.blocks.get? blk =
      some { bb with instrs := bb.instrs ++ [⟨σ.nextId, n1, k1⟩, ⟨σ.nextId + 1, n2, k2⟩] } := by
  rw [emit_blocks_get _ n2 k2 blk _ ((emit_insertBlock σ n1 k1).trans h)
    (emit_blocks_get σ n1 k1 blk bb h hb), emit_nextId]
  simp only [List.append_assoc, List.singleton_append]

/-- The steps of a lowered `while`, with the intermediate states: the condition is lowered in
the header block, the comparison and the conditional branch are emitted, the body is lowered in
the body block, and two branches are emitted where the body ends. -/
theorem while_shape (Cond Then : ASTnode) (b : Nat) (σ σ' : CGState) (v : Option Value)
    (h : codegen (.WhileExprASTnode Cond Then) b σ = .ok (v, σ')) :
    ∃ (TheFunction : Option String) (σ0 σ1 σ2 σ3 σ4 : CGState) (cond : Value)
        (w : Option Value),
      σ0.insertBlock = some σ.blocks.length ∧
      codegen Cond (b + 1) σ0 = .ok (some cond, σ1) ∧
      ((σ1.emit "whilecond" (.op .ICmpNE [cond, .constInt 1 0] .i1)).2.emit ""
        (.condBr (.inst σ1.nextId .i1) (σ.blocks.length + 1)
          (σ.blocks.length + 2))).2.pushBlock TheFunction (σ.blocks.length + 1) =
        .ok ((), σ2) ∧
      codegen Then (b + 1) { σ2 with insertBlock := some (σ.blocks.length + 1) } =
        .ok (w, σ3) ∧
      (σ3.emit "" (.br σ.blocks.length)).2.pushBlock TheFunction (σ.blocks.length + 2) =
        .ok ((), σ4) ∧
      σ' = { (σ4.emit "" (.br (σ.blocks.length + 2))).2 with
        insertBlock := some (σ.blocks.length + 2) } ∧
      v = none := by
  simp only [codegen] at h
  split at h
  · simp at h
  · rename_i TheFunction hp
    split at h
    · simp at h
    · simp at h
    · rename_i cond σ1 h1
      split at h
      · simp at h
      · rename_i u σ2 h2
        split at h
        · simp at h
        · rename_i w σ3 h3
          split at h
          · simp at h
          · rename_i u4 σ4 h4
            simp only [Except.ok.injEq, Prod.mk.injEq] at h
            simp only [create_snd, create_fst] at h2
            exact ⟨TheFunction, _, σ1, σ2, σ3, σ4, cond, w, rfl, h1, h2, h3, h4, h.2.symm,
              h.1.symm⟩

/-- The steps of a lowered `if` up to the then-part: the condition is lowered, the comparison
and the conditional branch are emitted, and the then-part is lowered in the block `if then`. -/
theorem if_shape (Cond Then Else : ASTnode) (b : Nat) (σ σ' : CGState) (v : Option Value)
    (h : codegen (.IfExprASTnode Cond Then Else) b σ = .ok (v, σ')) :
    ∃ (σ0 σ1 σ2 : CGState) (cond : Value) (w : Option Value) (target : Nat),
      codegen Cond (b + 1) σ0 = .ok (some cond, σ1) ∧
      codegen Then (b + 1)
        { ((σ1.emit "ifcond" (.op .ICmpNE [cond, .constInt 1 0] .i1)).2.emit ""
            (.condBr (.inst σ1.nextId .i1) σ.blocks.length target)).2 with
          insertBlock := some σ.blocks.length } = .ok (w, σ2) := by
  simp only [codegen] at h
  split at h
  · simp at h
  · split at h
    · simp at h
    · simp at h
    · rename_i cond σ1 h1
      split at h
      · split at h
        · split at h
          · simp at h
          · rename_i w σ2 h2
            simp only [create_snd, create_fst] at h2
            exact ⟨_, σ1, σ2, cond, w, _, h1, h2⟩
        · split at h
          · simp at h
          · rename_i w σ2 h2
            simp only [create_snd, create_fst] at h2
            exact ⟨_, σ1, σ2, cond, w, _, h1, h2⟩
      · simp at h

/-- **C26** (the blocks of a `while` statement), evaluated on the code.
`WhileExprASTnode::codegen` calls `Builder.CreateBr(while_header)` after the body and then
`Builder.CreateBr(end_)` before it moves the insertion point, so both branches go to the block
in which the body finished.
* For every `while` that is lowered: the body is lowered with the block `body`
  (index `σ.blocks.length + 1`) as the insertion block; the block in which the lowering of the
  body finishes gets two instructions appended, `br header` and after it `br end`; the
  insertion block afterwards is `end` (index `σ.blocks.length + 2`).
* `while (c) \x7b a = a; \x7d` in the body of `void f(bool c, int a, float b)`: the entry
  block gets `br header`; `header` holds the load of `c`, the comparison and the conditional
  branch to `body` or `end`; `body` holds the load, the store, `br header` and `br end`;
  `end` is empty and is the insertion block. -/
theorem while_body_branches :
    (∀ (Cond Then : ASTnode) (b : Nat) (σ σ' : CGState) (v : Option Value),
      codegen (.WhileExprASTnode Cond Then) b σ = .ok (v, σ') →
      ∃ (σb σ3 : CGState) (w : Option Value),
        σb.insertBlock = some (σ.blocks.length + 1) ∧
        codegen Then (b + 1) σb = .ok (w, σ3) ∧
        σ'.insertBlock = some (σ.blocks.length + 2) ∧
        ∀ (blk : Nat) (bb : BasicBlock), σ3.insertBlock = some blk →
          σ3.blocks.get? blk = some bb →
          ∃ bb', σ'.blocks.get? blk = some bb' ∧
            bb'.instrs = bb.instrs ++ [⟨σ3.nextId, "", .br σ.blocks.length⟩,
              ⟨σ3.nextId + 1, "", .br (σ.blocks.length + 2)⟩]) ∧
    (∃ σ', codegen whileOnBool 0 bodyStart = .ok (none, σ') ∧
      σ'.blocks.map (fun bb => bb.name) = ["entry", "header", "body", "end"] ∧
      (σ'.instrsOf 0).drop 6 = [⟨6, "", .br 1⟩] ∧
      σ'.instrsOf 1 = [⟨7, "c", .load .i1 (.inst 0 .ptr)⟩,
        ⟨8, "whilecond", .op .ICmpNE [.inst 7 .i1, .constInt 1 0] .i1⟩,
        ⟨9, "", .condBr (.inst 8 .i1) 2 3⟩] ∧
      σ'.instrsOf 2 = [⟨10, "a", .load .i32 (.inst 2 .ptr)⟩,
        ⟨11, "", .store (.inst 10 .i32) (.inst 2 .ptr)⟩,
        ⟨12, "", .br 1⟩, ⟨13, "", .br 3⟩] ∧
      σ'.instrsOf 3 = [] ∧ σ'.insertBlock = some 3) := by
  refine ⟨?_, ⟨_, rfl, rfl, rfl, rfl, rfl, rfl, rfl⟩⟩
  intro Cond Then b σ σ' v h
  obtain ⟨F, σ0, σ1, σ2, σ3, σ4, cond, w, -, -, -, h3, h4, hs, -⟩ :=
    while_shape Cond Then b σ σ' v h
  refine ⟨_, σ3, w, rfl, h3, by rw [hs], ?_⟩
  intro blk bb hi hb
  have e1 := emit_blocks_get σ3 "" (.br σ.blocks.length) blk bb hi hb
  obtain ⟨bb1, g1, i1, -⟩ := pushBlock_blocks_get h4 blk _ e1
  have hi4 : σ4.insertBlock = some blk := by
    rw [(pushBlock_ok h4).2.2, emit_insertBlock]; exact hi
  have e2 := emit_blocks_get σ4 "" (.br (σ.blocks.length + 2)) blk bb1 hi4 g1
  refine ⟨_, by rw [hs]; exact e2, ?_⟩
  simp only [i1, pushBlock_nextId h4, emit_nextId, List.append_assoc, List.singleton_append]

/-- **C27** (the comparison of the condition of `if` and `while`), evaluated on the code.
Both compare the value of the condition with `ConstantInt::get(TheContext, APInt(1,0,false))`,
the 1-bit zero, whatever the type of the condition is.
* For every `if` and every `while` that is lowered, with `cond` the value of the condition and
  `σ1` the state after the condition: the insertion block of `σ1` gets the comparison
  `ICmpNE [cond, i1 0]` and the conditional branch on its 1-bit result appended.
* The type of the constant is `i1`: for a condition of another type (`i32`, `float`) the two
  operands of the comparison differ in type.
* In the body of `void f(bool c, int a, float b)`: `if (a) \x7b a = a; \x7d` compares the
  `i32` value loaded from `a` with the `i1` zero, and `while (b) \x7b a = a; \x7d` compares the
  `float` value loaded from `b` with the `i1` zero. -/
theorem condition_compare :
    (∀ (Cond Then Else : ASTnode) (b : Nat) (σ σ' : CGState) (v : Option Value),
      codegen (.IfExprASTnode Cond Then Else) b σ = .ok (v, σ') →
      ∃ (σ0 σ1 σT σ2 : CGState) (cond : Value) (w : Option Value) (target : Nat),
        codegen Cond (b + 1) σ0 = .ok (some cond, σ1) ∧
        codegen Then (b + 1) σT = .ok (w, σ2) ∧
        ∀ (blk : Nat) (bb : BasicBlock), σ1.insertBlock = some blk →
          σ1.blocks.get? blk = some bb →
          σT.blocks.get? blk = some { bb with instrs := bb.instrs ++
            [⟨σ1.nextId, "ifcond", .op .ICmpNE [cond, .constInt 1 0] .i1⟩,
              ⟨σ1.nextId + 1, "", .condBr (.inst σ1.nextId .i1) σ.blocks.length target⟩] }) ∧
    (∀ (Cond Then : ASTnode) (b : Nat) (σ σ' : CGState) (v : Option Value),
      codegen (.WhileExprASTnode Cond Then) b σ = .ok (v, σ') →
      ∃ (σ0 σ1 σT σ2 : CGState) (cond : Value) (w : Option Value),
        codegen Cond (b + 1) σ0 = .ok (some cond, σ1) ∧
        codegen Then (b + 1) σT = .ok (w, σ2) ∧
        ∀ (blk : Nat) (bb : BasicBlock), σ1.insertBlock = some blk →
          σ1.blocks.get? blk = some bb →
          ∃ bb', σT.blocks.get? blk = some bb' ∧ bb'.instrs = bb.instrs ++
            [⟨σ1.nextId, "whilecond", .op .ICmpNE [cond, .constInt 1 0] .i1⟩,
              ⟨σ1.nextId + 1, "", .condBr (.inst σ1.nextId .i1) (σ.blocks.length + 1)
                (σ.blocks.length + 2)⟩]) ∧
    (Value.constInt 1 0).getType = .i1 ∧
    (∀ cond : Value, cond.getType = .i32 ∨ cond.getType = .float →
      (Value.constInt 1 0).getType ≠ cond.getType) ∧
    (∃ σ', codegen ifOnInt 0 bodyStart = .ok (none, σ') ∧
      (σ'.instrsOf 0).drop 6 = [⟨6, "a", .load .i32 (.inst 2 .ptr)⟩,
        ⟨7, "ifcond", .op .ICmpNE [.inst 6 .i32, .constInt 1 0] .i1⟩,
        ⟨8, "", .condBr (.inst 7 .i1) 1 3⟩]) ∧
    (∃ σ', codegen whileOnFloat 0 bodyStart = .ok (none, σ') ∧
      σ'.instrsOf 1 = [⟨7, "b", .load .float (.inst 4 .ptr)⟩,
        ⟨8, "whilecond", .op .ICmpNE [.inst 7 .float, .constInt 1 0] .i1⟩,
        ⟨9, "", .condBr (.inst 8 .i1) 2 3⟩]) := by
  refine ⟨?_, ?_, rfl, ?_, ⟨_, rfl, rfl⟩, ⟨_, rfl, rfl⟩⟩
  · intro Cond Then Else b σ σ' v h
    obtain ⟨σ0, σ1, σ2, cond, w, target, h1, h2⟩ := if_shape Cond Then Else b σ σ' v h
    refine ⟨σ0, σ1, _, σ2, cond, w, target, h1, h2, ?_⟩
    intro blk bb hi hb
    exact emit_twice_get σ1 _ _ _ _ blk bb hi hb
  · intro Cond Then b σ σ' v h
    obtain ⟨F, σ0, σ1, σ2, σ3, σ4, cond, w, -, h1, h2, h3, -, -, -⟩ :=
      while_shape Cond Then b σ σ' v h
    refine ⟨σ0, σ1, _, σ3, cond, w, h1, h3, ?_⟩
    intro blk bb hi hb
    obtain ⟨bb1, g1, i1, -⟩ := pushBlock_blocks_get h2 blk _
      (emit_twice_get σ1 _ _ _ _ blk bb hi hb)
    exact ⟨bb1, g1, i1⟩
  · intro cond hc
    rcases hc with hc | hc <;> rw [hc] <;> decide

/-! ### The empty statement after parsing -/

/-- The statement `return e ;`. -/
theorem isStmt_return_expr (ret eh : TOKEN) (et : List TOKEN) (E : ASTnode) (sc : TOKEN)
    (hret : ret.type = RETURN) (hsc : sc.type = SC) (hne : eh.type ≠ SC)
    (he : ∀ rest, Parses ParseExpr (eh :: et ++ sc :: rest) E (sc :: rest)) :
    IsStmt (ret :: eh :: et ++ [sc]) (.ReturnExprASTnode E) := by
  refine ⟨⟨ret, eh :: et ++ [sc], rfl, by simp [hret, CheckMembership, stmt_token_array]⟩, ?_⟩
  intro t rest _ st hs
  simp only [List.cons_append, List.append_assoc, List.nil_append] at hs
  have hcur := sees_CurTok _ _ _ hs
  have h1 := sees_next _ _ _ _ hs
  obtain ⟨st1, ⟨m, hm⟩, hs1⟩ := he (t :: rest) (getNextToken st)
    (by simpa only [List.cons_append] using h1)
  refine ⟨getNextToken st1, ⟨m + 1, fun n hn => ?_⟩, sees_next _ _ _ _ hs1⟩
  obtain ⟨n, rfl⟩ : ∃ i, n = i + 1 := ⟨n - 1, by omega⟩
  have hne59 : ¬ eh.type = 59 := hne
  rw [ParseStmt]
  simp [hcur, hret, CheckMembership, expr_stmt_array, ParseReturn, sees_CurTok _ _ _ h1, hne59,
    hm n (by omega), sees_CurTok _ _ _ hs1, hsc]

theorem to_stringEach_null (showFloat : String → String) (sep : String) (ss2 : List ASTnode)
    (ident : String) : ∀ ss1 : List ASTnode,
    to_stringEach showFloat sep (ss1 ++ .null :: ss2) ident = none
  | [] => by simp only [List.nil_append, to_stringEach, to_string]
  | s :: ss1 => by
    simp only [List.cons_append, to_stringEach, List.append_eq,
      to_stringEach_null showFloat sep ss2 ident ss1]
    split <;> rfl

theorem codegenSeq_null (b : Nat) (ss2 : List ASTnode) : ∀ (ss1 : List ASTnode)
    (r : Option (Option Value)) (σ : CGState),
    ∃ e, codegenSeq (ss1 ++ .null :: ss2) b r σ = .error e
  | [], r, σ => ⟨.nullDeref, by simp only [List.nil_append, codegenSeq, codegen]⟩
  | s :: ss1, r, σ => by
    simp only [List.cons_append, codegenSeq]
    split
    · exact ⟨_, rfl⟩
    · exact codegenSeq_null b ss2 ss1 _ _

theorem codegenSeq_append_ok (b : Nat) (ss2 : List ASTnode) : ∀ (ss1 : List ASTnode)
    (r r1 : Option (Option Value)) (σ σ1 : CGState),
    codegenSeq ss1 b r σ = .ok (r1, σ1) →
    codegenSeq (ss1 ++ ss2) b r σ = codegenSeq ss2 b r1 σ1
  | [], r, r1, σ, σ1, h => by
    simp only [codegenSeq, Except.ok.injEq, Prod.mk.injEq] at h
    rw [List.nil_append, h.1, h.2]
  | s :: ss1, r, r1, σ, σ1, h => by
    simp only [codegenSeq] at h
    simp only [List.cons_append, codegenSeq]
    split at h
    · simp at h
    · exact codegenSeq_append_ok b ss2 ss1 _ r1 _ σ1 h

/-- **C29** (the empty statement after parsing), evaluated on the code.
`ParseExprStmt` returns `nullptr` for `;`, the statement list stores it, and the loops of
`BlockASTnode::to_string` and `BlockASTnode::codegen` call `stmt->to_string` and
`Stmt->codegen` on every element without a test.
* The parser returns for `int main ( ) \x7b ; return 0 ; \x7d` the root whose block has the
  statements `[nullptr, Return(0)]`.
* For every block whose statement list contains a null pointer, `to_string` dereferences it, and
  `codegen` does not complete; when the declarations and the statements before it are lowered,
  `codegen` dereferences it.
* On the tree of `int main() \x7b ; return 0; \x7d` both `to_string`, which `main` calls
  first, and `codegen` dereference the null pointer, whereas the tree of
  `int main() \x7b return 0; \x7d` is printed and is lowered to `ret i32 0`. -/
theorem empty_statement_dereferenced :
    (∃ st1, Evals parser (PState.start emptyStmtTokens) (emptyStmtProgram, st1)) ∧
    (∀ (showFloat : String → String) (ds ss1 ss2 : List ASTnode) (ident : String),
      to_string showFloat (.BlockASTnode ds (ss1 ++ .null :: ss2)) ident = none) ∧
    (∀ (ds ss1 ss2 : List ASTnode) (b : Nat) (σ : CGState),
      ∃ e, codegen (.BlockASTnode ds (ss1 ++ .null :: ss2)) b σ = .error e) ∧
    (∀ (ds ss1 ss2 : List ASTnode) (b : Nat) (σ σ1 σ2 : CGState)
        (r r1 : Option (Option Value)),
      codegenDecls ds b none σ = .ok (r, σ1) → codegenSeq ss1 b r σ1 = .ok (r1, σ2) →
      codegen (.BlockASTnode ds (ss1 ++ .null :: ss2)) b σ = .error .nullDeref) ∧
    (∀ showFloat : String → String, to_string showFloat emptyStmtProgram "" = none) ∧
    codegen emptyStmtProgram 0 CGState.init = .error .nullDeref ∧
    (∀ showFloat : String → String, (to_string showFloat returnZeroProgram "").isSome = true) ∧
    (∃ σ', codegen returnZeroProgram 0 CGState.init = .ok (none, σ') ∧
      σ'.instrsOf 0 = [⟨0, "", .ret (some (.constInt 32 0))⟩]) := by
  refine ⟨?_, ?_, ?_, ?_, fun _ => rfl, rfl, fun _ => rfl, ⟨_, rfl, rfl⟩⟩
  · have hret : IsStmt [tok RETURN "return", tok INT_LIT "0", tok SC ";"]
        (.ReturnExprASTnode (.IntASTnode 0)) :=
      isStmt_return_expr (tok RETURN "return") (tok INT_LIT "0") [] (.IntASTnode 0)
        (tok SC ";") rfl rfl (by decide)
        (fun rest => parseExpr_of_rval_other _ _ _ (by simp [CheckMembership, rval_array, tok])
          (parseRval_primary [tok INT_LIT "0"] _ (tok SC ";") rest
            (isPrimary_int _ rfl 0 rfl) (by decide)))
    have hblock := parseBlock_ok (tok LBRA "\x7b") (tok RBRA "\x7d") eofTOK []
      [([tok SC ";"], .null),
        ([tok RETURN "return", tok INT_LIT "0", tok SC ";"],
          .ReturnExprASTnode (.IntASTnode 0))] [] rfl rfl (by simp)
      (by
        intro s hs
        simp only [List.mem_cons, List.mem_singleton, List.not_mem_nil, or_false] at hs
        rcases hs with hs | hs
        · subst hs; exact isStmt_empty _ rfl
        · subst hs; exact hret)
      (by simp)
    obtain ⟨s, ⟨m, hm⟩, hs⟩ := hblock
      (PState.ofTokens [tok LBRA "\x7b", tok SC ";", tok RETURN "return", tok INT_LIT "0",
        tok SC ";", tok RBRA "\x7d", eofTOK]) (sees_ofTokens _ _)
    refine ⟨s, m + 1, fun n hn => ?_⟩
    obtain ⟨n, rfl⟩ : ∃ i, n = i + 1 := ⟨n - 1, by omega⟩
    have hb := hm (n + 1) (by omega)
    have hcur : s.CurTok = eofTOK := sees_CurTok _ _ _ hs
    have e : ParseDeclListPrime (n + 1)
        [.FunctionDefASTnode (.FunctionPrototypeASTnode "main" "int" [])
          (.BlockASTnode [] [.null, .ReturnExprASTnode (.IntASTnode 0)])] s =
        .ok ([.FunctionDefASTnode (.FunctionPrototypeASTnode "main" "int" [])
          (.BlockASTnode [] [.null, .ReturnExprASTnode (.IntASTnode 0)])], s) := by
      rw [ParseDeclListPrime]
      simp [hcur, eofTOK]
    simp only [concatTokens, List.nil_append, List.map, List.cons_append] at hb
    simp [parser, ParseProgram, ParseDeclList, ParseDecl, ParseTypeNameDecl, ParseVarType,
      ParseVarFunDecl, ParseParams, getNextToken, PState.start, tok, emptyStmtTokens,
      emptyStmtProgram]
    simp [PState.ofTokens, getNextToken, PState.start, tok] at hb
    simp [hb, e]
  · intro showFloat ds ss1 ss2 ident
    simp only [to_string, to_stringEach_null]
    split <;> rfl
  · intro ds ss1 ss2 b σ
    simp only [codegen]
    split
    · exact ⟨_, rfl⟩
    · rename_i r σ1 h1
      obtain ⟨e, he⟩ := codegenSeq_null b ss2 ss1 r σ1
      rw [he]
      exact ⟨_, rfl⟩
  · intro ds ss1 ss2 b σ σ1 σ2 r r1 hd hs
    simp only [codegen, hd, codegenSeq_append_ok b _ ss1 r r1 σ1 σ2 hs, codegenSeq]

/-! ### The pushback of `ParseExpr` -/

/-- After the pushback the next `getNextToken` gives the state that the peek gave. -/
theorem getNextToken_restorePeeked (st : PState) :
    getNextToken (restorePeeked st) = getNextToken st := by
  obtain ⟨c, buf, pend⟩ := st
  cases buf with
  | cons t buf => rfl
  | nil =>
    cases pend with
    | cons t ts => rfl
    | nil => rfl

/-- The pushback puts one token at the front of `tok_buffer` and reads nothing. -/
theorem restorePeeked_fields (st : PState) :
    (restorePeeked st).CurTok = st.CurTok ∧
      (restorePeeked st).tok_buffer = (getNextToken st).CurTok :: (getNextToken st).tok_buffer ∧
      (restorePeeked st).pending = (getNextToken st).pending :=
  ⟨rfl, rfl, rfl⟩

/-- An operand that starts with an identifier is parsed from the current token and the state
after the next `getNextToken` only. -/
theorem parseRvalEight_congr (n : Nat) (s t : PState) (hc : s.CurTok = t.CurTok)
    (hi : s.CurTok.type = IDENT) (hn : getNextToken s = getNextToken t) :
    ParseRvalEight n s = ParseRvalEight n t := by
  cases n with
  | zero => rfl
  | succ n =>
    rw [ParseRvalEight, ParseRvalEight, ← hc, ← hn, if_pos hi, if_pos hi]

theorem parseRvalSeven_congr (n : Nat) (s t : PState) (hc : s.CurTok = t.CurTok)
    (hi : s.CurTok.type = IDENT) (hn : getNextToken s = getNextToken t) :
    ParseRvalSeven n s = ParseRvalSeven n t := by
  cases n with
  | zero => rfl
  | succ n =>
    have hl : ¬ s.CurTok.type = LPAR := by rw [hi]; decide
    rw [ParseRvalSeven, ParseRvalSeven, ← hc, if_neg hl, if_neg hl]
    exact parseRvalEight_congr n s t hc hi hn

theorem parseRvalSix_congr (n : Nat) (s t : PState) (hc : s.CurTok = t.CurTok)
    (hi : s.CurTok.type = IDENT) (hn : getNextToken s = getNextToken t) :
    ParseRvalSix n s = ParseRvalSix n t := by
  cases n with
  | zero => rfl
  | succ n =>
    have hu : ¬ isUnaryTok s.CurTok.type = true := by rw [hi]; decide
    rw [ParseRvalSix, ParseRvalSix, ← hc, if_neg hu, if_neg hu]
    exact parseRvalSeven_congr n s t hc hi hn

theorem parseRvalFive_congr (n : Nat) (s t : PState) (hc : s.CurTok = t.CurTok)
    (hi : s.CurTok.type = IDENT) (hn : getNextToken s = getNextToken t) :
    ParseRvalFive n s = ParseRvalFive n t := by
  cases n with
  | zero => rfl
  | succ n => rw [ParseRvalFive, ParseRvalFive, parseRvalSix_congr n s t hc hi hn]

theorem parseRvalFour_congr (n : Nat) (s t : PState) (hc : s.CurTok = t.CurTok)
    (hi : s.CurTok.type = IDENT) (hn : getNextToken s = getNextToken t) :
    ParseRvalFour n s = ParseRvalFour n t := by
  cases n with
  | zero => rfl
  | succ n => rw [ParseRvalFour, ParseRvalFour, parseRvalFive_congr n s t hc hi hn]

theorem parseRvalThree_congr (n : Nat) (s t : PState) (hc : s.CurTok = t.CurTok)
    (hi : s.CurTok.type = IDENT) (hn : getNextToken s = getNextToken t) :
    ParseRvalThree n s = ParseRvalThree n t := by
  cases n with
  | zero => rfl
  | succ n => rw [ParseRvalThree, ParseRvalThree, parseRvalFour_congr n s t hc hi hn]

theorem parseRvalTwo_congr (n : Nat) (s t : PState) (hc : s.CurTok = t.CurTok)
    (hi : s.CurTok.type = IDENT) (hn : getNextToken s = getNextToken t) :
    ParseRvalTwo n s = ParseRvalTwo n t := by
  cases n with
  | zero => rfl
  | succ n => rw [ParseRvalTwo, ParseRvalTwo, parseRvalThree_congr n s t hc hi hn]

theorem parseRvalOne_congr (n : Nat) (s t : PState) (hc : s.CurTok = t.CurTok)
    (hi : s.CurTok.type = IDENT) (hn : getNextToken s = getNextToken t) :
    ParseRvalOne n s = ParseRvalOne n t := by
  cases n with
  | zero => rfl
  | succ n => rw [ParseRvalOne, ParseRvalOne, parseRvalTwo_congr n s t hc hi hn]

theorem parseRval_congr (n : Nat) (s t : PState) (hc : s.CurTok = t.CurTok)
    (hi : s.CurTok.type = IDENT) (hn : getNextToken s = getNextToken t) :
    ParseRval n s = ParseRval n t := by
  cases n with
  | zero => rfl
  | succ n => rw [ParseRval, ParseRval, parseRvalOne_congr n s t hc hi hn]

/-- **C30** (the one-token pushback of `ParseExpr` is transparent).  Let the current token be
an identifier and the token after it not `=`.  Then `ParseExpr` returns what `ParseRval`
returns when it is applied to the same state directly: the same tree and the same state after
it (current token, `tok_buffer` and the tokens still to be lexed), or the same error.  The
peeked token is put at the front of `tok_buffer` with nothing read from the lexer, the next
`getNextToken` delivers it without reading from the lexer, and the state after that call is
the state after the peek, so the token is delivered once. -/
theorem pushback_transparent (n : Nat) (st : PState) (hi : st.CurTok.type = IDENT)
    (ha : (getNextToken st).CurTok.type ≠ ASSIGN) :
    ParseExpr (n + 1) st = ParseRval n st ∧
    (restorePeeked st).CurTok = st.CurTok ∧
    (restorePeeked st).tok_buffer = (getNextToken st).CurTok :: (getNextToken st).tok_buffer ∧
    (restorePeeked st).pending = (getNextToken st).pending ∧
    (getNextToken (restorePeeked st)).CurTok = (getNextToken st).CurTok ∧
    (getNextToken (restorePeeked st)).pending = (restorePeeked st).pending ∧
    getNextToken (restorePeeked st) = getNextToken st := by
  refine ⟨?_, rfl, rfl, rfl, by rw [getNextToken_restorePeeked],
    by rw [getNextToken_restorePeeked]; rfl, getNextToken_restorePeeked st⟩
  rw [ParseExpr, if_pos hi, if_neg ha]
  exact parseRval_congr n (restorePeeked st) st rfl hi (getNextToken_restorePeeked st)

/-- Witness of C30: the stream `a + b ;`, with fuel 20. -/
theorem pushback_transparent_witness :
    (PState.ofTokens [tok IDENT "a", tok PLUS "+", tok IDENT "b", tok SC ";"]).CurTok.type =
        IDENT ∧
    (getNextToken (PState.ofTokens
        [tok IDENT "a", tok PLUS "+", tok IDENT "b", tok SC ";"])).CurTok.type ≠ ASSIGN ∧
    ParseExpr (20 + 1)
        (PState.ofTokens [tok IDENT "a", tok PLUS "+", tok IDENT "b", tok SC ";"]) =
      ParseRval 20
        (PState.ofTokens [tok IDENT "a", tok PLUS "+", tok IDENT "b", tok SC ";"]) ∧
    ParseRval 20
        (PState.ofTokens [tok IDENT "a", tok PLUS "+", tok IDENT "b", tok SC ";"]) =
      .ok (.BinaryASTnode "+" (.VariableASTnode "a") (.VariableASTnode "b"),
        ⟨tok SC ";", [], []⟩) :=
  ⟨rfl, by decide,
    (pushback_transparent 20
      (PState.ofTokens [tok IDENT "a", tok PLUS "+", tok IDENT "b", tok SC ";"])
      rfl (by decide)).1, rfl⟩


/-! ### Conversions, integer division and the index of `getArgType` -/

/-- **C34** (the operand of a conversion), evaluated on the code.
`VariableAssignmentASTnode::codegen` tests `Variable->getAllocatedType()->isIntegerTy()` once
the two types differ, and calls `CreateFPToSI` whatever the type of the value is.
* For a local `bool` slot and a value of type `i32`, and for a local `int` slot and a value of
  type `i1`, the assignment is lowered to one `FPToSI` with the integer value as its operand
  and a store of its result.
* In the body of `void f(bool c, int a, float b)`: `c = a` is lowered to the load of `a`,
  `FPToSI` of that `i32` value to `i1` and the store; `a = c` to the load of `c`, `FPToSI` of
  that `i1` value to `i32` and the store.
* The part of the claim about binary operators holds for integer operands:
  `BinaryASTnode::codegen` emits `SIToFP` only for an operand whose type is not `float`, next
  to an operand of type `float`. -/
theorem conversion_operand_type :
    (∀ (x : String) (e : ASTnode) (b : Nat) (σ σ1 : CGState) (val : Value) (A : AllocaInst),
      codegen e b σ = .ok (some val, σ1) →
      findAlloca σ1.NamedValuesArray b x = .ok (some A) →
      (A.AllocatedType = .i1 → val.getType = .i32 →
        codegen (.VariableAssignmentASTnode (.VariableASTnode x) e) b σ =
          .ok (some (.inst σ1.nextId .i1),
            ((σ1.emit "" (.op .FPToSI [val] .i1)).2.emit ""
              (.store (.inst σ1.nextId .i1) (.inst A.id .ptr))).2)) ∧
      (A.AllocatedType = .i32 → val.getType = .i1 →
        codegen (.VariableAssignmentASTnode (.VariableASTnode x) e) b σ =
          .ok (some (.inst σ1.nextId .i32),
            ((σ1.emit "" (.op .FPToSI [val] .i32)).2.emit ""
              (.store (.inst σ1.nextId .i32) (.inst A.id .ptr))).2))) ∧
    (∃ σ', codegen (.VariableAssignmentASTnode (.VariableASTnode "c") (.VariableASTnode "a")) 0
        bodyStart = .ok (some (.inst 7 .i1), σ') ∧
      (σ'.instrsOf 0).drop 6 =
        [⟨6, "a", .load .i32 (.inst 2 .ptr)⟩, ⟨7, "", .op .FPToSI [.inst 6 .i32] .i1⟩,
          ⟨8, "", .store (.inst 7 .i1) (.inst 0 .ptr)⟩]) ∧
    (∃ σ', codegen (.VariableAssignmentASTnode (.VariableASTnode "a") (.VariableASTnode "c")) 0
        bodyStart = .ok (some (.inst 7 .i32), σ') ∧
      (σ'.instrsOf 0).drop 6 =
        [⟨6, "c", .load .i1 (.inst 0 .ptr)⟩, ⟨7, "", .op .FPToSI [.inst 6 .i1] .i32⟩,
          ⟨8, "", .store (.inst 7 .i32) (.inst 2 .ptr)⟩]) ∧
    (∀ (Op : String) (L R : Value) (σ : CGState), L.getType ≠ .float → R.getType = .float →
      combineOperands Op L R σ =
        emitOperator (floatOpcode Op) (.inst σ.nextId .float) R
          (σ.emit "convtmp" (.op .SIToFP [L] .float)).2) ∧
    (∀ (Op : String) (L R : Value) (σ : CGState), L.getType = .float → R.getType ≠ .float →
      combineOperands Op L R σ =
        emitOperator (floatOpcode Op) L (.inst σ.nextId .float)
          (σ.emit "convtmp" (.op .SIToFP [R] .float)).2) ∧
    (∀ (Op : String) (L R : Value) (σ : CGState), L.getType ≠ .float → R.getType ≠ .float →
      combineOperands Op L R σ = emitOperator (intOpcode Op) L R σ) := by
  refine ⟨?_, ⟨_, rfl, rfl⟩, ⟨_, rfl, rfl⟩, ?_, ?_, ?_⟩
  · intro x e b σ σ1 val A h hA
    refine ⟨fun hs hv => ?_, fun hs hv => ?_⟩
    · rw [codegen_assign_of_value h]
      simp only [assignTo, hA, hs, hv, ne_eq, reduceCtorEq, not_false_eq_true, ↓reduceIte,
        or_true, create_fst, create_snd]
    · rw [codegen_assign_of_value h]
      simp only [assignTo, hA, hs, hv, ne_eq, reduceCtorEq, not_false_eq_true, ↓reduceIte,
        true_or, create_fst, create_snd]
  · intro Op L R σ hL hR
    simp only [combineOperands, hR, or_true, ↓reduceIte, ne_eq, hL, not_false_eq_true,
      create_fst, create_snd]
  · intro Op L R σ hL hR
    simp only [combineOperands, hL, true_or, ↓reduceIte, ne_eq, not_true_eq_false, hR,
      not_false_eq_true, create_fst, create_snd]
  · intro Op L R σ hL hR
    simp only [combineOperands, hL, hR, or_self, ↓reduceIte]

theorem natAbs_tmod_eq (a b : Int) : (Int.tmod a b).natAbs = a.natAbs % b.natAbs := by
  cases a <;> cases b <;> simp [Int.tmod, Int.natAbs_neg] <;> rfl

/-- The quotient of a division that LLVM defines is an `i32`. -/
theorem toI32_tdiv (a b : Int) (ha1 : -2147483648 ≤ a) (ha2 : a ≤ 2147483647)
    (hc : ¬ (b = 0 ∨ (a = -2147483648 ∧ b = -1))) : toI32 (a.tdiv b) = a.tdiv b := by
  have hb0 : b ≠ 0 := fun h => hc (Or.inl h)
  have hqa : (Int.tdiv a b).natAbs ≤ a.natAbs := by
    rw [Int.natAbs_tdiv]
    exact Nat.div_le_self _ _
  have hle : a.tdiv b ≤ 2147483647 := by
    by_contra hlt
    have e : a.tdiv b = 2147483648 := by omega
    have ea : a = -2147483648 := by omega
    have h1 := Int.natAbs_tdiv a b
    rw [e, ea] at h1
    have h2 : (2147483648 : Nat) = 2147483648 / b.natAbs := h1
    have hbpos : 0 < b.natAbs := Int.natAbs_pos.mpr hb0
    have hb1 : b.natAbs = 1 := by
      by_contra hne
      have : 2147483648 / b.natAbs < 2147483648 := Nat.div_lt_self (by norm_num) (by omega)
      omega
    have hb : b = 1 ∨ b = -1 := by omega
    rcases hb with hb | hb
    · rw [hb, Int.tdiv_one] at e
      omega
    · exact hc (Or.inr ⟨ea, hb⟩)
  unfold toI32
  omega

/-- The remainder of a division by a non-zero `i32` is an `i32`. -/
theorem toI32_tmod (a b : Int) (hb1 : -2147483648 ≤ b) (hb2 : b ≤ 2147483647) (hb0 : b ≠ 0) :
    toI32 (a.tmod b) = a.tmod b := by
  have h := natAbs_tmod_eq a b
  have hlt : a.natAbs % b.natAbs < b.natAbs := Nat.mod_lt _ (Int.natAbs_pos.mpr hb0)
  unfold toI32
  omega

/-- **C35** (integer `/` and `%`), evaluated on the code.  The integer branch of
`BinaryASTnode::codegen` calls `CreateSDiv` for `/` and `CreateURem` for `%`: a signed
division next to an unsigned remainder.
* The two entries of the operator table, and the instruction that each of the operators is
  lowered to on two operands of type `i32`.
* For `a = -7` and `b = 2` the signed division gives `-3` and the unsigned remainder gives `1`
  (the unsigned reading of `-7` is odd), so `(a / b) * b + (a % b)` is `-5`, which is not `-7`
  modulo `2^32`.
* With the signed remainder in the place of `urem` the identity holds for every `a` and every
  `b` where the division is defined; and the unsigned remainder of the code agrees with it when
  neither operand is negative. -/
theorem int_division_remainder :
    intOpcode "/" = some (.SDiv, "divtmp", none) ∧
    intOpcode "%" = some (.URem, "remtmp", none) ∧
    (∀ (L R : Value) (σ : CGState), L.getType = .i32 → R.getType = .i32 →
      combineOperands "/" L R σ =
        .ok (some (.inst σ.nextId .i32), (σ.emit "divtmp" (.op .SDiv [L, R] .i32)).2) ∧
      combineOperands "%" L R σ =
        .ok (some (.inst σ.nextId .i32), (σ.emit "remtmp" (.op .URem [L, R] .i32)).2)) ∧
    (∃ σ', codegen (.BinaryASTnode "%" (.VariableASTnode "a") (.VariableASTnode "a")) 0
        bodyStart = .ok (some (.inst 8 .i32), σ') ∧
      (σ'.instrsOf 0).drop 8 = [⟨8, "remtmp", .op .URem [.inst 6 .i32, .inst 7 .i32] .i32⟩]) ∧
    (Opcode.evalI32 .SDiv (-7) 2 = some (-3) ∧ Opcode.evalI32 .URem (-7) 2 = some 1 ∧
      ((-3) * 2 + 1 - (-7) : Int) % 4294967296 ≠ 0) ∧
    (∀ a b q r : Int, -2147483648 ≤ a → a ≤ 2147483647 → -2147483648 ≤ b → b ≤ 2147483647 →
      Opcode.evalI32 .SDiv a b = some q → sremI32 a b = some r → q * b + r = a) ∧
    (∀ a b : Int, 0 ≤ a → a ≤ 2147483647 → 0 < b → b ≤ 2147483647 →
      Opcode.evalI32 .URem a b = sremI32 a b) := by
  refine ⟨rfl, rfl, ?_, ⟨_, rfl, rfl⟩, ⟨rfl, rfl, by decide⟩, ?_, ?_⟩
  · intro L R σ hL hR
    constructor
    · simp only [combineOperands, hL, hR, reduceCtorEq, or_self, ↓reduceIte, emitOperator,
        Option.getD_none, create_fst, create_snd]
      rfl
    · simp only [combineOperands, hL, hR, reduceCtorEq, or_self, ↓reduceIte, emitOperator,
        Option.getD_none, create_fst, create_snd]
      rfl
  · intro a b q r ha1 ha2 hb1 hb2 hq hr
    simp only [Opcode.evalI32] at hq
    simp only [sremI32] at hr
    split_ifs at hq hr with hc
    simp only [Option.some.injEq] at hq hr
    have hb0 : b ≠ 0 := fun h => hc (Or.inl h)
    have e1 := toI32_tdiv a b ha1 ha2 hc
    have e2 := toI32_tmod a b hb1 hb2 hb0
    rw [← hq, ← hr, e1, e2, mul_comm]
    exact Int.tdiv_add_tmod a b
  · intro a b ha1 ha2 hb1 hb2
    have hb0 : ¬ b = 0 := by omega
    have hc : ¬ (b = 0 ∨ (a = -2147483648 ∧ b = -1)) := by omega
    simp only [Opcode.evalI32, sremI32, if_neg hb0, if_neg hc]
    rw [Int.emod_eq_of_lt ha1 (by omega), Int.emod_eq_of_lt (le_of_lt hb1) (by omega),
      Int.tmod_eq_emod ha1 (le_of_lt hb1)]

/-- The loop over the arguments of the function reads, for every argument, an entry of the
parameter list of the prototype: it ends well only if the list is long enough. -/
theorem allocaArgs_length (f : String) (Args : List (String × String)) :
    ∀ (as : List (String × LType)) (count : Nat) (σ σ' : CGState) (u : Unit),
      allocaArgs f Args as count σ = .ok (u, σ') →
      as = [] ∨ count + as.length ≤ Args.length
  | [], count, σ, σ', u, h => Or.inl rfl
  | (argName, argTy) :: rest, count, σ, σ', u, h => by
    simp only [allocaArgs] at h
    split at h
    · simp at h
    · rename_i entry hget
      have hlt : count < Args.length := by
        by_contra hge
        rw [List.get?_eq_none.mpr (by omega)] at hget
        cases hget
      split at h
      · simp at h
      · split at h
        · simp at h
        · refine Or.inr ?_
          rcases allocaArgs_length f Args rest (count + 1) _ σ' u h with hnil | hle
          · rw [hnil]
            simp only [List.length_cons, List.length_nil]
            omega
          · simp only [List.length_cons]
            omega

/-- The prologue of a function definition over a function that the module already has: the
arguments of that function drive the loop. -/
theorem functionDef_existing (Name Type_ : String) (Args : List ASTnode) (Body : ASTnode)
    (b : Nat) (σ : CGState) (fn : Function) (ps : List (String × String))
    (hps : paramsOf Args = some ps) (hfn : σ.getFunction Name = some fn) :
    codegen (.FunctionDefASTnode (.FunctionPrototypeASTnode Name Type_ Args) Body) b σ =
      match allocaArgs fn.name ps fn.args 0
          { (({ σ with NamedValuesArray := [[]] } : CGState).createBlock "entry"
              (some fn.name)).2 with
            insertBlock := some σ.blocks.length } with
      | .error e => .error e
      | .ok (_, σ2) =>
        if Body.isBlockPtr then
          match codegen Body 0 σ2 with
          | .error e => .error e
          | .ok (none, σ3) => .ok (some (.function fn.name), σ3)
          | .ok (some RetVal, σ3) =>
            if Type_ = "void" then
              .ok (some (.function fn.name), (σ3.emit "" (.ret none)).2)
            else .ok (some (.function fn.name), (σ3.emit "" (.ret (some RetVal))).2)
        else .error .illTyped := by
  have hg : ({ σ with NamedValuesArray := [[]] } : CGState).getFunction Name = some fn := hfn
  have hname := getFunction_name hfn
  have hargs : ((({ σ with NamedValuesArray := [[]] } : CGState).createBlock "entry"
      (some fn.name)).2.getFunction fn.name |>.map (fun fn => fn.args) |>.getD []) =
      fn.args := by
    rw [getFunction_createBlock_args, hname, hg]
    rfl
  simp only [codegen, ASTnode.isNull, ASTnode.prototypeFields, hps, hg, Bool.false_eq_true,
    ↓reduceIte]
  rw [hargs]
  rfl

/-- **C36** (the index passed to `getArgType`), evaluated on the code.
`FunctionDefASTnode::codegen` runs its loop over the arguments of `TheFunction`, the function
that `TheModule->getFunction` found under the name, and reads `Prototype->getArgType(count)`
from the parameter list of the definition.
* The loop reads `Args[count]` for the argument number `count`: with `count` past the end of
  the parameter list the access is out of range; the loop ends well only if the parameter list
  has an entry for every argument.
* For every definition with the empty parameter list over a function in the module that has an
  argument, the first access `Args[0]` is out of range.
* `extern int f(int a); int f() \x7b return 0; \x7d`: lowering the definition reads `Args[0]`
  of its empty parameter list. -/
theorem prototype_args_index :
    (∀ (f : String) (Args : List (String × String)) (a : String × LType)
        (rest : List (String × LType)) (count : Nat) (σ : CGState),
      Args.length ≤ count → allocaArgs f Args (a :: rest) count σ = .error .outOfRange) ∧
    (∀ (f : String) (Args : List (String × String)) (as : List (String × LType))
        (σ σ' : CGState) (u : Unit),
      allocaArgs f Args as 0 σ = .ok (u, σ') → as.length ≤ Args.length) ∧
    (∀ (Name Type_ : String) (Body : ASTnode) (b : Nat) (σ : CGState) (fn : Function),
      σ.getFunction Name = some fn → fn.args ≠ [] →
      codegen (.FunctionDefASTnode (.FunctionPrototypeASTnode Name Type_ []) Body) b σ =
        .error .outOfRange) ∧
    (∃ σ1, codegenExterns [.ExternASTnode "f" "int" [.FunctionParamASTnode "a" "int"]]
        CGState.init = .ok ((), σ1) ∧
      (σ1.getFunction "f").map (fun fn => fn.args) = some [("a", .i32)]) ∧
    codegen redefineFewer 0 CGState.init = .error .outOfRange := by
  refine ⟨?_, ?_, ?_, ⟨_, rfl, rfl⟩, rfl⟩
  · intro f Args a rest count σ hle
    obtain ⟨argName, argTy⟩ := a
    simp only [allocaArgs, List.get?_eq_none.mpr hle]
  · intro f Args as σ σ' u h
    rcases allocaArgs_length f Args as 0 σ σ' u h with hnil | hle
    · rw [hnil]
      exact Nat.zero_le _
    · omega
  · intro Name Type_ Body b σ fn hfn hne
    rw [functionDef_existing Name Type_ [] Body b σ fn [] rfl hfn]
    obtain ⟨a, rest, hargs⟩ := List.exists_cons_of_ne_nil hne
    obtain ⟨argName, argTy⟩ := a
    rw [hargs]
    simp only [allocaArgs, List.get?_nil]

/-! ### Relations that every step of the code generator keeps -/

theorem closed_create {R : CGState → CGState → Prop} (hR : CodegenClosed R) (σ : CGState)
    (n : String) (k : InstrKind) (ty : LType) (hk : k.isAlloca = false) :
    R σ (σ.create n k ty).2 := hR.emitStep σ n k hk

theorem VariableASTnode_codegen_closed {R : CGState → CGState → Prop} (hR : CodegenClosed R)
    {Name : String} {b : Nat} {σ σ' : CGState} {v : Option Value}
    (h : VariableASTnode_codegen Name b σ = .ok (v, σ')) : R σ σ' := by
  unfold VariableASTnode_codegen at h
  split at h
  · simp at h
  · simp only [Except.ok.injEq, Prod.mk.injEq, create_snd] at h
    rw [← h.2]; exact hR.emitStep _ _ _ rfl
  · split at h
    · split at h
      · simp only [Except.ok.injEq, Prod.mk.injEq, create_snd] at h
        rw [← h.2]; exact hR.emitStep _ _ _ rfl
      · simp at h
    · simp at h

theorem assignTo_closed {R : CGState → CGState → Prop} (hR : CodegenClosed R)
    {Name : String} {val : Value} {b : Nat} {σ σ' : CGState} {v : Option Value}
    (h : assignTo Name val b σ = .ok (v, σ')) : R σ σ' := by
  unfold assignTo at h
  split at h
  · simp at h
  · split at h
    · simp only [Except.ok.injEq, Prod.mk.injEq] at h
      rw [← h.2]; exact hR.emitStep _ _ _ rfl
    · simp at h
  · split at h
    · split at h
      · simp only [Except.ok.injEq, Prod.mk.injEq, create_snd] at h
        rw [← h.2]
        refine hR.chain _ _ _ ?_ (hR.emitStep _ _ _ rfl)
        exact hR.emitStep _ _ _ rfl
      · split at h
        · simp only [Except.ok.injEq, Prod.mk.injEq, create_snd] at h
          rw [← h.2]
          refine hR.chain _ _ _ ?_ (hR.emitStep _ _ _ rfl)
          exact hR.emitStep _ _ _ rfl
        · simp only [Except.ok.injEq, Prod.mk.injEq] at h
          rw [← h.2]; exact hR.emitStep _ _ _ rfl
    · simp only [Except.ok.injEq, Prod.mk.injEq] at h
      rw [← h.2]; exact hR.emitStep _ _ _ rfl

theorem emitOperator_closed {R : CGState → CGState → Prop} (hR : CodegenClosed R)
    {e : Option (Opcode × String × Option LType)} {L R' : Value}
    {σ σ' : CGState} {v : Option Value} (h : emitOperator e L R' σ = .ok (v, σ')) :
    R σ σ' := by
  unfold emitOperator at h
  split at h
  · simp at h
  · simp only [Except.ok.injEq, Prod.mk.injEq, create_snd] at h
    rw [← h.2]; exact hR.emitStep _ _ _ rfl

theorem combineOperands_closed {R : CGState → CGState → Prop} (hR : CodegenClosed R)
    {Op : String} {L R' : Value} {σ σ' : CGState} {v : Option Value}
    (h : combineOperands Op L R' σ = .ok (v, σ')) : R σ σ' := by
  unfold combineOperands at h
  split at h
  · split at h
    · refine hR.chain _ _ _ ?_ (emitOperator_closed hR h)
      exact hR.emitStep _ _ _ rfl
    · split at h
      · refine hR.chain _ _ _ ?_ (emitOperator_closed hR h)
        exact hR.emitStep _ _ _ rfl
      · exact emitOperator_closed hR h
  · exact emitOperator_closed hR h

theorem applyUnary_closed {R : CGState → CGState → Prop} (hR : CodegenClosed R)
    {Op : String} {Operand : Value} {σ σ' : CGState} {v : Option Value}
    (h : applyUnary Op Operand σ = .ok (v, σ')) : R σ σ' := by
  unfold applyUnary at h
  split_ifs at h <;>
    first
    | (simp only [Except.ok.injEq, Prod.mk.injEq, create_snd] at h
       rw [← h.2]
       first
       | exact hR.emitStep _ _ _ rfl
       | exact hR.stay _)

theorem VariableDeclarationASTnode_codegen_closed {R : CGState → CGState → Prop}
    (hR : CodegenClosed R) {Name Type_ : String} {b : Nat} {σ σ' : CGState}
    {v : Option Value} (h : VariableDeclarationASTnode_codegen Name Type_ b σ = .ok (v, σ')) :
    R σ σ' := by
  unfold VariableDeclarationASTnode_codegen at h
  split at h
  · split at h
    · simp at h
    · simp only [Except.ok.injEq, Prod.mk.injEq] at h
      rw [← h.2]; exact hR.globalStep _ _ _ _
  · split at h
    · simp at h
    · split at h
      · simp at h
      · rename_i Variable σ1 h1
        split at h
        · simp at h
        · rename_i u σ2 h2
          simp only [Except.ok.injEq, Prod.mk.injEq] at h
          rw [← h.2]
          refine hR.chain _ _ _ (hR.allocaStep _ _ _ _ _ _ h1) ?_
          unfold setNamedValue at h2
          split at h2
          · simp only [Except.ok.injEq, Prod.mk.injEq] at h2
            rw [← h2.2]; exact hR.framesStep _ _
          · simp at h2

theorem setNamedValue_closed {R : CGState → CGState → Prop} (hR : CodegenClosed R)
    {n : String} {a : AllocaInst} {b : Nat} {σ σ' : CGState} {u : Unit}
    (h : setNamedValue n a b σ = .ok (u, σ')) : R σ σ' := by
  unfold setNamedValue at h
  split at h
  · simp only [Except.ok.injEq, Prod.mk.injEq] at h
    rw [← h.2]; exact hR.framesStep _ _
  · simp at h

theorem allocaArgs_closed {R : CGState → CGState → Prop} (hR : CodegenClosed R) (f : String)
    (Args : List (String × String)) :
    ∀ (as : List (String × LType)) (count : Nat) (σ σ' : CGState) (u : Unit),
      allocaArgs f Args as count σ = .ok (u, σ') → R σ σ'
  | [], count, σ, σ', u, h => by
    simp only [allocaArgs, Except.ok.injEq, Prod.mk.injEq] at h
    rw [← h.2]; exact hR.stay _
  | (argName, argTy) :: rest, count, σ, σ', u, h => by
    simp only [allocaArgs] at h
    split at h
    · simp at h
    · split at h
      · simp at h
      · rename_i Alloca σ1 h1
        split at h
        · simp at h
        · rename_i u2 σ2 h2
          refine hR.chain _ _ _ (hR.allocaStep _ _ _ _ _ _ h1)
            (hR.chain _ _ _ ?_
              (hR.chain _ _ _ (setNamedValue_closed hR h2)
                (allocaArgs_closed hR f Args rest (count + 1) σ2 σ' u h)))
          exact hR.emitStep _ _ _ rfl

theorem codegenDecls_closed {R : CGState → CGState → Prop} (hR : CodegenClosed R) :
    ∀ (ds : List ASTnode) (b : Nat) (r r' : Option (Option Value)) (σ σ' : CGState),
      codegenDecls ds b r σ = .ok (r', σ') → R σ σ'
  | [], b, r, r', σ, σ', h => by
    simp only [codegenDecls, Except.ok.injEq, Prod.mk.injEq] at h
    rw [← h.2]; exact hR.stay _
  | d :: rest, b, r, r', σ, σ', h => by
    cases d <;> simp only [codegenDecls] at h <;> try (exact absurd h (by simp))
    rename_i Name Type_
    split at h
    · simp at h
    · rename_i v σ1 h1
      exact hR.chain _ _ _ (VariableDeclarationASTnode_codegen_closed hR h1)
        (codegenDecls_closed hR rest b _ r' σ1 σ' h)

theorem codegenExterns_closed {R : CGState → CGState → Prop} (hR : CodegenClosed R) :
    ∀ (es : List ASTnode) (σ σ' : CGState) (u : Unit),
      codegenExterns es σ = .ok (u, σ') → R σ σ'
  | [], σ, σ', u, h => by
    simp only [codegenExterns, Except.ok.injEq, Prod.mk.injEq] at h
    rw [← h.2]; exact hR.stay _
  | e :: rest, σ, σ', u, h => by
    cases e <;> simp only [codegenExterns] at h <;> try (exact absurd h (by simp))
    split at h
    · simp at h
    · split at h
      · simp at h
      · rename_i f σ1 h1
        exact hR.chain _ _ _ (hR.functionStep _ _ _ _ _ _ h1)
          (codegenExterns_closed hR rest σ1 σ' u h)

mutual
/-- A relation that every state change of the code generator keeps holds between the states
before and after every successful `codegen` call, whatever the tree is. -/
theorem codegen_closed {R : CGState → CGState → Prop} (hR : CodegenClosed R) :
    ∀ (n : ASTnode) (b : Nat) (σ σ' : CGState) (v : Option Value),
      codegen n b σ = .ok (v, σ') → R σ σ'
  | .null, b, σ, σ', v, h => by simp [codegen] at h
  | .IntASTnode _, b, σ, σ', v, h => by
    simp only [codegen, Except.ok.injEq, Prod.mk.injEq] at h
    rw [← h.2]; exact hR.stay _
  | .FloatASTnode _, b, σ, σ', v, h => by
    simp only [codegen, Except.ok.injEq, Prod.mk.injEq] at h
    rw [← h.2]; exact hR.stay _
  | .BoolASTnode _, b, σ, σ', v, h => by
    simp only [codegen, Except.ok.injEq, Prod.mk.injEq] at h
    rw [← h.2]; exact hR.stay _
  | .VariableASTnode _, b, σ, σ', v, h => by
    simp only [codegen] at h
    exact VariableASTnode_codegen_closed hR h
  | .VariableAssignmentASTnode Variable Val, b, σ, σ', v, h => by
    simp only [codegen] at h
    split at h
    · simp at h
    · split at h
      · simp at h
      · split at h
        · simp at h
        · rename_i σ1 h1
          simp only [Except.ok.injEq, Prod.mk.injEq] at h
          rw [← h.2]; exact codegen_closed hR Val b σ σ1 _ h1
        · rename_i val σ1 h1
          exact hR.chain _ _ _ (codegen_closed hR Val b σ σ1 _ h1) (assignTo_closed hR h)
  | .VariableDeclarationASTnode _ _, b, σ, σ', v, h => by
    simp only [codegen] at h
    exact VariableDeclarationASTnode_codegen_closed hR h
  | .BlockASTnode Declarations Statements, b, σ, σ', v, h => by
    simp only [codegen] at h
    split at h
    · simp at h
    · rename_i r σ1 h1
      split at h
      · simp at h
      · simp at h
      · rename_i v2 σ2 h2
        simp only [Except.ok.injEq, Prod.mk.injEq] at h
        rw [← h.2]
        exact hR.chain _ _ _ (codegenDecls_closed hR _ _ _ _ _ _ h1)
          (codegenSeq_closed hR Statements b r _ σ1 σ2 h2)
  | .BinaryASTnode Op LHS RHS, b, σ, σ', v, h => by
    simp only [codegen] at h
    split at h
    · simp at h
    · rename_i L σ1 h1
      split at h
      · simp at h
      · rename_i R' σ2 h2
        have s12 := hR.chain _ _ _ (codegen_closed hR LHS b σ σ1 L h1)
          (codegen_closed hR RHS b σ1 σ2 R' h2)
        split at h
        · exact hR.chain _ _ _ s12 (combineOperands_closed hR h)
        · simp only [Except.ok.injEq, Prod.mk.injEq] at h
          rw [← h.2]; exact s12
  | .UnaryASTnode Op Val, b, σ, σ', v, h => by
    simp only [codegen] at h
    split at h
    · simp at h
    · simp at h
    · rename_i Operand σ1 h1
      exact hR.chain _ _ _ (codegen_closed hR Val b σ σ1 _ h1) (applyUnary_closed hR h)
  | .CallASTnode CallFunc Args, b, σ, σ', v, h => by
    simp only [codegen] at h
    split at h
    · simp at h
    · split at h
      · simp at h
      · split at h
        · simp at h
        · rename_i σ1 h1
          simp only [Except.ok.injEq, Prod.mk.injEq] at h
          rw [← h.2]; exact codegenArgs_closed hR Args b [] _ σ σ1 h1
        · rename_i func_args σ1 h1
          simp only [Except.ok.injEq, Prod.mk.injEq, create_snd] at h
          rw [← h.2]
          exact hR.chain _ _ _ (codegenArgs_closed hR Args b [] _ σ σ1 h1)
            (hR.emitStep _ _ _ rfl)
  | .FunctionParamASTnode _ _, b, σ, σ', v, h => by
    simp only [codegen, Except.ok.injEq, Prod.mk.injEq] at h
    rw [← h.2]; exact hR.stay _
  | .FunctionPrototypeASTnode Name Type_ Args, b, σ, σ', v, h => by
    simp only [codegen] at h
    split at h
    · simp at h
    · split at h
      · simp at h
      · rename_i F σ1 h1
        simp only [Except.ok.injEq, Prod.mk.injEq] at h
        rw [← h.2]; exact hR.functionStep _ _ _ _ _ _ h1
  | .ExternASTnode Name Type_ Params, b, σ, σ', v, h => by
    simp only [codegen] at h
    split at h
    · simp at h
    · split at h
      · simp at h
      · rename_i F σ1 h1
        simp only [Except.ok.injEq, Prod.mk.injEq] at h
        rw [← h.2]; exact hR.functionStep _ _ _ _ _ _ h1
  | .FunctionDefASTnode Prototype Body, b, σ, σ', v, h => by
    simp only [codegen] at h
    split at h
    · simp at h
    · split at h
      · simp at h
      · split at h
        · simp at h
        · rename_i ps hps
          split at h
          · simp at h
          · rename_i TheFunction σ1 h1
            have s1 : R σ σ1 := by
              split at h1
              · simp only [Except.ok.injEq, Prod.mk.injEq] at h1
                rw [← h1.2]; exact hR.framesStep _ _
              · exact hR.chain _ _ _ (hR.framesStep _ _) (hR.functionStep _ _ _ _ _ _ h1)
            split at h
            · simp at h
            · rename_i u σ2 h2
              have s2 : R σ σ2 :=
                hR.chain _ _ _ s1 (hR.chain _ _ _ (hR.blockStep _ _ _)
                  (hR.chain _ _ _ (hR.insertStep _ _)
                    (allocaArgs_closed hR _ _ _ _ _ _ _ h2)))
              split at h
              · split at h
                · simp at h
                · rename_i σ3 h3
                  simp only [Except.ok.injEq, Prod.mk.injEq] at h
                  rw [← h.2]
                  exact hR.chain _ _ _ s2 (codegen_closed hR Body 0 σ2 σ3 _ h3)
                · rename_i RetVal σ3 h3
                  have s3 := hR.chain _ _ _ s2 (codegen_closed hR Body 0 σ2 σ3 _ h3)
                  split at h
                  · simp only [Except.ok.injEq, Prod.mk.injEq] at h
                    rw [← h.2]
                    exact hR.chain _ _ _ s3 (hR.emitStep _ _ _ rfl)
                  · simp only [Except.ok.injEq, Prod.mk.injEq] at h
                    rw [← h.2]
                    exact hR.chain _ _ _ s3 (hR.emitStep _ _ _ rfl)
              · simp at h
  | .IfExprASTnode Cond Then Else, b, σ, σ', v, h => by
    simp only [codegen] at h
    split at h
    · simp at h
    · rename_i TheFunction hp
      split at h
      · simp at h
      · simp at h
      · rename_i cond σ1 h1
        have s1 : R σ σ1 :=
          hR.chain _ _ _ (hR.framesStep _ _) (hR.chain _ _ _ (hR.blockStep _ _ _)
            (hR.chain _ _ _ (hR.blockStep _ _ _) (hR.chain _ _ _ (hR.blockStep _ _ _)
              (codegen_closed hR Cond (b + 1) _ σ1 _ h1))))
        split at h
        · split at h
          · split at h
            · simp at h
            · rename_i w σ2 h2
              simp only [create_snd, create_fst] at h2
              have s2 := codegen_closed hR Then (b + 1) _ σ2 _ h2
              split at h
              · simp at h
              · rename_i u σ3 h3
                split at h
                · simp only [Except.ok.injEq, Prod.mk.injEq] at h
                  rw [← h.2]
                  have e1 := hR.emitStep σ1 "ifcond" (.op .ICmpNE [cond, .constInt 1 0] .i1) rfl
                  have e2 := hR.emitStep (σ1.emit "ifcond"
                    (.op .ICmpNE [cond, .constInt 1 0] .i1)).2 ""
                    (.condBr (.inst σ1.nextId .i1) σ.blocks.length (σ.blocks.length + 2)) rfl
                  have e3 := hR.insertStep ((σ1.emit "ifcond"
                    (.op .ICmpNE [cond, .constInt 1 0] .i1)).2.emit ""
                    (.condBr (.inst σ1.nextId .i1) σ.blocks.length
                      (σ.blocks.length + 2))).2 σ.blocks.length
                  have e4 := hR.pushStep _ _ _ _ _ h3
                  have e5 := hR.emitStep σ3 "" (.br (σ.blocks.length + 2)) rfl
                  have e6 := hR.insertStep (σ3.emit "" (.br (σ.blocks.length + 2))).2
                    (σ.blocks.length + 2)
                  have e7 := hR.framesStep
                    { (σ3.emit "" (.br (σ.blocks.length + 2))).2 with
                      insertBlock := some (σ.blocks.length + 2) }
                    (σ3.NamedValuesArray.take (b + 1))
                  exact hR.chain _ _ _ s1 (hR.chain _ _ _ e1 (hR.chain _ _ _ e2
                    (hR.chain _ _ _ e3 (hR.chain _ _ _ s2 (hR.chain _ _ _ e4
                      (hR.chain _ _ _ e5 (hR.chain _ _ _ e6 e7)))))))
                · simp at h
          · split at h
            · simp at h
            · rename_i w σ2 h2
              simp only [create_snd, create_fst] at h2
              have s2 := codegen_closed hR Then (b + 1) _ σ2 _ h2
              split at h
              · simp at h
              · rename_i u σ3 h3
                split at h
                · simp at h
                · rename_i w4 σ4 h4
                  have s4 := codegen_closed hR Else (b + 1) _ σ4 _ h4
                  split at h
                  · simp at h
                  · rename_i u5 σ5 h5
                    split at h
                    · simp only [Except.ok.injEq, Prod.mk.injEq] at h
                      rw [← h.2]
                      have e1 := hR.emitStep σ1 "ifcond"
                        (.op .ICmpNE [cond, .constInt 1 0] .i1) rfl
                      have e2 := hR.emitStep (σ1.emit "ifcond"
                        (.op .ICmpNE [cond, .constInt 1 0] .i1)).2 ""
                        (.condBr (.inst σ1.nextId .i1) σ.blocks.length (σ.blocks.length + 1))
                        rfl
                      have e3 := hR.insertStep ((σ1.emit "ifcond"
                        (.op .ICmpNE [cond, .constInt 1 0] .i1)).2.emit ""
                        (.condBr (.inst σ1.nextId .i1) σ.blocks.length
                          (σ.blocks.length + 1))).2 σ.blocks.length
                      have e4 := hR.emitStep σ2 "" (.br (σ.blocks.length + 2)) rfl
                      have e5 := hR.pushStep _ _ _ _ _ h3
                      have e6 := hR.insertStep σ3 (σ.blocks.length + 1)
                      have e7 := hR.pushStep _ _ _ _ _ h5
                      have e8 := hR.emitStep σ5 "" (.br (σ.blocks.length + 2)) rfl
                      have e9 := hR.insertStep (σ5.emit "" (.br (σ.blocks.length + 2))).2
                        (σ.blocks.length + 2)
                      have e10 := hR.framesStep
                        { (σ5.emit "" (.br (σ.blocks.length + 2))).2 with
                          insertBlock := some (σ.blocks.length + 2) }
                        (σ5.NamedValuesArray.take (b + 1))
                      exact hR.chain _ _ _ s1 (hR.chain _ _ _ e1 (hR.chain _ _ _ e2
                        (hR.chain _ _ _ e3 (hR.chain _ _ _ s2 (hR.chain _ _ _ e4
                          (hR.chain _ _ _ e5 (hR.chain _ _ _ e6 (hR.chain _ _ _ s4
                            (hR.chain _ _ _ e7 (hR.chain _ _ _ e8
                              (hR.chain _ _ _ e9 e10)))))))))))
                    · simp at h
        · simp at h
  | .WhileExprASTnode Cond Then, b, σ, σ', v, h => by
    simp only [codegen] at h
    split at h
    · simp at h
    · rename_i TheFunction hp
      split at h
      · simp at h
      · simp at h
      · rename_i cond σ1 h1
        have s1 : R σ σ1 :=
          hR.chain _ _ _ (hR.framesStep _ _) (hR.chain _ _ _ (hR.blockStep _ _ _)
            (hR.chain _ _ _ (hR.blockStep _ _ _) (hR.chain _ _ _ (hR.blockStep _ _ _)
              (hR.chain _ _ _ (hR.emitStep _ "" (.br σ.blocks.length) (by rfl))
                (hR.chain _ _ _ (hR.insertStep _ _)
                  (codegen_closed hR Cond (b + 1) _ σ1 _ h1))))))
        split at h
        · simp at h
        · rename_i u σ2 h2
          simp only [create_snd, create_fst] at h2
          split at h
          · simp at h
          · rename_i w σ3 h3
            have s3 := codegen_closed hR Then (b + 1) _ σ3 _ h3
            split at h
            · simp at h
            · rename_i u4 σ4 h4
              simp only [Except.ok.injEq, Prod.mk.injEq] at h
              rw [← h.2]
              have e1 := hR.emitStep σ1 "whilecond"
                (.op .ICmpNE [cond, .constInt 1 0] .i1) rfl
              have e2 := hR.emitStep (σ1.emit "whilecond"
                (.op .ICmpNE [cond, .constInt 1 0] .i1)).2 ""
                (.condBr (.inst σ1.nextId .i1) (σ.blocks.length + 1) (σ.blocks.length + 2))
                rfl
              have e3 := hR.pushStep _ _ _ _ _ h2
              have e4 := hR.insertStep σ2 (σ.blocks.length + 1)
              have e5 := hR.emitStep σ3 "" (.br σ.blocks.length) rfl
              have e6 := hR.pushStep _ _ _ _ _ h4
              have e7 := hR.emitStep σ4 "" (.br (σ.blocks.length + 2)) rfl
              have e8 := hR.insertStep (σ4.emit "" (.br (σ.blocks.length + 2))).2
                (σ.blocks.length + 2)
              exact hR.chain _ _ _ s1 (hR.chain _ _ _ e1 (hR.chain _ _ _ e2
                (hR.chain _ _ _ e3 (hR.chain _ _ _ e4 (hR.chain _ _ _ s3
                  (hR.chain _ _ _ e5 (hR.chain _ _ _ e6 (hR.chain _ _ _ e7 e8))))))))
  | .ReturnExprASTnode ReturnValue, b, σ, σ', v, h => by
    simp only [codegen] at h
    split at h
    · simp only [Except.ok.injEq, Prod.mk.injEq, create_snd] at h
      rw [← h.2]; exact hR.emitStep _ _ _ rfl
    · split at h
      · simp at h
      · simp at h
      · rename_i return_val σ1 h1
        simp only [Except.ok.injEq, Prod.mk.injEq] at h
        rw [← h.2]
        exact hR.chain _ _ _ (codegen_closed hR ReturnValue b σ σ1 _ h1)
          (hR.emitStep _ _ _ rfl)
  | .RootASTnode Ext_List Decl_List, b, σ, σ', v, h => by
    simp only [codegen] at h
    split at h
    · simp at h
    · rename_i u σ1 h1
      split at h
      · simp at h
      · rename_i r σ2 h2
        simp only [Except.ok.injEq, Prod.mk.injEq] at h
        rw [← h.2]
        exact hR.chain _ _ _ (codegenExterns_closed hR _ _ _ _ h1)
          (codegenSeq_closed hR Decl_List b none _ σ1 σ2 h2)
theorem codegenSeq_closed {R : CGState → CGState → Prop} (hR : CodegenClosed R) :
    ∀ (ss : List ASTnode) (b : Nat) (r r' : Option (Option Value)) (σ σ' : CGState),
      codegenSeq ss b r σ = .ok (r', σ') → R σ σ'
  | [], b, r, r', σ, σ', h => by
    simp only [codegenSeq, Except.ok.injEq, Prod.mk.injEq] at h
    rw [← h.2]; exact hR.stay _
  | s :: rest, b, r, r', σ, σ', h => by
    simp only [codegenSeq] at h
    split at h
    · simp at h
    · rename_i v σ1 h1
      exact hR.chain _ _ _ (codegen_closed hR s b σ σ1 v h1)
        (codegenSeq_closed hR rest b _ r' σ1 σ' h)
theorem codegenArgs_closed {R : CGState → CGState → Prop} (hR : CodegenClosed R) :
    ∀ (as : List ASTnode) (b : Nat) (acc : List Value) (r : Option (List Value))
      (σ σ' : CGState), codegenArgs as b acc σ = .ok (r, σ') → R σ σ'
  | [], b, acc, r, σ, σ', h => by
    simp only [codegenArgs, Except.ok.injEq, Prod.mk.injEq] at h
    rw [← h.2]; exact hR.stay _
  | a :: rest, b, acc, r, σ, σ', h => by
    simp only [codegenArgs] at h
    split at h
    · simp at h
    · rename_i σ1 h1
      simp only [Except.ok.injEq, Prod.mk.injEq] at h
      rw [← h.2]; exact codegen_closed hR a b σ σ1 _ h1
    · rename_i val σ1 h1
      exact hR.chain _ _ _ (codegen_closed hR a b σ σ1 _ h1)
        (codegenArgs_closed hR rest b _ r σ1 σ' h)
end

/-! ### Allocations in the entry block -/

theorem allocasFirst_snoc : ∀ (l : List Instr) (x : Instr), allocasFirst l = true →
    x.kind.isAlloca = false → allocasFirst (l ++ [x]) = true
  | [], x, _, hx => by
    simp [allocasFirst, List.dropWhile, hx]
  | a :: l, x, h, hx => by
    by_cases ha : a.kind.isAlloca = true
    · have h' : allocasFirst l = true := by
        simpa [allocasFirst, List.dropWhile, ha] using h
      have := allocasFirst_snoc l x h' hx
      simpa [allocasFirst, List.dropWhile, ha] using this
    · simp only [Bool.not_eq_true] at ha
      simp only [allocasFirst, List.dropWhile, ha, List.all_cons, Bool.not_false, Bool.true_and,
        List.cons_append, List.all_append, List.all_nil, Bool.and_true, Bool.and_eq_true,
        Bool.not_eq_eq_eq_not, Bool.not_true] at h ⊢
      rw [List.append_eq, List.all_append, h]
      simp [hx]

theorem allocasFirst_cons (l : List Instr) (x : Instr) (hx : x.kind.isAlloca = true) :
    allocasFirst (x :: l) = allocasFirst l := by
  simp [allocasFirst, List.dropWhile, hx]

theorem any_alloca_snoc (l : List Instr) (x : Instr) (hx : x.kind.isAlloca = false) :
    (l ++ [x]).any (fun i => i.kind.isAlloca) = l.any (fun i => i.kind.isAlloca) := by
  simp [List.any_append, hx]

theorem isEntry_iff (σ : CGState) (i : Nat) :
    σ.isEntry i = true ↔ ∃ fn ∈ σ.functions, fn.blocks.head? = some i := by
  unfold CGState.isEntry
  rw [List.any_eq_true]
  constructor
  · rintro ⟨fn, hm, hh⟩
    exact ⟨fn, hm, by simpa using hh⟩
  · rintro ⟨fn, hm, hh⟩
    exact ⟨fn, hm, by simpa using hh⟩

theorem isEntry_map (σ σ' : CGState) (g : Function → Function)
    (hg : ∀ fn i, fn.blocks.head? = some i → (g fn).blocks.head? = some i)
    (hf : σ'.functions = σ.functions.map g) (i : Nat) (h : σ.isEntry i = true) :
    σ'.isEntry i = true := by
  rw [isEntry_iff] at h ⊢
  obtain ⟨fn, hm, hh⟩ := h
  exact ⟨g fn, by rw [hf]; exact List.mem_map_of_mem g hm, hg fn i hh⟩

theorem head?_snoc_of_head? (l : List Nat) (x i : Nat) (h : l.head? = some i) :
    (l ++ [x]).head? = some i := by
  cases l with
  | nil => simp at h
  | cons a l => simpa using h

theorem hoisted_emit (σ : CGState) (n : String) (k : InstrKind) (hk : k.isAlloca = false)
    (h : σ.Hoisted) : (σ.emit n k).2.Hoisted := by
  intro i bb hb
  have hfun : (σ.emit n k).2.isEntry i = σ.isEntry i := by
    unfold CGState.isEntry
    rw [emit_functions]
  rw [hfun]
  cases hib : σ.insertBlock with
  | none =>
    have hbl : (σ.emit n k).2.blocks = σ.blocks := by
      unfold CGState.emit; rw [hib]
    rw [hbl] at hb
    exact h i bb hb
  | some blk =>
    rw [emit_blocks σ n k blk hib] at hb
    by_cases hi : i = blk
    · subst hi
      rw [updateAt_get_eq] at hb
      cases hb0 : σ.blocks.get? i with
      | none => rw [hb0] at hb; simp at hb
      | some bb0 =>
        rw [hb0] at hb
        simp only [Option.map_some', Option.some.injEq] at hb
        obtain ⟨h1, h2⟩ := h i bb0 hb0
        rw [← hb]
        refine ⟨allocasFirst_snoc _ _ h1 hk, fun ha => h2 ?_⟩
        simp only [BasicBlock.hasAlloca] at ha ⊢
        rw [any_alloca_snoc _ _ hk] at ha
        exact ha
    · rw [updateAt_get_ne _ _ _ _ hi] at hb
      exact h i bb hb

theorem hoisted_alloca {σ σ' : CGState} {f : Option String} {n t : String} {a : AllocaInst}
    (h1 : CreateEntryBlockAlloca f n t σ = .ok (a, σ')) (h : σ.Hoisted) : σ'.Hoisted := by
  unfold CreateEntryBlockAlloca at h1
  split at h1
  · simp at h1
  · rename_i ty hty
    split at h1
    · simp at h1
    · rename_i fname
      split at h1
      · simp at h1
      · rename_i fn hfn
        split at h1
        · simp at h1
        · rename_i entry hentry
          simp only [Except.ok.injEq, Prod.mk.injEq] at h1
          rw [← h1.2]
          intro i bb hb
          have hfun : ∀ j, CGState.isEntry { σ with
              nextId := σ.nextId + 1,
              blocks := updateAt
                (fun bb => { bb with instrs := ⟨σ.nextId, n, .alloca ty⟩ :: bb.instrs })
                entry σ.blocks } j = σ.isEntry j := fun j => rfl
          rw [hfun]
          simp only at hb
          by_cases hi : i = entry
          · subst hi
            rw [updateAt_get_eq] at hb
            cases hb0 : σ.blocks.get? i with
            | none => rw [hb0] at hb; simp at hb
            | some bb0 =>
              rw [hb0] at hb
              simp only [Option.map_some', Option.some.injEq] at hb
              rw [← hb]
              refine ⟨?_, fun _ => ?_⟩
              · rw [allocasFirst_cons bb0.instrs ⟨σ.nextId, n, .alloca ty⟩ rfl]
                exact (h i bb0 hb0).1
              · rw [isEntry_iff]
                refine ⟨fn, ?_, hentry⟩
                unfold CGState.getFunction at hfn
                exact List.mem_of_find?_eq_some hfn
          · rw [updateAt_get_ne _ _ _ _ hi] at hb
            exact h i bb hb

theorem hoisted_createBlock (σ : CGState) (n : String) (p : Option String) (h : σ.Hoisted) :
    (σ.createBlock n p).2.Hoisted := by
  intro i bb hb
  have hent : ∀ j, σ.isEntry j = true → (σ.createBlock n p).2.isEntry j = true := by
    intro j hj
    cases p with
    | none => exact hj
    | some f =>
      refine isEntry_map σ _
        (fun fn => if fn.name = f then { fn with blocks := fn.blocks ++ [σ.blocks.length] }
          else fn) ?_ rfl j hj
      intro fn i0 hh
      dsimp only
      split
      · exact head?_snoc_of_head? _ _ _ hh
      · exact hh
  have hbl : (σ.createBlock n p).2.blocks = σ.blocks ++ [⟨n, p, []⟩] := by
    cases p <;> rfl
  rw [hbl, List.get?_eq_getElem?] at hb
  by_cases hi : i < σ.blocks.length
  · rw [List.getElem?_append_left hi, ← List.get?_eq_getElem?] at hb
    exact ⟨(h i bb hb).1, fun ha => hent i ((h i bb hb).2 ha)⟩
  · have hge : σ.blocks.length ≤ i := by omega
    rw [List.getElem?_append_right hge] at hb
    cases hd : i - σ.blocks.length with
    | zero =>
      rw [hd] at hb
      simp only [List.getElem?_cons_zero, Option.some.injEq] at hb
      rw [← hb]
      exact ⟨rfl, fun ha => by simp [BasicBlock.hasAlloca] at ha⟩
    | succ d =>
      rw [hd] at hb
      simp at hb

theorem hoisted_pushBlock {σ σ' : CGState} {f : Option String} {blk : Nat} {u : Unit}
    (h1 : σ.pushBlock f blk = .ok (u, σ')) (h : σ.Hoisted) : σ'.Hoisted := by
  unfold CGState.pushBlock at h1
  cases f with
  | none => simp at h1
  | some f =>
    simp only [Except.ok.injEq, Prod.mk.injEq] at h1
    rw [← h1.2]
    intro i bb hb
    have hent : ∀ j, σ.isEntry j = true → CGState.isEntry { σ with
        blocks := updateAt (fun bb => { bb with parent := some f }) blk σ.blocks,
        functions := σ.functions.map
          (fun fn => if fn.name = f then { fn with blocks := fn.blocks ++ [blk] } else fn) }
        j = true := by
      intro j hj
      refine isEntry_map σ _
        (fun fn => if fn.name = f then { fn with blocks := fn.blocks ++ [blk] } else fn)
        ?_ rfl j hj
      intro fn i0 hh
      dsimp only
      split
      · exact head?_snoc_of_head? _ _ _ hh
      · exact hh
    simp only at hb
    by_cases hi : i = blk
    · subst hi
      rw [updateAt_get_eq] at hb
      cases hb0 : σ.blocks.get? i with
      | none => rw [hb0] at hb; simp at hb
      | some bb0 =>
        rw [hb0] at hb
        simp only [Option.map_some', Option.some.injEq] at hb
        rw [← hb]
        exact ⟨(h i bb0 hb0).1, fun ha => hent i ((h i bb0 hb0).2 ha)⟩
    · rw [updateAt_get_ne _ _ _ _ hi] at hb
      exact ⟨(h i bb hb).1, fun ha => hent i ((h i bb hb).2 ha)⟩

theorem hoisted_createFunction {σ σ' : CGState} {n t : String}
    {args : List (String × String)} {F : String}
    (h1 : createFunction n t args σ = .ok (F, σ')) (h : σ.Hoisted) : σ'.Hoisted := by
  unfold createFunction at h1
  split at h1
  · simp at h1
  · simp only [Except.ok.injEq, Prod.mk.injEq] at h1
    rw [← h1.2]
    intro i bb hb
    have hbl : (σ.uniqueName n).2.blocks = σ.blocks := by
      unfold CGState.uniqueName; split <;> rfl
    simp only [hbl] at hb
    refine ⟨(h i bb hb).1, fun ha => ?_⟩
    have := (h i bb hb).2 ha
    rw [isEntry_iff] at this ⊢
    obtain ⟨fn, hm, hh⟩ := this
    refine ⟨fn, ?_, hh⟩
    simp only [(uniqueName_fields σ n).2.2.2.1, List.mem_append]
    exact Or.inl hm

/-- Every state change of the code generator keeps the allocations hoisted. -/
theorem hoisted_closed : CodegenClosed (fun σ σ' => σ.Hoisted → σ'.Hoisted) where
  stay := fun _ h => h
  chain := fun _ _ _ h1 h2 h => h2 (h1 h)
  emitStep := fun σ n k hk h => hoisted_emit σ n k hk h
  allocaStep := fun _ _ _ _ _ _ h1 h => hoisted_alloca h1 h
  framesStep := fun _ _ h => h
  insertStep := fun _ _ h => h
  blockStep := fun σ n p h => hoisted_createBlock σ n p h
  pushStep := fun _ _ _ _ _ h1 h => hoisted_pushBlock h1 h
  functionStep := fun _ _ _ _ _ _ h1 h => hoisted_createFunction h1 h
  globalStep := by
    intro σ n G GV h i bb hb
    have hbl : (σ.uniqueName n).2.blocks = σ.blocks := by
      unfold CGState.uniqueName; split <;> rfl
    have hfn := (uniqueName_fields σ n).2.2.2.1
    simp only [hbl] at hb
    refine ⟨(h i bb hb).1, fun ha => ?_⟩
    have := (h i bb hb).2 ha
    rw [isEntry_iff] at this ⊢
    simpa only [hfn] using this

theorem hoisted_init : CGState.init.Hoisted := by
  intro i bb hb
  simp [CGState.init] at hb

/-- Where `CreateEntryBlockAlloca` puts the instruction: at the head of the first block of the
function. -/
theorem CreateEntryBlockAlloca_blocks {σ σ' : CGState} {f n t : String} {a : AllocaInst}
    (h : CreateEntryBlockAlloca (some f) n t σ = .ok (a, σ')) :
    ∃ fn entry ty, σ.getFunction f = some fn ∧ fn.blocks.head? = some entry ∧
      varTypeOf t = some ty ∧
      σ'.blocks = updateAt
        (fun bb => { bb with instrs := ⟨σ.nextId, n, .alloca ty⟩ :: bb.instrs }) entry
        σ.blocks := by
  unfold CreateEntryBlockAlloca at h
  split at h
  · simp at h
  · rename_i ty hty
    simp only at h
    split at h
    · simp at h
    · rename_i fn hfn
      split at h
      · simp at h
      · rename_i entry hentry
        simp only [Except.ok.injEq, Prod.mk.injEq] at h
        exact ⟨fn, entry, ty, hfn, hentry, hty, by rw [← h.2]⟩

/-- **C32** (allocations in the entry block).  `CreateEntryBlockAlloca` inserts at
`TheFunction->getEntryBlock().begin()`, and every other instruction is appended at the
insertion point of `Builder`.
* In the state in which `main` starts the allocations are hoisted (there is no block), and
  every successful `codegen` call, on whatever tree, leaves them hoisted: in every basic block
  every `alloca` comes before every other instruction, and a block that holds an `alloca` is
  the first block of a function of the module.
* A local declaration, at whatever scope index, puts its `alloca` at the head of the first
  block of the function that holds the insertion block, and changes no other block; the loop
  over the parameters of a definition puts each `alloca` at the head of the first block of
  the function.
* `void f(bool c, int a, float b) \x7b while (c) \x7b int x; x = a; \x7d if (c)
  \x7b float y; y = b; \x7d \x7d`: the entry block starts with the slots of `y`, `x`, `b`, `a`
  and `c`, followed by instructions that are not `alloca`; no other block holds an `alloca`. -/
theorem allocas_in_entry_block :
    CGState.init.Hoisted ∧
    (∀ (n : ASTnode) (b : Nat) (σ σ' : CGState) (v : Option Value),
      σ.Hoisted → codegen n b σ = .ok (v, σ') → σ'.Hoisted) ∧
    (∀ (Name Type_ : String) (b blk : Nat) (σ σ' : CGState) (v : Option Value)
        (bb : BasicBlock) (f : String),
      σ.insertBlock = some blk → σ.blocks.get? blk = some bb → bb.parent = some f →
      codegen (.VariableDeclarationASTnode Name Type_) b σ = .ok (v, σ') →
      ∃ fn entry ty, σ.getFunction f = some fn ∧ fn.blocks.head? = some entry ∧
        varTypeOf Type_ = some ty ∧
        σ'.blocks = updateAt
          (fun bb => { bb with instrs := ⟨σ.nextId, Name, .alloca ty⟩ :: bb.instrs }) entry
          σ.blocks) ∧
    (∀ (f : String) (Args : List (String × String)) (argName : String) (argTy : LType)
        (rest : List (String × LType)) (count : Nat) (σ σ' : CGState) (u : Unit),
      allocaArgs f Args ((argName, argTy) :: rest) count σ = .ok (u, σ') →
      ∃ fn entry ty A σ1, σ.getFunction f = some fn ∧ fn.blocks.head? = some entry ∧
        CreateEntryBlockAlloca (some f) argName (Args.getD count ("", "")).2 σ = .ok (A, σ1) ∧
        σ1.blocks = updateAt
          (fun bb => { bb with instrs := ⟨σ.nextId, argName, .alloca ty⟩ :: bb.instrs }) entry
          σ.blocks) ∧
    (∃ σ', codegen nestedDecls 0 CGState.init = .ok (some (.function "f"), σ') ∧
      σ'.functions = [⟨"f", .void, [("c", .i1), ("a", .i32), ("b", .float)],
        [0, 1, 2, 3, 4, 6]⟩] ∧
      (σ'.instrsOf 0).take 5 = [⟨18, "y", .alloca .float⟩, ⟨10, "x", .alloca .i32⟩,
        ⟨4, "b", .alloca .float⟩, ⟨2, "a", .alloca .i32⟩, ⟨0, "c", .alloca .i1⟩] ∧
      ((σ'.instrsOf 0).drop 5).any (fun i => i.kind.isAlloca) = false ∧
      (σ'.blocks.drop 1).any (fun bb => bb.hasAlloca) = false) := by
  refine ⟨hoisted_init, fun n b σ σ' v hσ h => codegen_closed hoisted_closed n b σ σ' v h hσ,
    ?_, ?_, ⟨_, rfl, rfl, rfl, rfl, rfl⟩⟩
  · intro Name Type_ b blk σ σ' v bb f hib hbb hpar h
    simp only [codegen, VariableDeclarationASTnode_codegen, hib, CGState.insertParent, hbb,
      hpar] at h
    split at h
    · simp at h
    · rename_i Variable σ1 h1
      split at h
      · simp at h
      · rename_i u σ2 h2
        simp only [Except.ok.injEq, Prod.mk.injEq] at h
        obtain ⟨fn, entry, ty, hfn, hentry, hty, hbl⟩ := CreateEntryBlockAlloca_blocks h1
        refine ⟨fn, entry, ty, hfn, hentry, hty, ?_⟩
        rw [← h.2, ← hbl]
        unfold setNamedValue at h2
        split at h2
        · simp only [Except.ok.injEq, Prod.mk.injEq] at h2
          rw [← h2.2]
        · simp at h2
  · intro f Args argName argTy rest count σ σ' u h
    simp only [allocaArgs] at h
    split at h
    · simp at h
    · rename_i nm arg_type hget
      split at h
      · simp at h
      · rename_i Alloca σ1 h1
        obtain ⟨fn, entry, ty, hfn, hentry, hty, hbl⟩ := CreateEntryBlockAlloca_blocks h1
        refine ⟨fn, entry, ty, Alloca, σ1, hfn, hentry, ?_, hbl⟩
        rw [← h1]
        congr 1
        rw [List.getD_eq_getElem?_getD, ← List.get?_eq_getElem?, hget]
        rfl

/-! ### The functions of the module during lowering -/

theorem registers_of_functions {σ σ' : CGState} (h : σ'.functions = σ.functions) :
    σ.Registers σ' := by
  intro g fn hfn
  exact ⟨fn, by rw [getFunction_congr h]; exact hfn, rfl⟩

theorem registers_of_map (σ σ' : CGState) (u : Function → Function)
    (hn : ∀ fn, (u fn).name = fn.name) (ha : ∀ fn, (u fn).args = fn.args)
    (h : σ'.functions = σ.functions.map u) : σ.Registers σ' := by
  intro g fn hfn
  unfold CGState.getFunction at hfn ⊢
  rw [h, find?_map_of_inv (fun f => f.name == g) u (fun x => by simp only [hn]), hfn]
  exact ⟨u fn, rfl, ha fn⟩

theorem registers_createBlock (σ : CGState) (n : String) (p : Option String) :
    σ.Registers (σ.createBlock n p).2 := by
  cases p with
  | none => exact registers_of_functions rfl
  | some f =>
    refine registers_of_map σ _
      (fun fn => if fn.name = f then { fn with blocks := fn.blocks ++ [σ.blocks.length] }
        else fn) ?_ ?_ rfl
    · intro fn; dsimp only; split <;> rfl
    · intro fn; dsimp only; split <;> rfl

theorem registers_pushBlock {σ σ' : CGState} {f : Option String} {blk : Nat} {u : Unit}
    (h : σ.pushBlock f blk = .ok (u, σ')) : σ.Registers σ' := by
  unfold CGState.pushBlock at h
  cases f with
  | none => simp at h
  | some f =>
    simp only [Except.ok.injEq, Prod.mk.injEq] at h
    rw [← h.2]
    refine registers_of_map σ _
      (fun fn => if fn.name = f then { fn with blocks := fn.blocks ++ [blk] } else fn)
      ?_ ?_ rfl
    · intro fn; dsimp only; split <;> rfl
    · intro fn; dsimp only; split <;> rfl

theorem registers_createFunction {σ σ' : CGState} {n t : String}
    {args : List (String × String)} {F : String}
    (h : createFunction n t args σ = .ok (F, σ')) : σ.Registers σ' := by
  obtain ⟨fnew, -, -, hfs⟩ := createFunction_functions h
  intro g fn hfn
  refine ⟨fn, ?_, rfl⟩
  unfold CGState.getFunction at hfn ⊢
  rw [hfs, List.find?_append, hfn]
  rfl

theorem registers_alloca {σ σ' : CGState} {f : Option String} {n t : String} {a : AllocaInst}
    (h : CreateEntryBlockAlloca f n t σ = .ok (a, σ')) : σ.Registers σ' := by
  unfold CreateEntryBlockAlloca at h
  split at h
  · simp at h
  · split at h
    · simp at h
    · split at h
      · simp at h
      · split at h
        · simp at h
        · simp only [Except.ok.injEq, Prod.mk.injEq] at h
          rw [← h.2]
          exact registers_of_functions rfl

/-- Every state change of the code generator keeps the functions of the module findable,
with their arguments. -/
theorem registers_closed : CodegenClosed CGState.Registers where
  stay := fun _ => registers_of_functions rfl
  chain := by
    intro σ1 σ2 σ3 h1 h2 g fn hfn
    obtain ⟨fn2, h12, ha2⟩ := h1 g fn hfn
    obtain ⟨fn3, h23, ha3⟩ := h2 g fn2 h12
    exact ⟨fn3, h23, ha3.trans ha2⟩
  emitStep := fun σ n k _ => registers_of_functions (emit_functions σ n k)
  allocaStep := fun _ _ _ _ _ _ h => registers_alloca h
  framesStep := fun _ _ => registers_of_functions rfl
  insertStep := fun _ _ => registers_of_functions rfl
  blockStep := registers_createBlock
  pushStep := fun _ _ _ _ _ h => registers_pushBlock h
  functionStep := fun _ _ _ _ _ _ h => registers_createFunction h
  globalStep := fun σ n _ _ => registers_of_functions (uniqueName_fields σ n).2.2.2.1

theorem registers_ne_none {σ σ' : CGState} (h : σ.Registers σ') (f : String)
    (hf : σ.getFunction f ≠ none) : σ'.getFunction f ≠ none := by
  cases hfn : σ.getFunction f with
  | none => exact absurd hfn hf
  | some fn =>
    obtain ⟨fn', h', -⟩ := h f fn hfn
    rw [h']
    simp

theorem isLog_undefFn (f : String) : (undefinedFunctionError f).isLog = true := rfl

theorem findAlloca_nolog (frames : List (List (String × AllocaInst))) (x : String) (b : Nat)
    (e : CGError) (h : findAlloca frames b x = .error e) : e.isLog = false := by
  rw [findAlloca_error frames x b e h]
  rfl

theorem CreateEntryBlockAlloca_nolog {σ : CGState} {f : Option String} {n t : String}
    {e : CGError} (h : CreateEntryBlockAlloca f n t σ = .error e) : e.isLog = false := by
  unfold CreateEntryBlockAlloca at h
  split at h
  · simp only [Except.error.injEq] at h; rw [← h]; rfl
  · split at h
    · simp only [Except.error.injEq] at h; rw [← h]; rfl
    · split at h
      · simp only [Except.error.injEq] at h; rw [← h]; rfl
      · split at h
        · simp only [Except.error.injEq] at h; rw [← h]; rfl
        · simp at h

theorem setNamedValue_nolog {σ : CGState} {n : String} {a : AllocaInst} {b : Nat}
    {e : CGError} (h : setNamedValue n a b σ = .error e) : e.isLog = false := by
  unfold setNamedValue at h
  split at h
  · simp at h
  · simp only [Except.error.injEq] at h; rw [← h]; rfl

theorem createFunction_nolog {σ : CGState} {n t : String} {args : List (String × String)}
    {e : CGError} (h : createFunction n t args σ = .error e) : e.isLog = false := by
  unfold createFunction at h
  split at h
  · simp only [Except.error.injEq] at h; rw [← h]; rfl
  · simp at h

theorem pushBlock_nolog {σ : CGState} {f : Option String} {blk : Nat} {e : CGError}
    (h : σ.pushBlock f blk = .error e) : e.isLog = false := by
  unfold CGState.pushBlock at h
  cases f with
  | none => simp only [Except.error.injEq] at h; rw [← h]; rfl
  | some f => simp at h

theorem insertParent_nolog {σ : CGState} {e : CGError} (h : σ.insertParent = .error e) :
    e.isLog = false := by
  unfold CGState.insertParent at h
  split at h
  · simp only [Except.error.injEq] at h; rw [← h]; rfl
  · split at h
    · simp only [Except.error.injEq] at h; rw [← h]; rfl
    · simp at h

theorem VariableDeclarationASTnode_codegen_nolog {Name Type_ : String} {b : Nat}
    {σ : CGState} {e : CGError}
    (h : VariableDeclarationASTnode_codegen Name Type_ b σ = .error e) : e.isLog = false := by
  unfold VariableDeclarationASTnode_codegen at h
  split at h
  · split at h
    · simp only [Except.error.injEq] at h; rw [← h]; rfl
    · simp at h
  · split at h
    · rename_i e1 h1
      simp only [Except.error.injEq] at h; rw [← h]; exact insertParent_nolog h1
    · split at h
      · rename_i e1 h1
        simp only [Except.error.injEq] at h; rw [← h]; exact CreateEntryBlockAlloca_nolog h1
      · split at h
        · rename_i e1 h1
          simp only [Except.error.injEq] at h; rw [← h]; exact setNamedValue_nolog h1
        · simp at h

theorem codegenDecls_nolog : ∀ (ds : List ASTnode) (b : Nat) (r : Option (Option Value))
    (σ : CGState) (e : CGError), codegenDecls ds b r σ = .error e → e.isLog = false
  | [], b, r, σ, e, h => by simp [codegenDecls] at h
  | d :: rest, b, r, σ, e, h => by
    cases d <;> simp only [codegenDecls] at h <;>
      try (simp only [Except.error.injEq] at h; rw [← h]; rfl)
    split at h
    · rename_i e1 h1
      simp only [Except.error.injEq] at h; rw [← h]
      exact VariableDeclarationASTnode_codegen_nolog h1
    · exact codegenDecls_nolog rest b _ _ e h

theorem codegenExterns_nolog : ∀ (es : List ASTnode) (σ : CGState) (e : CGError),
    codegenExterns es σ = .error e → e.isLog = false
  | [], σ, e, h => by simp [codegenExterns] at h
  | d :: rest, σ, e, h => by
    cases d <;> simp only [codegenExterns] at h <;>
      try (simp only [Except.error.injEq] at h; rw [← h]; rfl)
    split at h
    · simp only [Except.error.injEq] at h; rw [← h]; rfl
    · split at h
      · rename_i e1 h1
        simp only [Except.error.injEq] at h; rw [← h]
        exact createFunction_nolog h1
      · exact codegenExterns_nolog rest _ e h

theorem allocaArgs_nolog (f : String) (Args : List (String × String)) :
    ∀ (as : List (String × LType)) (count : Nat) (σ : CGState) (e : CGError),
      allocaArgs f Args as count σ = .error e → e.isLog = false
  | [], count, σ, e, h => by simp [allocaArgs] at h
  | (argName, argTy) :: rest, count, σ, e, h => by
    simp only [allocaArgs] at h
    split at h
    · simp only [Except.error.injEq] at h; rw [← h]; rfl
    · split at h
      · rename_i e1 h1
        simp only [Except.error.injEq] at h; rw [← h]
        exact CreateEntryBlockAlloca_nolog h1
      · split at h
        · rename_i e1 h1
          simp only [Except.error.injEq] at h; rw [← h]
          exact setNamedValue_nolog h1
        · exact allocaArgs_nolog f Args rest (count + 1) _ e h

theorem not_undefFn_of_nolog {e : CGError} {f : String} (h : e.isLog = false) :
    e ≠ undefinedFunctionError f := by
  intro he
  rw [he] at h
  cases h

mutual
/-- While the module has a function `f`, lowering a tree never ends in the error of a call to
the undefined function `f`. -/
theorem codegen_calls_found : ∀ (n : ASTnode) (f : String) (b : Nat) (σ : CGState),
    σ.getFunction f ≠ none → codegen n b σ ≠ .error (undefinedFunctionError f)
  | .null, f, b, σ, _ => by simp [codegen, undefinedFunctionError]
  | .IntASTnode _, f, b, σ, _ => by simp [codegen]
  | .FloatASTnode _, f, b, σ, _ => by simp [codegen]
  | .BoolASTnode _, f, b, σ, _ => by simp [codegen]
  | .VariableASTnode x, f, b, σ, _ => by
    simp only [codegen]
    exact (VariableASTnode_codegen_calls x f b σ).2
  | .VariableAssignmentASTnode Variable Val, f, b, σ, hf => by
    intro h
    simp only [codegen] at h
    split at h
    · exact lit_ne_undefFn _ f (by decide) (by decide) (Except.error.inj h)
    · split at h
      · simp [undefinedFunctionError] at h
      · split at h
        · rename_i e he
          exact codegen_calls_found Val f b σ hf (he.trans (congrArg Except.error (Except.error.inj h)))
        · simp at h
        · rename_i val σ1 h1
          exact (assignTo_calls _ f val b σ1).2 h
  | .VariableDeclarationASTnode _ _, f, b, σ, _ => by
    intro h
    simp only [codegen] at h
    exact not_undefFn_of_nolog (VariableDeclarationASTnode_codegen_nolog h) rfl
  | .BlockASTnode Declarations Statements, f, b, σ, hf => by
    intro h
    simp only [codegen] at h
    split at h
    · rename_i e he
      exact not_undefFn_of_nolog (codegenDecls_nolog _ _ _ _ _ he) (Except.error.inj h)
    · rename_i r σ1 h1
      have hf1 := registers_ne_none (codegenDecls_closed registers_closed _ _ _ _ _ _ h1) f hf
      split at h
      · rename_i e he
        exact codegenSeq_calls_found Statements f b r σ1 hf1 (he.trans (congrArg Except.error (Except.error.inj h)))
      · simp [undefinedFunctionError] at h
      · simp at h
  | .BinaryASTnode Op LHS RHS, f, b, σ, hf => by
    intro h
    simp only [codegen] at h
    split at h
    · rename_i e he
      exact codegen_calls_found LHS f b σ hf (he.trans (congrArg Except.error (Except.error.inj h)))
    · rename_i L σ1 h1
      have hf1 := registers_ne_none (codegen_closed registers_closed _ _ _ _ _ h1) f hf
      split at h
      · rename_i e he
        exact codegen_calls_found RHS f b σ1 hf1 (he.trans (congrArg Except.error (Except.error.inj h)))
      · rename_i R σ2 h2
        split at h
        · exact (combineOperands_calls Op f _ _ σ2).2 h
        · simp at h
  | .UnaryASTnode Op Val, f, b, σ, hf => by
    intro h
    simp only [codegen] at h
    split at h
    · rename_i e he
      exact codegen_calls_found Val f b σ hf (he.trans (congrArg Except.error (Except.error.inj h)))
    · simp [undefinedFunctionError] at h
    · rename_i Operand σ1 h1
      exact (applyUnary_calls Op f Operand σ1).2 h
  | .CallASTnode CallFunc Args, f, b, σ, hf => by
    intro h
    simp only [codegen] at h
    split at h
    · rename_i hnone
      have := undefFn_inj CallFunc f (Except.error.inj h)
      rw [this] at hnone
      exact hf hnone
    · split at h
      · exact argumentCount_ne_undefFn _ _ f (Except.error.inj h)
      · split at h
        · rename_i e he
          exact codegenArgs_calls_found Args f b [] σ hf (he.trans (congrArg Except.error (Except.error.inj h)))
        · simp at h
        · simp at h
  | .FunctionParamASTnode _ _, f, b, σ, _ => by simp [codegen]
  | .FunctionPrototypeASTnode Name Type_ Args, f, b, σ, _ => by
    intro h
    simp only [codegen] at h
    split at h
    · simp [undefinedFunctionError] at h
    · split at h
      · rename_i e he
        exact not_undefFn_of_nolog (createFunction_nolog he) (Except.error.inj h)
      · simp at h
  | .ExternASTnode Name Type_ Params, f, b, σ, _ => by
    intro h
    simp only [codegen] at h
    split at h
    · simp [undefinedFunctionError] at h
    · split at h
      · rename_i e he
        exact not_undefFn_of_nolog (createFunction_nolog he) (Except.error.inj h)
      · simp at h
  | .FunctionDefASTnode Prototype Body, f, b, σ, hf => by
    intro h
    simp only [codegen] at h
    split at h
    · simp [undefinedFunctionError] at h
    · split at h
      · simp [undefinedFunctionError] at h
      · split at h
        · simp [undefinedFunctionError] at h
        · rename_i ps hps
          split at h
          · rename_i e he
            split at he
            · simp at he
            · exact not_undefFn_of_nolog (createFunction_nolog he) (Except.error.inj h)
          · rename_i TheFunction σ1 h1
            have s1 : σ.Registers σ1 := by
              split at h1
              · simp only [Except.ok.injEq, Prod.mk.injEq] at h1
                rw [← h1.2]; exact registers_closed.framesStep _ _
              · exact registers_closed.chain _ _ _ (registers_closed.framesStep _ _)
                  (registers_closed.functionStep _ _ _ _ _ _ h1)
            split at h
            · rename_i e he
              exact not_undefFn_of_nolog (allocaArgs_nolog _ _ _ _ _ _ he)
                (Except.error.inj h)
            · rename_i u σ2 h2
              have s2 : σ.Registers σ2 :=
                registers_closed.chain _ _ _ s1 (registers_closed.chain _ _ _
                  (registers_closed.blockStep _ _ _)
                  (registers_closed.chain _ _ _ (registers_closed.insertStep _ _)
                    (allocaArgs_closed registers_closed _ _ _ _ _ _ _ h2)))
              have hf2 := registers_ne_none s2 f hf
              split at h
              · split at h
                · rename_i e he
                  exact codegen_calls_found Body f 0 σ2 hf2 (he.trans (congrArg Except.error (Except.error.inj h)))
                · simp at h
                · split at h <;> simp at h
              · simp [undefinedFunctionError] at h
  | .IfExprASTnode Cond Then Else, f, b, σ, hf => by
    intro h
    have R := registers_closed
    simp only [codegen] at h
    split at h
    · rename_i e he
      exact not_undefFn_of_nolog (insertParent_nolog he) (Except.error.inj h)
    · rename_i TheFunction hp
      have hf0 := registers_ne_none (R.chain _ _ _ (R.framesStep σ (σ.NamedValuesArray ++ [[]]))
        (R.chain _ _ _ (R.blockStep _ "if then" TheFunction)
          (R.chain _ _ _ (R.blockStep _ "else then" none) (R.blockStep _ "end" none)))) f hf
      split at h
      · rename_i e he
        exact codegen_calls_found Cond f (b + 1) _ hf0 (he.trans (congrArg Except.error (Except.error.inj h)))
      · simp [undefinedFunctionError] at h
      · rename_i cond σ1 h1
        have hf1 := registers_ne_none (codegen_closed R _ _ _ _ _ h1) f hf0
        simp only [create_snd, create_fst] at h
        split at h
        · split at h
          · have e1 := R.emitStep σ1 "ifcond" (.op .ICmpNE [cond, .constInt 1 0] .i1) rfl
            have e2 := R.emitStep (σ1.emit "ifcond"
              (.op .ICmpNE [cond, .constInt 1 0] .i1)).2 ""
              (.condBr (.inst σ1.nextId .i1) σ.blocks.length (σ.blocks.length + 2)) rfl
            have e3 := R.insertStep ((σ1.emit "ifcond"
              (.op .ICmpNE [cond, .constInt 1 0] .i1)).2.emit ""
              (.condBr (.inst σ1.nextId .i1) σ.blocks.length
                (σ.blocks.length + 2))).2 σ.blocks.length
            have hfT := registers_ne_none (R.chain _ _ _ e1 (R.chain _ _ _ e2 e3)) f hf1
            split at h
            · rename_i e he
              exact codegen_calls_found Then f (b + 1) _ hfT (he.trans (congrArg Except.error (Except.error.inj h)))
            · split at h
              · rename_i e he
                exact not_undefFn_of_nolog (pushBlock_nolog he) (Except.error.inj h)
              · split at h
                · simp at h
                · simp [undefinedFunctionError] at h
          · have e1 := R.emitStep σ1 "ifcond" (.op .ICmpNE [cond, .constInt 1 0] .i1) rfl
            have e2 := R.emitStep (σ1.emit "ifcond"
              (.op .ICmpNE [cond, .constInt 1 0] .i1)).2 ""
              (.condBr (.inst σ1.nextId .i1) σ.blocks.length (σ.blocks.length + 1)) rfl
            have e3 := R.insertStep ((σ1.emit "ifcond"
              (.op .ICmpNE [cond, .constInt 1 0] .i1)).2.emit ""
              (.condBr (.inst σ1.nextId .i1) σ.blocks.length
                (σ.blocks.length + 1))).2 σ.blocks.length
            have hfT := registers_ne_none (R.chain _ _ _ e1 (R.chain _ _ _ e2 e3)) f hf1
            split at h
            · rename_i e he
              exact codegen_calls_found Then f (b + 1) _ hfT (he.trans (congrArg Except.error (Except.error.inj h)))
            · rename_i w σ2 h2
              have hf2 := registers_ne_none (codegen_closed R _ _ _ _ _ h2) f hfT
              split at h
              · rename_i e he
                exact not_undefFn_of_nolog (pushBlock_nolog he) (Except.error.inj h)
              · rename_i u σ3 h3
                have e4 := R.emitStep σ2 "" (.br (σ.blocks.length + 2)) rfl
                have hf3 := registers_ne_none (R.chain _ _ _ e4 (R.chain _ _ _
                  (R.pushStep _ _ _ _ _ h3) (R.insertStep σ3 (σ.blocks.length + 1)))) f hf2
                split at h
                · rename_i e he
                  exact codegen_calls_found Else f (b + 1) _ hf3 (he.trans (congrArg Except.error (Except.error.inj h)))
                · split at h
                  · rename_i e he
                    exact not_undefFn_of_nolog (pushBlock_nolog he) (Except.error.inj h)
                  · split at h
                    · simp at h
                    · simp [undefinedFunctionError] at h
        · simp [undefinedFunctionError] at h
  | .WhileExprASTnode Cond Then, f, b, σ, hf => by
    intro h
    have R := registers_closed
    simp only [codegen] at h
    split at h
    · rename_i e he
      exact not_undefFn_of_nolog (insertParent_nolog he) (Except.error.inj h)
    · rename_i TheFunction hp
      have hf0 := registers_ne_none (R.chain _ _ _ (R.framesStep σ (σ.NamedValuesArray ++ [[]]))
        (R.chain _ _ _ (R.blockStep _ "header" TheFunction)
          (R.chain _ _ _ (R.blockStep _ "body" none) (R.chain _ _ _ (R.blockStep _ "end" none)
            (R.chain _ _ _ (R.emitStep _ "" (.br σ.blocks.length) (by rfl))
              (R.insertStep _ σ.blocks.length)))))) f hf
      split at h
      · rename_i e he
        exact codegen_calls_found Cond f (b + 1) _ hf0 (he.trans (congrArg Except.error (Except.error.inj h)))
      · simp [undefinedFunctionError] at h
      · rename_i cond σ1 h1
        have hf1 := registers_ne_none (codegen_closed R _ _ _ _ _ h1) f hf0
        simp only [create_snd, create_fst] at h
        split at h
        · rename_i e he
          exact not_undefFn_of_nolog (pushBlock_nolog he) (Except.error.inj h)
        · rename_i u σ2 h2
          have e1 := R.emitStep σ1 "whilecond" (.op .ICmpNE [cond, .constInt 1 0] .i1) rfl
          have e2 := R.emitStep (σ1.emit "whilecond"
            (.op .ICmpNE [cond, .constInt 1 0] .i1)).2 ""
            (.condBr (.inst σ1.nextId .i1) (σ.blocks.length + 1) (σ.blocks.length + 2)) rfl
          have hf2 := registers_ne_none (R.chain _ _ _ e1 (R.chain _ _ _ e2
            (R.chain _ _ _ (R.pushStep _ _ _ _ _ h2)
              (R.insertStep σ2 (σ.blocks.length + 1))))) f hf1
          split at h
          · rename_i e he
            exact codegen_calls_found Then f (b + 1) _ hf2 (he.trans (congrArg Except.error (Except.error.inj h)))
          · split at h
            · rename_i e he
              exact not_undefFn_of_nolog (pushBlock_nolog he) (Except.error.inj h)
            · simp at h
  | .ReturnExprASTnode ReturnValue, f, b, σ, hf => by
    intro h
    simp only [codegen] at h
    split at h
    · simp at h
    · split at h
      · rename_i e he
        exact codegen_calls_found ReturnValue f b σ hf (he.trans (congrArg Except.error (Except.error.inj h)))
      · simp [undefinedFunctionError] at h
      · simp at h
  | .RootASTnode Ext_List Decl_List, f, b, σ, hf => by
    intro h
    simp only [codegen] at h
    split at h
    · rename_i e he
      exact not_undefFn_of_nolog (codegenExterns_nolog _ _ _ he) (Except.error.inj h)
    · rename_i u σ1 h1
      have hf1 := registers_ne_none (codegenExterns_closed registers_closed _ _ _ _ h1) f hf
      split at h
      · rename_i e he
        exact codegenSeq_calls_found Decl_List f b none σ1 hf1 (he.trans (congrArg Except.error (Except.error.inj h)))
      · simp at h
theorem codegenSeq_calls_found : ∀ (ss : List ASTnode) (f : String) (b : Nat)
    (r : Option (Option Value)) (σ : CGState),
    σ.getFunction f ≠ none → codegenSeq ss b r σ ≠ .error (undefinedFunctionError f)
  | [], f, b, r, σ, _ => by simp [codegenSeq]
  | s :: rest, f, b, r, σ, hf => by
    intro h
    simp only [codegenSeq] at h
    split at h
    · rename_i e he
      exact codegen_calls_found s f b σ hf (he.trans (congrArg Except.error (Except.error.inj h)))
    · rename_i v σ1 h1
      exact codegenSeq_calls_found rest f b _ σ1
        (registers_ne_none (codegen_closed registers_closed _ _ _ _ _ h1) f hf) h
theorem codegenArgs_calls_found : ∀ (as : List ASTnode) (f : String) (b : Nat)
    (acc : List Value) (σ : CGState),
    σ.getFunction f ≠ none → codegenArgs as b acc σ ≠ .error (undefinedFunctionError f)
  | [], f, b, acc, σ, _ => by simp [codegenArgs]
  | a :: rest, f, b, acc, σ, hf => by
    intro h
    simp only [codegenArgs] at h
    split at h
    · rename_i e he
      exact codegen_calls_found a f b σ hf (he.trans (congrArg Except.error (Except.error.inj h)))
    · simp at h
    · rename_i val σ1 h1
      exact codegenArgs_calls_found rest f b _ σ1
        (registers_ne_none (codegen_closed registers_closed _ _ _ _ _ h1) f hf) h
end

/-! ### The prototype is registered before the body -/

theorem setArgNames_length : ∀ (ns taken : List String) (last : Nat),
    (setArgNames ns taken last).length = ns.length
  | [], taken, last => rfl
  | n :: ns, taken, last => by
    simp only [setArgNames]
    split
    · simp only [List.length_cons, setArgNames_length ns taken last]
    · split
      · simp only [List.length_cons, setArgNames_length]
      · simp only [List.length_cons, setArgNames_length]

/-- A function created under a name that the module does not use is found under that name, with
one argument for every parameter of type `int`, `float` or `bool`. -/
theorem createFunction_fresh {σ σ' : CGState} {n t : String} {ps : List (String × String)}
    {F : String} (hfresh : σ.symbols.contains n = false)
    (h : createFunction n t ps σ = .ok (F, σ')) :
    F = n ∧ ∃ fn, σ'.getFunction n = some fn ∧
      fn.args.length = (ps.filterMap (fun a => varTypeOf a.2)).length := by
  have hu : σ.uniqueName n = (n, σ) := by
    unfold CGState.uniqueName
    rw [hfresh]
    rfl
  have hnone := getFunction_none_of_fresh σ n hfresh
  unfold createFunction at h
  split at h
  · simp at h
  · rename_i rt hrt
    simp only [Except.ok.injEq, Prod.mk.injEq, hu] at h
    refine ⟨h.1.symm, ⟨n, rt,
      (setArgNames ((ps.map (fun a => a.1)).take
          (ps.filterMap (fun a => varTypeOf a.2)).length) [] 0).zip
        (ps.filterMap (fun a => varTypeOf a.2)), []⟩, ?_, ?_⟩
    · rw [← h.2]
      unfold CGState.getFunction at hnone ⊢
      simp only [List.find?_append, hnone, Option.none_or]
      simp [List.find?]
    · have hle : (ps.filterMap (fun a => varTypeOf a.2)).length ≤ ps.length :=
        List.length_filterMap_le _ _
      simp only [List.length_zip, setArgNames_length, List.length_take, List.length_map]
      omega

/-- The loop over the arguments of a definition keeps the number of frames. -/
theorem allocaArgs_frames (f : String) (Args : List (String × String)) :
    ∀ (as : List (String × LType)) (count : Nat) (σ σ' : CGState) (u : Unit),
      allocaArgs f Args as count σ = .ok (u, σ') →
      σ'.NamedValuesArray.length = σ.NamedValuesArray.length
  | [], count, σ, σ', u, h => by
    simp only [allocaArgs, Except.ok.injEq, Prod.mk.injEq] at h
    rw [← h.2]
  | (argName, argTy) :: rest, count, σ, σ', u, h => by
    simp only [allocaArgs] at h
    split at h
    · simp at h
    · split at h
      · simp at h
      · rename_i Alloca σ1 h1
        split at h
        · simp at h
        · rename_i u2 σ2 h2
          rw [allocaArgs_frames f Args rest (count + 1) σ2 σ' u h, (setNamedValue_ok h2).2.1,
            updateAt_length, emit_frames, (CreateEntryBlockAlloca_ok h1).1]

/-- Lowering a function definition under a name that the module does not use: either the
prologue fails, whatever the body is, or the body is lowered in a state in which the function
is found under its name. -/
theorem functionDef_fresh (Name Type_ : String) (Args : List ASTnode) (b : Nat) (σ : CGState)
    (ps : List (String × String)) (hps : paramsOf Args = some ps)
    (hfresh : σ.symbols.contains Name = false) :
    (∃ e, ∀ Body,
      codegen (.FunctionDefASTnode (.FunctionPrototypeASTnode Name Type_ Args) Body) b σ =
        .error e) ∨
    (∃ σ2 fn, σ2.getFunction Name = some fn ∧
      fn.args.length = (ps.filterMap (fun a => varTypeOf a.2)).length ∧
      σ2.NamedValuesArray.length = 1 ∧
      ∀ Body,
        codegen (.FunctionDefASTnode (.FunctionPrototypeASTnode Name Type_ Args) Body) b σ =
          if Body.isBlockPtr then
            match codegen Body 0 σ2 with
            | .error e => .error e
            | .ok (none, σ3) => .ok (some (.function Name), σ3)
            | .ok (some RetVal, σ3) =>
              if Type_ = "void" then
                .ok (some (.function Name), (σ3.emit "" (.ret none)).2)
              else .ok (some (.function Name), (σ3.emit "" (.ret (some RetVal))).2)
          else .error .illTyped) := by
  have hfresh' : ({ σ with NamedValuesArray := [[]] } : CGState).symbols.contains Name =
      false := hfresh
  have hg : ({ σ with NamedValuesArray := [[]] } : CGState).getFunction Name = none :=
    getFunction_none_of_fresh _ _ hfresh'
  cases hc : createFunction Name Type_ ps { σ with NamedValuesArray := [[]] } with
  | error e =>
    left
    refine ⟨e, fun Body => ?_⟩
    simp only [codegen, ASTnode.isNull, ASTnode.prototypeFields, hps, hg, hc,
      Bool.false_eq_true, ↓reduceIte]
  | ok r =>
    obtain ⟨F, σ1⟩ := r
    obtain ⟨hF, fn, hfn, hlen⟩ := createFunction_fresh hfresh' hc
    subst hF
    have hfr : ({ σ with NamedValuesArray := [[]] } : CGState).NamedValuesArray = [[]] := rfl
    have hfr1 : σ1.NamedValuesArray = [[]] := by rw [(createFunction_ok hc).1]
    cases ha : allocaArgs F ps
        ((σ1.createBlock "entry" (some F)).2.getFunction F
          |>.map (fun fn => fn.args) |>.getD []) 0
        { (σ1.createBlock "entry" (some F)).2 with
          insertBlock := some (σ1.createBlock "entry" (some F)).1 } with
    | error e =>
      left
      refine ⟨e, fun Body => ?_⟩
      simp only [codegen, ASTnode.isNull, ASTnode.prototypeFields, hps, hg, hc, ha,
        Bool.false_eq_true, ↓reduceIte]
    | ok r2 =>
      obtain ⟨u, σ2⟩ := r2
      right
      have s2 : σ1.Registers σ2 :=
        registers_closed.chain _ _ _ (registers_closed.blockStep _ _ _)
          (registers_closed.chain _ _ _ (registers_closed.insertStep _ _)
            (allocaArgs_closed registers_closed _ _ _ _ _ _ _ ha))
      obtain ⟨fn2, hfn2, hargs2⟩ := s2 F fn hfn
      refine ⟨σ2, fn2, hfn2, by rw [hargs2, hlen], ?_, fun Body => ?_⟩
      · rw [allocaArgs_frames _ _ _ _ _ _ _ ha]
        show σ1.NamedValuesArray.length = 1
        rw [hfr1]
        rfl
      · simp only [codegen, ASTnode.isNull, ASTnode.prototypeFields, hps, hg, hc, ha,
          Bool.false_eq_true, ↓reduceIte]

/-- A call of a function of the module with as many arguments as it has passes both checks of
`CallASTnode::codegen`: what is left is the lowering of the arguments and the call. -/
theorem call_of_found (f : String) (args : List ASTnode) (b : Nat) (σ : CGState)
    (fn : Function) (hfn : σ.getFunction f = some fn) (hlen : args.length = fn.args.length) :
    codegen (.CallASTnode f args) b σ =
      match codegenArgs args b [] σ with
      | .error e => .error e
      | .ok (none, σ1) => .ok (none, σ1)
      | .ok (some func_args, σ1) =>
        .ok (some (.inst σ1.nextId fn.returnType),
          (σ1.emit "calltmp" (.call fn.name func_args fn.returnType)).2) := by
  simp only [codegen, hfn, hlen, ne_eq, not_true_eq_false, ↓reduceIte, create_fst,
    create_snd]

/-- **C33, counterexample** (a call of `f` in the body of `f`, with as many arguments as `f`
has parameters, that is rejected).  `FunctionDefASTnode::codegen` creates the function from the
prototype only if `TheModule->getFunction` finds none under the name.
* `extern int f(); int f(int a) \x7b return f(a); \x7d`: the function of the extern, without
  arguments, is the one that is found, and the call `f(a)` fails with the argument-count error
  `expected 0 but got 1`.
* `int f; int f() \x7b return f(); \x7d`: the name is taken by the global variable, the function
  is created under another name, and the call `f()` fails with the undefined-function error. -/
theorem self_call_rejected :
    codegen redefineMore 0 CGState.init = .error (argumentCountError 0 1) ∧
    codegen globalThenSameName 0 CGState.init = .error (undefinedFunctionError "f") :=
  ⟨rfl, rfl⟩

/-- **C33, as amended** (the prototype is registered before the body is lowered, for a
definition under a name that the module does not use yet).
* Lowering the definition of `Name`, a name of no function and no global variable of the
  module: unless the prologue fails, the body is lowered in a state in which
  `TheModule->getFunction(Name)` finds the function, with one argument for every parameter of
  type `int`, `float` or `bool`.
* While the module has the function `f`, lowering a tree (a body, a statement, an expression)
  never ends in the undefined-function error for `f`; and a call of `f` with as many arguments
  as the function has passes the argument-count check.
* A call of a name under which the module has no function fails with the undefined-function
  error, before any argument is lowered; an error in a declaration ends the lowering of the
  list, whatever follows.
* `int f(int a) \x7b return f(a); \x7d` is lowered, with the call of `f` in its entry block;
  `int main() \x7b return g(); \x7d int g() \x7b return 0; \x7d` fails with the
  undefined-function error for `g`. -/
theorem prototype_registered_before_body :
    (∀ (Name Type_ : String) (Args : List ASTnode) (b : Nat) (σ : CGState)
        (ps : List (String × String)),
      paramsOf Args = some ps → σ.symbols.contains Name = false →
      (∃ e, ∀ Body,
        codegen (.FunctionDefASTnode (.FunctionPrototypeASTnode Name Type_ Args) Body) b σ =
          .error e) ∨
      (∃ σ2 fn, σ2.getFunction Name = some fn ∧
        fn.args.length = (ps.filterMap (fun a => varTypeOf a.2)).length ∧
        ∀ Body, Body.isBlockPtr = true →
          codegen (.FunctionDefASTnode (.FunctionPrototypeASTnode Name Type_ Args) Body) b σ =
            match codegen Body 0 σ2 with
            | .error e => .error e
            | .ok (none, σ3) => .ok (some (.function Name), σ3)
            | .ok (some RetVal, σ3) =>
              if Type_ = "void" then
                .ok (some (.function Name), (σ3.emit "" (.ret none)).2)
              else .ok (some (.function Name), (σ3.emit "" (.ret (some RetVal))).2))) ∧
    (∀ (n : ASTnode) (f : String) (b : Nat) (σ : CGState),
      σ.getFunction f ≠ none → codegen n b σ ≠ .error (undefinedFunctionError f)) ∧
    (∀ (f : String) (args : List ASTnode) (b : Nat) (σ : CGState) (fn : Function),
      σ.getFunction f = some fn → args.length = fn.args.length →
      codegen (.CallASTnode f args) b σ =
        match codegenArgs args b [] σ with
        | .error e => .error e
        | .ok (none, σ1) => .ok (none, σ1)
        | .ok (some func_args, σ1) =>
          .ok (some (.inst σ1.nextId fn.returnType),
            (σ1.emit "calltmp" (.call fn.name func_args fn.returnType)).2)) ∧
    (∀ (g : String) (args : List ASTnode) (b : Nat) (σ : CGState),
      σ.getFunction g = none →
      codegen (.CallASTnode g args) b σ = .error (undefinedFunctionError g)) ∧
    (∀ (d : ASTnode) (rest : List ASTnode) (b : Nat) (r : Option (Option Value))
        (σ : CGState) (e : CGError),
      codegen d b σ = .error e → codegenSeq (d :: rest) b r σ = .error e) ∧
    (∃ σ', codegen selfCall 0 CGState.init = .ok (none, σ') ∧
      σ'.instrsOf 0 = [⟨0, "a", .alloca .i32⟩,
        ⟨1, "", .store (.argument "f" 0 .i32) (.inst 0 .ptr)⟩,
        ⟨2, "a", .load .i32 (.inst 0 .ptr)⟩,
        ⟨3, "calltmp", .call "f" [.inst 2 .i32] .i32⟩,
        ⟨4, "", .ret (some (.inst 3 .i32))⟩]) ∧
    codegen callsLater 0 CGState.init = .error (undefinedFunctionError "g") := by
  refine ⟨?_, codegen_calls_found, call_of_found, ?_, ?_, ⟨_, rfl, rfl⟩, rfl⟩
  · intro Name Type_ Args b σ ps hps hfresh
    rcases functionDef_fresh Name Type_ Args b σ ps hps hfresh with ⟨e, he⟩ | ⟨σ2, fn, h1, h2, -, h3⟩
    · exact Or.inl ⟨e, he⟩
    · refine Or.inr ⟨σ2, fn, h1, h2, fun Body hB => ?_⟩
      rw [h3 Body, if_pos hB]
  · intro g args b σ hg
    simp only [codegen, hg, undefinedFunctionError]
  · intro d rest b r σ e h
    simp only [codegenSeq, h]

/-! ### The index of the scope stack -/

theorem CreateEntryBlockAlloca_inRange {σ : CGState} {f : Option String} {n t : String} :
    CreateEntryBlockAlloca f n t σ ≠ .error .outOfRange := by
  unfold CreateEntryBlockAlloca
  split
  · simp
  · split
    · simp
    · split
      · simp
      · split <;> simp

theorem insertParent_inRange {σ : CGState} : σ.insertParent ≠ .error .outOfRange := by
  unfold CGState.insertParent
  split
  · simp
  · split <;> simp

theorem pushBlock_inRange {σ : CGState} {f : Option String} {blk : Nat} :
    σ.pushBlock f blk ≠ .error .outOfRange := by
  unfold CGState.pushBlock
  cases f <;> simp

theorem setNamedValue_inRange {σ : CGState} {n : String} {a : AllocaInst} {b : Nat}
    (hb : b < σ.NamedValuesArray.length) : ∃ σ', setNamedValue n a b σ = .ok ((), σ') := by
  unfold setNamedValue
  rw [if_pos hb]
  exact ⟨_, rfl⟩

theorem VariableASTnode_codegen_inRange (x : String) (b : Nat) (σ : CGState)
    (hb : b < σ.NamedValuesArray.length) :
    VariableASTnode_codegen x b σ ≠ .error .outOfRange := by
  obtain ⟨r, hr⟩ := findAlloca_ok σ.NamedValuesArray x b hb
  unfold VariableASTnode_codegen
  rw [hr]
  cases r with
  | some A => simp
  | none =>
    simp only
    split
    · split <;> simp
    · simp

theorem assignTo_inRange (x : String) (val : Value) (b : Nat) (σ : CGState)
    (hb : b < σ.NamedValuesArray.length) : assignTo x val b σ ≠ .error .outOfRange := by
  obtain ⟨r, hr⟩ := findAlloca_ok σ.NamedValuesArray x b hb
  unfold assignTo
  rw [hr]
  cases r with
  | some A =>
    simp only
    split
    · split
      · simp
      · split <;> simp
    · simp
  | none =>
    simp only
    split <;> simp

theorem emitOperator_inRange (e : Option (Opcode × String × Option LType)) (L R : Value)
    (σ : CGState) : emitOperator e L R σ ≠ .error .outOfRange := by
  unfold emitOperator
  split <;> simp

theorem combineOperands_inRange (Op : String) (L R : Value) (σ : CGState) :
    combineOperands Op L R σ ≠ .error .outOfRange := by
  unfold combineOperands
  split
  · split
    · exact emitOperator_inRange _ _ _ _
    · split
      · exact emitOperator_inRange _ _ _ _
      · exact emitOperator_inRange _ _ _ _
  · exact emitOperator_inRange _ _ _ _

theorem applyUnary_inRange (Op : String) (Operand : Value) (σ : CGState) :
    applyUnary Op Operand σ ≠ .error .outOfRange := by
  unfold applyUnary
  split_ifs <;> simp

theorem VariableDeclarationASTnode_codegen_inRange (Name Type_ : String) (b : Nat)
    (σ : CGState) (hb : σ.insertBlock = none ∨ b < σ.NamedValuesArray.length) :
    VariableDeclarationASTnode_codegen Name Type_ b σ ≠ .error .outOfRange := by
  intro h
  unfold VariableDeclarationASTnode_codegen at h
  split at h
  · split at h <;> simp at h
  · rename_i blk hib
    have hb' : b < σ.NamedValuesArray.length := by
      rcases hb with hb | hb
      · rw [hb] at hib; cases hib
      · exact hb
    split at h
    · rename_i e he
      exact insertParent_inRange (he.trans (congrArg Except.error (Except.error.inj h)))
    · split at h
      · rename_i e he
        exact CreateEntryBlockAlloca_inRange
          (he.trans (congrArg Except.error (Except.error.inj h)))
      · rename_i Variable σ1 h1
        obtain ⟨σ2, h2⟩ := setNamedValue_inRange (n := Name) (a := Variable) (b := b)
          (σ := σ1) (by rw [(CreateEntryBlockAlloca_ok h1).1]; exact hb')
        rw [h2] at h
        simp at h

theorem codegenDecls_inRange : ∀ (ds : List ASTnode) (b : Nat) (r : Option (Option Value))
    (σ : CGState), b < σ.NamedValuesArray.length →
    codegenDecls ds b r σ ≠ .error .outOfRange
  | [], b, r, σ, _ => by simp [codegenDecls]
  | d :: rest, b, r, σ, hb => by
    intro h
    cases d <;> simp only [codegenDecls] at h <;> try (exact absurd h (by simp))
    rename_i Name Type_
    split at h
    · rename_i e he
      exact VariableDeclarationASTnode_codegen_inRange Name Type_ b σ (Or.inr hb)
        (he.trans (congrArg Except.error (Except.error.inj h)))
    · rename_i v σ1 h1
      exact codegenDecls_inRange rest b _ σ1
        ((VariableDeclarationASTnode_codegen_keeps h1).2 hb).1 h

theorem createFunction_inRange {σ : CGState} {n t : String} {ps : List (String × String)} :
    createFunction n t ps σ ≠ .error .outOfRange := by
  unfold createFunction
  split <;> simp

theorem codegenExterns_inRange : ∀ (es : List ASTnode) (σ : CGState),
    codegenExterns es σ ≠ .error .outOfRange
  | [], σ => by simp [codegenExterns]
  | e :: rest, σ => by
    intro h
    cases e <;> simp only [codegenExterns] at h <;> try (exact absurd h (by simp))
    split at h
    · simp at h
    · split at h
      · rename_i e he
        exact createFunction_inRange (he.trans (congrArg Except.error (Except.error.inj h)))
      · exact codegenExterns_inRange rest _ h

mutual
/-- Lowering a tree without function definitions at a scope index below the number of frames
never leaves the scope stack's range. -/
theorem codegen_inRange : ∀ (n : ASTnode) (b : Nat) (σ : CGState),
    n.defFree = true → b < σ.NamedValuesArray.length → codegen n b σ ≠ .error .outOfRange
  | .null, b, σ, _, _ => by simp [codegen]
  | .IntASTnode _, b, σ, _, _ => by simp [codegen]
  | .FloatASTnode _, b, σ, _, _ => by simp [codegen]
  | .BoolASTnode _, b, σ, _, _ => by simp [codegen]
  | .VariableASTnode x, b, σ, _, hb => by
    simp only [codegen]
    exact VariableASTnode_codegen_inRange x b σ hb
  | .VariableAssignmentASTnode Variable Val, b, σ, hd, hb => by
    simp only [ASTnode.defFree, Bool.and_eq_true] at hd
    intro h
    simp only [codegen] at h
    split at h
    · simp at h
    · split at h
      · simp at h
      · split at h
        · rename_i e he
          exact codegen_inRange Val b σ hd.2 hb
            (he.trans (congrArg Except.error (Except.error.inj h)))
        · simp at h
        · rename_i val σ1 h1
          exact assignTo_inRange _ val b σ1 ((codegen_keeps Val b σ σ1 _ hd.2 h1).2 hb).1 h
  | .VariableDeclarationASTnode Name Type_, b, σ, _, hb => by
    simp only [codegen]
    exact VariableDeclarationASTnode_codegen_inRange Name Type_ b σ (Or.inr hb)
  | .BlockASTnode Declarations Statements, b, σ, hd, hb => by
    simp only [ASTnode.defFree, Bool.and_eq_true] at hd
    intro h
    simp only [codegen] at h
    split at h
    · rename_i e he
      exact codegenDecls_inRange Declarations b none σ hb
        (he.trans (congrArg Except.error (Except.error.inj h)))
    · rename_i r σ1 h1
      have hb1 : b < σ1.NamedValuesArray.length :=
        ((codegenDecls_keeps _ _ _ _ _ _ h1).2 hb).1
      split at h
      · rename_i e he
        exact codegenSeq_inRange Statements b r σ1 hd.2 hb1
          (he.trans (congrArg Except.error (Except.error.inj h)))
      · simp at h
      · simp at h
  | .BinaryASTnode Op LHS RHS, b, σ, hd, hb => by
    simp only [ASTnode.defFree, Bool.and_eq_true] at hd
    intro h
    simp only [codegen] at h
    split at h
    · rename_i e he
      exact codegen_inRange LHS b σ hd.1 hb
        (he.trans (congrArg Except.error (Except.error.inj h)))
    · rename_i L σ1 h1
      have hb1 := ((codegen_keeps LHS b σ σ1 _ hd.1 h1).2 hb).1
      split at h
      · rename_i e he
        exact codegen_inRange RHS b σ1 hd.2 hb1
          (he.trans (congrArg Except.error (Except.error.inj h)))
      · rename_i R σ2 h2
        split at h
        · exact combineOperands_inRange Op _ _ σ2 h
        · simp at h
  | .UnaryASTnode Op Val, b, σ, hd, hb => by
    simp only [ASTnode.defFree] at hd
    intro h
    simp only [codegen] at h
    split at h
    · rename_i e he
      exact codegen_inRange Val b σ hd hb
        (he.trans (congrArg Except.error (Except.error.inj h)))
    · simp at h
    · rename_i Operand σ1 h1
      exact applyUnary_inRange Op Operand σ1 h
  | .CallASTnode CallFunc Args, b, σ, hd, hb => by
    simp only [ASTnode.defFree] at hd
    intro h
    simp only [codegen] at h
    split at h
    · simp [undefinedFunctionError] at h
    · split at h
      · simp [argumentCountError] at h
      · split at h
        · rename_i e he
          exact codegenArgs_inRange Args b [] σ hd hb
            (he.trans (congrArg Except.error (Except.error.inj h)))
        · simp at h
        · simp at h
  | .FunctionParamASTnode _ _, b, σ, _, _ => by simp [codegen]
  | .FunctionPrototypeASTnode Name Type_ Args, b, σ, _, _ => by
    intro h
    simp only [codegen] at h
    split at h
    · simp at h
    · split at h
      · rename_i e he
        rw [Except.error.inj h] at he
        unfold createFunction at he
        split at he <;> simp at he
      · simp at h
  | .ExternASTnode Name Type_ Params, b, σ, _, _ => by
    intro h
    simp only [codegen] at h
    split at h
    · simp at h
    · split at h
      · rename_i e he
        rw [Except.error.inj h] at he
        unfold createFunction at he
        split at he <;> simp at he
      · simp at h
  | .FunctionDefASTnode Prototype Body, b, σ, hd, _ => by
    simp [ASTnode.defFree] at hd
  | .IfExprASTnode Cond Then Else, b, σ, hd, hb => by
    simp only [ASTnode.defFree, Bool.and_eq_true] at hd
    intro h
    simp only [codegen] at h
    split at h
    · rename_i e he
      exact insertParent_inRange (he.trans (congrArg Except.error (Except.error.inj h)))
    · rename_i TheFunction hp
      have hb0 : b + 1 < ((((({ σ with NamedValuesArray := σ.NamedValuesArray ++ [[]] } :
          CGState).createBlock "if then" TheFunction).2.createBlock "else then" none).2.createBlock
            "end" none).2).NamedValuesArray.length := by
        simp only [createBlock_frames, List.length_append, List.length_singleton]
        omega
      split at h
      · rename_i e he
        exact codegen_inRange Cond (b + 1) _ hd.1.1 hb0
          (he.trans (congrArg Except.error (Except.error.inj h)))
      · simp at h
      · rename_i cond σ1 h1
        have hb1 := ((codegen_keeps Cond (b + 1) _ σ1 _ hd.1.1 h1).2 hb0).1
        simp only [create_snd, create_fst] at h
        split at h
        · split at h
          · split at h
            · rename_i e he
              exact codegen_inRange Then (b + 1) _ hd.1.2 (by simpa using hb1)
                (he.trans (congrArg Except.error (Except.error.inj h)))
            · rename_i w σ2 h2
              have hb2 := ((codegen_keeps Then (b + 1) _ σ2 _ hd.1.2 h2).2
                (by simpa using hb1)).1
              split at h
              · rename_i e he
                exact pushBlock_inRange (he.trans (congrArg Except.error (Except.error.inj h)))
              · rename_i u σ3 h3
                have hb3 : b + 1 < σ3.NamedValuesArray.length := by
                  rw [(pushBlock_ok h3).1]; exact hb2
                rw [if_pos (le_of_lt hb3)] at h
                simp at h
          · split at h
            · rename_i e he
              exact codegen_inRange Then (b + 1) _ hd.1.2 (by simpa using hb1)
                (he.trans (congrArg Except.error (Except.error.inj h)))
            · rename_i w σ2 h2
              have hb2 := ((codegen_keeps Then (b + 1) _ σ2 _ hd.1.2 h2).2
                (by simpa using hb1)).1
              split at h
              · rename_i e he
                exact pushBlock_inRange (he.trans (congrArg Except.error (Except.error.inj h)))
              · rename_i u σ3 h3
                have hb3 : b + 1 < σ3.NamedValuesArray.length := by
                  rw [(pushBlock_ok h3).1, emit_frames]; exact hb2
                split at h
                · rename_i e he
                  exact codegen_inRange Else (b + 1) _ hd.2 (by exact hb3)
                    (he.trans (congrArg Except.error (Except.error.inj h)))
                · rename_i w2 σ4 h4
                  have hb4 := ((codegen_keeps Else (b + 1) _ σ4 _ hd.2 h4).2 (by exact hb3)).1
                  split at h
                  · rename_i e he
                    exact pushBlock_inRange
                      (he.trans (congrArg Except.error (Except.error.inj h)))
                  · rename_i u2 σ5 h5
                    have hb5 : b + 1 < σ5.NamedValuesArray.length := by
                      rw [(pushBlock_ok h5).1]; exact hb4
                    rw [if_pos (le_of_lt hb5)] at h
                    simp at h
        · simp at h
  | .WhileExprASTnode Cond Then, b, σ, hd, hb => by
    simp only [ASTnode.defFree, Bool.and_eq_true] at hd
    intro h
    simp only [codegen] at h
    split at h
    · rename_i e he
      exact insertParent_inRange (he.trans (congrArg Except.error (Except.error.inj h)))
    · rename_i TheFunction hp
      have hb0 : b + 1 < (σ.NamedValuesArray ++ [[]]).length := by
        simp only [List.length_append, List.length_singleton]
        omega
      split at h
      · rename_i e he
        exact codegen_inRange Cond (b + 1) _ hd.1 (by simpa using hb0)
          (he.trans (congrArg Except.error (Except.error.inj h)))
      · simp at h
      · rename_i cond σ1 h1
        have hb1 := ((codegen_keeps Cond (b + 1) _ σ1 _ hd.1 h1).2 (by simpa using hb0)).1
        simp only [create_snd, create_fst] at h
        split at h
        · rename_i e he
          exact pushBlock_inRange (he.trans (congrArg Except.error (Except.error.inj h)))
        · rename_i u σ2 h2
          have hb2 : b + 1 < σ2.NamedValuesArray.length := by
            rw [(pushBlock_ok h2).1, emit_frames, emit_frames]; exact hb1
          split at h
          · rename_i e he
            exact codegen_inRange Then (b + 1) _ hd.2 (by exact hb2)
              (he.trans (congrArg Except.error (Except.error.inj h)))
          · split at h
            · rename_i e he
              exact pushBlock_inRange (he.trans (congrArg Except.error (Except.error.inj h)))
            · simp at h
  | .ReturnExprASTnode ReturnValue, b, σ, hd, hb => by
    simp only [ASTnode.defFree] at hd
    intro h
    simp only [codegen] at h
    split at h
    · simp at h
    · split at h
      · rename_i e he
        exact codegen_inRange ReturnValue b σ hd hb
          (he.trans (congrArg Except.error (Except.error.inj h)))
      · simp at h
      · simp at h
  | .RootASTnode Ext_List Decl_List, b, σ, hd, hb => by
    simp only [ASTnode.defFree] at hd
    intro h
    simp only [codegen] at h
    split at h
    · rename_i e he
      rw [Except.error.inj h] at he
      exact codegenExterns_inRange _ _ he
    · rename_i u σ1 h1
      have hb1 : b < σ1.NamedValuesArray.length := by
        rw [(codegenExterns_same _ _ _ _ h1).1]; exact hb
      split at h
      · rename_i e he
        exact codegenSeq_inRange Decl_List b none σ1 hd hb1
          (he.trans (congrArg Except.error (Except.error.inj h)))
      · simp at h
theorem codegenSeq_inRange : ∀ (ss : List ASTnode) (b : Nat) (r : Option (Option Value))
    (σ : CGState), defFreeList ss = true → b < σ.NamedValuesArray.length →
    codegenSeq ss b r σ ≠ .error .outOfRange
  | [], b, r, σ, _, _ => by simp [codegenSeq]
  | s :: rest, b, r, σ, hd, hb => by
    simp only [defFreeList, Bool.and_eq_true] at hd
    intro h
    simp only [codegenSeq] at h
    split at h
    · rename_i e he
      exact codegen_inRange s b σ hd.1 hb
        (he.trans (congrArg Except.error (Except.error.inj h)))
    · rename_i v σ1 h1
      exact codegenSeq_inRange rest b _ σ1 hd.2
        ((codegen_keeps s b σ σ1 v hd.1 h1).2 hb).1 h
theorem codegenArgs_inRange : ∀ (as : List ASTnode) (b : Nat) (acc : List Value)
    (σ : CGState), defFreeList as = true → b < σ.NamedValuesArray.length →
    codegenArgs as b acc σ ≠ .error .outOfRange
  | [], b, acc, σ, _, _ => by simp [codegenArgs]
  | a :: rest, b, acc, σ, hd, hb => by
    simp only [defFreeList, Bool.and_eq_true] at hd
    intro h
    simp only [codegenArgs] at h
    split at h
    · rename_i e he
      exact codegen_inRange a b σ hd.1 hb
        (he.trans (congrArg Except.error (Except.error.inj h)))
    · simp at h
    · rename_i val σ1 h1
      exact codegenArgs_inRange rest b _ σ1 hd.2
        ((codegen_keeps a b σ σ1 _ hd.1 h1).2 hb).1 h
end

theorem findAlloca_outOfRange (frames : List (List (String × AllocaInst))) (x : String)
    (b : Nat) : findAlloca frames b x = .error .outOfRange ↔ frames.length ≤ b := by
  constructor
  · intro h
    by_contra hlt
    obtain ⟨r, hr⟩ := findAlloca_ok frames x b (not_le.mp hlt)
    rw [hr] at h
    cases h
  · intro hle
    have hnone : frames.get? b = none := List.get?_eq_none.mpr hle
    cases b with
    | zero => simp only [findAlloca, hnone]
    | succ i => simp only [findAlloca, hnone]

theorem setNamedValue_outOfRange (n : String) (a : AllocaInst) (b : Nat) (σ : CGState) :
    setNamedValue n a b σ = .error .outOfRange ↔ σ.NamedValuesArray.length ≤ b := by
  unfold setNamedValue
  constructor
  · intro h
    by_contra hlt
    rw [if_pos (not_le.mp hlt)] at h
    cases h
  · intro hle
    rw [if_neg (not_lt.mpr hle)]

/-- The only step of the parameter loop that can leave a range, while the scope stack has a
frame, is the lookup of the parameter's type in the prototype. -/
theorem allocaArgs_inRange (f : String) (Args : List (String × String)) :
    ∀ (as : List (String × LType)) (count : Nat) (σ : CGState),
      0 < σ.NamedValuesArray.length → allocaArgs f Args as count σ = .error .outOfRange →
      ∃ k, k < as.length ∧ Args.get? (count + k) = none
  | [], count, σ, _, h => by simp [allocaArgs] at h
  | (argName, argTy) :: rest, count, σ, hb, h => by
    simp only [allocaArgs] at h
    split at h
    · rename_i hget
      exact ⟨0, by simp, hget⟩
    · split at h
      · rename_i e he
        exact absurd (he.trans (congrArg Except.error (Except.error.inj h)))
          CreateEntryBlockAlloca_inRange
      · rename_i Alloca σ1 h1
        have hb1 : 0 < σ1.NamedValuesArray.length := by
          rw [(CreateEntryBlockAlloca_ok h1).1]; exact hb
        split at h
        · rename_i e he
          obtain ⟨σ2, h2⟩ := setNamedValue_inRange (n := argName) (a := Alloca) (b := 0)
            (σ := (σ1.emit "" (.store (.argument f count argTy) (.inst Alloca.id .ptr))).2)
            (by rw [emit_frames]; exact hb1)
          rw [h2] at he
          cases he
        · rename_i u2 σ2 h2
          have hb2 : 0 < σ2.NamedValuesArray.length := by
            rw [(setNamedValue_ok h2).2.1, updateAt_length, emit_frames]; exact hb1
          obtain ⟨k, hk, hget⟩ := allocaArgs_inRange f Args rest (count + 1) σ2 hb2 h
          refine ⟨k + 1, by simpa using hk, ?_⟩
          rw [← hget]
          congr 1
          omega

theorem createFunction_frames {σ σ' : CGState} {n t : String} {ps : List (String × String)}
    {F : String} (h : createFunction n t ps σ = .ok (F, σ')) :
    σ'.NamedValuesArray = σ.NamedValuesArray := by
  unfold createFunction at h
  split at h
  · simp at h
  · simp only [Except.ok.injEq, Prod.mk.injEq] at h
    rw [← h.2]
    exact (uniqueName_fields σ n).1

/-- The part of a function definition after `TheFunction` is found or created: the loop over
the arguments, then the body at index 0 on a scope stack of one frame. -/
theorem functionDef_tail (Prototype : ASTnode) (b : Nat) (σ : CGState) (Type_ F : String)
    (ps : List (String × String)) (σ1 : CGState) (hfr : σ1.NamedValuesArray = [[]])
    (heq : ∀ Body, codegen (.FunctionDefASTnode Prototype Body) b σ =
      match allocaArgs F ps
          ((σ1.createBlock "entry" (some F)).2.getFunction F
            |>.map (fun fn => fn.args) |>.getD []) 0
          { (σ1.createBlock "entry" (some F)).2 with
            insertBlock := some (σ1.createBlock "entry" (some F)).1 } with
      | .error e => .error e
      | .ok (_, σ2) =>
        if Body.isBlockPtr then
          match codegen Body 0 σ2 with
          | .error e => .error e
          | .ok (none, σ3) => .ok (some (.function F), σ3)
          | .ok (some RetVal, σ3) =>
            if Type_ = "void" then .ok (some (.function F), (σ3.emit "" (.ret none)).2)
            else .ok (some (.function F), (σ3.emit "" (.ret (some RetVal))).2)
        else .error .illTyped) :
    (∃ e, (∀ Body, codegen (.FunctionDefASTnode Prototype Body) b σ = .error e) ∧
      (e = .outOfRange →
        ∃ fn : Function, σ1.getFunction F = some fn ∧ ps.length < fn.args.length)) ∨
    (∃ σ2 : CGState, σ2.NamedValuesArray.length = 1 ∧
      ∀ Body, codegen (.FunctionDefASTnode Prototype Body) b σ =
        if Body.isBlockPtr then
          match codegen Body 0 σ2 with
          | .error e => .error e
          | .ok (none, σ3) => .ok (some (.function F), σ3)
          | .ok (some RetVal, σ3) =>
            if Type_ = "void" then .ok (some (.function F), (σ3.emit "" (.ret none)).2)
            else .ok (some (.function F), (σ3.emit "" (.ret (some RetVal))).2)
        else .error .illTyped) := by
  cases hall : allocaArgs F ps
      ((σ1.createBlock "entry" (some F)).2.getFunction F
        |>.map (fun fn => fn.args) |>.getD []) 0
      { (σ1.createBlock "entry" (some F)).2 with
        insertBlock := some (σ1.createBlock "entry" (some F)).1 } with
  | error e =>
    left
    refine ⟨e, fun Body => ?_, fun h => ?_⟩
    · rw [heq Body, hall]
    · rw [h] at hall
      obtain ⟨k, hk, hget⟩ := allocaArgs_inRange F ps _ 0 _
        (by simp only [createBlock_frames, hfr, List.length_singleton]; decide) hall
      rw [getFunction_createBlock_args] at hk
      cases hfn : σ1.getFunction F with
      | none => rw [hfn] at hk; simp at hk
      | some fn =>
        rw [hfn] at hk
        simp only [Option.map_some', Option.getD_some] at hk
        refine ⟨fn, rfl, ?_⟩
        rw [Nat.zero_add] at hget
        exact lt_of_le_of_lt (List.get?_eq_none.mp hget) hk
  | ok res2 =>
    obtain ⟨u, σ2⟩ := res2
    right
    refine ⟨σ2, ?_, fun Body => ?_⟩
    · rw [allocaArgs_frames _ _ _ _ _ _ _ hall]
      simp only [createBlock_frames, hfr, List.length_singleton]
    · rw [heq Body, hall]

/-- The prologue of a function definition, whatever the body is: either it fails, and it leaves
a range only in the lookup of a parameter type, the function found having more arguments than
the prototype has parameters, or the body is lowered at index 0 on a scope stack of one
frame. -/
theorem functionDef_prologue (Prototype : ASTnode) (b : Nat) (σ : CGState) :
    (∃ e, (∀ Body, codegen (.FunctionDefASTnode Prototype Body) b σ = .error e) ∧
      (e = .outOfRange →
        ∃ (Name Type_ : String) (Args : List ASTnode) (ps : List (String × String))
          (F : String) (σ1 : CGState) (fn : Function),
          Prototype.prototypeFields = some (Name, Type_, Args) ∧ paramsOf Args = some ps ∧
          ((∃ fn0, σ.getFunction Name = some fn0 ∧ F = fn0.name ∧
              σ1 = { σ with NamedValuesArray := [[]] }) ∨
            (σ.getFunction Name = none ∧
              createFunction Name Type_ ps { σ with NamedValuesArray := [[]] } = .ok (F, σ1))) ∧
          σ1.getFunction F = some fn ∧ ps.length < fn.args.length)) ∨
    (∃ (Type_ F : String) (σ2 : CGState), σ2.NamedValuesArray.length = 1 ∧
      ∀ Body, codegen (.FunctionDefASTnode Prototype Body) b σ =
        if Body.isBlockPtr then
          match codegen Body 0 σ2 with
          | .error e => .error e
          | .ok (none, σ3) => .ok (some (.function F), σ3)
          | .ok (some RetVal, σ3) =>
            if Type_ = "void" then .ok (some (.function F), (σ3.emit "" (.ret none)).2)
            else .ok (some (.function F), (σ3.emit "" (.ret (some RetVal))).2)
        else .error .illTyped) := by
  by_cases hnull : Prototype.isNull = true
  · left
    refine ⟨.nullDeref, fun Body => ?_, fun h => by cases h⟩
    simp only [codegen, hnull, if_true]
  · cases hpf : Prototype.prototypeFields with
    | none =>
      left
      refine ⟨.illTyped, fun Body => ?_, fun h => by cases h⟩
      simp only [codegen, hnull, hpf]
      rfl
    | some flds =>
      obtain ⟨Name, Type_, Args⟩ := flds
      cases hps : paramsOf Args with
      | none =>
        left
        refine ⟨.illTyped, fun Body => ?_, fun h => by cases h⟩
        simp only [codegen, hnull, hpf, hps]
        rfl
      | some ps =>
        cases hg : ({ σ with NamedValuesArray := [[]] } : CGState).getFunction Name with
        | some fn0 =>
          rcases functionDef_tail Prototype b σ Type_ fn0.name ps
            { σ with NamedValuesArray := [[]] } rfl (fun Body => by
              simp only [codegen, hnull, hpf, hps, hg, Bool.false_eq_true, ↓reduceIte]) with ⟨e, he, hr⟩ | ⟨σ2, h2, hb2⟩
          · left
            refine ⟨e, he, fun h => ?_⟩
            obtain ⟨fn, hfn, hlt⟩ := hr h
            exact ⟨Name, Type_, Args, ps, fn0.name, _, fn, rfl, hps,
              Or.inl ⟨fn0, hg, rfl, rfl⟩, hfn, hlt⟩
          · right
            exact ⟨Type_, fn0.name, σ2, h2, hb2⟩
        | none =>
          cases hc : createFunction Name Type_ ps { σ with NamedValuesArray := [[]] } with
          | error e =>
            left
            refine ⟨e, fun Body => ?_, fun h => ?_⟩
            · simp only [codegen, hnull, hpf, hps, hg, hc, Bool.false_eq_true, ↓reduceIte]
            · rw [h] at hc
              exact absurd hc createFunction_inRange
          | ok res =>
            obtain ⟨F, σ1⟩ := res
            rcases functionDef_tail Prototype b σ Type_ F ps σ1
              (by rw [createFunction_frames hc]) (fun Body => by
                simp only [codegen, hnull, hpf, hps, hg, hc, Bool.false_eq_true,
                  ↓reduceIte]) with ⟨e, he, hr⟩ | ⟨σ2, h2, hb2⟩
            · left
              refine ⟨e, he, fun h => ?_⟩
              obtain ⟨fn, hfn, hlt⟩ := hr h
              exact ⟨Name, Type_, Args, ps, F, σ1, fn, rfl, hps, Or.inr ⟨hg, hc⟩, hfn, hlt⟩
            · right
              exact ⟨Type_, F, σ2, h2, hb2⟩

theorem functionDef_inRange (Prototype Body : ASTnode) (b : Nat) (σ : CGState)
    (hd : Body.defFree = true)
    (h : codegen (.FunctionDefASTnode Prototype Body) b σ = .error .outOfRange) :
    ∃ (Name Type_ : String) (Args : List ASTnode) (ps : List (String × String))
      (F : String) (σ1 : CGState) (fn : Function),
      Prototype.prototypeFields = some (Name, Type_, Args) ∧ paramsOf Args = some ps ∧
      ((∃ fn0, σ.getFunction Name = some fn0 ∧ F = fn0.name ∧
          σ1 = { σ with NamedValuesArray := [[]] }) ∨
        (σ.getFunction Name = none ∧
          createFunction Name Type_ ps { σ with NamedValuesArray := [[]] } = .ok (F, σ1))) ∧
      σ1.getFunction F = some fn ∧ ps.length < fn.args.length := by
  rcases functionDef_prologue Prototype b σ with ⟨e, he, hr⟩ | ⟨Type_, F, σ2, h2, hb2⟩
  · rw [he Body] at h
    exact hr (Except.error.inj h)
  · exfalso
    rw [hb2 Body] at h
    split at h
    · split at h
      · rename_i e he
        exact codegen_inRange Body 0 σ2 hd (by omega)
          (he.trans (congrArg Except.error (Except.error.inj h)))
      · simp at h
      · split at h <;> simp at h
    · simp at h

theorem functionDef_fresh_inRange (Name Type_ : String) (Args : List ASTnode) (Body : ASTnode)
    (b : Nat) (σ : CGState) (hd : Body.defFree = true)
    (hfresh : σ.symbols.contains Name = false) :
    codegen (.FunctionDefASTnode (.FunctionPrototypeASTnode Name Type_ Args) Body) b σ ≠
      .error .outOfRange := by
  intro h
  obtain ⟨Name', Type', Args', ps, F, σ1, fn, hpf, hps, hcase, hfn, hlt⟩ :=
    functionDef_inRange _ Body b σ hd h
  simp only [ASTnode.prototypeFields, Option.some.injEq, Prod.mk.injEq] at hpf
  obtain ⟨rfl, rfl, rfl⟩ := hpf
  rcases hcase with ⟨fn0, hg, -, -⟩ | ⟨-, hc⟩
  · rw [getFunction_none_of_fresh σ Name hfresh] at hg
    cases hg
  · have hfresh' : ({ σ with NamedValuesArray := [[]] } : CGState).symbols.contains Name =
        false := hfresh
    obtain ⟨hF, fn', hfn', hlen⟩ := createFunction_fresh hfresh' hc
    subst hF
    rw [hfn'] at hfn
    cases hfn
    have := List.length_filterMap_le (fun a : String × String => varTypeOf a.2) ps
    omega

theorem functionDef_leaves_frame (Prototype Body : ASTnode) (b : Nat) (σ σ' : CGState)
    (v : Option Value) (hd : Body.defFree = true)
    (h : codegen (.FunctionDefASTnode Prototype Body) b σ = .ok (v, σ')) :
    0 < σ'.NamedValuesArray.length := by
  rcases functionDef_prologue Prototype b σ with ⟨e, he, -⟩ | ⟨Type_, F, σ2, h2, hb2⟩
  · rw [he Body] at h
    cases h
  · rw [hb2 Body] at h
    split at h
    · split at h
      · simp at h
      · rename_i σ3 h3
        simp only [Except.ok.injEq, Prod.mk.injEq] at h
        rw [← h.2]
        exact ((codegen_keeps Body 0 σ2 σ3 _ hd h3).2 (by omega)).1
      · rename_i RetVal σ3 h3
        have := ((codegen_keeps Body 0 σ2 σ3 _ hd h3).2 (by omega)).1
        split at h <;>
          (simp only [Except.ok.injEq, Prod.mk.injEq] at h
           rw [← h.2, emit_frames]
           exact this)
    · simp at h

theorem varDecl_top (Name Type_ : String) (σ σ' : CGState) (v : Option Value)
    (hσ : σ.insertBlock = none ∨ 0 < σ.NamedValuesArray.length)
    (h : VariableDeclarationASTnode_codegen Name Type_ 0 σ = .ok (v, σ')) :
    σ'.insertBlock = none ∨ 0 < σ'.NamedValuesArray.length := by
  rcases hσ with hn | hpos
  · left
    unfold VariableDeclarationASTnode_codegen at h
    rw [hn] at h
    simp only at h
    split at h
    · simp at h
    · simp only [Except.ok.injEq, Prod.mk.injEq] at h
      rw [← h.2]
      exact (uniqueName_fields σ Name).2.2.1.trans hn
  · exact Or.inr ((VariableDeclarationASTnode_codegen_keeps h).2 hpos).1

/-- The declarations of the top level are lowered at index 0: a range is left only inside a
function definition. -/
theorem topDecls_inRange : ∀ (ds : List ASTnode) (r : Option (Option Value)) (σ : CGState),
    (∀ d ∈ ds, d.isDecl = true) →
    (σ.insertBlock = none ∨ 0 < σ.NamedValuesArray.length) →
    codegenSeq ds 0 r σ = .error .outOfRange →
    ∃ (Prototype Body : ASTnode) (σa : CGState),
      ASTnode.FunctionDefASTnode Prototype Body ∈ ds ∧ Body.defFree = true ∧
      codegen (.FunctionDefASTnode Prototype Body) 0 σa = .error .outOfRange
  | [], r, σ, _, _, h => by simp [codegenSeq] at h
  | d :: rest, r, σ, hds, hσ, h => by
    have hd := hds d (List.mem_cons_self _ _)
    have hrest : ∀ d' ∈ rest, d'.isDecl = true := fun d' hm =>
      hds d' (List.mem_cons_of_mem _ hm)
    simp only [codegenSeq] at h
    split at h
    · rename_i e he
      have he' : codegen d 0 σ = .error .outOfRange :=
        he.trans (congrArg Except.error (Except.error.inj h))
      cases d <;> simp only [ASTnode.isDecl] at hd <;> try (exact absurd hd (by decide))
      · rename_i Name Type_
        simp only [codegen] at he'
        exact absurd he' (VariableDeclarationASTnode_codegen_inRange Name Type_ 0 σ hσ)
      · rename_i Prototype Body
        exact ⟨Prototype, Body, σ, List.mem_cons_self _ _, hd, he'⟩
    · rename_i v σ1 h1
      have hσ1 : σ1.insertBlock = none ∨ 0 < σ1.NamedValuesArray.length := by
        cases d <;> simp only [ASTnode.isDecl] at hd <;> try (exact absurd hd (by decide))
        · rename_i Name Type_
          simp only [codegen] at h1
          exact varDecl_top Name Type_ σ σ1 v hσ h1
        · rename_i Prototype Body
          exact Or.inr (functionDef_leaves_frame Prototype Body 0 σ σ1 v hd h1)
      obtain ⟨P, B, σa, hm, hB, hc⟩ := topDecls_inRange rest _ σ1 hrest hσ1 h
      exact ⟨P, B, σa, List.mem_cons_of_mem _ hm, hB, hc⟩

/-- **C39** (scope-stack accesses are in range), for programs as the parser builds them:
function definitions at the top level only.  The model reports an access
`NamedValuesArray[i]` with `i` not below the number of frames as the error `outOfRange`.
* The scope walk of a reference or an assignment from index `b`, and the entry made by a
  declaration at index `b`, are out of range exactly if the stack has at most `b` frames.
* Lowering a tree without function definitions at an index `b` below the number of frames never
  leaves the range, and if it succeeds the number of frames is still greater than `b`
  (`if` and `while` push a frame and lower their children at `b + 1`).
* A function definition resets the stack to one frame and lowers its parameters and its body at
  index 0: it leaves a range only in `Prototype->getArgType(count)`, a read of the prototype's
  parameter list, when the function found under the name has more arguments than the
  prototype has parameters; never under a name that is new in the module; and a definition
  that is lowered leaves at least one frame.
* At the top level declarations are lowered at index 0, from the state without insertion block
  of the start, in which a variable declaration makes a global variable and does not touch the
  stack: lowering a root leaves a range only inside one of its function definitions, in the
  read of `getArgType`.
* `void f(bool c, int a, float b) \x7b while (c) \x7b if (c) \x7b a = a; \x7d \x7d \x7d int g;`
  is lowered, and two frames are left. -/
theorem scope_index_in_range :
    (∀ (frames : List (List (String × AllocaInst))) (x : String) (b : Nat),
      findAlloca frames b x = .error .outOfRange ↔ frames.length ≤ b) ∧
    (∀ (n : String) (a : AllocaInst) (b : Nat) (σ : CGState),
      setNamedValue n a b σ = .error .outOfRange ↔ σ.NamedValuesArray.length ≤ b) ∧
    (∀ (n : ASTnode) (b : Nat) (σ : CGState), n.defFree = true →
      b < σ.NamedValuesArray.length →
      codegen n b σ ≠ .error .outOfRange ∧
        ∀ v σ', codegen n b σ = .ok (v, σ') → b < σ'.NamedValuesArray.length) ∧
    (∀ (Prototype Body : ASTnode) (b : Nat) (σ : CGState), Body.defFree = true →
      codegen (.FunctionDefASTnode Prototype Body) b σ = .error .outOfRange →
      ∃ (Name Type_ : String) (Args : List ASTnode) (ps : List (String × String))
        (F : String) (σ1 : CGState) (fn : Function),
        Prototype.prototypeFields = some (Name, Type_, Args) ∧ paramsOf Args = some ps ∧
        ((∃ fn0, σ.getFunction Name = some fn0 ∧ F = fn0.name ∧
            σ1 = { σ with NamedValuesArray := [[]] }) ∨
          (σ.getFunction Name = none ∧
            createFunction Name Type_ ps { σ with NamedValuesArray := [[]] } = .ok (F, σ1))) ∧
        σ1.getFunction F = some fn ∧ ps.length < fn.args.length) ∧
    (∀ (Name Type_ : String) (Args : List ASTnode) (Body : ASTnode) (b : Nat) (σ : CGState),
      Body.defFree = true → σ.symbols.contains Name = false →
      codegen (.FunctionDefASTnode (.FunctionPrototypeASTnode Name Type_ Args) Body) b σ ≠
        .error .outOfRange) ∧
    (∀ (Prototype Body : ASTnode) (b : Nat) (σ σ' : CGState) (v : Option Value),
      Body.defFree = true → codegen (.FunctionDefASTnode Prototype Body) b σ = .ok (v, σ') →
      0 < σ'.NamedValuesArray.length) ∧
    (CGState.init.insertBlock = none ∧
      ∀ (Ext_List Decl_List : List ASTnode), (∀ d ∈ Decl_List, d.isDecl = true) →
        codegen (.RootASTnode Ext_List Decl_List) 0 CGState.init = .error .outOfRange →
        ∃ (Prototype Body : ASTnode) (σa : CGState),
          ASTnode.FunctionDefASTnode Prototype Body ∈ Decl_List ∧ Body.defFree = true ∧
          codegen (.FunctionDefASTnode Prototype Body) 0 σa = .error .outOfRange) ∧
    (∃ v σ', codegen scopesProgram 0 CGState.init = .ok (v, σ') ∧
      σ'.NamedValuesArray.length = 2) := by
  refine ⟨fun frames x b => findAlloca_outOfRange frames x b, setNamedValue_outOfRange,
    fun n b σ hd hb => ⟨codegen_inRange n b σ hd hb,
      fun v σ' h => ((codegen_keeps n b σ σ' v hd h).2 hb).1⟩,
    functionDef_inRange, functionDef_fresh_inRange, functionDef_leaves_frame,
    ⟨rfl, fun Ext_List Decl_List hds h => ?_⟩, ⟨_, _, rfl, rfl⟩⟩
  simp only [codegen] at h
  split at h
  · rename_i e he
    exact absurd (he.trans (congrArg Except.error (Except.error.inj h)))
      (codegenExterns_inRange _ _)
  · rename_i u σ1 h1
    split at h
    · rename_i e he
      exact topDecls_inRange Decl_List none σ1 hds
        (Or.inl ((codegenExterns_same _ _ _ _ h1).2.2.trans rfl))
        (he.trans (congrArg Except.error (Except.error.inj h)))
    · simp at h

/-! ### The kinds of the tokens -/

theorem lookup_snd_mem (w : String) (k : Int) : ∀ l : List (String × Int),
    l.lookup w = some k → k ∈ l.map Prod.snd
  | [], h => by simp at h
  | (a, b) :: rest, h => by
    rw [List.lookup_cons] at h
    split at h
    · simp only [Option.some.injEq] at h
      simp [h]
    · simp only [List.map_cons, List.mem_cons]
      exact Or.inr (lookup_snd_mem w k rest h)

theorem wordKind_ne (w : String) :
    wordKind w ≠ INT_LIT ∧ wordKind w ≠ FLOAT_LIT ∧ wordKind w ≠ EOF_TOK := by
  unfold wordKind
  cases h : reservedWords.lookup w with
  | none => decide
  | some k =>
    have := lookup_snd_mem w k _ h
    simp only [reservedWords, List.map_cons, List.map_nil, List.mem_cons, List.mem_singleton,
      List.not_mem_nil, or_false] at this
    rcases this with h | h | h | h | h | h | h | h | h | h | h <;> (rw [h]; decide)

theorem kind2_ne (e : OpEntry) (he : e ∈ operatorTable) :
    e.kind2 ≠ INT_LIT ∧ e.kind2 ≠ FLOAT_LIT ∧ e.kind2 ≠ EOF_TOK := by
  simp only [operatorTable, List.mem_cons, List.mem_singleton, List.not_mem_nil, or_false] at he
  rcases he with rfl | rfl | rfl | rfl | rfl | rfl <;> decide

theorem lexes_result {s : LexState} {gap lex rest : List Nat} {ty : Int} {t : TOKEN}
    {s1 : LexState} (h : s.lexes gap lex rest ty) (hg : gettok s = some (t, s1)) :
    t.type = ty ∧ t.lexeme = lexemeOf lex ∧ s1.reads rest := by
  obtain ⟨t', s1', hg', hty, hlex, hrd, -⟩ := h
  rw [hg] at hg'
  simp only [Option.some.injEq, Prod.mk.injEq] at hg'
  rw [hg'.1, hg'.2]
  exact ⟨hty, hlex, hrd⟩

theorem shaped_of_other (t : TOKEN) (bs : List Nat) (s1 : LexState)
    (h : t.type ≠ INT_LIT ∧ t.type ≠ FLOAT_LIT ∧ t.type ≠ EOF_TOK) : t.shaped bs s1 :=
  ⟨fun h1 => absurd h1 h.1, fun h2 => absurd h2 h.2.1, fun h3 => absurd h3 h.2.2⟩

theorem mem_of_dropWhile (p : Nat → Bool) (bs : List Nat) (c : Nat) (r : List Nat)
    (hx : bs.dropWhile p = c :: r) : c ∈ bs ∧ ∀ x ∈ r, x ∈ bs := by
  have hs := (List.dropWhile_suffix p (l := bs)).subset
  rw [hx] at hs
  exact ⟨hs (List.mem_cons_self _ _), fun x hm => hs (List.mem_cons_of_mem _ hm)⟩

/-- The token of one call of `gettok` has the shape of its kind. -/
theorem gettok_shaped (n : Nat) : ∀ bs : List Nat, bs.length ≤ n →
    ∀ (s : LexState) (t : TOKEN) (s1 : LexState), s.reads bs → gettok s = some (t, s1) →
      t.shaped bs s1 := by
  induction n with
  | zero =>
    intro bs hlen s t s1 hr hg
    have : bs = [] := List.length_eq_zero.mp (by omega)
    subst this
    obtain ⟨t', s1', hg', hty, hlex, hrd⟩ := gettok_eof s [] hr rfl
    rw [hg] at hg'
    simp only [Option.some.injEq, Prod.mk.injEq] at hg'
    rw [hg'.1, hg'.2]
    exact ⟨fun h => absurd (hty.symm.trans h) (by decide), fun h => absurd (hty.symm.trans h) (by decide),
      fun _ => Or.inl ⟨hlex, hrd⟩⟩
  | succ n ih =>
    intro bs hlen s t s1 hr hg
    cases hx : bs.dropWhile isSpaceByte with
    | nil =>
      obtain ⟨t', s1', hg', hty, hlex, hrd⟩ := gettok_eof s bs hr hx
      rw [hg] at hg'
      simp only [Option.some.injEq, Prod.mk.injEq] at hg'
      rw [hg'.1, hg'.2]
      exact ⟨fun h => absurd (hty.symm.trans h) (by decide), fun h => absurd (hty.symm.trans h) (by decide),
        fun _ => Or.inl ⟨hlex, hrd⟩⟩
    | cons c r =>
      have hlenx : r.length + 1 ≤ bs.length := by
        have := (List.dropWhile_suffix isSpaceByte (l := bs)).length_le
        rw [hx] at this
        simpa using this
      have hmem := mem_of_dropWhile isSpaceByte bs c r hx
      by_cases hw : (isalpha (c : Int) || (c : Int) == 95) = true
      · obtain ⟨hty, -, -⟩ := lexes_result (gettok_lexes_ident s bs c r hr hx hw) hg
        exact shaped_of_other t bs s1 (by rw [hty]; exact wordKind_ne _)
      by_cases hdot : c = 46
      · subst hdot
        obtain ⟨hty, hlex, -⟩ := lexes_result (gettok_lexes_dot s bs r hr hx) hg
        refine ⟨fun h => absurd (hty.symm.trans h) (by decide), fun _ => ?_, fun h => absurd (hty.symm.trans h) (by decide)⟩
        exact ⟨[], r.takeWhile isDigitByte, by simp,
          fun d hd => List.mem_takeWhile_imp hd, hlex⟩
      by_cases hd : isdigit (c : Int) = true
      · have hall : ∀ d ∈ c :: r.takeWhile isDigitByte, isDigitByte d = true := by
          intro d hm
          rcases List.mem_cons.mp hm with h | h
          · rw [h]; exact hd
          · exact List.mem_takeWhile_imp h
        have hint : frontChar (r.dropWhile isDigitByte) ≠ 46 → t.shaped bs s1 := by
          intro hne
          obtain ⟨hty, hlex, -⟩ := lexes_result (gettok_lexes_int s bs c r hr hx hd hne) hg
          refine ⟨fun _ => ⟨_, by simp, hall, hlex⟩, fun h => absurd (hty.symm.trans h) (by decide),
            fun h => absurd (hty.symm.trans h) (by decide)⟩
        cases hdd : r.dropWhile isDigitByte with
        | nil => exact hint (by rw [hdd]; decide)
        | cons d r2 =>
          by_cases hd46 : d = 46
          · subst hd46
            obtain ⟨hty, hlex, -⟩ :=
              lexes_result (gettok_lexes_float s bs c r r2 hr hx hd hdd) hg
            refine ⟨fun h => absurd (hty.symm.trans h) (by decide), fun _ => ?_,
              fun h => absurd (hty.symm.trans h) (by decide)⟩
            exact ⟨c :: r.takeWhile isDigitByte, r2.takeWhile isDigitByte, hall,
              fun d hd => List.mem_takeWhile_imp hd, by simpa using hlex⟩
          · exact hint (by
              rw [hdd]
              simp only [frontChar]
              omega)
      have hw' : (isalpha (c : Int) || (c : Int) == 95) = false := by simpa using hw
      have hd' : (isdigit (c : Int) || (c : Int) == 46) = false := by
        simp only [Bool.or_eq_false_iff, beq_eq_false_iff_ne, ne_eq]
        exact ⟨by simpa using hd, by omega⟩
      by_cases hpair : ∃ e ∈ operatorTable, e.first = c ∧ frontChar r = (e.second : Int)
      · obtain ⟨e, he, hf, hs⟩ := hpair
        cases r with
        | nil =>
          exfalso
          simp only [frontChar, EOF] at hs
          omega
        | cons d r' =>
          simp only [frontChar, Nat.cast_inj] at hs
          subst hf hs
          obtain ⟨hty, -, -⟩ := lexes_result (gettok_lexes_two s bs r' e he hr hx).1 hg
          exact shaped_of_other t bs s1 (by rw [hty]; exact kind2_ne e he)
      by_cases hcom : c = 47 ∧ frontChar r = 47
      · obtain ⟨hc47, hf⟩ := hcom
        subst hc47
        cases r with
        | nil =>
          exfalso
          simp only [frontChar, EOF] at hf
          omega
        | cons d r' =>
          simp only [frontChar] at hf
          have hd47 : d = 47 := by omega
          subst hd47
          cases hcd : r'.dropWhile (fun b => !isNewline b) with
          | nil =>
            obtain ⟨t', s1', hg', hty, hlex, hrd⟩ := gettok_comment_eof s bs r' hr hx hcd
            rw [hg] at hg'
            simp only [Option.some.injEq, Prod.mk.injEq] at hg'
            rw [hg'.1, hg'.2]
            exact ⟨fun h => absurd (hty.symm.trans h) (by decide), fun h => absurd (hty.symm.trans h) (by decide),
              fun _ => Or.inl ⟨hlex, hrd⟩⟩
          | cons e1 r3 =>
            have hlen3 : (r'.dropWhile (fun b => !isNewline b)).length ≤ n := by
              have := (List.dropWhile_suffix (fun b => !isNewline b) (l := r')).length_le
              simp only [List.length_cons] at hlenx
              omega
            have hne : r'.dropWhile (fun b => !isNewline b) ≠ [] := by rw [hcd]; simp
            obtain ⟨s2, hg2, hr2, -⟩ := gettok_comment s bs r' hr hx hne
            rw [hg2] at hg
            obtain ⟨a1, a2, a3⟩ := ih _ hlen3 s2 t s1 hr2 hg
            refine ⟨a1, a2, fun h => ?_⟩
            rcases a3 h with h0 | ⟨h0, hm⟩
            · exact Or.inl h0
            · refine Or.inr ⟨h0, ?_⟩
              have hs := (List.dropWhile_suffix (fun b => !isNewline b) (l := r')).subset hm
              exact hmem.2 0 (List.mem_cons_of_mem _ hs)
      · obtain ⟨hty, hlex, -⟩ := lexes_result (gettok_lexes_one s bs c r hr hx hw' hd'
          (fun e he hf hs => hpair ⟨e, he, hf, hs⟩) (fun h47 hs => hcom ⟨h47, hs⟩)) hg
        refine ⟨fun h => ?_, fun h => ?_, fun h => ?_⟩
        · rw [hty] at h
          simp only [INT_LIT] at h
          omega
        · rw [hty] at h
          simp only [FLOAT_LIT] at h
          omega
        · rw [hty] at h
          simp only [EOF_TOK] at h
          have hc0 : c = 0 := by omega
          subst hc0
          exact Or.inr ⟨hlex, hmem.1⟩

/-- **C31** (the lexemes of the numeric literals), evaluated on the code.  The number branch of
`gettok` starts on a digit or on `.`; after the digits a `.` continues the token, and nothing
asks for a digit behind it.
* Holds: every `INT_LIT` is a non-empty run of digits, and every `FLOAT_LIT` has exactly one
  `.`, with a run of digits in front of it and one behind it.
* Either run may be empty: a `.` that no digit follows is returned as the `FLOAT_LIT` with the
  lexeme `.`; the bytes `1.` give the `FLOAT_LIT` with the lexeme `1.`.
* `stof` has no conversion for the lexeme `.`: `ParseRvalNine` ends in the exception
  `invalid_argument`, as does `parser` on `void f()\x7breturn .;\x7d`.
* The digits `2147483648` are an `INT_LIT` of the pattern, and `stoi` ends in the exception
  `out_of_range` on it. -/
theorem numeric_lexemes :
    (∀ (bs : List Nat) (s : LexState) (t : TOKEN) (s1 : LexState), s.reads bs →
      gettok s = some (t, s1) →
      (t.type = INT_LIT →
        ∃ ds, ds ≠ [] ∧ (∀ d ∈ ds, isDigitByte d = true) ∧ t.lexeme = lexemeOf ds) ∧
      (t.type = FLOAT_LIT →
        ∃ ds1 ds2, (∀ d ∈ ds1, isDigitByte d = true) ∧ (∀ d ∈ ds2, isDigitByte d = true) ∧
          t.lexeme = lexemeOf (ds1 ++ 46 :: ds2))) ∧
    (∀ (s : LexState) (r : List Nat), s.reads (46 :: r) → r.takeWhile isDigitByte = [] →
      ∃ t s1, gettok s = some (t, s1) ∧ t.type = FLOAT_LIT ∧ t.lexeme = "." ∧ s1.reads r) ∧
    (gettokN 2 (LexState.init [46])).map (fun r => tokenViews r.1) =
      some [(FLOAT_LIT, "."), (EOF_TOK, "0")] ∧
    (gettokN 2 (LexState.init [49, 46])).map (fun r => tokenViews r.1) =
      some [(FLOAT_LIT, "1."), (EOF_TOK, "0")] ∧
    stof "." = .error (.conversion "stof: invalid_argument") ∧
    (∀ st : PState, st.CurTok.type = FLOAT_LIT → st.CurTok.lexeme = "." →
      ParseRvalNine st = .error (.conversion "stof: invalid_argument")) ∧
    (gettokN 10 (LexState.init loneDotBytes)).map (fun r => tokenViews r.1) =
      some (tokenViews loneDotTokens) ∧
    (∀ n, 13 ≤ n →
      parser n (PState.start loneDotTokens) = .error (.conversion "stof: invalid_argument")) ∧
    (gettokN 2 (LexState.init [50, 49, 52, 55, 52, 56, 51, 54, 52, 56])).map
        (fun r => tokenViews r.1) = some [(INT_LIT, "2147483648"), (EOF_TOK, "0")] ∧
    stoi "2147483648" = .error (.conversion "stoi: out_of_range") ∧
    (∀ st : PState, st.CurTok.type = INT_LIT → st.CurTok.lexeme = "2147483648" →
      ParseRvalNine st = .error (.conversion "stoi: out_of_range")) := by
  refine ⟨fun bs s t s1 hr hg => ?_, fun s r hr htw => ?_, by decide, by decide, rfl,
    fun st hty hlex => ?_, by decide, fun n hn => ?_, by decide, rfl, fun st hty hlex => ?_⟩
  · have h := gettok_shaped bs.length bs (le_refl _) s t s1 hr hg
    exact ⟨h.1, h.2.1⟩
  · obtain ⟨t, s1, hg, hty, hlex, hrd, -⟩ := gettok_lexes_dot s (46 :: r) r hr rfl
    refine ⟨t, s1, hg, hty, ?_, ?_⟩
    · rw [hlex, htw]; rfl
    · have hd : r.dropWhile isDigitByte = r := by
        have := List.takeWhile_append_dropWhile isDigitByte r
        rw [htw] at this
        exact this
      rw [← hd]
      exact hrd
  · unfold ParseRvalNine
    rw [if_neg (by rw [hty]; decide), if_pos hty, hlex]
    rfl
  · obtain ⟨m, rfl⟩ : ∃ m, n = m + 13 := ⟨n - 13, by omega⟩
    rfl
  · unfold ParseRvalNine
    rw [if_pos hty, hlex]
    rfl

/-- **C37** (`EOF_TOK` only at the end of the input), evaluated on the code.  The last branch of
`gettok` returns a character that no other branch takes with its code as the kind of the token,
and `EOF_TOK` is the kind 0.
* A token of kind `EOF_TOK` is either the token `0` of the end of the input, with nothing left
  to read, or the token of a NUL byte of the input.
* A NUL byte in front of the lexer is returned as a token of kind `EOF_TOK`, whatever bytes
  follow it, and these are left to read.
* `int x;`, a NUL byte, `int y;`: the fourth token has the kind `EOF_TOK`, three tokens and
  the token of the end of the input follow it, and `parser` returns the root with the
  declaration of `x` alone, the tokens of `int y;` unread. -/
theorem eof_token_kind :
    (∀ (bs : List Nat) (s : LexState) (t : TOKEN) (s1 : LexState), s.reads bs →
      gettok s = some (t, s1) → t.type = EOF_TOK →
      (t.lexeme = "0" ∧ s1.reads []) ∨ (t.lexeme = lexemeOf [0] ∧ 0 ∈ bs)) ∧
    (∀ (s : LexState) (r : List Nat), s.reads (0 :: r) →
      ∃ t s1, gettok s = some (t, s1) ∧ t.type = EOF_TOK ∧ t.lexeme = lexemeOf [0] ∧
        s1.reads r) ∧
    (gettokN 8 (LexState.init nulBytes)).map (fun r => tokenViews r.1) =
      some (tokenViews nulTokens) ∧
    tokenViews nulTokens =
      [(INT_TOK, "int"), (IDENT, "x"), (SC, ";"), (EOF_TOK, lexemeOf [0]), (INT_TOK, "int"),
        (IDENT, "y"), (SC, ";"), (EOF_TOK, "0")] ∧
    (∀ n, 2 ≤ n →
      parser n (PState.start nulTokens) =
        .ok (.RootASTnode [] [.VariableDeclarationASTnode "x" "int"],
          ⟨tok EOF_TOK (lexemeOf [0]), [],
            [tok INT_TOK "int", tok IDENT "y", tok SC ";", eofTOK]⟩)) := by
  refine ⟨fun bs s t s1 hr hg hty => ?_, fun s r hr => ?_, by decide, rfl, fun n hn => ?_⟩
  · exact (gettok_shaped bs.length bs (le_refl _) s t s1 hr hg).2.2 hty
  · obtain ⟨t, s1, hg, hty, hlex, hrd, -⟩ := gettok_lexes_one s (0 :: r) 0 r hr rfl
      (by decide) (by decide)
      (fun e he hf => absurd hf (by
        simp only [operatorTable, List.mem_cons, List.mem_singleton, List.not_mem_nil,
          or_false] at he
        rcases he with rfl | rfl | rfl | rfl | rfl | rfl <;> decide))
      (fun h => absurd h (by decide))
    exact ⟨t, s1, hg, hty, hlex, hrd⟩
  · obtain ⟨m, rfl⟩ : ∃ m, n = m + 2 := ⟨n - 2, by omega⟩
    rfl

/-! ### The parser takes the tokens in the order of the stream -/

theorem advance_add (j : Nat) : ∀ (k : Nat) (st : PState),
    advance (k + j) st = advance j (advance k st)
  | 0, st => by rw [Nat.zero_add]; rfl
  | k + 1, st => by
    rw [show k + 1 + j = (k + j) + 1 from by omega]
    exact advance_add j k (getNextToken st)

theorem PState.Reaches.noStep (st : PState) : st.Reaches st :=
  ⟨0, rfl, fun i hi => absurd hi (Nat.not_lt_zero i)⟩

theorem PState.Reaches.append {a b c : PState} (h1 : a.Reaches b) (h2 : b.Reaches c) :
    a.Reaches c := by
  obtain ⟨k, hk, hk'⟩ := h1
  obtain ⟨j, hj, hj'⟩ := h2
  refine ⟨k + j, by rw [advance_add, ← hk, hj], fun i hi => ?_⟩
  by_cases hik : i < k
  · exact hk' i hik
  · obtain ⟨d, rfl⟩ : ∃ d, i = k + d := ⟨i - k, by omega⟩
    rw [advance_add, ← hk]
    exact hj' d (by omega)

theorem PState.Reaches.eat {st : PState} (h : st.CurTok.type ≠ EOF_TOK) :
    st.Reaches (getNextToken st) := by
  refine ⟨1, rfl, fun i hi => ?_⟩
  have : i = 0 := by omega
  subst this
  exact h

theorem PState.Reaches.of_eq {a b c : PState} (h : a.Reaches b) (e : b = c) : a.Reaches c :=
  e ▸ h

/-- The result state of a successful run. -/
theorem ok_state {α : Type} {v w : α} {s t : PState}
    (h : (Except.ok (v, s) : Res α) = .ok (w, t)) : s = t := by
  simp only [Except.ok.injEq, Prod.mk.injEq] at h
  exact h.2

theorem parseVarType_reaches (st : PState) (v : String) (st1 : PState)
    (h : ParseVarType st = .ok (v, st1)) : st.Reaches st1 := by
  unfold ParseVarType at h
  split_ifs at h with h1 h2 h3
  · exact (PState.Reaches.eat (by rw [h1]; decide)).of_eq (ok_state h)
  · exact (PState.Reaches.eat (by rw [h2]; decide)).of_eq (ok_state h)
  · exact (PState.Reaches.eat (by rw [h3]; decide)).of_eq (ok_state h)

theorem parseTypeSpec_reaches (st : PState) (v : String) (st1 : PState)
    (h : ParseTypeSpec st = .ok (v, st1)) : st.Reaches st1 := by
  unfold ParseTypeSpec at h
  split_ifs at h with h1 h2
  · exact parseVarType_reaches st v st1 h
  · exact (PState.Reaches.eat (by rw [h2]; decide)).of_eq (ok_state h)

theorem parseRvalNine_reaches (st : PState) (v : ASTnode) (st1 : PState)
    (h : ParseRvalNine st = .ok (v, st1)) : st.Reaches st1 := by
  unfold ParseRvalNine at h
  split_ifs at h with h1 h2 h3
  · split at h
    · cases h
    · exact (PState.Reaches.eat (by rw [h1]; decide)).of_eq (ok_state h)
  · split at h
    · cases h
    · exact (PState.Reaches.eat (by rw [h2]; decide)).of_eq (ok_state h)
  · exact (PState.Reaches.eat (by rw [h3]; decide)).of_eq (ok_state h)

theorem parseParam_reaches (st : PState) (v : ASTnode) (st1 : PState)
    (h : ParseParam st = .ok (v, st1)) : st.Reaches st1 := by
  unfold ParseParam at h
  split at h
  · cases h
  · rename_i ty s heq
    split_ifs at h with h1
    exact ((parseVarType_reaches _ _ _ heq).append
      (PState.Reaches.eat (by rw [h1]; decide))).of_eq (ok_state h)

theorem parseLocalDecl_reaches (st : PState) (v : ASTnode) (st1 : PState)
    (h : ParseLocalDecl st = .ok (v, st1)) : st.Reaches st1 := by
  unfold ParseLocalDecl at h
  split at h
  · cases h
  · rename_i ty s heq
    simp only at h
    split_ifs at h with h1 h2
    exact ((parseVarType_reaches _ _ _ heq).append
      ((PState.Reaches.eat (by rw [h1]; decide)).append
        (PState.Reaches.eat (by rw [h2]; decide)))).of_eq (ok_state h)

theorem ne_eof_of {p : Int → Bool} {t : Int} (h : p t = true) (h0 : p EOF_TOK = false) :
    t ≠ EOF_TOK := by
  intro e
  rw [e, h0] at h
  cases h

/-- Every expression production that succeeds has taken the tokens in the order of the stream. -/
theorem exprs_reach (n : Nat) :
    (∀ st v st1, ParseExpr n st = .ok (v, st1) → st.Reaches st1) ∧
    (∀ st v st1, ParseRval n st = .ok (v, st1) → st.Reaches st1) ∧
    (∀ lhs st v st1, ParseRvalPrime n lhs st = .ok (v, st1) → st.Reaches st1) ∧
    (∀ st v st1, ParseRvalOne n st = .ok (v, st1) → st.Reaches st1) ∧
    (∀ lhs st v st1, ParseRvalOnePrime n lhs st = .ok (v, st1) → st.Reaches st1) ∧
    (∀ st v st1, ParseRvalTwo n st = .ok (v, st1) → st.Reaches st1) ∧
    (∀ lhs st v st1, ParseRvalTwoPrime n lhs st = .ok (v, st1) → st.Reaches st1) ∧
    (∀ st v st1, ParseRvalThree n st = .ok (v, st1) → st.Reaches st1) ∧
    (∀ lhs st v st1, ParseRvalThreePrime n lhs st = .ok (v, st1) → st.Reaches st1) ∧
    (∀ st v st1, ParseRvalFour n st = .ok (v, st1) → st.Reaches st1) ∧
    (∀ lhs st v st1, ParseRvalFourPrime n lhs st = .ok (v, st1) → st.Reaches st1) ∧
    (∀ st v st1, ParseRvalFive n st = .ok (v, st1) → st.Reaches st1) ∧
    (∀ lhs st v st1, ParseRvalFivePrime n lhs st = .ok (v, st1) → st.Reaches st1) ∧
    (∀ st v st1, ParseRvalSix n st = .ok (v, st1) → st.Reaches st1) ∧
    (∀ st v st1, ParseRvalSeven n st = .ok (v, st1) → st.Reaches st1) ∧
    (∀ st v st1, ParseRvalEight n st = .ok (v, st1) → st.Reaches st1) ∧
    (∀ st vs st1, ParseArgs n st = .ok (vs, st1) → st.Reaches st1) ∧
    (∀ st vs st1, ParseArgList n st = .ok (vs, st1) → st.Reaches st1) ∧
    (∀ args st vs st1, ParseArgListPrime n args st = .ok (vs, st1) → st.Reaches st1) := by
  induction n with
  | zero =>
    refine ⟨?_, ?_, ?_, ?_, ?_, ?_, ?_, ?_, ?_, ?_, ?_, ?_, ?_, ?_, ?_, ?_, ?_, ?_, ?_⟩
    all_goals
      intros
      rename_i h
      first
        | (rw [ParseExpr] at h; cases h)
        | (rw [ParseRval] at h; cases h)
        | (rw [ParseRvalPrime] at h; cases h)
        | (rw [ParseRvalOne] at h; cases h)
        | (rw [ParseRvalOnePrime] at h; cases h)
        | (rw [ParseRvalTwo] at h; cases h)
        | (rw [ParseRvalTwoPrime] at h; cases h)
        | (rw [ParseRvalThree] at h; cases h)
        | (rw [ParseRvalThreePrime] at h; cases h)
        | (rw [ParseRvalFour] at h; cases h)
        | (rw [ParseRvalFourPrime] at h; cases h)
        | (rw [ParseRvalFive] at h; cases h)
        | (rw [ParseRvalFivePrime] at h; cases h)
        | (rw [ParseRvalSix] at h; cases h)
        | (rw [ParseRvalSeven] at h; cases h)
        | (rw [ParseRvalEight] at h; cases h)
        | (rw [ParseArgs] at h; cases h)
        | (rw [ParseArgList] at h; cases h)
        | (rw [ParseArgListPrime] at h; cases h)
  | succ n ih =>
    obtain ⟨iE, iR, iRP, i1, i1P, i2, i2P, i3, i3P, i4, i4P, i5, i5P, i6, i7, i8, iA, iAL, iALP⟩ := ih
    refine ⟨?_, ?_, ?_, ?_, ?_, ?_, ?_, ?_, ?_, ?_, ?_, ?_, ?_, ?_, ?_, ?_, ?_, ?_, ?_⟩
    · intro st v st1 h
      rw [ParseExpr] at h
      split_ifs at h with hI hA hM
      · split at h
        · cases h
        · rename_i ptr s heq
          exact ((PState.Reaches.eat (by rw [hI]; decide)).append
            ((PState.Reaches.eat (by rw [hA]; decide)).append (iE _ _ _ heq))).of_eq (ok_state h)
      · rw [parseRval_congr n (restorePeeked st) st rfl hI (getNextToken_restorePeeked st)] at h
        exact iR _ _ _ h
      · exact iR _ _ _ h
    · intro st v st1 h
      rw [ParseRval] at h
      split at h
      · cases h
      · rename_i ptr s heq
        have hp := i1 _ _ _ heq
        split_ifs at h
        · exact hp.append (iRP _ _ _ _ h)
        · exact hp.of_eq (ok_state h)
    · intro lhs st v st1 h
      rw [ParseRvalPrime] at h
      split_ifs at h with hO hF
      · split at h
        · cases h
        · rename_i rhs s heq
          have hb := (PState.Reaches.eat (by rw [hO]; decide)).append (i1 _ _ _ heq)
          split_ifs at h
          all_goals first
            | exact hb.append (iRP _ _ _ _ h)
            | exact hb.of_eq (ok_state h)
      · exact (PState.Reaches.noStep st).of_eq (ok_state h)
    · intro st v st1 h
      rw [ParseRvalOne] at h
      split at h
      · cases h
      · rename_i ptr s heq
        have hp := i2 _ _ _ heq
        split_ifs at h
        · exact hp.append (i1P _ _ _ _ h)
        · exact hp.of_eq (ok_state h)
    · intro lhs st v st1 h
      rw [ParseRvalOnePrime] at h
      split_ifs at h with hO hF
      · split at h
        · cases h
        · rename_i rhs s heq
          have hb := (PState.Reaches.eat (by rw [hO]; decide)).append (i2 _ _ _ heq)
          split_ifs at h
          all_goals first
            | exact hb.append (iRP _ _ _ _ h)
            | exact hb.append (i1P _ _ _ _ h)
            | exact hb.of_eq (ok_state h)
      · exact (PState.Reaches.noStep st).of_eq (ok_state h)
    · intro st v st1 h
      rw [ParseRvalTwo] at h
      split at h
      · cases h
      · rename_i ptr s heq
        have hp := i3 _ _ _ heq
        split_ifs at h
        · exact hp.append (i2P _ _ _ _ h)
        · exact hp.of_eq (ok_state h)
    · intro lhs st v st1 h
      rw [ParseRvalTwoPrime] at h
      split_ifs at h with hO hF
      · split at h
        · cases h
        · rename_i rhs s heq
          have hb := (PState.Reaches.eat (ne_eof_of hO (by decide))).append (i3 _ _ _ heq)
          split_ifs at h
          all_goals first
            | exact hb.append (iRP _ _ _ _ h)
            | exact hb.append (i1P _ _ _ _ h)
            | exact hb.append (i2P _ _ _ _ h)
            | exact hb.of_eq (ok_state h)
      · exact (PState.Reaches.noStep st).of_eq (ok_state h)
    · intro st v st1 h
      rw [ParseRvalThree] at h
      split at h
      · cases h
      · rename_i ptr s heq
        have hp := i4 _ _ _ heq
        split_ifs at h
        · exact hp.append (i3P _ _ _ _ h)
        · exact hp.of_eq (ok_state h)
    · intro lhs st v st1 h
      rw [ParseRvalThreePrime] at h
      split_ifs at h with hO hF
      · split at h
        · cases h
        · rename_i rhs s heq
          have hb := (PState.Reaches.eat (ne_eof_of hO (by decide))).append (i4 _ _ _ heq)
          split_ifs at h
          all_goals first
            | exact hb.append (iRP _ _ _ _ h)
            | exact hb.append (i1P _ _ _ _ h)
            | exact hb.append (i2P _ _ _ _ h)
            | exact hb.append (i3P _ _ _ _ h)
            | exact hb.of_eq (ok_state h)
      · exact (PState.Reaches.noStep st).of_eq (ok_state h)
    · intro st v st1 h
      rw [ParseRvalFour] at h
      split at h
      · cases h
      · rename_i ptr s heq
        have hp := i5 _ _ _ heq
        split_ifs at h
        · exact hp.append (i4P _ _ _ _ h)
        · exact hp.of_eq (ok_state h)
    · intro lhs st v st1 h
      rw [ParseRvalFourPrime] at h
      split_ifs at h with hO hF
      · split at h
        · cases h
        · rename_i rhs s heq
          have hb := (PState.Reaches.eat (ne_eof_of hO (by decide))).append (i5 _ _ _ heq)
          split_ifs at h
          all_goals first
            | exact hb.append (iRP _ _ _ _ h)
            | exact hb.append (i1P _ _ _ _ h)
            | exact hb.append (i2P _ _ _ _ h)
            | exact hb.append (i3P _ _ _ _ h)
            | exact hb.append (i4P _ _ _ _ h)
            | exact hb.of_eq (ok_state h)
      · exact (PState.Reaches.noStep st).of_eq (ok_state h)
    · intro st v st1 h
      rw [ParseRvalFive] at h
      split at h
      · cases h
      · rename_i ptr s heq
        have hp := i6 _ _ _ heq
        split_ifs at h
        · exact hp.append (i5P _ _ _ _ h)
        · exact hp.of_eq (ok_state h)
    · intro lhs st v st1 h
      rw [ParseRvalFivePrime] at h
      split_ifs at h with hO hF
      · split at h
        · cases h
        · rename_i rhs s heq
          have hb := (PState.Reaches.eat (ne_eof_of hO (by decide))).append (i6 _ _ _ heq)
          split_ifs at h
          all_goals first
            | exact hb.append (iRP _ _ _ _ h)
            | exact hb.append (i1P _ _ _ _ h)
            | exact hb.append (i2P _ _ _ _ h)
            | exact hb.append (i3P _ _ _ _ h)
            | exact hb.append (i4P _ _ _ _ h)
            | exact hb.append (i5P _ _ _ _ h)
            | exact hb.of_eq (ok_state h)
      · exact (PState.Reaches.noStep st).of_eq (ok_state h)
    · intro st v st1 h
      rw [ParseRvalSix] at h
      split_ifs at h with hU hU2
      · split at h
        · cases h
        · rename_i ptr s heq
          exact ((PState.Reaches.eat (ne_eof_of hU (by decide))).append
            (i6 _ _ _ heq)).of_eq (ok_state h)
      · split at h
        · cases h
        · rename_i ptr s heq
          exact ((PState.Reaches.eat (ne_eof_of hU (by decide))).append
            (i7 _ _ _ heq)).of_eq (ok_state h)
      · exact i7 _ _ _ h
    · intro st v st1 h
      rw [ParseRvalSeven] at h
      split_ifs at h with hL
      · split at h
        · cases h
        · rename_i ptr s heq
          split_ifs at h with hR
          exact ((PState.Reaches.eat (by rw [hL]; decide)).append ((iE _ _ _ heq).append
            (PState.Reaches.eat (by rw [hR]; decide)))).of_eq (ok_state h)
      · exact i8 _ _ _ h
    · intro st v st1 h
      rw [ParseRvalEight] at h
      split_ifs at h with hI hL
      · split at h
        · cases h
        · rename_i args s heq
          split_ifs at h with hR
          exact ((PState.Reaches.eat (by rw [hI]; decide)).append
            ((PState.Reaches.eat (by rw [hL]; decide)).append ((iA _ _ _ heq).append
              (PState.Reaches.eat (by rw [hR]; decide))))).of_eq (ok_state h)
      · exact (PState.Reaches.eat (by rw [hI]; decide)).of_eq (ok_state h)
      · exact parseRvalNine_reaches _ _ _ h
    · intro st vs st1 h
      rw [ParseArgs] at h
      split_ifs at h
      · exact iAL _ _ _ h
      · exact (PState.Reaches.noStep st).of_eq (ok_state h)
    · intro st vs st1 h
      rw [ParseArgList] at h
      split at h
      · cases h
      · rename_i arg s heq
        exact (iE _ _ _ heq).append (iALP _ _ _ _ h)
    · intro args st vs st1 h
      rw [ParseArgListPrime] at h
      split_ifs at h with hC
      · split at h
        · cases h
        · rename_i arg s heq
          exact (PState.Reaches.eat (by rw [hC]; decide)).append
            ((iE _ _ _ heq).append (iALP _ _ _ _ h))
      · exact (PState.Reaches.noStep st).of_eq (ok_state h)

theorem parseLocalDeclsPrime_reaches (n : Nat) : ∀ (ds : List ASTnode) (st : PState)
    (vs : List ASTnode) (st1 : PState),
    ParseLocalDeclsPrime n ds st = .ok (vs, st1) → st.Reaches st1 := by
  induction n with
  | zero =>
    intro ds st vs st1 h
    rw [ParseLocalDeclsPrime] at h
    cases h
  | succ n ih =>
    intro ds st vs st1 h
    rw [ParseLocalDeclsPrime] at h
    split_ifs at h
    · split at h
      · cases h
      · rename_i d s heq
        exact (parseLocalDecl_reaches _ _ _ heq).append (ih _ _ _ _ h)
    · exact (PState.Reaches.noStep st).of_eq (ok_state h)

theorem parseLocalDecls_reaches (n : Nat) (st : PState) (vs : List ASTnode) (st1 : PState)
    (h : ParseLocalDecls n st = .ok (vs, st1)) : st.Reaches st1 := by
  unfold ParseLocalDecls at h
  split_ifs at h
  split at h
  · cases h
  · rename_i d s heq
    exact (parseLocalDecl_reaches _ _ _ heq).append (parseLocalDeclsPrime_reaches n _ _ _ _ h)

theorem parseExprStmt_reaches (n : Nat) (st : PState) (v : ASTnode) (st1 : PState)
    (h : ParseExprStmt n st = .ok (v, st1)) : st.Reaches st1 := by
  unfold ParseExprStmt at h
  split_ifs at h with hM hS
  · split at h
    · cases h
    · rename_i ptr s heq
      split_ifs at h with hS
      exact (((exprs_reach n).1 _ _ _ heq).append
        (PState.Reaches.eat (by rw [hS]; decide))).of_eq (ok_state h)
  · exact (PState.Reaches.eat (by rw [hS]; decide)).of_eq (ok_state h)

theorem parseReturn_reaches (n : Nat) (st : PState) (v : ASTnode) (st1 : PState)
    (hc : st.CurTok.type ≠ EOF_TOK) (h : ParseReturn n st = .ok (v, st1)) :
    st.Reaches st1 := by
  unfold ParseReturn at h
  split_ifs at h with hS
  · exact ((PState.Reaches.eat hc).append
      (PState.Reaches.eat (by rw [hS]; decide))).of_eq (ok_state h)
  · split at h
    · cases h
    · rename_i e s heq
      split_ifs at h with hS2
      exact ((PState.Reaches.eat hc).append (((exprs_reach n).1 _ _ _ heq).append
        (PState.Reaches.eat (by rw [hS2]; decide)))).of_eq (ok_state h)

/-- Every statement production that succeeds has taken the tokens in the order of the stream;
`ParseIf` and `ParseWhile` replace the current token unseen, their caller has seen it. -/
theorem stmts_reach (n : Nat) :
    (∀ st v st1, ParseBlock n st = .ok (v, st1) → st.Reaches st1) ∧
    (∀ st vs st1, ParseStmtList n st = .ok (vs, st1) → st.Reaches st1) ∧
    (∀ l st vs st1, ParseStmtListPrime n l st = .ok (vs, st1) → st.Reaches st1) ∧
    (∀ st v st1, ParseStmt n st = .ok (v, st1) → st.Reaches st1) ∧
    (∀ st v st1, st.CurTok.type ≠ EOF_TOK → ParseIf n st = .ok (v, st1) → st.Reaches st1) ∧
    (∀ st v st1, ParseElse n st = .ok (v, st1) → st.Reaches st1) ∧
    (∀ st v st1, st.CurTok.type ≠ EOF_TOK → ParseWhile n st = .ok (v, st1) →
      st.Reaches st1) := by
  induction n with
  | zero =>
    refine ⟨?_, ?_, ?_, ?_, ?_, ?_, ?_⟩
    · intro st v st1 h; rw [ParseBlock] at h; cases h
    · intro st v st1 h; rw [ParseStmtList] at h; cases h
    · intro l st v st1 h; rw [ParseStmtListPrime] at h; cases h
    · intro st v st1 h; rw [ParseStmt] at h; cases h
    · intro st v st1 _ h; rw [ParseIf] at h; cases h
    · intro st v st1 h; rw [ParseElse] at h; cases h
    · intro st v st1 _ h; rw [ParseWhile] at h; cases h
  | succ n ih =>
    obtain ⟨iB, iSL, iSLP, iS, iI, iEl, iW⟩ := ih
    refine ⟨?_, ?_, ?_, ?_, ?_, ?_, ?_⟩
    · intro st v st1 h
      rw [ParseBlock] at h
      simp only at h
      split_ifs at h with hL hT
      · split at h
        · cases h
        · rename_i ds s2 heq
          split at h
          · cases h
          · rename_i ss s3 heq3
            split_ifs at h with hR
            exact ((PState.Reaches.eat (by rw [hL]; decide)).append
              ((parseLocalDecls_reaches _ _ _ _ heq).append ((iSL _ _ _ heq3).append
                (PState.Reaches.eat (by rw [hR]; decide))))).of_eq (ok_state h)
      · split at h
        · cases h
        · rename_i ss s3 heq3
          split_ifs at h with hR
          exact ((PState.Reaches.eat (by rw [hL]; decide)).append ((iSL _ _ _ heq3).append
            (PState.Reaches.eat (by rw [hR]; decide)))).of_eq (ok_state h)
    · intro st vs st1 h
      rw [ParseStmtList] at h
      split at h
      · cases h
      · rename_i s s1 heq
        exact (iS _ _ _ heq).append (iSLP _ _ _ _ h)
    · intro l st vs st1 h
      rw [ParseStmtListPrime] at h
      split_ifs at h
      · split at h
        · cases h
        · rename_i s s1 heq
          exact (iS _ _ _ heq).append (iSLP _ _ _ _ h)
      · exact (PState.Reaches.noStep st).of_eq (ok_state h)
    · intro st v st1 h
      rw [ParseStmt] at h
      split_ifs at h with h1 h2 h3 h4 h5
      · exact parseExprStmt_reaches _ _ _ _ h
      · exact iB _ _ _ h
      · exact iI _ _ _ (by rw [h3]; decide) h
      · exact iW _ _ _ (by rw [h4]; decide) h
      · exact parseReturn_reaches _ _ _ _ (by rw [h5]; decide) h
    · intro st v st1 hc h
      rw [ParseIf] at h
      simp only at h
      split_ifs at h with hL hM
      split at h
      · cases h
      · rename_i c s3 heq
        split_ifs at h with hR
        split at h
        · cases h
        · rename_i blk s4 heq4
          split at h
          · cases h
          · rename_i el s5 heq5
            exact ((PState.Reaches.eat hc).append ((PState.Reaches.eat (by rw [hL]; decide)).append
              (((exprs_reach n).1 _ _ _ heq).append
                ((PState.Reaches.eat (by rw [hR]; decide)).append ((iB _ _ _ heq4).append
                  (iEl _ _ _ heq5)))))).of_eq (ok_state h)
    · intro st v st1 h
      rw [ParseElse] at h
      split_ifs at h with hE
      · exact (PState.Reaches.eat (by rw [hE]; decide)).append (iB _ _ _ h)
      · exact (PState.Reaches.noStep st).of_eq (ok_state h)
    · intro st v st1 hc h
      rw [ParseWhile] at h
      simp only at h
      split_ifs at h with hL hM
      split at h
      · cases h
      · rename_i c s3 heq
        split_ifs at h with hR
        split at h
        · cases h
        · rename_i body s4 heq4
          exact ((PState.Reaches.eat hc).append ((PState.Reaches.eat (by rw [hL]; decide)).append
            (((exprs_reach n).1 _ _ _ heq).append
              ((PState.Reaches.eat (by rw [hR]; decide)).append
                (iS _ _ _ heq4))))).of_eq (ok_state h)

theorem parseParamListPrime_reaches (n : Nat) : ∀ (ps : List ASTnode) (st : PState)
    (vs : List ASTnode) (st1 : PState),
    ParseParamListPrime n ps st = .ok (vs, st1) → st.Reaches st1 := by
  induction n with
  | zero =>
    intro ps st vs st1 h
    rw [ParseParamListPrime] at h
    cases h
  | succ n ih =>
    intro ps st vs st1 h
    rw [ParseParamListPrime] at h
    split_ifs at h with hC
    · split at h
      · cases h
      · rename_i p s heq
        exact (PState.Reaches.eat (by rw [hC]; decide)).append
          ((parseParam_reaches _ _ _ heq).append (ih _ _ _ _ h))
    · exact (PState.Reaches.noStep st).of_eq (ok_state h)

theorem parseParams_reaches (n : Nat) (st : PState) (vs : List ASTnode) (st1 : PState)
    (h : ParseParams n st = .ok (vs, st1)) : st.Reaches st1 := by
  unfold ParseParams at h
  split_ifs at h with h1 h2 h3
  · unfold ParseParamList at h
    split at h
    · cases h
    · rename_i p s heq
      exact (parseParam_reaches _ _ _ heq).append (parseParamListPrime_reaches n _ _ _ _ h)
  · exact (PState.Reaches.eat (by rw [h2]; decide)).of_eq (ok_state h)
  · exact (PState.Reaches.noStep st).of_eq (ok_state h)

theorem parseExtern_reaches (n : Nat) (st : PState) (v : ASTnode) (st1 : PState)
    (hc : st.CurTok.type ≠ EOF_TOK) (h : ParseExtern n st = .ok (v, st1)) :
    st.Reaches st1 := by
  unfold ParseExtern at h
  split at h
  · cases h
  · rename_i ty s1 heq
    simp only at h
    split_ifs at h with hI hL
    split at h
    · cases h
    · rename_i ps s3 heq3
      split_ifs at h with hR hS
      exact ((PState.Reaches.eat hc).append ((parseTypeSpec_reaches _ _ _ heq).append
        ((PState.Reaches.eat (by rw [hI]; decide)).append
          ((PState.Reaches.eat (by rw [hL]; decide)).append
            ((parseParams_reaches _ _ _ _ heq3).append
              ((PState.Reaches.eat (by rw [hR]; decide)).append
                (PState.Reaches.eat (by rw [hS]; decide)))))))).of_eq (ok_state h)

theorem parseExternListPrime_reaches (n : Nat) : ∀ (es : List ASTnode) (st : PState)
    (vs : List ASTnode) (st1 : PState),
    ParseExternListPrime n es st = .ok (vs, st1) → st.Reaches st1 := by
  induction n with
  | zero =>
    intro es st vs st1 h
    rw [ParseExternListPrime] at h
    cases h
  | succ n ih =>
    intro es st vs st1 h
    rw [ParseExternListPrime] at h
    split_ifs at h with hE
    · split at h
      · cases h
      · rename_i e s heq
        exact (parseExtern_reaches _ _ _ _ (by rw [hE]; decide) heq).append (ih _ _ _ _ h)
    · exact (PState.Reaches.noStep st).of_eq (ok_state h)

theorem parseExternList_reaches (n : Nat) (st : PState) (vs : List ASTnode) (st1 : PState)
    (hc : st.CurTok.type ≠ EOF_TOK) (h : ParseExternList n st = .ok (vs, st1)) :
    st.Reaches st1 := by
  unfold ParseExternList at h
  split at h
  · cases h
  · rename_i e s heq
    exact (parseExtern_reaches _ _ _ _ hc heq).append (parseExternListPrime_reaches n _ _ _ _ h)

theorem parseVarFunDecl_reaches (n : Nat) (ty id : String) (st : PState) (v : ASTnode)
    (st1 : PState) (h : ParseVarFunDecl n ty id st = .ok (v, st1)) : st.Reaches st1 := by
  unfold ParseVarFunDecl at h
  split_ifs at h with hL hS
  · split at h
    · cases h
    · rename_i ps s1 heq
      split_ifs at h with hR
      split at h
      · cases h
      · rename_i blk s2 heq2
        exact ((PState.Reaches.eat (by rw [hL]; decide)).append
          ((parseParams_reaches _ _ _ _ heq).append
            ((PState.Reaches.eat (by rw [hR]; decide)).append
              ((stmts_reach n).1 _ _ _ heq2)))).of_eq (ok_state h)
  · exact (PState.Reaches.eat (by rw [hS]; decide)).of_eq (ok_state h)

theorem parseTypeNameDecl_reaches (n : Nat) (st : PState) (v : ASTnode) (st1 : PState)
    (h : ParseTypeNameDecl n st = .ok (v, st1)) : st.Reaches st1 := by
  unfold ParseTypeNameDecl at h
  split at h
  · cases h
  · rename_i ty s1 heq
    split_ifs at h with hI
    split at h
    · cases h
    · rename_i s2 heq2
      exact ((parseVarType_reaches _ _ _ heq).append
        ((PState.Reaches.eat (by rw [hI]; decide)).append
          (parseVarFunDecl_reaches _ _ _ _ _ _ heq2))).of_eq (ok_state h)
    · rename_i func s2 hnn heq2
      exact ((parseVarType_reaches _ _ _ heq).append
        ((PState.Reaches.eat (by rw [hI]; decide)).append
          (parseVarFunDecl_reaches _ _ _ _ _ _ heq2))).of_eq (ok_state h)

theorem parseVoidFunDecl_reaches (n : Nat) (st : PState) (v : ASTnode) (st1 : PState)
    (hc : st.CurTok.type ≠ EOF_TOK) (h : ParseVoidFunDecl n st = .ok (v, st1)) :
    st.Reaches st1 := by
  unfold ParseVoidFunDecl at h
  simp only at h
  split_ifs at h with hI hL
  split at h
  · cases h
  · rename_i ps s3 heq3
    split_ifs at h with hR
    split at h
    · cases h
    · rename_i blk s4 heq4
      exact ((PState.Reaches.eat hc).append ((PState.Reaches.eat (by rw [hI]; decide)).append
        ((PState.Reaches.eat (by rw [hL]; decide)).append
          ((parseParams_reaches _ _ _ _ heq3).append
            ((PState.Reaches.eat (by rw [hR]; decide)).append
              ((stmts_reach n).1 _ _ _ heq4)))))).of_eq (ok_state h)

theorem parseDecl_reaches (n : Nat) (st : PState) (v : ASTnode) (st1 : PState)
    (h : ParseDecl n st = .ok (v, st1)) : st.Reaches st1 := by
  unfold ParseDecl at h
  split_ifs at h with hV hT
  · exact parseVoidFunDecl_reaches _ _ _ _ (by rw [hV]; decide) h
  · exact parseTypeNameDecl_reaches _ _ _ _ h

theorem parseDeclListPrime_reaches (n : Nat) : ∀ (ds : List ASTnode) (st : PState)
    (vs : List ASTnode) (st1 : PState),
    ParseDeclListPrime n ds st = .ok (vs, st1) →
      st.Reaches st1 ∧ st1.CurTok.type = EOF_TOK := by
  induction n with
  | zero =>
    intro ds st vs st1 h
    rw [ParseDeclListPrime] at h
    cases h
  | succ n ih =>
    intro ds st vs st1 h
    rw [ParseDeclListPrime] at h
    split_ifs at h with hE hT
    · have := ok_state h
      subst this
      exact ⟨PState.Reaches.noStep st, hE⟩
    · split at h
      · cases h
      · rename_i d s heq
        obtain ⟨h1, h2⟩ := ih _ _ _ _ h
        exact ⟨(parseDecl_reaches _ _ _ _ heq).append h1, h2⟩

theorem parseDeclList_reaches (n : Nat) (st : PState) (vs : List ASTnode) (st1 : PState)
    (h : ParseDeclList n st = .ok (vs, st1)) :
    st.Reaches st1 ∧ st1.CurTok.type = EOF_TOK := by
  unfold ParseDeclList at h
  split at h
  · cases h
  · rename_i d s heq
    obtain ⟨h1, h2⟩ := parseDeclListPrime_reaches n _ _ _ _ h
    exact ⟨(parseDecl_reaches _ _ _ _ heq).append h1, h2⟩

theorem parseProgram_reaches (n : Nat) (st : PState) (v : ASTnode) (st1 : PState)
    (h : ParseProgram n st = .ok (v, st1)) :
    st.Reaches st1 ∧ st1.CurTok.type = EOF_TOK := by
  unfold ParseProgram at h
  split_ifs at h with hE hT
  · split at h
    · cases h
    · rename_i es s1 heq
      split at h
      · cases h
      · rename_i ds s2 heq2
        obtain ⟨h1, h2⟩ := parseDeclList_reaches _ _ _ _ heq2
        have := ok_state h
        subst this
        exact ⟨(parseExternList_reaches _ _ _ _ (by rw [hE]; decide) heq).append h1, h2⟩
  · split at h
    · cases h
    · rename_i ds s2 heq2
      obtain ⟨h1, h2⟩ := parseDeclList_reaches _ _ _ _ heq2
      have := ok_state h
      subst this
      exact ⟨h1, h2⟩

theorem parser_reaches (n : Nat) (st : PState) (v : ASTnode) (st1 : PState)
    (h : parser n st = .ok (v, st1)) :
    (getNextToken st).Reaches st1 ∧ st1.CurTok.type = EOF_TOK := by
  unfold parser at h
  split_ifs at h with hE
  · exact parseProgram_reaches _ _ _ _ h
  · have := ok_state h
    subst this
    exact ⟨PState.Reaches.noStep _, not_not.mp hE⟩

theorem advance_buffer : ∀ (k : Nat) (st : PState), st.tok_buffer = [] →
    (advance k st).tok_buffer = []
  | 0, st, h => h
  | k + 1, st, h => by
    apply advance_buffer k
    obtain ⟨c, buf, pend⟩ := st
    simp only at h
    subst h
    cases pend <;> rfl

/-- From a state with the empty `tok_buffer`, the states reached are the splits of the token
stream behind a prefix without `EOF_TOK`; behind the last token the lexer gives `EOF_TOK`. -/
theorem reaches_split : ∀ (k : Nat) (c : TOKEN) (p : List TOKEN),
    (∀ i, i < k → (advance i ⟨c, [], p⟩).CurTok.type ≠ EOF_TOK) →
    ∃ pre, pre.length = k ∧ (∀ t ∈ pre, t.type ≠ EOF_TOK) ∧
      ((∃ e post, c :: p = pre ++ e :: post ∧ advance k ⟨c, [], p⟩ = ⟨e, [], post⟩) ∨
        (c :: p = pre ∧ advance k ⟨c, [], p⟩ = ⟨eofTOK, [], []⟩))
  | 0, c, p, _ => ⟨[], rfl, by simp, Or.inl ⟨c, p, rfl, rfl⟩⟩
  | k + 1, c, p, h => by
    have hc : c.type ≠ EOF_TOK := h 0 (Nat.succ_pos k)
    have hrest : ∀ i, i < k → (advance i (getNextToken ⟨c, [], p⟩)).CurTok.type ≠ EOF_TOK :=
      fun i hi => h (i + 1) (by omega)
    cases p with
    | nil =>
      have hk : k = 0 := by
        by_contra hne
        exact hrest 0 (Nat.pos_of_ne_zero hne) rfl
      subst hk
      exact ⟨[c], rfl, by simpa using hc, Or.inr ⟨rfl, rfl⟩⟩
    | cons t ts =>
      obtain ⟨pre, hlen, hpre, hsplit⟩ := reaches_split k t ts hrest
      refine ⟨c :: pre, by simp [hlen], ?_, ?_⟩
      · intro x hx
        rcases List.mem_cons.mp hx with rfl | hx
        · exact hc
        · exact hpre x hx
      · rcases hsplit with ⟨e, post, he, ha⟩ | ⟨he, ha⟩
        · exact Or.inl ⟨e, post, by rw [he]; rfl, ha⟩
        · exact Or.inr ⟨by rw [he], ha⟩

/-- **C38** (`parser` consumes the token stream up to `EOF_TOK`).  The stream is the tokens `ts`
that `gettok` returns, in order, followed by the `EOF_TOK` of the end of the input.
* When `parser` returns, the current token has the kind `EOF_TOK`, and the state is the one
  that the first call of `getNextToken` gave, after further calls of `getNextToken` each of
  which replaced a token of another kind: no token was skipped, taken out of order or left
  in `tok_buffer`, which is empty again when it was empty at the start.
* From the start of `main`: the stream splits into a prefix without `EOF_TOK`, which is what
  was consumed, and the first `EOF_TOK` with the tokens behind it, still unread; or all of
  `ts` was consumed and the current token is the `EOF_TOK` of the end of the input.
* Behind a declaration, a current token that is neither `EOF_TOK` nor one of `int`, `float`,
  `bool`, `void` is rejected by `ParseDeclListPrime`.
* `int x ;` is parsed and its three tokens are consumed. -/
theorem parser_consumes_stream :
    (∀ (n : Nat) (st : PState) (v : ASTnode) (st1 : PState), parser n st = .ok (v, st1) →
      st1.CurTok.type = EOF_TOK ∧ (getNextToken st).Reaches st1 ∧
        (st.tok_buffer = [] → st1.tok_buffer = [])) ∧
    (∀ (n : Nat) (ts : List TOKEN) (v : ASTnode) (st1 : PState),
      parser n (PState.start ts) = .ok (v, st1) →
      st1.CurTok.type = EOF_TOK ∧ st1.tok_buffer = [] ∧
        ∃ pre, (∀ t ∈ pre, t.type ≠ EOF_TOK) ∧
          ((∃ e post, ts = pre ++ e :: post ∧ st1 = ⟨e, [], post⟩) ∨
            (ts = pre ∧ st1 = ⟨eofTOK, [], []⟩))) ∧
    (∀ (n : Nat) (decl_list : List ASTnode) (st : PState), st.CurTok.type ≠ EOF_TOK →
      st.CurTok.type ≠ INT_TOK → st.CurTok.type ≠ FLOAT_TOK → st.CurTok.type ≠ BOOL_TOK →
      st.CurTok.type ≠ VOID_TOK →
      ParseDeclListPrime (n + 1) decl_list st = .error (.logError
        "Syntax Error: Expected eof or type \x27int\x27, \x27float\x27, \x27bool\x27, or \x27void\x27")) ∧
    (∀ n, 2 ≤ n →
      parser n (PState.start oneDeclTokens) =
        .ok (.RootASTnode [] [.VariableDeclarationASTnode "x" "int"], ⟨eofTOK, [], []⟩)) := by
  have hbuf : ∀ (st st1 : PState), st.tok_buffer = [] → (getNextToken st).Reaches st1 →
      st1.tok_buffer = [] := by
    intro st st1 hb hr
    obtain ⟨k, hk, -⟩ := hr
    rw [hk]
    exact advance_buffer k _ (advance_buffer 1 st hb)
  refine ⟨fun n st v st1 h => ?_, fun n ts v st1 h => ?_, fun n dl st h0 h1 h2 h3 h4 => ?_,
    fun n hn => ?_⟩
  · obtain ⟨hr, he⟩ := parser_reaches n st v st1 h
    exact ⟨he, hr, fun hb => hbuf st st1 hb hr⟩
  · obtain ⟨hr, he⟩ := parser_reaches n _ v st1 h
    refine ⟨he, hbuf _ st1 rfl hr, ?_⟩
    obtain ⟨k, hk, hk'⟩ := hr
    cases ts with
    | nil =>
      have hk0 : k = 0 := by
        by_contra hne
        exact hk' 0 (Nat.pos_of_ne_zero hne) rfl
      subst hk0
      exact ⟨[], by simp, Or.inr ⟨rfl, hk⟩⟩
    | cons t r =>
      obtain ⟨pre, -, hpre, hsplit⟩ := reaches_split k t r hk'
      refine ⟨pre, hpre, ?_⟩
      rcases hsplit with ⟨e, post, he', ha⟩ | ⟨he', ha⟩
      · exact Or.inl ⟨e, post, he', hk.trans ha⟩
      · exact Or.inr ⟨he', hk.trans ha⟩
  · rw [ParseDeclListPrime, if_neg h0, if_neg (by
      intro h
      rcases h with h | h | h | h
      · exact h1 h
      · exact h2 h
      · exact h3 h
      · exact h4 h)]
  · obtain ⟨m, rfl⟩ : ∃ m, n = m + 2 := ⟨n - 2, by omega⟩
    rfl

end MiniC
